import Mathlib

/-!
The uWebSockets write engine (`AsyncSocket.h`), HTTP responses (`HttpResponse.h`)
and the event loop (`loop.c`)

A shallow embedding of `uWS::AsyncSocket<SSL>`: the cork slot of the loop, the
per-socket overflow buffer and the functions `cork`, `isCorked`, `canCork`,
`getSendBuffer`, `getBufferedAmount`, `write` and `uncork`; of the methods of
`uWS::HttpResponse<SSL>` that write a response (second part of the definitions);
and of the timeout sweep, the deferred free and the dispatch of `loop.c` (third
part). The last part of the definitions embeds the keyboard simulator of the
application itself (`KeyboardSimulator.cpp`), in the namespace
`KeyboardSimulator`.

Modelling conventions.

* A socket is identified by its address, a natural number; `nullptr` in
  `LoopData::corkedSocket` is `none`.
* `char` data passed as `(src, length)` is a list of bytes whose length is `length`.
  Lengths are natural numbers. A conversion of the source between `int`,
  `unsigned int` and `size_t` is the identity on the lengths that fit both
  types; where a length need not fit, the conversion is written out: the cast
  of the overflow buffer's length in `getBufferedAmount` (`toUnsignedInt`), the
  unsigned difference `CORK_BUFFER_SIZE - corkOffset` in `write` (`corkRoom`),
  the sums and casts of `getSendBuffer`, and the casts of a `string_view`'s
  length to `int` and `unsigned int` in `HttpResponse` (`intPrefix`,
  `toUnsignedInt`). `AsyncSocket::write` itself takes its length as an `int`.
* `LoopData::corkBuffer` is a memory region, a map from offsets to bytes;
  `memcpy` into it is a pointwise update.
* `us_socket_write` is not part of the sources at hand. It is a parameter of
  the model (`Env.outcome`): the raw return value of every call, as a function
  of the number of calls made before it on this socket, of the bytes handed
  over and of the `msg_more` argument. Every call is appended to the log
  `AsyncSocket.syscalls`; the bytes put on the wire by a call are the first
  `written` bytes of its data.
* `LoopData::CORK_BUFFER_SIZE` and the template parameter `SSL` are not
  declared in the sources at hand either and are parameters too.
* `write` and `uncork` call each other. The model threads a call-depth budget
  through both; three levels are always enough (`write` → `uncork` → `write`),
  see `write_some` and `uncork_some`.
* `std::string::reserve` has no observable effect and is left out.
-/

namespace uWS

/-- One `char` of payload. -/
abbrev Byte := UInt8

/-- One call of `us_socket_write(SSL, s, data, length, msg_more)` and its return value. -/
structure Syscall where
  data : List Byte
  msg_more : Nat
  written : Nat
  deriving DecidableEq

/-- What `AsyncSocket.h` uses without declaring it. -/
structure Env where
  /-- Template parameter `SSL`. -/
  SSL : Bool
  /-- Value of `LoopData::CORK_BUFFER_SIZE`. -/
  CORK_BUFFER_SIZE : Nat
  /-- Return value of `us_socket_write`: call index, data, `msg_more`. -/
  outcome : Nat → List Byte → Nat → Nat

/-- The fields of `LoopData` used by `AsyncSocket`. -/
structure LoopData where
  corkedSocket : Option Nat
  corkBuffer : Nat → Byte
  corkOffset : Nat

/-- The state an `AsyncSocket` method reads and writes: the socket's address
(`this`), `us_socket_is_closed`, `getAsyncSocketData()->buffer`, the log of
`us_socket_write` calls made on the socket, and `getLoopData()`. -/
structure AsyncSocket where
  this : Nat
  closed : Bool
  buffer : List Byte
  syscalls : List Syscall
  loopData : LoopData

/-- The first `n` bytes of a memory region. -/
def readBytes (mem : Nat → Byte) (n : Nat) : List Byte :=
  (List.range n).map mem

/-- Effect of `memcpy(mem + off, src, src.length)`. -/
def memcpy (mem : Nat → Byte) (off : Nat) (src : List Byte) : Nat → Byte :=
  fun i => if off ≤ i ∧ i < off + src.length then src.getD (i - off) 0 else mem i

/-- Bytes put on the wire by a log of `us_socket_write` calls. -/
def transmitted : List Syscall → List Byte
  | [] => []
  | c :: cs => c.data.take c.written ++ transmitted cs

/-- The call `us_socket_write(SSL, this, data, length, msg_more)`. -/
def us_socket_write (env : Env) (s : AsyncSocket) (data : List Byte) (msg_more : Nat) :
    AsyncSocket × Nat :=
  let written := env.outcome s.syscalls.length data msg_more
  ({ s with syscalls := s.syscalls ++ [⟨data, msg_more, written⟩] }, written)

/-- Source: `AsyncSocket::cork` (AsyncSocket.h:73-76), on the loop data. -/
def cork (this : Nat) (loopData : LoopData) : LoopData :=
  { loopData with corkedSocket := some this }

/-- Source: `AsyncSocket::isCorked` (AsyncSocket.h:79-81). -/
def isCorked (this : Nat) (loopData : LoopData) : Bool :=
  loopData.corkedSocket == some this

/-- Source: `AsyncSocket::canCork` (AsyncSocket.h:84-86). -/
def canCork (loopData : LoopData) : Bool :=
  loopData.corkedSocket == none

/-- The cast `(unsigned int) n` of a `size_t`. -/
def toUnsignedInt (n : Nat) : Nat :=
  n % 2 ^ 32

/-- Source: `AsyncSocket::getBufferedAmount` (AsyncSocket.h:103-105). -/
def getBufferedAmount (s : AsyncSocket) : Nat :=
  toUnsignedInt s.buffer.length

/-- Source: the difference `LoopData::CORK_BUFFER_SIZE - loopData->corkOffset`
(AsyncSocket.h:183, 192). It is an `unsigned int`: when `corkOffset` exceeds the
size of the cork buffer the subtraction wraps around modulo `2 ^ 32`. -/
def corkRoom (env : Env) (loopData : LoopData) : Nat :=
  if loopData.corkOffset ≤ env.CORK_BUFFER_SIZE then
    env.CORK_BUFFER_SIZE - loopData.corkOffset
  else
    2 ^ 32 - (loopData.corkOffset - env.CORK_BUFFER_SIZE)

mutual

/-- Source: `AsyncSocket::write` (AsyncSocket.h:145-232). The result is the new
state and the pair (bytes accepted, backpressure). The room left in the cork
buffer is the unsigned difference `corkRoom`. -/
def write (env : Env) : Nat → AsyncSocket → List Byte → Bool → Nat →
    Option (AsyncSocket × Nat × Bool)
  | 0, _, _, _, _ => none
  | fuel + 1, s0, src, optionally, nextLength => do
    let length := src.length
    let mut s := s0
    -- Fake success if closed
    if s.closed then
      return (s, length, false)
    -- We are limited if we have a per-socket buffer
    if s.buffer.length ≠ 0 then
      let (s1, written) := us_socket_write env s s.buffer length
      s := s1
      if written < s.buffer.length then
        s := { s with buffer := s.buffer.drop written }
        if optionally then
          return (s, 0, true)
        else
          s := { s with buffer := s.buffer ++ src }
          return (s, length, true)
      s := { s with buffer := [] }
    if length ≠ 0 then
      if s.loopData.corkedSocket = some s.this then
        -- We are corked
        if corkRoom env s.loopData ≥ length then
          s := { s with loopData := { s.loopData with
            corkBuffer := memcpy s.loopData.corkBuffer s.loopData.corkOffset src,
            corkOffset := s.loopData.corkOffset + length } }
        else
          if env.SSL then
            let stripped := corkRoom env s.loopData
            s := { s with loopData := { s.loopData with
              corkBuffer := memcpy s.loopData.corkBuffer s.loopData.corkOffset (src.take stripped),
              corkOffset := env.CORK_BUFFER_SIZE } }
            let (s2, written, failed) ← uncork env fuel s (src.drop stripped) optionally
            return (s2, written + stripped, failed)
          else
            return ← uncork env fuel s src optionally
      else
        -- We are not corked
        let (s1, written) := us_socket_write env s src (if nextLength ≠ 0 then 1 else 0)
        s := s1
        if written < length then
          if optionally then
            return (s, written, true)
          s := { s with buffer := s.buffer ++ src.drop written }
          return (s, length, true)
    return (s, length, false)

/-- Source: `AsyncSocket::uncork` (AsyncSocket.h:236-259). -/
def uncork (env : Env) : Nat → AsyncSocket → List Byte → Bool →
    Option (AsyncSocket × Nat × Bool)
  | 0, _, _, _ => none
  | fuel + 1, s0, src, optionally => do
    let length := src.length
    let mut s := s0
    if s.loopData.corkedSocket = some s.this then
      s := { s with loopData := { s.loopData with corkedSocket := none } }
      if s.loopData.corkOffset ≠ 0 then
        let (s1, _written, failed) ←
          write env fuel s (readBytes s.loopData.corkBuffer s.loopData.corkOffset) false length
        s := { s1 with loopData := { s1.loopData with corkOffset := 0 } }
        if failed then
          return (s, 0, true)
      return ← write env fuel s src optionally 0
    else
      return (s, 0, false)

end


/-- Source: `AsyncSocket::getSendBuffer` (AsyncSocket.h:89-100). `size` is a
`size_t` and `corkOffset` an `unsigned int`: the sum `corkOffset + size` is
taken modulo `2 ^ 64`, the cast `(unsigned int) size` modulo `2 ^ 32`, and so is
the `+=` on `corkOffset`. The result is the new state, the offset into the cork
buffer the returned pointer refers to (`none` for a `malloc`ed buffer), and the
flag of the returned pair. -/
def getSendBuffer (env : Env) (s : AsyncSocket) (size : Nat) : AsyncSocket × Option Nat × Bool :=
  if s.loopData.corkedSocket = some s.this ∧
      (s.loopData.corkOffset + size) % 2 ^ 64 < env.CORK_BUFFER_SIZE then
    ({ s with loopData := { s.loopData with
        corkOffset := (s.loopData.corkOffset + size % 2 ^ 32) % 2 ^ 32 } },
      some s.loopData.corkOffset, false)
  else
    (s, none, true)

/-! ## Call sequences and sample states -/

/-- One call made by the owner of a connection: `cork()`, a mandatory
`write(data, length)` (`optionally = false`, `nextLength = 0`), or `uncork()`. -/
inductive Call where
  | cork
  | write (data : List Byte)
  | uncork

/-- Perform one call on the connection; the returned pair is dropped. -/
def step (env : Env) (fuel : Nat) (s : AsyncSocket) : Call → Option AsyncSocket
  | .cork => some { s with loopData := cork s.this s.loopData }
  | .write data => (write env fuel s data false 0).map (fun r => r.1)
  | .uncork => (uncork env fuel s [] false).map (fun r => r.1)

/-- Perform a sequence of calls, in order. -/
def run (env : Env) (fuel : Nat) : AsyncSocket → List Call → Option AsyncSocket
  | s, [] => some s
  | s, c :: cs => (step env fuel s c).bind (fun s1 => run env fuel s1 cs)

/-- Concatenation of the data arguments of the `write` calls, in call order. -/
def payload : List Call → List Byte
  | [] => []
  | .write d :: cs => d ++ payload cs
  | _ :: cs => payload cs

/-- The bytes the engine still answers for: what the syscalls transmitted, then
the overflow buffer, then the bytes this connection has in the cork buffer. -/
def accounted (s : AsyncSocket) : List Byte :=
  transmitted s.syscalls ++ s.buffer ++
    (if s.loopData.corkedSocket = some s.this
      then readBytes s.loopData.corkBuffer s.loopData.corkOffset else [])

/-- A socket that is not writable: every `us_socket_write` transmits nothing. -/
def stalledEnv (ssl : Bool) (size : Nat) : Env :=
  ⟨ssl, size, fun _ _ _ => 0⟩

/-- A plain socket with a 16-byte cork buffer on which every `us_socket_write`
transmits exactly one byte. -/
def oneByteEnv : Env :=
  ⟨false, 16, fun _ _ _ => 1⟩

/-- A plain socket with a 16-byte cork buffer on which every `us_socket_write`
transmits three bytes. -/
def threeByteEnv : Env :=
  ⟨false, 16, fun _ _ _ => 3⟩

/-- A new open connection at address 1 on a loop whose cork slot is free. -/
def freshSocket : AsyncSocket :=
  ⟨1, false, [], [], ⟨none, fun _ => 0, 0⟩⟩

/-- An open, uncorked connection with two bytes of backpressure. -/
def pendingSocket : AsyncSocket :=
  ⟨1, false, [10, 20], [], ⟨none, fun _ => 0, 0⟩⟩

/-- A closed connection that still has one buffered byte and holds the cork slot. -/
def closedSocket : AsyncSocket :=
  ⟨1, true, [9], [], ⟨some 1, fun _ => 0, 3⟩⟩

/-- An open connection that holds the cork slot with one byte (7) corked. -/
def corkedSocket : AsyncSocket :=
  ⟨1, false, [], [], ⟨some 1, fun _ => 7, 1⟩⟩

/-! ## HTTP responses (`HttpResponse.h`)

`HttpResponse<SSL>` derives from `AsyncSocket<SSL>`; every byte it produces goes
through `Super::write`. Each such call is logged with the line of
HttpResponse.h it stands on, its data and the pair it returned. `Super::timeout`
(`us_socket_timeout`) is logged with its argument. -/

/-- The bytes of a string literal of the source (ASCII). -/
def bytes (s : String) : List Byte :=
  s.toList.map (fun c => c.toNat.toUInt8)

/-- Modelled from the spec: `utils::u64toa` (Utilities.h is not among the
sources) writes its argument in decimal ("`Content-Length: <totalSize>`"). -/
def u64toa (value : Nat) : List Byte :=
  (Nat.toDigits 10 value).map (fun c => c.toNat.toUInt8)

/-- Modelled from the spec: `utils::u32toaHex` (Utilities.h is not among the
sources) writes its argument in hexadecimal ("`<hex length>`" of a chunk). -/
def u32toaHex (value : Nat) : List Byte :=
  (Nat.toDigits 16 value).map (fun c => c.toNat.toUInt8)

/-- Source: `HTTP_200_OK` (HttpResponse.h:40). -/
def HTTP_200_OK : List Byte :=
  bytes "200 OK"

/-- Source: `HTTP_TIMEOUT_S` (HttpResponse.h:43). -/
def HTTP_TIMEOUT_S : Nat :=
  10

/-- Value of `INT_MAX` for a 32-bit `int`. -/
def INT_MAX : Nat :=
  2147483647

/-- The bytes that `(data.data(), (int) data.length())` hands to `Super::write`
when `data` is a `std::string_view`, whose length is a `size_t`: the cast keeps
the length modulo `2 ^ 32`. This is exact as long as that value is at most
`INT_MAX`. Above it the source's `int` is negative, and what `AsyncSocket::write`
does with it depends on `us_socket_write` for a negative length, which the
sources at hand do not tell; the model then takes the count that
`buffer.append(src, (unsigned int) length)` takes (AsyncSocket.h:170). -/
def intPrefix (data : List Byte) : List Byte :=
  data.take (data.length % 2 ^ 32)

/-- Modelled from the spec: HttpResponseData.h is not among the sources. Its
`state` bit mask is the flag set of the response, one Boolean per flag constant
used in HttpResponse.h (the constants are distinct single bits); `offset` is the
byte offset of payload written so far; the callbacks `onAborted`, `onWritable`
and `inStream` (the `onData` handler) hold a handler or `nullptr` (`none`). -/
structure HttpResponseData where
  HTTP_STATUS_CALLED : Bool
  HTTP_WRITE_CALLED : Bool
  HTTP_END_CALLED : Bool
  HTTP_RESPONSE_PENDING : Bool
  HTTP_CONNECTION_CLOSE : Bool
  offset : Nat
  onAborted : Option Nat
  onWritable : Option Nat
  inStream : Option Nat
  deriving DecidableEq

/-- One call of `Super::write` made by an `HttpResponse` method: the line of
HttpResponse.h the call stands on, its data, its `optionally` argument and the
pair (accepted, failed) it returned. -/
structure WriteCall where
  site : Nat
  data : List Byte
  optionally : Bool
  accepted : Nat
  failed : Bool
  deriving DecidableEq

/-- Where a logged call stands and what it was given. -/
def WriteCall.key (e : WriteCall) : Nat × List Byte :=
  (e.site, e.data)

/-- An `HttpResponse<SSL>`: the `AsyncSocket` it derives from, its
`HttpResponseData`, the loop's `noMark` setting, the log of `Super::timeout`
arguments and the log of `Super::write` calls. -/
structure HttpResponse where
  socket : AsyncSocket
  httpResponseData : HttpResponseData
  noMark : Bool
  timeouts : List Nat
  writes : List WriteCall

namespace HttpResponse

/-- All bytes handed to `Super::write` so far, in call order. -/
def emitted (r : HttpResponse) : List Byte :=
  (r.writes.map (fun e => e.data)).flatten

/-- The call `Super::write(data, length, optionally)` standing on line `site`. -/
def Super.write (env : Env) (fuel : Nat) (site : Nat) (r : HttpResponse) (data : List Byte)
    (optionally : Bool) : Option (HttpResponse × Nat × Bool) := do
  let (s, accepted, failed) ← uWS.write env fuel r.socket data optionally 0
  return ({ r with socket := s,
                   writes := r.writes ++ [⟨site, data, optionally, accepted, failed⟩] },
    accepted, failed)

/-- The call `Super::timeout(seconds)`. -/
def Super.timeout (r : HttpResponse) (seconds : Nat) : HttpResponse :=
  { r with timeouts := r.timeouts ++ [seconds] }

/-- Source: `HttpResponse::writeUnsignedHex` (HttpResponse.h:56-62). -/
def writeUnsignedHex (env : Env) (fuel : Nat) (r : HttpResponse) (value : Nat) :
    Option HttpResponse := do
  let buf := u32toaHex value
  let (r1, _) ← Super.write env fuel 61 r buf false
  return r1

/-- Source: `HttpResponse::writeUnsigned64` (HttpResponse.h:65-71). -/
def writeUnsigned64 (env : Env) (fuel : Nat) (r : HttpResponse) (value : Nat) :
    Option HttpResponse := do
  let buf := u64toa value
  let (r1, _) ← Super.write env fuel 70 r buf false
  return r1

/-- Source: `HttpResponse::markDone` (HttpResponse.h:74-81). -/
def markDone (httpResponseData : HttpResponseData) : HttpResponseData :=
  { httpResponseData with
    onAborted := none,
    onWritable := none,
    HTTP_RESPONSE_PENDING := false }

/-- Source: `HttpResponse::writeStatus` (HttpResponse.h:332-347). -/
def writeStatus (env : Env) (fuel : Nat) (r0 : HttpResponse) (status : List Byte) :
    Option HttpResponse := do
  let mut r := r0
  -- Do not allow writing more than one status
  if r.httpResponseData.HTTP_STATUS_CALLED then
    return r
  r := { r with httpResponseData := { r.httpResponseData with HTTP_STATUS_CALLED := true } }
  let (r1, _) ← Super.write env fuel 343 r (bytes "HTTP/1.1 ") false
  let (r2, _) ← Super.write env fuel 344 r1 (intPrefix status) false
  let (r3, _) ← Super.write env fuel 345 r2 (bytes "\r\n") false
  return r3

/-- Source: `HttpResponse::writeHeader` with a string value (HttpResponse.h:350-358). -/
def writeHeader (env : Env) (fuel : Nat) (r0 : HttpResponse) (key value : List Byte) :
    Option HttpResponse := do
  let r ← writeStatus env fuel r0 HTTP_200_OK
  let (r1, _) ← Super.write env fuel 353 r (intPrefix key) false
  let (r2, _) ← Super.write env fuel 354 r1 (bytes ": ") false
  let (r3, _) ← Super.write env fuel 355 r2 (intPrefix value) false
  let (r4, _) ← Super.write env fuel 356 r3 (bytes "\r\n") false
  return r4

/-- Source: `HttpResponse::writeMark` (HttpResponse.h:84-92); `noMark` also
stands for a build with `UWS_HTTPRESPONSE_NO_WRITEMARK`. -/
def writeMark (env : Env) (fuel : Nat) (r : HttpResponse) : Option HttpResponse :=
  if r.noMark = false then
    writeHeader env fuel r (bytes "uWebSockets") (bytes "19")
  else
    some r

/-- Source: the `while` loop of `internalEnd` (HttpResponse.h:168-176). The
first argument bounds the number of iterations; the result is the state and the
final values of `written` and `failed`. -/
def internalEndLoop (env : Env) (fuel : Nat) (data : List Byte) (optional : Bool) :
    Nat → HttpResponse → Nat → Bool → Option (HttpResponse × Nat × Bool)
  | 0, _, _, _ => none
  | n + 1, r, written, failed =>
    if written < data.length ∧ failed = false then do
      let (r1, first, second) ← Super.write env fuel 172 r
        ((data.drop written).take (min (data.length - written) INT_MAX)) optional
      internalEndLoop env fuel data optional n r1 (written + first) second
    else
      some (r, written, failed)

/-- Source: the `closeConnection` block of `internalEnd` (HttpResponse.h:108-120). -/
def internalEndClose (env : Env) (fuel : Nat) (r0 : HttpResponse) (closeConnection : Bool) :
    Option HttpResponse := do
  let mut r := r0
  if closeConnection then
    if r.httpResponseData.HTTP_CONNECTION_CLOSE = false then
      r ← writeHeader env fuel r (bytes "Connection") (bytes "close")
    r := { r with httpResponseData := { r.httpResponseData with HTTP_CONNECTION_CLOSE := true } }
  return r

/-- Source: the chunked branch of `internalEnd` (HttpResponse.h:122-143). -/
def internalEndChunked (env : Env) (fuel : Nat) (r0 : HttpResponse) (data : List Byte) :
    Option (HttpResponse × Bool) := do
  let mut r := r0
  -- Do not allow sending 0 chunk here
  if data.length ≠ 0 then
    let (r1, _) ← Super.write env fuel 128 r (bytes "\r\n") false
    let r2 ← writeUnsignedHex env fuel r1 (toUnsignedInt data.length)
    let (r3, _) ← Super.write env fuel 130 r2 (bytes "\r\n") false
    let (r4, _) ← Super.write env fuel 133 r3 (intPrefix data) false
    r := r4
  -- Terminating 0 chunk
  let (r5, _) ← Super.write env fuel 137 r (bytes "\r\n0\r\n\r\n") false
  r := { r5 with httpResponseData := markDone r5.httpResponseData }
  -- tryEnd can never fail when in chunked mode
  r := Super.timeout r HTTP_TIMEOUT_S
  return (r, true)

/-- Source: the first-call block of the content-length branch of `internalEnd`
(HttpResponse.h:145-162). -/
def internalEndFirst (env : Env) (fuel : Nat) (r0 : HttpResponse) (totalSize : Nat)
    (allowContentLength : Bool) : Option HttpResponse := do
  let mut r := r0
  -- Write content-length on first call
  if r.httpResponseData.HTTP_END_CALLED = false then
    r ← writeMark env fuel r
    -- WebSocket upgrades does not allow content-length
    if allowContentLength then
      let (r1, _) ← Super.write env fuel 153 r (bytes "Content-Length: ") false
      let r2 ← writeUnsigned64 env fuel r1 totalSize
      let (r3, _) ← Super.write env fuel 155 r2 (bytes "\r\n\r\n") false
      r := r3
    else
      let (r1, _) ← Super.write env fuel 157 r (bytes "\r\n") false
      r := r1
    -- Mark end called
    r := { r with httpResponseData := { r.httpResponseData with HTTP_END_CALLED := true } }
  return r

/-- Source: the end of the content-length branch of `internalEnd`, after the
loop (HttpResponse.h:178-193). -/
def internalEndFinish (r0 : HttpResponse) (data : List Byte) (totalSize : Nat) (written : Nat)
    (failed : Bool) : HttpResponse × Bool :=
  let r1 : HttpResponse := { r0 with httpResponseData := { r0.httpResponseData with
    offset := r0.httpResponseData.offset + written } }
  -- Success is when we wrote the entire thing without any failures
  let success := written == data.length && !failed
  -- If we are now at the end, start a timeout. Also start a timeout if we failed.
  let r2 := if !success || r1.httpResponseData.offset == totalSize
    then Super.timeout r1 HTTP_TIMEOUT_S else r1
  -- Remove onAborted function if we reach the end
  let r3 : HttpResponse := if r2.httpResponseData.offset == totalSize
    then { r2 with httpResponseData := markDone r2.httpResponseData } else r2
  (r3, success)

/-- Source: `HttpResponse::internalEnd` (HttpResponse.h:96-195), assembled from
its blocks. The loop is given `data.length + 1` iterations, which is always
enough. -/
def internalEnd (env : Env) (fuel : Nat) (r0 : HttpResponse) (data : List Byte)
    (totalSize0 : Nat) (optional : Bool) (allowContentLength : Bool) (closeConnection : Bool) :
    Option (HttpResponse × Bool) := do
  -- Write status if not already done
  let r ← writeStatus env fuel r0 HTTP_200_OK
  -- If no total size given then assume this chunk is everything
  let totalSize := if totalSize0 = 0 then data.length else totalSize0
  -- In some cases we want to close the connection when drained
  let r ← internalEndClose env fuel r closeConnection
  if r.httpResponseData.HTTP_WRITE_CALLED then
    internalEndChunked env fuel r data
  else
    let r ← internalEndFirst env fuel r totalSize allowContentLength
    -- Write as much as possible without causing backpressure
    let (r6, written, failed) ← internalEndLoop env fuel data optional (data.length + 1) r 0 false
    return internalEndFinish r6 data totalSize written failed

/-- Source: `HttpResponse::hasResponded` (HttpResponse.h:423-427). -/
def hasResponded (r : HttpResponse) : Bool :=
  !r.httpResponseData.HTTP_RESPONSE_PENDING

/-- Source: `HttpResponse::getWriteOffset` (HttpResponse.h:416-420). -/
def getWriteOffset (r : HttpResponse) : Nat :=
  r.httpResponseData.offset

/-- Source: `HttpResponse::end` (HttpResponse.h:372-374). -/
def end_ (env : Env) (fuel : Nat) (r : HttpResponse) (data : List Byte)
    (closeConnection : Bool) : Option HttpResponse := do
  let (r1, _) ← internalEnd env fuel r data data.length false true closeConnection
  return r1

/-- Source: `HttpResponse::tryEnd` (HttpResponse.h:378-380). The result is the
state and the pair (ok, hasResponded). -/
def tryEnd (env : Env) (fuel : Nat) (r : HttpResponse) (data : List Byte) (totalSize : Nat) :
    Option (HttpResponse × Bool × Bool) := do
  let (r1, ok) ← internalEnd env fuel r data totalSize true true false
  return (r1, ok, hasResponded r1)

/-- Source: `HttpResponse::write` (HttpResponse.h:383-413). -/
def write (env : Env) (fuel : Nat) (r0 : HttpResponse) (data : List Byte) :
    Option (HttpResponse × Bool) := do
  let mut r ← writeStatus env fuel r0 HTTP_200_OK
  -- Do not allow sending 0 chunks, they mark end of response
  if data.length = 0 then
    return (r, true)
  if r.httpResponseData.HTTP_WRITE_CALLED = false then
    -- Write mark on first call to write
    r ← writeMark env fuel r
    r ← writeHeader env fuel r (bytes "Transfer-Encoding") (bytes "chunked")
    r := { r with httpResponseData := { r.httpResponseData with HTTP_WRITE_CALLED := true } }
  let (r1, _) ← Super.write env fuel 402 r (bytes "\r\n") false
  let r2 ← writeUnsignedHex env fuel r1 (toUnsignedInt data.length)
  let (r3, _) ← Super.write env fuel 404 r2 (bytes "\r\n") false
  let (r4, _written, failed) ← Super.write env fuel 406 r3 (intPrefix data) false
  r := r4
  if failed then
    r := Super.timeout r HTTP_TIMEOUT_S
  -- If we did not fail the write, accept more
  return (r, !failed)

end HttpResponse

/-- One call made on a response by the application. -/
inductive HttpCall where
  | writeStatus (status : List Byte)
  | writeHeader (key value : List Byte)
  | write (data : List Byte)
  | end_ (data : List Byte) (closeConnection : Bool)
  | tryEnd (data : List Byte) (totalSize : Nat)

namespace HttpResponse

/-- Perform one call on the response; what the call returns is dropped. -/
def step (env : Env) (fuel : Nat) (r : HttpResponse) : HttpCall → Option HttpResponse
  | .writeStatus status => writeStatus env fuel r status
  | .writeHeader key value => writeHeader env fuel r key value
  | .write data => (write env fuel r data).map (fun x => x.1)
  | .end_ data closeConnection => end_ env fuel r data closeConnection
  | .tryEnd data totalSize => (tryEnd env fuel r data totalSize).map (fun x => x.1)

/-- Perform a sequence of calls, in order. -/
def run (env : Env) (fuel : Nat) : HttpResponse → List HttpCall → Option HttpResponse
  | r, [] => some r
  | r, c :: cs => (step env fuel r c).bind (fun r1 => run env fuel r1 cs)

end HttpResponse

/-- The data of the `Super::write` calls standing on the lines of `writeStatus`
(HttpResponse.h:343-345), in call order: the pieces of the status lines. -/
def statusPieces (ws : List WriteCall) : List (List Byte) :=
  (ws.filter (fun e => e.site = 343 ∨ e.site = 344 ∨ e.site = 345)).map (fun e => e.data)

/-- A response on which nothing was called yet, on the fresh connection. -/
def freshResponse (noMark : Bool) : HttpResponse :=
  ⟨freshSocket, ⟨false, false, false, true, false, 0, none, none, none⟩, noMark, [], []⟩

/-- The calls `writeStatus` logs when it writes the status line. -/
def statusLineKeys (status : List Byte) : List (Nat × List Byte) :=
  [(343, bytes "HTTP/1.1 "), (344, intPrefix status), (345, bytes "\r\n")]

/-- The calls `writeHeader` logs for the header itself. -/
def headerKeys (key value : List Byte) : List (Nat × List Byte) :=
  [(353, intPrefix key), (354, bytes ": "), (355, intPrefix value), (356, bytes "\r\n")]

/-- Sum of the accepted counts of the body writes of `internalEnd` (the calls
standing on line 172) in a log. -/
def bodyAccepted (ws : List WriteCall) : Nat :=
  ((ws.filter (fun e => e.site = 172)).map (fun e => e.accepted)).sum

/-- The status line `HTTP/1.1 <status>\r\n`. -/
def statusLine (status : List Byte) : List Byte :=
  bytes "HTTP/1.1 " ++ status ++ bytes "\r\n"

/-- The header line `key: value\r\n`. -/
def headerLine (key value : List Byte) : List Byte :=
  key ++ bytes ": " ++ value ++ bytes "\r\n"

/-- The optional `uWebSockets: 19\r\n` mark. -/
def markLine (noMark : Bool) : List Byte :=
  if noMark then [] else headerLine (bytes "uWebSockets") (bytes "19")

/-- The status a call writes when it is the first call on a response: its
argument for `writeStatus`, `200 OK` for every other call. -/
def callStatus : HttpCall → List Byte
  | .writeStatus status => intPrefix status
  | _ => HTTP_200_OK

/-- Whether a call is a `write` of non-empty data (a body chunk). -/
def HttpCall.isChunk : HttpCall → Bool
  | .write data => !data.isEmpty
  | _ => false

/-- Whether a call is `end` or `tryEnd`. -/
def HttpCall.isEnd : HttpCall → Bool
  | .end_ _ _ => true
  | .tryEnd _ _ => true
  | _ => false

/-- Whether a call is a `writeHeader` whose key, as `writeHeader` writes it (cut
to `(int) length` bytes, which is all of it up to `INT_MAX` bytes), is
`Transfer-Encoding`. -/
def HttpCall.isOwnTransferEncoding : HttpCall → Bool
  | .writeHeader key _ => intPrefix key == bytes "Transfer-Encoding"
  | _ => false

/-- Whether no `write` of non-empty data is made while the content-length flag
is set, in a sequence of calls that starts with the chunked-mode flag at
`chunked` and the content-length flag at `ended`: an `end` / `tryEnd` sets the
content-length flag unless the chunked-mode flag is set, a `write` of non-empty
data sets the chunked-mode flag. -/
def modesOk : Bool → Bool → List HttpCall → Bool
  | _, _, [] => true
  | chunked, ended, c :: cs =>
    if c.isChunk then !ended && modesOk true ended cs
    else if c.isEnd then modesOk chunked (ended || !chunked) cs
    else modesOk chunked ended cs

/-- Whether `internalEnd` wrote its `Content-Length: ` line (the call on line 153). -/
def writesContentLength (ws : List WriteCall) : Bool :=
  ws.any (fun e => e.site == 153)

/-- Whether a header with the key `Transfer-Encoding` was written (a call on
line 353, where `writeHeader` writes the key). -/
def writesTransferEncoding (ws : List WriteCall) : Bool :=
  ws.any (fun e => e.site == 353 && e.data == bytes "Transfer-Encoding")

/-- A plain socket with a 16-byte cork buffer on which every `us_socket_write`
transmits all the bytes it is given. -/
def writableEnv : Env :=
  ⟨false, 16, fun _ data _ => data.length⟩

/-- A response in chunked mode on the fresh connection: the status line was
written and `write` was called with data (`HTTP_WRITE_CALLED` set). -/
def chunkedResponse : HttpResponse :=
  ⟨freshSocket, ⟨true, true, false, true, false, 0, none, none, none⟩, false, [], []⟩

/-! ## Protocol upgrade (`HttpResponse::upgrade`) -/

/-- The connection after `upgrade`: the `AsyncSocket` part of
`WebSocket<SSL, true, UserData>`, whose socket data starts with the
`AsyncSocketData` that holds the overflow buffer, and the two values `init` is
given besides the backpressure. -/
structure WebSocket where
  socket : AsyncSocket
  perMessageDeflate : Bool
  compressOptions : Nat

/-- What `upgrade` uses without declaring it: three values of `CompressOptions`,
`webSocketContextData->compression`, `WebSocketHandshake::generate` (from the
key to the accept string), `negotiateCompression` (from the wanted compression
window, the wanted inflation window and the offered extensions to
`negCompression`, `negCompressionWindow`, `negInflationWindow`, `negResponse`)
and `us_socket_context_adopt_socket` (from the address of the socket to its
address after adoption). -/
structure UpgradeEnv where
  DISABLED : Nat
  SHARED_COMPRESSOR : Nat
  DEDICATED_COMPRESSOR_3KB : Nat
  compression : Nat
  generate : List Byte → List Byte
  negotiateCompression : Nat → Nat → List Byte → Bool × Int × Int × List Byte
  us_socket_context_adopt_socket : Nat → Nat

namespace HttpResponse

/-- Source: the compression negotiation of `upgrade` (HttpResponse.h:233-267),
without the `writeHeader` at its end: `perMessageDeflate`, `compressOptions` and
the value of the `Sec-WebSocket-Extensions` header if one is to be written. The
two casts to `uint32_t` are taken modulo `2 ^ 32`. -/
def upgradeCompression (u : UpgradeEnv) (secWebSocketExtensions : List Byte) :
    Bool × Nat × Option (List Byte) :=
  if secWebSocketExtensions.length ≠ 0 ∧ u.compression ≠ u.DISABLED then
    -- We always want shared inflation
    let wantedInflationWindow := 0
    -- Map from selected compressor
    let wantedCompressionWindow := (u.compression &&& 0xFF00) >>> 8
    let neg := u.negotiateCompression wantedCompressionWindow wantedInflationWindow
      secWebSocketExtensions
    let negCompressionWindow := neg.2.1
    if neg.1 then
      -- Map from windowBits to compressor
      let compressOptions :=
        if negCompressionWindow = 0 then u.SHARED_COMPRESSOR
        else if u.compression = u.DEDICATED_COMPRESSOR_3KB then u.DEDICATED_COMPRESSOR_3KB
        else ((negCompressionWindow * 256) % 2 ^ 32).toNat |||
          ((negCompressionWindow - 7) % 2 ^ 32).toNat
      (true, compressOptions, some neg.2.2.2)
    else (false, u.DISABLED, none)
  else (false, u.DISABLED, none)

/-- Source: `HttpResponse::upgrade`, the response head (HttpResponse.h:216-269).
The result is the response after `internalEnd`, `perMessageDeflate` and
`compressOptions`. -/
def upgradeHead (env : Env) (fuel : Nat) (u : UpgradeEnv) (r0 : HttpResponse)
    (secWebSocketKey secWebSocketProtocol secWebSocketExtensions : List Byte) :
    Option (HttpResponse × Bool × Nat) := do
  let secWebSocketAccept := u.generate secWebSocketKey
  let r ← writeStatus env fuel r0 (bytes "101 Switching Protocols")
  let r ← writeHeader env fuel r (bytes "Upgrade") (bytes "websocket")
  let r ← writeHeader env fuel r (bytes "Connection") (bytes "Upgrade")
  let r ← writeHeader env fuel r (bytes "Sec-WebSocket-Accept") secWebSocketAccept
  -- Select first subprotocol if present
  let r ← (if secWebSocketProtocol.length ≠ 0 then
      writeHeader env fuel r (bytes "Sec-WebSocket-Protocol")
        (secWebSocketProtocol.takeWhile (fun b => b ≠ 44))
    else some r)
  -- Negotiate compression
  let neg := upgradeCompression u secWebSocketExtensions
  let r ← (match neg.2.2 with
    | some negResponse => writeHeader env fuel r (bytes "Sec-WebSocket-Extensions") negResponse
    | none => some r)
  let x ← internalEnd env fuel r [] 0 false false false
  some (x.1, neg.1, neg.2.1)

/-- Source: `HttpResponse::upgrade` up to the call of `init`
(HttpResponse.h:212-293). The result is the old connection after its
backpressure was moved out and the new connection as `init` leaves it. A
`std::string` that was moved from is taken to be empty. Modelled from the spec:
`init` makes the moved backpressure the overflow buffer of the new connection;
adoption keeps the descriptor (and with it the log of syscalls), the closed
state and the loop. -/
def upgrade (env : Env) (fuel : Nat) (u : UpgradeEnv) (r0 : HttpResponse)
    (secWebSocketKey secWebSocketProtocol secWebSocketExtensions : List Byte) :
    Option (HttpResponse × WebSocket) := do
  let head ← upgradeHead env fuel u r0 secWebSocketKey secWebSocketProtocol
    secWebSocketExtensions
  let r := head.1
  -- Move any backpressure out of HttpResponse
  let backpressure := r.socket.buffer
  let old : HttpResponse := { r with socket := { r.socket with buffer := [] } }
  -- Before we adopt and potentially change socket, check if we are corked
  let wasCorked := isCorked old.socket.this old.socket.loopData
  -- Adopting a socket invalidates it
  let adopted := u.us_socket_context_adopt_socket old.socket.this
  -- For whatever reason we were corked, update cork to the new socket
  let loopData := if wasCorked then cork adopted old.socket.loopData else old.socket.loopData
  -- Initialize websocket with any moved backpressure intact
  let webSocket : WebSocket :=
    ⟨⟨adopted, old.socket.closed, backpressure, old.socket.syscalls, loopData⟩,
      head.2.1, head.2.2⟩
  some (old, webSocket)

end HttpResponse

/-- Whether one of the body writes of `internalEnd` (the calls standing on line
172) in a log reported backpressure (`failed`). -/
def bodyFailed (ws : List WriteCall) : Bool :=
  (ws.filter (fun e => e.site = 172)).any (fun e => e.failed)

/-! ## The event loop (`loop.c`)

`loop.c` belongs to uSockets, the C library below `AsyncSocket`. A pointer to a
context or to a socket is its address, a natural number, and 0 is the null
pointer; contexts and sockets live in two separate memories. There is one loop.
The functions of uSockets that `loop.c` calls but that are not part of the
sources at hand (`us_socket_close`, `us_socket_is_closed`, `bsd_recv`, the event
handlers of a context, ...) are parameters of the model (`LoopEnv`); those that
change memory are functions from memory to memory. Every such call is appended
to a trace, which the called function cannot touch. -/

/-- The fields of `struct us_socket_context_t` used by `loop.c`. -/
structure us_socket_context_t where
  timestamp : Nat
  head : Nat
  iterator : Nat
  next : Nat
  prev : Nat

/-- The fields of `struct us_socket_t` used by `loop.c`; `events` is the poll
interest of the `us_poll_t` the socket starts with. -/
structure us_socket_t where
  events : Nat
  timeout : Nat
  context : Nat
  next : Nat

/-- The memory `loop.c` works on: the fields of `loop->data`, the contexts and
the sockets. -/
structure Mem where
  head : Nat
  iterator : Nat
  closed_head : Nat
  last_write_failed : Nat
  iteration_nr : Nat
  contexts : Nat → us_socket_context_t
  sockets : Nat → us_socket_t

/-- The values of `us_internal_poll_type` that `us_internal_dispatch_ready_poll`
tells apart. -/
inductive PollType where
  | POLL_TYPE_SOCKET
  | POLL_TYPE_SOCKET_SHUT_DOWN
  | POLL_TYPE_SEMI_SOCKET
  | POLL_TYPE_CALLBACK
  deriving DecidableEq

/-- A call made by `loop.c` to a handler or to uSockets, with the arguments that
matter: `on_socket_timeout` with the context, the socket and the socket's timeout
field at the time of the call; `on_writable` with the socket and the value of
`last_write_failed` at the time of the call; `us_poll_change` with the new poll
interest; `on_data` with the bytes received. -/
inductive Event where
  | on_socket_timeout (context s timeout : Nat)
  | us_socket_close (s : Nat)
  | on_writable (s last_write_failed : Nat)
  | us_poll_change (s events : Nat)
  | ignore_data (s : Nat)
  | bsd_recv (s : Nat)
  | on_data (s : Nat) (data : List Byte)
  | on_end (s : Nat)
  | us_poll_free (s : Nat)
  | pre_cb
  | post_cb
  deriving DecidableEq

/-- What `loop.c` uses without defining it. Handlers are looked up through the
context of the socket (first argument). `bsd_recv` and `bsd_would_block` depend
on the calls made so far; `bsd_recv` gives the returned length and the content
of the receive buffer. -/
structure LoopEnv where
  LIBUS_SOCKET_READABLE : Nat
  LIBUS_SOCKET_WRITABLE : Nat
  LIBUS_SOCKET_ERROR : Int
  on_socket_timeout : Nat → Nat → Mem → Mem
  on_writable : Nat → Nat → Mem → Mem × Nat
  on_data : Nat → Nat → List Byte → Mem → Mem × Nat
  on_end : Nat → Nat → Mem → Mem × Nat
  ignore_data : Nat → Nat → Mem → Bool
  us_socket_close : Nat → Mem → Mem × Nat
  us_socket_is_closed : Nat → Mem → Bool
  us_socket_is_shut_down : Nat → Mem → Bool
  us_internal_poll_type : Nat → Mem → PollType
  bsd_recv : List Event → Nat → Int × (Nat → Byte)
  bsd_would_block : List Event → Bool
  pre_cb : Mem → Mem
  post_cb : Mem → Mem
  /-- The `POLL_TYPE_CALLBACK` case of `us_internal_dispatch_ready_poll`. -/
  dispatch_callback : Nat → Mem → Mem
  /-- The `POLL_TYPE_SEMI_SOCKET` case of `us_internal_dispatch_ready_poll`:
  poll, error, events. -/
  dispatch_semi_socket : Nat → Nat → Nat → Mem → Mem

/-- The memory and the trace of the calls made so far. -/
structure LoopState where
  mem : Mem
  trace : List Event

namespace Mem

/-- Assignment to `s->timeout`. -/
def set_timeout (m : Mem) (s value : Nat) : Mem :=
  { m with sockets := Function.update m.sockets s { m.sockets s with timeout := value } }

/-- Assignment to `context->iterator`. -/
def set_iterator (m : Mem) (context value : Nat) : Mem :=
  { m with contexts :=
      Function.update m.contexts context { m.contexts context with iterator := value } }

/-- Assignment to `context->timestamp`. -/
def set_timestamp (m : Mem) (context value : Nat) : Mem :=
  { m with contexts :=
      Function.update m.contexts context { m.contexts context with timestamp := value } }

end Mem

/-- Modelled from the spec: `us_poll_events`, the poll-interest mask of a
connection. -/
def us_poll_events (m : Mem) (s : Nat) : Nat :=
  (m.sockets s).events

/-- Modelled from the spec: `us_poll_change`, which replaces the poll-interest
mask of a connection. -/
def us_poll_change (m : Mem) (s events : Nat) : Mem :=
  { m with sockets := Function.update m.sockets s { m.sockets s with events := events } }

/-- Source: the socket loop of `us_internal_timer_sweep` (loop.c:96-123), the
outer and the inner `while` as one recursion on the current socket `s`. The
first argument bounds the number of sockets visited. -/
def timer_sweep_sockets (env : LoopEnv) (context needle : Nat) :
    Nat → Nat → LoopState → Option LoopState
  | 0, _, _ => none
  | fuel + 1, s, st =>
    if s = 0 then some st
    else if needle = (st.mem.sockets s).timeout then
      -- Here we have a timeout to emit (slow path)
      let m1 := (st.mem.set_timeout s 0).set_iterator context s
      let m2 := env.on_socket_timeout context s m1
      let st2 : LoopState :=
        ⟨m2, st.trace ++ [Event.on_socket_timeout context s (m1.sockets s).timeout]⟩
      -- Check for unlink / link
      if s = (m2.contexts context).iterator then
        timer_sweep_sockets env context needle fuel (m2.sockets s).next st2
      else
        -- The iterator was changed by event handler
        timer_sweep_sockets env context needle fuel (m2.contexts context).iterator st2
    else
      -- Did we reach the end without a find?
      if (st.mem.sockets s).next = 0 then some st
      else timer_sweep_sockets env context needle fuel (st.mem.sockets s).next st

/-- Source: the body of the context loop of `us_internal_timer_sweep`
(loop.c:86-126), for the context `loop_data->iterator` points to. -/
def timer_sweep_context (env : LoopEnv) (fuel : Nat) (context : Nat) (st : LoopState) :
    Option LoopState :=
  -- Update this context's 15-bit timestamp
  let m1 := st.mem.set_timestamp context (((st.mem.contexts context).timestamp + 1) &&& 0x7fff)
  -- Update our 16-bit full timestamp (the needle in the haystack)
  let needle := 0x8000 ||| (m1.contexts context).timestamp
  -- Begin at head
  (timer_sweep_sockets env context needle fuel (m1.contexts context).head ⟨m1, st.trace⟩).map
    -- We always store a 0 to context->iterator here
    (fun st2 => { st2 with mem := st2.mem.set_iterator context 0 })

/-- Source: the `for` loop over the contexts of `us_internal_timer_sweep`
(loop.c:84-127), from its condition on. The first argument bounds the number of
contexts visited, the second the number of sockets visited per context. -/
def timer_sweep_contexts (env : LoopEnv) : Nat → Nat → LoopState → Option LoopState
  | 0, _, _ => none
  | fuel + 1, fuel1, st =>
    if st.mem.iterator = 0 then some st
    else
      (timer_sweep_context env fuel1 st.mem.iterator st).bind (fun st1 =>
        timer_sweep_contexts env fuel fuel1
          { st1 with mem := { st1.mem with
              iterator := (st1.mem.contexts st1.mem.iterator).next } })

/-- Source: `us_internal_timer_sweep` (loop.c:81-128). -/
def us_internal_timer_sweep (env : LoopEnv) (fuel fuel1 : Nat) (st : LoopState) :
    Option LoopState :=
  timer_sweep_contexts env fuel fuel1 { st with mem := { st.mem with iterator := st.mem.head } }

/-- Source: the `for` loop of `us_internal_free_closed_sockets` (loop.c:134-138).
`us_poll_free` releases the memory of the socket; it is recorded in the trace. -/
def free_closed_sockets_loop : Nat → Nat → LoopState → Option LoopState
  | 0, _, _ => none
  | fuel + 1, s, st =>
    if s = 0 then some st
    else
      let next := (st.mem.sockets s).next
      free_closed_sockets_loop fuel next { st with trace := st.trace ++ [Event.us_poll_free s] }

/-- Source: `us_internal_free_closed_sockets` (loop.c:131-141). -/
def us_internal_free_closed_sockets (fuel : Nat) (st : LoopState) : Option LoopState :=
  if st.mem.closed_head ≠ 0 then
    (free_closed_sockets_loop fuel st.mem.closed_head st).map
      (fun st1 => { st1 with mem := { st1.mem with closed_head := 0 } })
  else some st

/-- Source: `us_internal_loop_pre` (loop.c:152-155). -/
def us_internal_loop_pre (env : LoopEnv) (st : LoopState) : LoopState :=
  ⟨env.pre_cb { st.mem with iteration_nr := st.mem.iteration_nr + 1 },
    st.trace ++ [Event.pre_cb]⟩

/-- Source: `us_internal_loop_post` (loop.c:157-160). -/
def us_internal_loop_post (env : LoopEnv) (fuel : Nat) (st : LoopState) : Option LoopState :=
  (us_internal_free_closed_sockets fuel st).map
    (fun st1 => ⟨env.post_cb st1.mem, st1.trace ++ [Event.post_cb]⟩)

/-- Source: the `events & LIBUS_SOCKET_READABLE` block of
`us_internal_dispatch_ready_poll` (loop.c:266-290), without its condition. -/
def dispatch_readable (env : LoopEnv) (s : Nat) (st : LoopState) : LoopState :=
  -- Contexts may ignore data and postpone it to next iteration
  if env.ignore_data (st.mem.sockets s).context s st.mem then
    { st with trace := st.trace ++ [Event.ignore_data s] }
  else
    let t1 := st.trace ++ [Event.ignore_data s]
    let received := env.bsd_recv t1 s
    let length := received.1
    let t2 := t1 ++ [Event.bsd_recv s]
    if length > 0 then
      let data := readBytes received.2 length.toNat
      ⟨(env.on_data (st.mem.sockets s).context s data st.mem).1, t2 ++ [Event.on_data s data]⟩
    else if length = 0 then
      if env.us_socket_is_shut_down s st.mem then
        -- We got FIN back after sending it
        ⟨(env.us_socket_close s st.mem).1, t2 ++ [Event.us_socket_close s]⟩
      else
        -- We got FIN, so stop polling for readable
        let events := us_poll_events st.mem s &&& env.LIBUS_SOCKET_WRITABLE
        let m1 := us_poll_change st.mem s events
        ⟨(env.on_end (m1.sockets s).context s m1).1,
          t2 ++ [Event.us_poll_change s events, Event.on_end s]⟩
    else if length = env.LIBUS_SOCKET_ERROR ∧ env.bsd_would_block t2 = false then
      ⟨(env.us_socket_close s st.mem).1, t2 ++ [Event.us_socket_close s]⟩
    else ⟨st.mem, t2⟩

/-- Source: the `events & LIBUS_SOCKET_WRITABLE` block of
`us_internal_dispatch_ready_poll` (loop.c:249-264), without its condition. The
result is the state, the socket the handler returned and whether the function
returned from within the block. -/
def dispatch_writable (env : LoopEnv) (s0 : Nat) (st : LoopState) : LoopState × Nat × Bool :=
  let m1 := { st.mem with last_write_failed := 0 }
  let r := env.on_writable (m1.sockets s0).context s0 m1
  let m2 := r.1
  let s := r.2
  let t2 := st.trace ++ [Event.on_writable s0 m1.last_write_failed]
  if env.us_socket_is_closed s m2 then
    (⟨m2, t2⟩, s, true)
  -- If we have no failed write or if we shut down, then stop polling for more writable
  else if m2.last_write_failed = 0 ∨ env.us_socket_is_shut_down s m2 then
    let events := us_poll_events m2 s &&& env.LIBUS_SOCKET_READABLE
    (⟨us_poll_change m2 s events, t2 ++ [Event.us_poll_change s events]⟩, s, false)
  else
    (⟨m2, t2⟩, s, false)

/-- Source: the cases `POLL_TYPE_SOCKET_SHUT_DOWN` and `POLL_TYPE_SOCKET` of
`us_internal_dispatch_ready_poll` (loop.c:237-292). -/
def dispatch_socket (env : LoopEnv) (p error events : Nat) (st : LoopState) : LoopState :=
  -- Such as epollerr epollhup
  if error ≠ 0 then
    ⟨(env.us_socket_close p st.mem).1, st.trace ++ [Event.us_socket_close p]⟩
  else
    let w : LoopState × Nat × Bool :=
      if events &&& env.LIBUS_SOCKET_WRITABLE ≠ 0 then dispatch_writable env p st
      else (st, p, false)
    if w.2.2 then w.1
    else if events &&& env.LIBUS_SOCKET_READABLE ≠ 0 then dispatch_readable env w.2.1 w.1
    else w.1

/-- Source: `us_internal_dispatch_ready_poll` (loop.c:162-294). The cases
`POLL_TYPE_CALLBACK` and `POLL_TYPE_SEMI_SOCKET` (loop.c:164-236: timers, wakeups,
connects and accepts) are parameters of the model. -/
def us_internal_dispatch_ready_poll (env : LoopEnv) (p error events : Nat) (st : LoopState) :
    LoopState :=
  match env.us_internal_poll_type p st.mem with
  | PollType.POLL_TYPE_CALLBACK => { st with mem := env.dispatch_callback p st.mem }
  | PollType.POLL_TYPE_SEMI_SOCKET =>
    { st with mem := env.dispatch_semi_socket p error events st.mem }
  | PollType.POLL_TYPE_SOCKET_SHUT_DOWN => dispatch_socket env p error events st
  | PollType.POLL_TYPE_SOCKET => dispatch_socket env p error events st

/-- The sockets reached from `p` by following `next` up to the null pointer are
exactly the sockets of `l`, in order. -/
def isChain (next : Nat → Nat) : Nat → List Nat → Prop
  | p, [] => p = 0
  | p, x :: xs => p = x ∧ x ≠ 0 ∧ isChain next (next x) xs

/-- The `on_socket_timeout` calls for one socket of one context in a trace. -/
def firedCount (context s : Nat) (trace : List Event) : Nat :=
  trace.count (Event.on_socket_timeout context s 0)

/-- The sweep of one context, `ticks` times in a row. -/
def timer_ticks (env : LoopEnv) (fuel context : Nat) : Nat → LoopState → Option LoopState
  | 0, st => some st
  | ticks + 1, st =>
    (timer_sweep_context env fuel context st).bind (timer_ticks env fuel context ticks)

/-- The sockets handed to `us_poll_free` in a trace, in order. -/
def freed (trace : List Event) : List Nat :=
  trace.filterMap (fun e => match e with
    | Event.us_poll_free s => some s
    | _ => none)

/-- Modelled from the spec: what closing a socket (or adopting it away) does to
the lists. The socket is unlinked from the list of its context, the iterator of
the context is redirected to the successor of the socket if it points to the
socket, and the socket is put in front of the closed list of the loop, which
reuses its `next` link. -/
def close_socket (context s : Nat) (m : Mem) : Mem :=
  let successor := (m.sockets s).next
  { m with
    closed_head := s
    contexts := Function.update m.contexts context { m.contexts context with
      iterator := if (m.contexts context).iterator = s then successor
        else (m.contexts context).iterator
      head := if (m.contexts context).head = s then successor
        else (m.contexts context).head }
    sockets := fun x =>
      if x = s then { m.sockets s with next := m.closed_head }
      else if (m.sockets x).next = s then { m.sockets x with next := successor }
      else m.sockets x }

/-- A sample environment: the timeout handler and the writable handler of a
socket close it if `closes` says so and do nothing otherwise, the other handlers
do nothing, a socket counts as closed when it is the head of the closed list,
no socket is shut down for writing, every poll is an established socket, every
receive yields the two bytes 1, 2. Readable is 1 and writable is 2. -/
def sampleEnv (closes : Nat → Bool) : LoopEnv where
  LIBUS_SOCKET_READABLE := 1
  LIBUS_SOCKET_WRITABLE := 2
  LIBUS_SOCKET_ERROR := -1
  on_socket_timeout := fun context s m => if closes s then close_socket context s m else m
  on_writable := fun context s m => (if closes s then close_socket context s m else m, s)
  on_data := fun _ s _ m => (m, s)
  on_end := fun _ s m => (m, s)
  ignore_data := fun _ _ _ => false
  us_socket_close := fun s m => (close_socket (m.sockets s).context s m, s)
  us_socket_is_closed := fun s m => decide (m.closed_head = s)
  us_socket_is_shut_down := fun _ _ => false
  us_internal_poll_type := fun _ _ => PollType.POLL_TYPE_SOCKET
  bsd_recv := fun _ _ => (2, fun i => if i = 0 then 1 else 2)
  bsd_would_block := fun _ => false
  pre_cb := fun m => m
  post_cb := fun m => m
  dispatch_callback := fun _ m => m
  dispatch_semi_socket := fun _ _ _ m => m

/-- A sample memory: one context (address 1, counter `timestamp`) whose list
holds the sockets 1, 2, 3 in this order, polling for readable and writable, with
the timeout fields `t1`, `t2`, `t3`; the closed list holds the sockets 8 and 9. -/
def sampleMem (timestamp t1 t2 t3 : Nat) : Mem where
  head := 1
  iterator := 0
  closed_head := 8
  last_write_failed := 1
  iteration_nr := 0
  contexts := fun _ => ⟨timestamp, 1, 0, 0, 0⟩
  sockets := fun s =>
    if s = 1 then ⟨3, t1, 1, 2⟩
    else if s = 2 then ⟨3, t2, 1, 3⟩
    else if s = 3 then ⟨3, t3, 1, 0⟩
    else if s = 8 then ⟨0, 0, 1, 9⟩
    else ⟨0, 0, 1, 0⟩

/-- What `write` and `uncork` keep true of a connection: the cork offset is
within the cork buffer, and the connection has no bytes in the cork buffer
while its overflow buffer is non-empty (`write` flushes the overflow buffer
before it corks, and `uncork` empties the cork buffer before anything is
buffered). -/
def corkInvariant (env : Env) (s : AsyncSocket) : Prop :=
  s.loopData.corkOffset ≤ env.CORK_BUFFER_SIZE ∧
  (s.buffer = [] ∨ s.loopData.corkedSocket ≠ some s.this ∨ s.loopData.corkOffset = 0)

instance corkInvariant.decidable (env : Env) (s : AsyncSocket) :
    Decidable (corkInvariant env s) := by
  unfold corkInvariant
  infer_instance

/-- The parts of their data that the logged `Super::write` calls reported as
accepted, in call order. -/
def acceptedBytes (ws : List WriteCall) : List Byte :=
  (ws.map (fun e => e.data.take e.accepted)).flatten

/-- The connection of the response `r` is open, keeps the cork invariant, and
answers for what the connection of `r0` answered for followed by the accepted
parts of the `Super::write` calls logged since `r0`. No call accepted more than
it was given; an optional call stands on line 172 (the body loop of
`internalEnd`), and there is none unless `opt` is set; and if the connection of
`r0` does not hold the cork slot, neither does that of `r`, and every mandatory
call since accepted all its data. -/
def tied (env : Env) (opt : Bool) (r0 r : HttpResponse) : Prop :=
  r.socket.closed = false ∧ corkInvariant env r.socket ∧
  ∃ es, r.writes = r0.writes ++ es ∧
    accounted r.socket = accounted r0.socket ++ acceptedBytes es ∧
    (∀ e ∈ es, e.accepted ≤ e.data.length ∧
      (e.optionally = true → e.site = 172 ∧ opt = true)) ∧
    (r0.socket.loopData.corkedSocket ≠ some r0.socket.this →
      r.socket.loopData.corkedSocket ≠ some r.socket.this ∧
      ∀ e ∈ es, e.optionally = false → e.accepted = e.data.length)

/-- A response on which nothing was called yet, on an open connection that holds
the cork slot with an empty cork buffer (the state in which an HTTP handler
runs). -/
def corkedResponse : HttpResponse :=
  ⟨⟨1, false, [], [], ⟨some 1, fun _ => 0, 0⟩⟩,
    ⟨false, false, false, true, false, 0, none, none, none⟩, true, [], []⟩

/-- What the sweep of the sockets of the context `c`, and a timeout handler
called by it, leave alone in the rest of the loop, from the memory `m` to the
memory `m1`, when the sockets it fires are among `fired`: the context iterator
of the loop, the `next` link and the timestamp of every context, the iterator
slot of every context other than `c`, and the socket list of every context
other than `c` that holds none of the fired sockets. -/
def sweepFrame (c : Nat) (fired : List Nat) (m m1 : Mem) : Prop :=
  m1.iterator = m.iterator ∧
  (∀ d, (m1.contexts d).next = (m.contexts d).next ∧
    (m1.contexts d).timestamp = (m.contexts d).timestamp) ∧
  (∀ d, d ≠ c → (m1.contexts d).iterator = (m.contexts d).iterator) ∧
  (∀ d, d ≠ c → ∀ l, isChain (fun x => (m.sockets x).next) (m.contexts d).head l →
    (∀ x ∈ fired, x ∉ l) → isChain (fun x => (m1.sockets x).next) (m1.contexts d).head l)

/-- A sample memory with two contexts: context 1 (first in the list of the loop)
holds the sockets 1, 2, 3 and context 2 the sockets 4, 5, in this order; both
have the counter `timestamp` and every socket has the timeout field `t`; the
closed list holds the sockets 8 and 9. -/
def twoContextMem (timestamp t : Nat) : Mem where
  head := 1
  iterator := 0
  closed_head := 8
  last_write_failed := 0
  iteration_nr := 0
  contexts := fun d => if d = 1 then ⟨timestamp, 1, 0, 2, 0⟩ else ⟨timestamp, 4, 0, 0, 1⟩
  sockets := fun s =>
    if s = 1 then ⟨3, t, 1, 2⟩
    else if s = 2 then ⟨3, t, 1, 3⟩
    else if s = 3 then ⟨3, t, 1, 0⟩
    else if s = 4 then ⟨3, t, 2, 5⟩
    else if s = 5 then ⟨3, t, 2, 0⟩
    else if s = 8 then ⟨0, 0, 1, 9⟩
    else ⟨0, 0, 1, 0⟩

/-- Modelled from the spec: the contract of the timeout handler of the context
`c`. Called for a socket `s` of the socket list of the context while the
iterator slot points to `s`, the handler keeps the counter of the context and
the timeout field of every other socket, and it either leaves the socket list
and the iterator slot as they are, or (closing `s` or adopting it away) takes
`s`, and only `s`, out of the list and redirects the iterator slot to the
successor of `s`. -/
def timeoutContract (env : LoopEnv) (c : Nat) : Prop :=
  ∀ (m : Mem) (s : Nat) (l : List Nat),
    isChain (fun x => (m.sockets x).next) (m.contexts c).head l → s ∈ l →
    (m.contexts c).iterator = s →
    ((env.on_socket_timeout c s m).contexts c).timestamp = (m.contexts c).timestamp ∧
    (∀ x, x ≠ s → ((env.on_socket_timeout c s m).sockets x).timeout = (m.sockets x).timeout) ∧
    ((((env.on_socket_timeout c s m).contexts c).iterator = s ∧
        isChain (fun x => ((env.on_socket_timeout c s m).sockets x).next)
          ((env.on_socket_timeout c s m).contexts c).head l) ∨
      (((env.on_socket_timeout c s m).contexts c).iterator = (m.sockets s).next ∧
        isChain (fun x => ((env.on_socket_timeout c s m).sockets x).next)
          ((env.on_socket_timeout c s m).contexts c).head (l.erase s)))

end uWS

/-! ## The keyboard simulator (`KeyboardSimulator.cpp`)

`KeyboardSimulator::Impl` keeps the keys sent last and a buffer of `N_BUTTONS`
`INPUT` records that `send` fills and hands to `SendInput`. A `uint64_t` is a
natural number below `2 ^ 64`; xor, and, shift right do not leave that range.
Indexing `m_input_buffer` or `m_layout` outside the `N_BUTTONS` elements is
undefined in C++ and makes the model return `none`. The calls of `SendInput`
are logged with the records handed over. `KEYEVENTF_KEYUP` comes from the
Windows headers and is a parameter. The `spdlog::debug` calls are left out. -/

namespace KeyboardSimulator

/-- Source: `N_BUTTONS` (KeyboardSimulator.cpp:9). -/
def N_BUTTONS : Nat := 4

/-- Source: `MANIA_BTN_MAP` (KeyboardSimulator.cpp:11-12), the character codes
of `A`, `D`, `J`, `L`. -/
def MANIA_BTN_MAP : List Nat := [65, 68, 74, 76]

/-- The fields of the Windows record `INPUT` (with its member `ki`) that the
simulator sets. -/
structure INPUT where
  type : Nat
  wVk : Nat
  wScan : Nat
  dwFlags : Nat
  time : Nat
  dwExtraInfo : Nat
  deriving DecidableEq

/-- Source: `struct KeyboardSimulator::Impl` (KeyboardSimulator.cpp:14-30), with
the log of the `SendInput` calls. -/
structure Impl where
  m_layout : List Nat
  m_input_buffer : List INPUT
  m_last_keys : Nat
  m_buffered_keys : Nat
  sent : List (List INPUT)
  deriving DecidableEq

namespace Impl

/-- Source: `KeyboardSimulator::Impl::start` (KeyboardSimulator.cpp:104-107). -/
def start (impl : Impl) : Impl :=
  { impl with m_buffered_keys := 0 }

/-- Source: `KeyboardSimulator::Impl::key_down` (KeyboardSimulator.cpp:109-115). -/
def key_down (i : Nat) (impl : Impl) : Option Impl := do
  let wVk ← impl.m_layout[i]?
  let input ← impl.m_input_buffer[impl.m_buffered_keys]?
  some { impl with
    m_input_buffer := impl.m_input_buffer.set impl.m_buffered_keys
      { input with wVk := wVk, dwFlags := 0 },
    m_buffered_keys := impl.m_buffered_keys + 1 }

/-- Source: `KeyboardSimulator::Impl::key_up` (KeyboardSimulator.cpp:117-123). -/
def key_up (KEYEVENTF_KEYUP : Nat) (i : Nat) (impl : Impl) : Option Impl := do
  let wVk ← impl.m_layout[i]?
  let input ← impl.m_input_buffer[impl.m_buffered_keys]?
  some { impl with
    m_input_buffer := impl.m_input_buffer.set impl.m_buffered_keys
      { input with wVk := wVk, dwFlags := KEYEVENTF_KEYUP },
    m_buffered_keys := impl.m_buffered_keys + 1 }

/-- Source: `KeyboardSimulator::Impl::end` (KeyboardSimulator.cpp:128-134). -/
def end_ (impl : Impl) : Impl :=
  if impl.m_buffered_keys ≠ 0 then
    { impl with sent := impl.sent ++ [impl.m_input_buffer.take impl.m_buffered_keys] }
  else impl

/-- Source: the `for` loop of `send` (KeyboardSimulator.cpp:87-100); the first
argument is the number of iterations left, `N_BUTTONS - i`. -/
def sendLoop (KEYEVENTF_KEYUP : Nat) : Nat → Nat → Nat → Nat → Impl → Option Impl
  | 0, _, _, _, impl => some impl
  | n + 1, i, keys_to_down, keys_to_up, impl =>
    (if keys_to_down &&& 1 ≠ 0 then key_down i impl
      else if keys_to_up &&& 1 ≠ 0 then key_up KEYEVENTF_KEYUP i impl
      else some impl).bind
      (fun impl1 =>
        sendLoop KEYEVENTF_KEYUP n (i + 1) (keys_to_down >>> 1) (keys_to_up >>> 1) impl1)

/-- Source: `KeyboardSimulator::Impl::send` (KeyboardSimulator.cpp:78-102). -/
def send (KEYEVENTF_KEYUP : Nat) (impl : Impl) (keys : Nat) : Option Impl :=
  let keys_changed := keys ^^^ impl.m_last_keys
  let keys_to_down := keys_changed &&& keys
  let keys_to_up := keys_changed &&& impl.m_last_keys
  (sendLoop KEYEVENTF_KEYUP N_BUTTONS 0 keys_to_down keys_to_up
    (start { impl with m_last_keys := keys })).map end_

end Impl

/-- The key code and the flags of a buffered record. -/
def INPUT.event (input : INPUT) : Nat × Nat :=
  (input.wVk, input.dwFlags)

/-- The events an edge-triggered `send` owes, as the specification words them:
for each button, in button order, one key-down (flags 0) if its bit is set in
`keys` and clear in the previous state, one key-up if its bit is clear in `keys`
and set in the previous state, nothing otherwise. -/
def edgeEvents (KEYEVENTF_KEYUP : Nat) (layout : List Nat) (previous keys : Nat) :
    List (Nat × Nat) :=
  ((List.range N_BUTTONS).map (fun i =>
    if keys.testBit i && !previous.testBit i then [(layout.getD i 0, 0)]
    else if !keys.testBit i && previous.testBit i then [(layout.getD i 0, KEYEVENTF_KEYUP)]
    else [])).flatten

/-- A simulator as its constructor leaves it, apart from the blank first
`SendInput`: the mania layout, a buffer of `N_BUTTONS` keyboard records
(`INPUT_KEYBOARD` is written 1), no key down. -/
def sampleImpl : Impl :=
  ⟨MANIA_BTN_MAP, List.replicate N_BUTTONS ⟨1, 0, 0, 0, 0, 0⟩, 0, 0, []⟩

end KeyboardSimulator

namespace uWS

/-! ## Auxiliary facts -/

theorem transmitted_append (xs ys : List Syscall) :
    transmitted (xs ++ ys) = transmitted xs ++ transmitted ys := by
  induction xs with
  | nil => rfl
  | cons c cs ih => simp [transmitted, ih]

theorem readBytes_length (mem : Nat → Byte) (n : Nat) : (readBytes mem n).length = n := by
  simp [readBytes]

theorem readBytes_memcpy (mem : Nat → Byte) (off : Nat) (src : List Byte) :
    readBytes (memcpy mem off src) (off + src.length) = readBytes mem off ++ src := by
  unfold readBytes
  rw [List.range_add, List.map_append]
  congr 1
  · apply List.map_congr_left
    intro i hi
    have : i < off := List.mem_range.mp hi
    simp [memcpy]
    omega
  · apply List.ext_getElem
    · simp
    · intro i h1 h2
      simp [memcpy, h2]

theorem memcpy_outside (mem : Nat → Byte) (off : Nat) (src : List Byte) (i : Nat)
    (h : i < off ∨ off + src.length ≤ i) : memcpy mem off src i = mem i := by
  simp [memcpy]
  omega

theorem corkRoom_of_le (env : Env) (loopData : LoopData)
    (h : loopData.corkOffset ≤ env.CORK_BUFFER_SIZE) :
    corkRoom env loopData = env.CORK_BUFFER_SIZE - loopData.corkOffset := by
  simp [corkRoom, h]

/-! ## The engine step by step -/

theorem write_nil_eq (env : Env) (fuel : Nat) (s : AsyncSocket) (optionally : Bool)
    (nextLength : Nat) (hopen : s.closed = false) :
    write env (fuel + 1) s [] optionally nextLength =
      if s.buffer = [] then some (s, 0, false)
      else some ({ s with
                   syscalls := s.syscalls ++
                     [⟨s.buffer, 0, env.outcome s.syscalls.length s.buffer 0⟩],
                   buffer := s.buffer.drop (env.outcome s.syscalls.length s.buffer 0) },
                 0, decide (env.outcome s.syscalls.length s.buffer 0 < s.buffer.length)) := by
  by_cases hb : s.buffer = []
  · simp [write, hopen, hb]
  · by_cases hw : env.outcome s.syscalls.length s.buffer 0 < s.buffer.length
    · cases optionally <;> simp [write, hopen, hb, hw, us_socket_write]
    · have hd : List.drop (env.outcome s.syscalls.length s.buffer 0) s.buffer = [] :=
        List.drop_eq_nil_of_le (Nat.le_of_not_lt hw)
      simp [write, hopen, hb, hw, us_socket_write, hd]

theorem write_full_flush (env : Env) (fuel : Nat) (s : AsyncSocket) (src : List Byte)
    (optionally : Bool) (nextLength : Nat) (hopen : s.closed = false) (hb : s.buffer ≠ [])
    (hfull : ¬ env.outcome s.syscalls.length s.buffer src.length < s.buffer.length) :
    write env (fuel + 1) s src optionally nextLength =
      write env (fuel + 1)
        { s with
          syscalls := s.syscalls ++
            [⟨s.buffer, src.length, env.outcome s.syscalls.length s.buffer src.length⟩],
          buffer := [] } src optionally nextLength := by
  simp [write, hopen, hb, hfull, us_socket_write]

theorem write_direct_eq (env : Env) (fuel : Nat) (s : AsyncSocket) (src : List Byte)
    (optionally : Bool) (nextLength : Nat) (hopen : s.closed = false) (hb : s.buffer = [])
    (hfree : s.loopData.corkedSocket ≠ some s.this) (hsrc : src ≠ []) :
    write env (fuel + 1) s src optionally nextLength =
      some ({ s with
              syscalls := s.syscalls ++ [⟨src, if nextLength = 0 then 0 else 1,
                env.outcome s.syscalls.length src (if nextLength = 0 then 0 else 1)⟩],
              buffer :=
                if env.outcome s.syscalls.length src (if nextLength = 0 then 0 else 1) < src.length
                    ∧ optionally = false
                  then src.drop (env.outcome s.syscalls.length src (if nextLength = 0 then 0 else 1))
                  else [] },
            if env.outcome s.syscalls.length src (if nextLength = 0 then 0 else 1) < src.length
                ∧ optionally = true
              then env.outcome s.syscalls.length src (if nextLength = 0 then 0 else 1)
              else src.length,
            decide (env.outcome s.syscalls.length src (if nextLength = 0 then 0 else 1)
              < src.length)) := by
  by_cases hw : env.outcome s.syscalls.length src (if nextLength = 0 then 0 else 1) < src.length
  · cases optionally <;> simp [write, hopen, hb, hfree, hsrc, hw, us_socket_write]
  · simp [write, hopen, hb, hfree, hsrc, hw, us_socket_write]

theorem write_uncorked_empty_buffer (env : Env) (fuel : Nat) (s : AsyncSocket) (src : List Byte)
    (optionally : Bool) (nextLength : Nat) (hopen : s.closed = false)
    (hfree : s.loopData.corkedSocket ≠ some s.this) (hb : s.buffer = [])
    (hmand : optionally = false ∨ src = []) :
    ∃ s1 bp calls, write env (fuel + 1) s src optionally nextLength = some (s1, src.length, bp) ∧
      s1.loopData = s.loopData ∧ s1.this = s.this ∧ s1.closed = false ∧
      s1.syscalls = s.syscalls ++ calls ∧
      transmitted calls ++ s1.buffer = src ∧
      (bp = true ↔ s1.buffer ≠ []) := by
  by_cases hsrc : src = []
  · subst hsrc
    refine ⟨s, false, [], ?_, rfl, rfl, hopen, by simp, by simp [transmitted, hb], by simp [hb]⟩
    simp [write, hopen, hb]
  · have hopt : optionally = false := by
      rcases hmand with h | h
      · exact h
      · exact absurd h hsrc
    subst hopt
    rw [write_direct_eq env fuel s src false nextLength hopen hb hfree hsrc]
    refine ⟨{ s with
              syscalls := s.syscalls ++ [⟨src, if nextLength = 0 then 0 else 1,
                env.outcome s.syscalls.length src (if nextLength = 0 then 0 else 1)⟩],
              buffer :=
                if env.outcome s.syscalls.length src (if nextLength = 0 then 0 else 1) < src.length
                    ∧ false = false
                  then src.drop (env.outcome s.syscalls.length src (if nextLength = 0 then 0 else 1))
                  else [] },
      decide (env.outcome s.syscalls.length src (if nextLength = 0 then 0 else 1) < src.length),
      [⟨src, if nextLength = 0 then 0 else 1,
        env.outcome s.syscalls.length src (if nextLength = 0 then 0 else 1)⟩],
      ?_, rfl, rfl, hopen, rfl, ?_, ?_⟩
    · simp
    · by_cases hw : env.outcome s.syscalls.length src (if nextLength = 0 then 0 else 1) < src.length
      · simp [transmitted, hw]
      · simp [transmitted, hw]
        omega
    · by_cases hw : env.outcome s.syscalls.length src (if nextLength = 0 then 0 else 1) < src.length
      · simp [hw]
      · simp [hw]

theorem write_uncorked_conserves (env : Env) (fuel : Nat) (s : AsyncSocket) (src : List Byte)
    (optionally : Bool) (nextLength : Nat) (hopen : s.closed = false)
    (hfree : s.loopData.corkedSocket ≠ some s.this)
    (hmand : optionally = false ∨ src = []) :
    ∃ s1 bp calls, write env (fuel + 1) s src optionally nextLength = some (s1, src.length, bp) ∧
      s1.loopData = s.loopData ∧ s1.this = s.this ∧ s1.closed = false ∧
      s1.syscalls = s.syscalls ++ calls ∧
      transmitted calls ++ s1.buffer = s.buffer ++ src ∧
      (bp = true ↔ s1.buffer ≠ []) := by
  by_cases hb : s.buffer = []
  · obtain ⟨s1, bp, calls, h1, h2, h3, h4, h5, h6, h7⟩ :=
      write_uncorked_empty_buffer env fuel s src optionally nextLength hopen hfree hb hmand
    exact ⟨s1, bp, calls, h1, h2, h3, h4, h5, by simpa [hb] using h6, h7⟩
  · by_cases hw : env.outcome s.syscalls.length s.buffer src.length < s.buffer.length
    · refine ⟨{ s with
              syscalls := s.syscalls ++
                [⟨s.buffer, src.length, env.outcome s.syscalls.length s.buffer src.length⟩],
              buffer := s.buffer.drop (env.outcome s.syscalls.length s.buffer src.length) ++ src },
          true, [⟨s.buffer, src.length, env.outcome s.syscalls.length s.buffer src.length⟩],
          ?_, rfl, rfl, hopen, rfl, ?_, ?_⟩
      · rcases hmand with h | h
        · subst h
          simp [write, hopen, hb, hw, us_socket_write]
        · subst h
          simp only [List.length_nil] at hw
          cases optionally <;> simp [write, hopen, hb, hw, us_socket_write]
      · simp [transmitted, ← List.append_assoc]
      · simp
        intro h
        omega
    · rw [write_full_flush env fuel s src optionally nextLength hopen hb hw]
      obtain ⟨s1, bp, calls, h1, h2, h3, h4, h5, h6, h7⟩ :=
        write_uncorked_empty_buffer env fuel
          { s with
            syscalls := s.syscalls ++
              [⟨s.buffer, src.length, env.outcome s.syscalls.length s.buffer src.length⟩],
            buffer := [] } src optionally nextLength hopen hfree rfl hmand
      refine ⟨s1, bp, _ :: calls, h1, h2, h3, h4, by simpa using h5, ?_, h7⟩
      simp only [transmitted, List.append_assoc, h6]
      rw [List.take_of_length_le (Nat.le_of_not_lt hw)]

theorem write_uncorked_some (env : Env) (fuel : Nat) (s : AsyncSocket) (src : List Byte)
    (optionally : Bool) (nextLength : Nat)
    (hfree : s.loopData.corkedSocket ≠ some s.this) :
    ∃ r, write env (fuel + 1) s src optionally nextLength = some r ∧
      r.1.loopData = s.loopData ∧ r.1.this = s.this := by
  by_cases hc : s.closed = true
  · simp [write, hc]
  · have hopen : s.closed = false := by simpa using hc
    by_cases hb : s.buffer = []
    · by_cases hsrc : src = []
      · simp [write, hopen, hb, hsrc]
      · exact ⟨_, write_direct_eq env fuel s src optionally nextLength hopen hb hfree hsrc, rfl, rfl⟩
    · by_cases hw : env.outcome s.syscalls.length s.buffer src.length < s.buffer.length
      · cases optionally <;> simp [write, hopen, hb, hw, us_socket_write]
      · rw [write_full_flush env fuel s src optionally nextLength hopen hb hw]
        by_cases hsrc : src = []
        · simp [write, hopen, hsrc]
        · exact ⟨_, write_direct_eq env fuel _ src optionally nextLength hopen rfl hfree hsrc,
            rfl, rfl⟩

theorem uncork_some (env : Env) (fuel : Nat) (s : AsyncSocket) (src : List Byte)
    (optionally : Bool) :
    ∃ r, uncork env (fuel + 2) s src optionally = some r := by
  by_cases hheld : s.loopData.corkedSocket = some s.this
  · by_cases h0 : s.loopData.corkOffset = 0
    · obtain ⟨r, h1, _, _⟩ := write_uncorked_some env fuel
        { s with loopData := { s.loopData with corkedSocket := none } } src optionally 0 (by simp)
      exact ⟨r, by simpa [uncork, hheld, h0] using h1⟩
    · obtain ⟨r, h1, h2, h3⟩ := write_uncorked_some env fuel
        { s with loopData := { s.loopData with corkedSocket := none } }
        (readBytes s.loopData.corkBuffer s.loopData.corkOffset) false src.length (by simp)
      obtain ⟨r2, h4, _, _⟩ := write_uncorked_some env fuel
        { r.1 with loopData := { r.1.loopData with corkOffset := 0 } } src optionally 0
        (by simp [h2])
      cases hf : r.2.2
      · refine ⟨r2, ?_⟩
        simp [uncork, hheld, h0, h1, hf, h4]
      · simp [uncork, hheld, h0, h1, hf]
  · simp [uncork, hheld]

theorem write_some (env : Env) (fuel : Nat) (s : AsyncSocket) (src : List Byte)
    (optionally : Bool) (nextLength : Nat) :
    ∃ r, write env (fuel + 3) s src optionally nextLength = some r := by
  by_cases hfree : s.loopData.corkedSocket = some s.this
  · by_cases hc : s.closed = true
    · simp [write, hc]
    · have hopen : s.closed = false := by simpa using hc
      have key : ∀ t : AsyncSocket, t.closed = false → t.buffer = [] →
          ∃ r, write env (fuel + 3) t src optionally nextLength = some r := by
        intro t ho hb
        by_cases hsrc : src = []
        · simp [write, ho, hb, hsrc]
        · by_cases hheld : t.loopData.corkedSocket = some t.this
          · by_cases hfit : src.length ≤ corkRoom env t.loopData
            · simp [write, ho, hb, hsrc, hheld, hfit]
            · cases hssl : env.SSL
              · obtain ⟨r, hr⟩ := uncork_some env fuel t src optionally
                exact ⟨r, by simp [write, ho, hb, hsrc, hheld, hfit, hssl, hr]⟩
              · obtain ⟨r, hr⟩ := uncork_some env fuel
                  { t with loopData := { t.loopData with
                      corkBuffer := memcpy t.loopData.corkBuffer t.loopData.corkOffset
                        (src.take (corkRoom env t.loopData)),
                      corkOffset := env.CORK_BUFFER_SIZE } }
                  (src.drop (corkRoom env t.loopData)) optionally
                simp only [ho, hb, hheld] at hr
                exact ⟨(r.1, r.2.1 + corkRoom env t.loopData, r.2.2),
                  by simp [write, ho, hb, hsrc, hheld, hfit, hssl, hr]⟩
          · obtain ⟨r, hr, _, _⟩ := write_uncorked_some env (fuel + 2) t src optionally
              nextLength hheld
            exact ⟨r, hr⟩
      by_cases hb : s.buffer = []
      · exact key s hopen hb
      · by_cases hw : env.outcome s.syscalls.length s.buffer src.length < s.buffer.length
        · cases optionally <;> simp [write, hopen, hb, hw, us_socket_write]
        · rw [write_full_flush env (fuel + 2) s src optionally nextLength hopen hb hw]
          exact key _ hopen rfl
  · obtain ⟨r, hr, _, _⟩ := write_uncorked_some env (fuel + 2) s src optionally nextLength hfree
    exact ⟨r, hr⟩

/-! ## Delivery of mandatory writes -/

/-- C1. Exactly-once delivery fails on the code. On a plain connection with a
cork buffer of `C + 1` bytes whose socket is not writable, the call sequence
`cork(); write([1]); write(d)` with `d` of `C + 1` bytes ends with only the
byte `1` accounted for (transmitted, in the overflow buffer or corked), while
the data arguments concatenate to `1 :: d`: every byte of `d` is lost. -/
theorem write_sequence_loses_data (C fuel : Nat) :
    (run (stalledEnv false (C + 1)) (fuel + 3) freshSocket
        [.cork, .write [1], .write (List.replicate (C + 1) 2)]).map accounted = some [1] ∧
    payload [.cork, .write [1], .write (List.replicate (C + 1) 2)] =
      1 :: List.replicate (C + 1) 2 ∧
    [1] ≠ 1 :: List.replicate (C + 1) 2 := by
  refine ⟨?_, ?_, ?_⟩
  · simp [run, step, write, uncork, cork, corkRoom, accounted, us_socket_write, transmitted,
      readBytes, memcpy, List.range_succ, stalledEnv, freshSocket]
  · simp [payload]
  · simp [List.replicate_succ]

/-- C2. A mandatory write can report fewer bytes than `length`. On an open
connection that holds the cork slot with one byte corked, in a cork buffer of
`C + 1` bytes, with a socket that is not writable, `write(d, optionally = false)`
with `d` of `C + 1` bytes returns `(0, true)` on a plain transport and
`(C, true)` on an encrypted one, never `(C + 1, _)`; on the plain transport the
overflow buffer then holds only the corked byte, nothing was transmitted, the
cork buffer is empty and the slot is free, so no byte of `d` is held anywhere. -/
theorem mandatory_write_reports_short (C fuel : Nat) (ssl : Bool) :
    (write (stalledEnv ssl (C + 1)) (fuel + 3) corkedSocket (List.replicate (C + 1) 2)
        false 0).map (fun r => r.2) = some (if ssl then C else 0, true) ∧
    (if ssl then C else 0) ≠ (List.replicate (C + 1) (2 : Byte)).length ∧
    (write (stalledEnv false (C + 1)) (fuel + 3) corkedSocket (List.replicate (C + 1) 2)
        false 0).map (fun r => (r.1.buffer, transmitted r.1.syscalls,
          r.1.loopData.corkOffset, r.1.loopData.corkedSocket)) = some ([7], [], 0, none) := by
  refine ⟨?_, ?_, ?_⟩
  · cases ssl <;>
      simp [write, uncork, corkRoom, us_socket_write, readBytes, memcpy, stalledEnv,
        corkedSocket]
  · cases ssl <;> simp
  · simp [write, uncork, corkRoom, us_socket_write, transmitted, readBytes, memcpy,
      List.range_succ, stalledEnv, corkedSocket]

/-! ## Closed connections, empty data, flushing of the overflow buffer -/

/-- C3. On a closed connection `write` returns `(length, false)` and the whole
state is left as it was: no syscall is logged and the overflow buffer, the cork
buffer, the cork offset and the cork slot are unchanged, for every data,
`optionally` and `nextLength`. -/
theorem write_closed_reports_success (env : Env) (fuel : Nat) (s : AsyncSocket)
    (src : List Byte) (optionally : Bool) (nextLength : Nat) (hclosed : s.closed = true) :
    write env (fuel + 1) s src optionally nextLength = some (s, src.length, false) := by
  simp [write, hclosed]

/-- Witness for C3: a two-byte optional write on `closedSocket`. -/
theorem write_closed_reports_success_witness :
    closedSocket.closed = true ∧
    write oneByteEnv 1 closedSocket [1, 2] true 5 = some (closedSocket, 2, false) :=
  ⟨rfl, write_closed_reports_success oneByteEnv 0 closedSocket [1, 2] true 5 rfl⟩

/-- C4 as stated fails: on the open connection `pendingSocket`, whose overflow
buffer is `[10, 20]`, a write of empty data issues a flush syscall, drops the
transmitted byte from the overflow buffer and reports backpressure, instead of
returning `(0, false)` with no syscall and the buffer unchanged. -/
theorem write_empty_data_flushes_overflow :
    (write oneByteEnv 1 pendingSocket [] false 0).map
        (fun r => (r.2, r.1.buffer, r.1.syscalls)) =
      some ((0, true), [20], [⟨[10, 20], 0, 1⟩]) ∧
    write oneByteEnv 1 pendingSocket [] false 0 ≠ some (pendingSocket, 0, false) := by
  have h : (write oneByteEnv 1 pendingSocket [] false 0).map
      (fun r => (r.2, r.1.buffer, r.1.syscalls)) =
      some ((0, true), [20], [⟨[10, 20], 0, 1⟩]) := by decide
  refine ⟨h, ?_⟩
  intro hc
  rw [hc] at h
  revert h
  decide

/-- C4 (amended). On an open connection `write` with empty data returns
accepted = 0. With an empty overflow buffer it is a no-op: it returns
`(0, false)`, logs no syscall and leaves the whole state unchanged. With a
non-empty overflow buffer `B` it logs exactly one syscall, the flush of `B`; if
that transmits `w` bytes the overflow buffer becomes `B[w..]` and the result is
`(0, w < |B|)`; the cork buffer, cork offset and cork slot are unchanged. -/
theorem write_empty_data (env : Env) (fuel : Nat) (s : AsyncSocket) (optionally : Bool)
    (nextLength : Nat) (hopen : s.closed = false) :
    write env (fuel + 1) s [] optionally nextLength =
      if s.buffer = [] then some (s, 0, false)
      else some ({ s with
                   syscalls := s.syscalls ++
                     [⟨s.buffer, 0, env.outcome s.syscalls.length s.buffer 0⟩],
                   buffer := s.buffer.drop (env.outcome s.syscalls.length s.buffer 0) },
                 0, decide (env.outcome s.syscalls.length s.buffer 0 < s.buffer.length)) :=
  write_nil_eq env fuel s optionally nextLength hopen

/-- Witness for C4 (amended): empty data on the fresh connection. -/
theorem write_empty_data_witness :
    freshSocket.closed = false ∧
    write oneByteEnv 1 freshSocket [] true 0 = some (freshSocket, 0, false) :=
  ⟨rfl, write_empty_data oneByteEnv 0 freshSocket true 0 rfl⟩

/-- C5. Partial flush of the overflow buffer: on an open connection whose
overflow buffer `B` is non-empty, when the flush syscall transmits `w < |B|`
bytes, `write` logs that one syscall and nothing else, leaves the loop data
(cork slot, cork buffer, cork offset) untouched, and either returns `(0, true)`
with overflow buffer `B[w..]` (optional) or returns `(length, true)` with
overflow buffer `B[w..] ++ data` (mandatory). -/
theorem write_partial_flush (env : Env) (fuel : Nat) (s : AsyncSocket)
    (src : List Byte) (optionally : Bool) (nextLength : Nat)
    (hopen : s.closed = false) (hbuf : s.buffer ≠ [])
    (hshort : env.outcome s.syscalls.length s.buffer src.length < s.buffer.length) :
    write env (fuel + 1) s src optionally nextLength =
      some ({ s with
              syscalls := s.syscalls ++
                [⟨s.buffer, src.length, env.outcome s.syscalls.length s.buffer src.length⟩],
              buffer := if optionally
                then s.buffer.drop (env.outcome s.syscalls.length s.buffer src.length)
                else s.buffer.drop (env.outcome s.syscalls.length s.buffer src.length) ++ src },
            if optionally then 0 else src.length, true) := by
  cases optionally <;> simp [write, hopen, hbuf, hshort, us_socket_write]

/-- Witness for C5: a mandatory one-byte write on `pendingSocket` when the
flush transmits one of the two pending bytes. -/
theorem write_partial_flush_witness :
    pendingSocket.closed = false ∧ pendingSocket.buffer ≠ [] ∧
    oneByteEnv.outcome pendingSocket.syscalls.length pendingSocket.buffer [30].length
      < pendingSocket.buffer.length ∧
    write oneByteEnv 1 pendingSocket [30] false 0 =
      some ({ pendingSocket with syscalls := [⟨[10, 20], 1, 1⟩], buffer := [20, 30] },
        1, true) :=
  ⟨rfl, by decide, by decide,
    write_partial_flush oneByteEnv 0 pendingSocket [30] false 0 rfl (by decide) (by decide)⟩

/-- C6. Short write when not corked: on an open connection with an empty
overflow buffer that does not hold the cork slot, a write of non-empty data logs
exactly one syscall (for the data itself), whatever it returns. If it transmits
`w < length` bytes,
an optional write returns `(w, true)` with the overflow buffer still empty and a
mandatory write returns `(length, true)` with overflow buffer `data[w..]`; if it
transmits all `length` bytes the result is `(length, false)` with the overflow
buffer still empty. -/
theorem write_uncorked_one_syscall (env : Env) (fuel : Nat) (s : AsyncSocket)
    (src : List Byte) (optionally : Bool) (nextLength : Nat)
    (hopen : s.closed = false) (hbuf : s.buffer = [])
    (hfree : s.loopData.corkedSocket ≠ some s.this) (hsrc : src ≠ []) :
    (∃ r, write env (fuel + 1) s src optionally nextLength = some r ∧
      r.1.syscalls = s.syscalls ++ [⟨src, if nextLength ≠ 0 then 1 else 0,
        env.outcome s.syscalls.length src (if nextLength ≠ 0 then 1 else 0)⟩]) ∧
    (env.outcome s.syscalls.length src (if nextLength ≠ 0 then 1 else 0) < src.length →
      write env (fuel + 1) s src optionally nextLength =
        some ({ s with
                syscalls := s.syscalls ++ [⟨src, if nextLength ≠ 0 then 1 else 0,
                  env.outcome s.syscalls.length src (if nextLength ≠ 0 then 1 else 0)⟩],
                buffer := if optionally then []
                  else src.drop
                    (env.outcome s.syscalls.length src (if nextLength ≠ 0 then 1 else 0)) },
              if optionally
                then env.outcome s.syscalls.length src (if nextLength ≠ 0 then 1 else 0)
                else src.length,
              true)) ∧
    (env.outcome s.syscalls.length src (if nextLength ≠ 0 then 1 else 0) = src.length →
      write env (fuel + 1) s src optionally nextLength =
        some ({ s with
                syscalls := s.syscalls ++ [⟨src, if nextLength ≠ 0 then 1 else 0, src.length⟩],
                buffer := [] },
              src.length, false)) := by
  refine ⟨?_, ?_, ?_⟩
  · exact ⟨_, write_direct_eq env fuel s src optionally nextLength hopen hbuf hfree hsrc,
      by simp⟩
  · intro hshort
    simp only [ne_eq, ite_not] at hshort
    cases optionally <;> simp [write, hopen, hbuf, hfree, hsrc, hshort, us_socket_write]
  · intro hfull
    simp only [ne_eq, ite_not] at hfull
    simp [write, hopen, hbuf, hfree, hsrc, hfull, us_socket_write]

/-- Witness for C6: three bytes written on the fresh connection, mandatory with
one byte transmitted, and optional with all three transmitted. -/
theorem write_uncorked_one_syscall_witness :
    freshSocket.closed = false ∧ freshSocket.buffer = [] ∧
    freshSocket.loopData.corkedSocket ≠ some freshSocket.this ∧ ([1, 2, 3] : List Byte) ≠ [] ∧
    write oneByteEnv 1 freshSocket [1, 2, 3] false 4 =
      some ({ freshSocket with syscalls := [⟨[1, 2, 3], 1, 1⟩], buffer := [2, 3] }, 3, true) ∧
    write threeByteEnv 1 freshSocket [1, 2, 3] true 0 =
      some ({ freshSocket with syscalls := [⟨[1, 2, 3], 0, 3⟩], buffer := [] }, 3, false) :=
  ⟨rfl, rfl, by decide, by decide,
    (write_uncorked_one_syscall oneByteEnv 0 freshSocket [1, 2, 3] false 4
      rfl rfl (by decide) (by decide)).2.1 (by decide),
    (write_uncorked_one_syscall threeByteEnv 0 freshSocket [1, 2, 3] true 0
      rfl rfl (by decide) (by decide)).2.2 (by decide)⟩

/-! ## Corking -/

/-- C7. Cork fast path: on an open connection that holds the cork slot and has
an empty overflow buffer, a write of non-empty data with
`length ≤ CORK_BUFFER_SIZE - corkOffset` returns `(length, false)`, logs no
syscall, copies the data into the cork buffer at the old offset (so the corked
bytes become the old corked bytes followed by the data, and no byte outside the
copied range changes), adds exactly `length` to `corkOffset`, and leaves the
overflow buffer and the cork slot unchanged. -/
theorem write_cork_fast_path (env : Env) (fuel : Nat) (s : AsyncSocket)
    (src : List Byte) (optionally : Bool) (nextLength : Nat)
    (hopen : s.closed = false) (hheld : s.loopData.corkedSocket = some s.this)
    (hbuf : s.buffer = []) (hsrc : src ≠ [])
    (hfit : src.length ≤ env.CORK_BUFFER_SIZE - s.loopData.corkOffset) :
    write env (fuel + 1) s src optionally nextLength =
      some ({ s with loopData := { s.loopData with
                corkBuffer := memcpy s.loopData.corkBuffer s.loopData.corkOffset src,
                corkOffset := s.loopData.corkOffset + src.length } },
            src.length, false) ∧
    readBytes (memcpy s.loopData.corkBuffer s.loopData.corkOffset src)
        (s.loopData.corkOffset + src.length) =
      readBytes s.loopData.corkBuffer s.loopData.corkOffset ++ src ∧
    (∀ i, i < s.loopData.corkOffset ∨ s.loopData.corkOffset + src.length ≤ i →
      memcpy s.loopData.corkBuffer s.loopData.corkOffset src i = s.loopData.corkBuffer i) := by
  refine ⟨?_, readBytes_memcpy _ _ _, fun i hi => memcpy_outside _ _ _ i hi⟩
  have hle : s.loopData.corkOffset ≤ env.CORK_BUFFER_SIZE := by
    have := List.length_pos.2 hsrc
    omega
  simp [write, hopen, hheld, hbuf, hsrc, corkRoom_of_le env s.loopData hle, hfit]

/-- Witness for C7: two bytes written on `corkedSocket`, which has 15 of its 16
cork bytes free. -/
theorem write_cork_fast_path_witness :
    corkedSocket.closed = false ∧
    corkedSocket.loopData.corkedSocket = some corkedSocket.this ∧
    corkedSocket.buffer = [] ∧ ([5, 6] : List Byte) ≠ [] ∧
    [(5 : Byte), 6].length ≤ oneByteEnv.CORK_BUFFER_SIZE - corkedSocket.loopData.corkOffset ∧
    (write oneByteEnv 1 corkedSocket [5, 6] false 0 =
      some ({ corkedSocket with loopData := { corkedSocket.loopData with
                corkBuffer := memcpy corkedSocket.loopData.corkBuffer 1 [5, 6],
                corkOffset := 3 } },
            2, false) ∧
    readBytes (memcpy corkedSocket.loopData.corkBuffer 1 [5, 6]) 3 =
      readBytes corkedSocket.loopData.corkBuffer 1 ++ [5, 6] ∧
    (∀ i, i < 1 ∨ 3 ≤ i →
      memcpy corkedSocket.loopData.corkBuffer 1 [5, 6] i = corkedSocket.loopData.corkBuffer i)) :=
  ⟨rfl, rfl, rfl, by decide, by decide,
    write_cork_fast_path oneByteEnv 0 corkedSocket [5, 6] false 0 rfl rfl rfl
      (by decide) (by decide)⟩

/-- C8. Uncork by the holder: on an open connection that holds the cork slot,
`uncork()` without trailing data returns accepted = 0, leaves the slot free and
`corkOffset = 0`, and loses no corked byte: the bytes transmitted by the
syscalls of the call followed by the new overflow buffer are the old overflow
buffer followed by the old cork-buffer content. It returns backpressure = true
exactly when bytes remain in the overflow buffer; in particular the cork bytes a
failed flush did not send are in the overflow buffer. -/
theorem uncork_holder_flushes_cork (env : Env) (fuel : Nat) (s : AsyncSocket)
    (optionally : Bool) (hopen : s.closed = false)
    (hheld : s.loopData.corkedSocket = some s.this) :
    ∃ s1 bp calls, uncork env (fuel + 2) s [] optionally = some (s1, 0, bp) ∧
      s1.loopData.corkedSocket = none ∧ s1.loopData.corkOffset = 0 ∧
      s1.syscalls = s.syscalls ++ calls ∧
      transmitted calls ++ s1.buffer =
        s.buffer ++ readBytes s.loopData.corkBuffer s.loopData.corkOffset ∧
      (bp = true ↔ s1.buffer ≠ []) := by
  by_cases h0 : s.loopData.corkOffset = 0
  · obtain ⟨s1, bp, calls, h1, h2, _, _, h5, h6, h7⟩ :=
      write_uncorked_conserves env fuel
        { s with loopData := { s.loopData with corkedSocket := none } } [] optionally 0
        hopen (by simp) (Or.inr rfl)
    refine ⟨s1, bp, calls, ?_, by simp [h2], by simp [h2, h0], h5, ?_, h7⟩
    · simpa [uncork, hheld, h0] using h1
    · simpa [h0, readBytes] using h6
  · obtain ⟨s1, bp, calls, h1, h2, h3, h4, h5, h6, h7⟩ :=
      write_uncorked_conserves env fuel
        { s with loopData := { s.loopData with corkedSocket := none } }
        (readBytes s.loopData.corkBuffer s.loopData.corkOffset) false 0
        hopen (by simp) (Or.inl rfl)
    cases bp with
    | true =>
      refine ⟨{ s1 with loopData := { s1.loopData with corkOffset := 0 } }, true, calls,
        ?_, by simp [h2], rfl, h5, h6, h7⟩
      simp [uncork, hheld, h0, h1]
    | false =>
      have hb : s1.buffer = [] := by
        by_contra hne
        exact Bool.false_ne_true (h7.mpr hne)
      refine ⟨{ s1 with loopData := { s1.loopData with corkOffset := 0 } }, false, calls,
        ?_, by simp [h2], rfl, h5, h6, by simp [hb]⟩
      have hnil := write_nil_eq env fuel
        { s1 with loopData := { s1.loopData with corkOffset := 0 } } optionally 0 h4
      rw [if_pos hb] at hnil
      simp [uncork, hheld, h0, h1, hnil]

/-- Witness for C8: `uncork()` on `corkedSocket` while the socket is not
writable. -/
theorem uncork_holder_flushes_cork_witness :
    corkedSocket.closed = false ∧
    corkedSocket.loopData.corkedSocket = some corkedSocket.this ∧
    ∃ s1 bp calls, uncork (stalledEnv false 16) 2 corkedSocket [] false = some (s1, 0, bp) ∧
      s1.loopData.corkedSocket = none ∧ s1.loopData.corkOffset = 0 ∧
      s1.syscalls = corkedSocket.syscalls ++ calls ∧
      transmitted calls ++ s1.buffer =
        corkedSocket.buffer ++
          readBytes corkedSocket.loopData.corkBuffer corkedSocket.loopData.corkOffset ∧
      (bp = true ↔ s1.buffer ≠ []) :=
  ⟨rfl, rfl, uncork_holder_flushes_cork (stalledEnv false 16) 0 corkedSocket false rfl rfl⟩

/-- C9. `uncork` on a connection that does not hold the loop's cork slot returns
`(0, false)` and leaves the whole state as it was (no syscall is logged; cork
slot, cork buffer, cork offset and overflow buffer are unchanged), for every
trailing data, empty or not. -/
theorem uncork_not_holder_noop (env : Env) (fuel : Nat) (s : AsyncSocket)
    (src : List Byte) (optionally : Bool)
    (hfree : s.loopData.corkedSocket ≠ some s.this) :
    uncork env (fuel + 1) s src optionally = some (s, 0, false) := by
  simp [uncork, hfree]

/-- Witness for C9: `uncork` with two trailing bytes on `pendingSocket`. -/
theorem uncork_not_holder_noop_witness :
    pendingSocket.loopData.corkedSocket ≠ some pendingSocket.this ∧
    uncork oneByteEnv 1 pendingSocket [1, 2] false = some (pendingSocket, 0, false) :=
  ⟨by decide, uncork_not_holder_noop oneByteEnv 0 pendingSocket [1, 2] false (by decide)⟩

/-- C10. Cork exclusivity, in every loop state: at most one connection
satisfies `isCorked`; `canCork` is true exactly when no connection holds the
slot; and after `c.cork()` connection `c` holds the slot and no other connection
does. -/
theorem cork_exclusive (loopData : LoopData) :
    (∀ a b : Nat, isCorked a loopData = true → isCorked b loopData = true → a = b) ∧
    (canCork loopData = true ↔ ∀ c : Nat, isCorked c loopData = false) ∧
    (∀ c : Nat, isCorked c (cork c loopData) = true ∧
      ∀ d : Nat, d ≠ c → isCorked d (cork c loopData) = false) := by
  refine ⟨?_, ?_, ?_⟩
  · intro a b ha hb
    simp only [isCorked, beq_iff_eq] at ha hb
    rw [ha] at hb
    exact Option.some.inj hb
  · simp only [canCork, isCorked, beq_iff_eq]
    constructor
    · intro h c
      simp [h]
    · intro h
      cases hc : loopData.corkedSocket with
      | none => rfl
      | some c =>
        have := h c
        simp [hc] at this
  · intro c
    refine ⟨by simp [isCorked, cork], ?_⟩
    intro d hd
    simp only [isCorked, cork, beq_eq_false_iff_ne, ne_eq, Option.some.injEq]
    exact fun h => hd h.symm


/-! ## Properties of every `write` and `uncork` -/

theorem write_uncorked_spec (env : Env) (fuel : Nat) (s : AsyncSocket) (src : List Byte)
    (optionally : Bool) (nextLength : Nat)
    (hfree : s.loopData.corkedSocket ≠ some s.this) :
    ∃ s1 a bp, write env (fuel + 1) s src optionally nextLength = some (s1, a, bp) ∧
      s1.loopData = s.loopData ∧ s1.this = s.this ∧ s1.closed = s.closed ∧
      (bp = false → a = src.length ∧ (s.closed = false → s1.buffer = [])) := by
  by_cases hc : s.closed = true
  · exact ⟨s, src.length, false, by simp [write, hc], rfl, rfl, rfl, by simp [hc]⟩
  · have hopen : s.closed = false := by simpa using hc
    have key : ∀ t : AsyncSocket, t.closed = false → t.buffer = [] →
        t.loopData.corkedSocket ≠ some t.this →
        ∃ s1 a bp, write env (fuel + 1) t src optionally nextLength = some (s1, a, bp) ∧
          s1.loopData = t.loopData ∧ s1.this = t.this ∧ s1.closed = t.closed ∧
          (bp = false → a = src.length ∧ (t.closed = false → s1.buffer = [])) := by
      intro t ho hb hf
      by_cases hsrc : src = []
      · exact ⟨t, src.length, false, by simp [write, ho, hb, hsrc], rfl, rfl, rfl, by simp [hb]⟩
      · refine ⟨_, _, _, write_direct_eq env fuel t src optionally nextLength ho hb hf hsrc,
          rfl, rfl, rfl, ?_⟩
        intro hbp
        have hw : ¬ env.outcome t.syscalls.length src (if nextLength = 0 then 0 else 1)
            < src.length := by simpa using hbp
        simp [hw]
    by_cases hb : s.buffer = []
    · exact key s hopen hb hfree
    · by_cases hw : env.outcome s.syscalls.length s.buffer src.length < s.buffer.length
      · cases optionally
        · exact ⟨{ s with
              syscalls := s.syscalls ++
                [⟨s.buffer, src.length, env.outcome s.syscalls.length s.buffer src.length⟩],
              buffer := s.buffer.drop (env.outcome s.syscalls.length s.buffer src.length) ++ src },
            src.length, true, by simp [write, hopen, hb, hw, us_socket_write],
            rfl, rfl, rfl, by simp⟩
        · exact ⟨{ s with
              syscalls := s.syscalls ++
                [⟨s.buffer, src.length, env.outcome s.syscalls.length s.buffer src.length⟩],
              buffer := s.buffer.drop (env.outcome s.syscalls.length s.buffer src.length) },
            0, true, by simp [write, hopen, hb, hw, us_socket_write],
            rfl, rfl, rfl, by simp⟩
      · rw [write_full_flush env fuel s src optionally nextLength hopen hb hw]
        obtain ⟨s1, a, bp, h1, h2, h3, h4, h5⟩ := key
          { s with
            syscalls := s.syscalls ++
              [⟨s.buffer, src.length, env.outcome s.syscalls.length s.buffer src.length⟩],
            buffer := [] } hopen rfl hfree
        exact ⟨s1, a, bp, h1, h2, h3, h4, fun h => ⟨(h5 h).1, fun _ => (h5 h).2 hopen⟩⟩


theorem uncork_spec (env : Env) (fuel : Nat) (s : AsyncSocket) (src : List Byte)
    (optionally : Bool) :
    ∃ s1 a bp, uncork env (fuel + 2) s src optionally = some (s1, a, bp) ∧
      s1.this = s.this ∧ s1.closed = s.closed ∧
      (s.loopData.corkedSocket = some s.this →
        s1.loopData.corkedSocket = none ∧ s1.loopData.corkOffset = 0 ∧
        (bp = false → a = src.length ∧ (s.closed = false → s1.buffer = []))) ∧
      (s.loopData.corkedSocket ≠ some s.this → s1 = s ∧ a = 0 ∧ bp = false) := by
  by_cases hheld : s.loopData.corkedSocket = some s.this
  · by_cases h0 : s.loopData.corkOffset = 0
    · obtain ⟨s1, a, bp, h1, h2, h3, h4, h5⟩ := write_uncorked_spec env fuel
        { s with loopData := { s.loopData with corkedSocket := none } } src optionally 0 (by simp)
      refine ⟨s1, a, bp, by simpa [uncork, hheld, h0] using h1, h3, h4,
        fun _ => ⟨by simp [h2], by simp [h2, h0], h5⟩, fun h => absurd hheld h⟩
    · obtain ⟨s1, a1, bp1, h1, h2, h3, h4, _⟩ := write_uncorked_spec env fuel
        { s with loopData := { s.loopData with corkedSocket := none } }
        (readBytes s.loopData.corkBuffer s.loopData.corkOffset) false src.length (by simp)
      cases bp1 with
      | true =>
        refine ⟨{ s1 with loopData := { s1.loopData with corkOffset := 0 } }, 0, true,
          by simp [uncork, hheld, h0, h1], h3, h4,
          fun _ => ⟨by simp [h2], rfl, by simp⟩, fun h => absurd hheld h⟩
      | false =>
        obtain ⟨s2, a2, bp2, k1, k2, k3, k4, k5⟩ := write_uncorked_spec env fuel
          { s1 with loopData := { s1.loopData with corkOffset := 0 } } src optionally 0
          (by simp [h2])
        refine ⟨s2, a2, bp2, by simp [uncork, hheld, h0, h1, k1], by simp [k3, h3],
          by simp [k4, h4], fun _ => ⟨by simp [k2, h2], by simp [k2], ?_⟩,
          fun h => absurd hheld h⟩
        intro hb
        have := k5 hb
        exact ⟨this.1, fun hc => this.2 (by simpa [h4] using hc)⟩
  · exact ⟨s, 0, false, by simp [uncork, hheld], rfl, rfl, fun h => absurd h hheld,
      fun _ => ⟨rfl, rfl, rfl⟩⟩

theorem write_spec (env : Env) (fuel : Nat) (s : AsyncSocket) (src : List Byte)
    (optionally : Bool) (nextLength : Nat) :
    ∃ s1 a bp, write env (fuel + 3) s src optionally nextLength = some (s1, a, bp) ∧
      s1.this = s.this ∧ s1.closed = s.closed ∧
      (bp = false → a = src.length ∧ (s.closed = false → s1.buffer = [])) ∧
      (s.loopData.corkOffset ≤ env.CORK_BUFFER_SIZE →
        s1.loopData.corkOffset ≤ env.CORK_BUFFER_SIZE) := by
  by_cases hheld : s.loopData.corkedSocket = some s.this
  · by_cases hc : s.closed = true
    · exact ⟨s, src.length, false, by simp [write, hc], rfl, rfl, by simp [hc], id⟩
    · have hopen : s.closed = false := by simpa using hc
      have key : ∀ t : AsyncSocket, t.closed = false → t.buffer = [] →
          t.loopData.corkedSocket = some t.this →
          ∃ s1 a bp, write env (fuel + 3) t src optionally nextLength = some (s1, a, bp) ∧
            s1.this = t.this ∧ s1.closed = t.closed ∧
            (bp = false → a = src.length ∧ (t.closed = false → s1.buffer = [])) ∧
            (t.loopData.corkOffset ≤ env.CORK_BUFFER_SIZE →
              s1.loopData.corkOffset ≤ env.CORK_BUFFER_SIZE) := by
        intro t ho hb hh
        by_cases hsrc : src = []
        · exact ⟨t, src.length, false, by simp [write, ho, hb, hsrc], rfl, rfl, by simp [hb], id⟩
        · by_cases hfit : src.length ≤ corkRoom env t.loopData
          · refine ⟨{ t with loopData := { t.loopData with
                corkBuffer := memcpy t.loopData.corkBuffer t.loopData.corkOffset src,
                corkOffset := t.loopData.corkOffset + src.length } }, src.length, false,
              by simp [write, ho, hb, hsrc, hh, hfit], rfl, rfl, by simp [hb], ?_⟩
            intro hle
            rw [corkRoom_of_le env t.loopData hle] at hfit
            show t.loopData.corkOffset + src.length ≤ env.CORK_BUFFER_SIZE
            omega
          · cases hssl : env.SSL
            · obtain ⟨s1, a, bp, h1, h2, h3, h4, _⟩ := uncork_spec env fuel t src optionally
              refine ⟨s1, a, bp, by simp [write, ho, hb, hsrc, hh, hfit, hssl, h1], h2, h3,
                (h4 hh).2.2, fun _ => by simp [(h4 hh).2.1]⟩
            · obtain ⟨s1, a, bp, h1, h2, h3, h4, _⟩ := uncork_spec env fuel
                { t with loopData := { t.loopData with
                    corkBuffer := memcpy t.loopData.corkBuffer t.loopData.corkOffset
                      (src.take (corkRoom env t.loopData)),
                    corkOffset := env.CORK_BUFFER_SIZE } }
                (src.drop (corkRoom env t.loopData)) optionally
              have h4 := h4 hh
              refine ⟨s1, a + corkRoom env t.loopData, bp, ?_, h2, h3,
                ?_, fun _ => by simp [h4.2.1]⟩
              · simp only [ho, hb, hh] at h1
                simp [write, ho, hb, hsrc, hh, hfit, hssl, h1]
              · intro hbp
                have := h4.2.2 hbp
                refine ⟨?_, this.2⟩
                rw [this.1, List.length_drop]
                omega
      by_cases hb : s.buffer = []
      · exact key s hopen hb hheld
      · by_cases hw : env.outcome s.syscalls.length s.buffer src.length < s.buffer.length
        · cases optionally
          · exact ⟨{ s with
                syscalls := s.syscalls ++
                  [⟨s.buffer, src.length, env.outcome s.syscalls.length s.buffer src.length⟩],
                buffer := s.buffer.drop (env.outcome s.syscalls.length s.buffer src.length)
                  ++ src },
              src.length, true, by simp [write, hopen, hb, hw, us_socket_write],
              rfl, rfl, by simp, id⟩
          · exact ⟨{ s with
                syscalls := s.syscalls ++
                  [⟨s.buffer, src.length, env.outcome s.syscalls.length s.buffer src.length⟩],
                buffer := s.buffer.drop (env.outcome s.syscalls.length s.buffer src.length) },
              0, true, by simp [write, hopen, hb, hw, us_socket_write],
              rfl, rfl, by simp, id⟩
        · rw [write_full_flush env (fuel + 2) s src optionally nextLength hopen hb hw]
          obtain ⟨s1, a, bp, h1, h2, h3, h4, h5⟩ := key
            { s with
              syscalls := s.syscalls ++
                [⟨s.buffer, src.length, env.outcome s.syscalls.length s.buffer src.length⟩],
              buffer := [] } hopen rfl hheld
          exact ⟨s1, a, bp, h1, h2, h3, fun h => ⟨(h4 h).1, fun _ => (h4 h).2 hopen⟩, h5⟩
  · obtain ⟨s1, a, bp, h1, h2, h3, h4, h5⟩ :=
      write_uncorked_spec env (fuel + 2) s src optionally nextLength hheld
    exact ⟨s1, a, bp, h1, h3, h4, h5, fun h => by simpa [h2] using h⟩


theorem run_writes_uncorked (env : Env) (fuel : Nat) (datas : List (List Byte)) :
    ∀ s : AsyncSocket, s.closed = false → s.loopData.corkedSocket ≠ some s.this →
      ∃ s1 calls, run env (fuel + 1) s (datas.map Call.write) = some s1 ∧
        s1.closed = false ∧ s1.loopData = s.loopData ∧ s1.this = s.this ∧
        s1.syscalls = s.syscalls ++ calls ∧
        transmitted calls ++ s1.buffer = s.buffer ++ payload (datas.map Call.write) := by
  induction datas with
  | nil =>
    intro s hopen _
    exact ⟨s, [], rfl, hopen, rfl, rfl, by simp, by simp [transmitted, payload]⟩
  | cons d ds ih =>
    intro s hopen hfree
    obtain ⟨s1, bp, calls, h1, h2, h3, h4, h5, h6, _⟩ :=
      write_uncorked_conserves env fuel s d false 0 hopen hfree (Or.inl rfl)
    obtain ⟨s2, calls2, k1, k2, k3, k4, k5, k6⟩ := ih s1 h4 (by rw [h2, h3]; exact hfree)
    refine ⟨s2, calls ++ calls2, ?_, k2, by rw [k3, h2], by rw [k4, h3],
      by rw [k5, h5, List.append_assoc], ?_⟩
    · simp [run, step, h1, k1]
    · rw [transmitted_append, List.append_assoc, k6, ← List.append_assoc, h6]
      simp [payload]

/-! ## Invariants of the write engine -/

/-- C11. The cork offset never exceeds the capacity of the cork buffer: from
every state with `corkOffset ≤ CORK_BUFFER_SIZE`, for every data, every syscall
outcome and either transport, `write` and `uncork` return a state with
`corkOffset ≤ CORK_BUFFER_SIZE`, and so do `cork` (by any connection) and
`getSendBuffer` for every `size`, wrap-around of the unsigned sums included. -/
theorem corkOffset_within_capacity (env : Env) (fuel : Nat) (s : AsyncSocket)
    (src : List Byte) (optionally : Bool) (nextLength size other : Nat)
    (hinv : s.loopData.corkOffset ≤ env.CORK_BUFFER_SIZE) :
    (∃ r, write env (fuel + 3) s src optionally nextLength = some r ∧
      r.1.loopData.corkOffset ≤ env.CORK_BUFFER_SIZE) ∧
    (∃ r, uncork env (fuel + 2) s src optionally = some r ∧
      r.1.loopData.corkOffset ≤ env.CORK_BUFFER_SIZE) ∧
    (cork other s.loopData).corkOffset ≤ env.CORK_BUFFER_SIZE ∧
    (getSendBuffer env s size).1.loopData.corkOffset ≤ env.CORK_BUFFER_SIZE := by
  refine ⟨?_, ?_, hinv, ?_⟩
  · obtain ⟨s1, a, bp, h1, _, _, _, h5⟩ := write_spec env fuel s src optionally nextLength
    exact ⟨_, h1, h5 hinv⟩
  · obtain ⟨s1, a, bp, h1, _, _, h4, h5⟩ := uncork_spec env fuel s src optionally
    refine ⟨_, h1, ?_⟩
    by_cases hheld : s.loopData.corkedSocket = some s.this
    · simp [(h4 hheld).2.1]
    · simpa [(h5 hheld).1] using hinv
  · unfold getSendBuffer
    split
    · rename_i h
      have h2 := h.2
      show (s.loopData.corkOffset + size % 2 ^ 32) % 2 ^ 32 ≤ env.CORK_BUFFER_SIZE
      norm_num at h2 ⊢
      omega
    · exact hinv

/-- Witness for C11: the corked sample connection (offset 1 of 16). -/
theorem corkOffset_within_capacity_witness :
    corkedSocket.loopData.corkOffset ≤ oneByteEnv.CORK_BUFFER_SIZE ∧
    ((∃ r, write oneByteEnv 3 corkedSocket [1, 2] false 0 = some r ∧
      r.1.loopData.corkOffset ≤ oneByteEnv.CORK_BUFFER_SIZE) ∧
    (∃ r, uncork oneByteEnv 2 corkedSocket [1, 2] false = some r ∧
      r.1.loopData.corkOffset ≤ oneByteEnv.CORK_BUFFER_SIZE) ∧
    (cork 2 corkedSocket.loopData).corkOffset ≤ oneByteEnv.CORK_BUFFER_SIZE ∧
    (getSendBuffer oneByteEnv corkedSocket 4).1.loopData.corkOffset
      ≤ oneByteEnv.CORK_BUFFER_SIZE) :=
  ⟨by decide, corkOffset_within_capacity oneByteEnv 0 corkedSocket [1, 2] false 0 4 2
    (by decide)⟩

/-- Counterexample for C12: on a connection whose overflow buffer holds `2 ^ 32`
bytes `getBufferedAmount` is 0, not the length of the buffer. -/
theorem buffered_amount_wraps :
    getBufferedAmount { freshSocket with buffer := List.replicate (2 ^ 32) 0 } = 0 ∧
    ({ freshSocket with buffer := List.replicate (2 ^ 32) 0 } : AsyncSocket).buffer.length
      = 2 ^ 32 ∧
    getBufferedAmount { freshSocket with buffer := List.replicate (2 ^ 32) 0 } ≠
      ({ freshSocket with buffer := List.replicate (2 ^ 32) 0 } : AsyncSocket).buffer.length := by
  refine ⟨?_, ?_, ?_⟩
  · show toUnsignedInt (List.replicate (2 ^ 32) (0 : Byte)).length = 0
    rw [List.length_replicate]
    norm_num [toUnsignedInt]
  · show (List.replicate (2 ^ 32) (0 : Byte)).length = 2 ^ 32
    rw [List.length_replicate]
  · show toUnsignedInt (List.replicate (2 ^ 32) (0 : Byte)).length
      ≠ (List.replicate (2 ^ 32) (0 : Byte)).length
    rw [List.length_replicate]
    norm_num [toUnsignedInt]

/-- C12. Backpressure accounting, as the code has it. `getBufferedAmount` is the
length of the overflow buffer cast to `unsigned int`, that is modulo `2 ^ 32`:
it is the length itself as long as the buffer holds fewer than `2 ^ 32` bytes.
It does not depend on the loop data (cork slot, cork buffer, cork offset).
After any sequence of mandatory writes on an open connection that does not hold
the cork slot, the length of the overflow buffer is its old length plus the
total number of bytes passed to `write` minus the number of bytes the syscalls
of those writes transmitted, and `getBufferedAmount` is that number modulo
`2 ^ 32`. A write absorbed by the cork buffer (connection holds the slot,
overflow buffer empty, data fits) leaves it unchanged. -/
theorem buffered_amount_accounting (env : Env) (fuel : Nat) (s : AsyncSocket)
    (datas : List (List Byte)) (hopen : s.closed = false)
    (hfree : s.loopData.corkedSocket ≠ some s.this) :
    (getBufferedAmount s = s.buffer.length % 2 ^ 32 ∧
      (s.buffer.length < 2 ^ 32 → getBufferedAmount s = s.buffer.length) ∧
      ∀ loopData : LoopData, getBufferedAmount { s with loopData := loopData } =
        getBufferedAmount s) ∧
    (∃ s1 calls, run env (fuel + 1) s (datas.map Call.write) = some s1 ∧
      s1.syscalls = s.syscalls ++ calls ∧
      s1.buffer.length + (transmitted calls).length =
        s.buffer.length + (payload (datas.map Call.write)).length ∧
      getBufferedAmount s1 =
        (s.buffer.length + (payload (datas.map Call.write)).length
          - (transmitted calls).length) % 2 ^ 32 ∧
      (s.buffer.length + (payload (datas.map Call.write)).length
          - (transmitted calls).length < 2 ^ 32 →
        getBufferedAmount s1 =
          s.buffer.length + (payload (datas.map Call.write)).length
            - (transmitted calls).length)) ∧
    (∀ (t : AsyncSocket) (src : List Byte) (optionally : Bool) (nextLength : Nat),
      t.closed = false → t.loopData.corkedSocket = some t.this → t.buffer = [] → src ≠ [] →
      src.length ≤ env.CORK_BUFFER_SIZE - t.loopData.corkOffset →
      ∃ r, write env (fuel + 1) t src optionally nextLength = some r ∧
        getBufferedAmount r.1 = getBufferedAmount t) := by
  refine ⟨⟨rfl, fun h => Nat.mod_eq_of_lt h, fun _ => rfl⟩, ?_, ?_⟩
  · obtain ⟨s1, calls, h1, _, _, _, h5, h6⟩ := run_writes_uncorked env fuel datas s hopen hfree
    have hlen := congrArg List.length h6
    simp only [List.length_append] at hlen
    have hbuf : s1.buffer.length = s.buffer.length + (payload (datas.map Call.write)).length
        - (transmitted calls).length := by omega
    refine ⟨s1, calls, h1, h5, by omega, ?_, ?_⟩
    · simp only [getBufferedAmount, toUnsignedInt, hbuf]
    · intro hlt
      simp only [getBufferedAmount, toUnsignedInt, hbuf]
      exact Nat.mod_eq_of_lt hlt
  · intro t src optionally nextLength ho hh hb hsrc hfit
    have hle : t.loopData.corkOffset ≤ env.CORK_BUFFER_SIZE := by
      have := List.length_pos.2 hsrc
      omega
    exact ⟨({ t with loopData := { t.loopData with
        corkBuffer := memcpy t.loopData.corkBuffer t.loopData.corkOffset src,
        corkOffset := t.loopData.corkOffset + src.length } }, src.length, false),
      by simp [write, ho, hh, hb, hsrc, corkRoom_of_le env t.loopData hle, hfit], rfl⟩

/-- Witness for C12: two mandatory writes on the fresh connection. -/
theorem buffered_amount_accounting_witness :
    freshSocket.closed = false ∧
    freshSocket.loopData.corkedSocket ≠ some freshSocket.this ∧
    ∃ s1 calls, run oneByteEnv 1 freshSocket ([[1, 2], [3]].map Call.write) = some s1 ∧
      s1.syscalls = freshSocket.syscalls ++ calls ∧
      s1.buffer.length + (transmitted calls).length =
        freshSocket.buffer.length + (payload ([[1, 2], [3]].map Call.write)).length ∧
      getBufferedAmount s1 =
        (freshSocket.buffer.length + (payload ([[1, 2], [3]].map Call.write)).length
          - (transmitted calls).length) % 2 ^ 32 := by
  obtain ⟨s1, calls, h1, h2, h3, h4, _⟩ :=
    (buffered_amount_accounting oneByteEnv 0 freshSocket [[1, 2], [3]] rfl (by decide)).2.1
  exact ⟨rfl, by decide, s1, calls, h1, h2, h3, h4⟩

/-- C13. The overflow buffer is non-empty only under backpressure: on an open
connection every `write` (any data, optional or mandatory, corked or not, every
syscall outcome) that returns backpressure = false leaves the overflow buffer
empty; equivalently, a write that leaves it non-empty returns
backpressure = true. -/
theorem overflow_only_under_backpressure (env : Env) (fuel : Nat) (s : AsyncSocket)
    (src : List Byte) (optionally : Bool) (nextLength : Nat) (hopen : s.closed = false) :
    ∃ s1 a bp, write env (fuel + 3) s src optionally nextLength = some (s1, a, bp) ∧
      (bp = false → s1.buffer = []) ∧ (s1.buffer ≠ [] → bp = true) := by
  obtain ⟨s1, a, bp, h1, _, _, h4, _⟩ := write_spec env fuel s src optionally nextLength
  refine ⟨s1, a, bp, h1, fun h => (h4 h).2 hopen, fun hne => ?_⟩
  cases bp with
  | true => rfl
  | false => exact absurd ((h4 rfl).2 hopen) hne

/-- Witness for C13: a mandatory write on the connection with pending bytes. -/
theorem overflow_only_under_backpressure_witness :
    pendingSocket.closed = false ∧
    ∃ s1 a bp, write oneByteEnv 3 pendingSocket [1, 2] false 0 = some (s1, a, bp) ∧
      (bp = false → s1.buffer = []) ∧ (s1.buffer ≠ [] → bp = true) :=
  ⟨rfl, overflow_only_under_backpressure oneByteEnv 0 pendingSocket [1, 2] false 0 rfl⟩


/-! ## HTTP responses: what each method hands to the write engine -/

theorem toUnsignedInt_of_le (n : Nat) (h : n ≤ INT_MAX) : toUnsignedInt n = n := by
  unfold toUnsignedInt
  apply Nat.mod_eq_of_lt
  simp only [INT_MAX] at h
  omega

theorem intPrefix_of_le (data : List Byte) (h : data.length ≤ INT_MAX) :
    intPrefix data = data := by
  unfold intPrefix
  have : data.length % 2 ^ 32 = data.length := by
    apply Nat.mod_eq_of_lt
    simp only [INT_MAX] at h
    omega
  rw [this, List.take_length]

theorem intPrefix_nil : intPrefix [] = [] := rfl

@[simp]
theorem intPrefix_HTTP_200_OK : intPrefix HTTP_200_OK = HTTP_200_OK :=
  intPrefix_of_le _ (by decide)

@[simp]
theorem intPrefix_uWebSockets : intPrefix (bytes "uWebSockets") = bytes "uWebSockets" :=
  intPrefix_of_le _ (by decide)

@[simp]
theorem intPrefix_19 : intPrefix (bytes "19") = bytes "19" :=
  intPrefix_of_le _ (by decide)

@[simp]
theorem intPrefix_Connection : intPrefix (bytes "Connection") = bytes "Connection" :=
  intPrefix_of_le _ (by decide)

@[simp]
theorem intPrefix_close : intPrefix (bytes "close") = bytes "close" :=
  intPrefix_of_le _ (by decide)

@[simp]
theorem intPrefix_Transfer_Encoding :
    intPrefix (bytes "Transfer-Encoding") = bytes "Transfer-Encoding" :=
  intPrefix_of_le _ (by decide)

@[simp]
theorem intPrefix_chunked : intPrefix (bytes "chunked") = bytes "chunked" :=
  intPrefix_of_le _ (by decide)

theorem bind_spec {α β : Type} {m : Option α} {k : α → Option β} {P : α → Prop}
    {Q : β → Prop} (hm : ∃ a, m = some a ∧ P a) (hk : ∀ a, P a → ∃ b, k a = some b ∧ Q b) :
    ∃ b, (m >>= k) = some b ∧ Q b := by
  obtain ⟨a, ha, hp⟩ := hm
  obtain ⟨b, hb, hq⟩ := hk a hp
  exact ⟨b, by simp [ha, hb], hq⟩

theorem writes_chain {w0 w1 w2 es1 es2 : List WriteCall} (h1 : w1 = w0 ++ es1)
    (h2 : w2 = w1 ++ es2) : w2 = w0 ++ (es1 ++ es2) := by
  rw [h2, h1, List.append_assoc]

theorem status_called_eq (d : HttpResponseData) (h : d.HTTP_STATUS_CALLED = true) :
    { d with HTTP_STATUS_CALLED := true } = d := by
  cases d
  simp_all

theorem bodyAccepted_append (xs ys : List WriteCall) :
    bodyAccepted (xs ++ ys) = bodyAccepted xs + bodyAccepted ys := by
  simp [bodyAccepted]

theorem bodyAccepted_of_keys (es : List WriteCall) (K : List (Nat × List Byte))
    (hK : es.map WriteCall.key = K) (hno : 172 ∉ K.map Prod.fst) : bodyAccepted es = 0 := by
  have : es.filter (fun e => e.site = 172) = [] := by
    rw [List.filter_eq_nil_iff]
    intro e he
    have hmem : e.key ∈ K := by
      rw [← hK]
      exact List.mem_map_of_mem _ he
    have hfst : e.site ∈ K.map Prod.fst := List.mem_map_of_mem Prod.fst hmem
    simp only [decide_eq_true_eq]
    intro h172
    exact hno (h172 ▸ hfst)
  simp [bodyAccepted, this]

theorem internalEndFinish_spec (r : HttpResponse) (data : List Byte) (totalSize written : Nat)
    (failed : Bool) :
    (HttpResponse.internalEndFinish r data totalSize written failed).2
        = (written == data.length && !failed) ∧
    (HttpResponse.internalEndFinish r data totalSize written failed).1.noMark = r.noMark ∧
    (HttpResponse.internalEndFinish r data totalSize written failed).1.writes = r.writes ∧
    (HttpResponse.internalEndFinish r data totalSize written failed).1.timeouts =
      (if (written == data.length && !failed) = false ∨
          r.httpResponseData.offset + written = totalSize
        then r.timeouts ++ [HTTP_TIMEOUT_S] else r.timeouts) ∧
    (HttpResponse.internalEndFinish r data totalSize written failed).1.httpResponseData =
      (if r.httpResponseData.offset + written = totalSize
        then HttpResponse.markDone { r.httpResponseData with
          offset := r.httpResponseData.offset + written }
        else { r.httpResponseData with offset := r.httpResponseData.offset + written }) := by
  simp only [HttpResponse.internalEndFinish, HttpResponse.Super.timeout]
  refine ⟨trivial, ?_, ?_, ?_, ?_⟩
  · split <;> split <;> rfl
  · split <;> split <;> rfl
  · by_cases h1 : r.httpResponseData.offset + written = totalSize
    · simp [h1]
    · by_cases h2 : (written == data.length && !failed) = false
      · simp [h1, h2]
      · simp [h1, h2]
  · by_cases h1 : r.httpResponseData.offset + written = totalSize
    · by_cases h2 : (written == data.length && !failed) = false
      · simp [h1, h2]
      · simp [h1, h2]
    · by_cases h2 : (written == data.length && !failed) = false
      · simp [h1, h2]
      · simp [h1, h2]

theorem Super_write_spec (env : Env) (fuel : Nat) (site : Nat) (r : HttpResponse)
    (data : List Byte) (optionally : Bool) :
    ∃ x, HttpResponse.Super.write env (fuel + 3) site r data optionally = some x ∧
      (x.1.httpResponseData = r.httpResponseData ∧ x.1.noMark = r.noMark ∧
        x.1.timeouts = r.timeouts ∧
        x.1.writes = r.writes ++ [⟨site, data, optionally, x.2.1, x.2.2⟩] ∧
        (x.2.2 = false → x.2.1 = data.length)) := by
  obtain ⟨s1, a, bp, h1, _, _, h4, _⟩ := write_spec env fuel r.socket data optionally 0
  exact ⟨_, by simp [HttpResponse.Super.write, h1]; rfl, rfl, rfl, rfl, rfl,
    fun h => (h4 h).1⟩

theorem writeUnsignedHex_spec (env : Env) (fuel : Nat) (r : HttpResponse) (value : Nat) :
    ∃ r1, HttpResponse.writeUnsignedHex env (fuel + 3) r value = some r1 ∧
      (r1.httpResponseData = r.httpResponseData ∧ r1.noMark = r.noMark ∧
        r1.timeouts = r.timeouts ∧
        ∃ es, r1.writes = r.writes ++ es ∧ es.map WriteCall.key = [(61, u32toaHex value)]) := by
  unfold HttpResponse.writeUnsignedHex
  refine bind_spec (Super_write_spec env fuel _ _ _ _) ?_
  rintro ⟨r1, a1, f1⟩ ⟨h1, h2, h3, h4, _⟩
  exact ⟨r1, rfl, h1, h2, h3, _, h4, rfl⟩

theorem writeUnsigned64_spec (env : Env) (fuel : Nat) (r : HttpResponse) (value : Nat) :
    ∃ r1, HttpResponse.writeUnsigned64 env (fuel + 3) r value = some r1 ∧
      (r1.httpResponseData = r.httpResponseData ∧ r1.noMark = r.noMark ∧
        r1.timeouts = r.timeouts ∧
        ∃ es, r1.writes = r.writes ++ es ∧ es.map WriteCall.key = [(70, u64toa value)]) := by
  unfold HttpResponse.writeUnsigned64
  refine bind_spec (Super_write_spec env fuel _ _ _ _) ?_
  rintro ⟨r1, a1, f1⟩ ⟨h1, h2, h3, h4, _⟩
  exact ⟨r1, rfl, h1, h2, h3, _, h4, rfl⟩

theorem writeStatus_spec (env : Env) (fuel : Nat) (r : HttpResponse) (status : List Byte) :
    ∃ r1, HttpResponse.writeStatus env (fuel + 3) r status = some r1 ∧
      (r1.httpResponseData = { r.httpResponseData with HTTP_STATUS_CALLED := true } ∧
        r1.noMark = r.noMark ∧ r1.timeouts = r.timeouts ∧
        ∃ es, r1.writes = r.writes ++ es ∧ es.map WriteCall.key =
          if r.httpResponseData.HTTP_STATUS_CALLED then [] else statusLineKeys status) := by
  unfold HttpResponse.writeStatus
  by_cases hs : r.httpResponseData.HTTP_STATUS_CALLED = true
  · exact ⟨r, by simp [hs], (status_called_eq _ hs).symm, rfl, rfl, [], by simp, by simp [hs]⟩
  · have hs : r.httpResponseData.HTTP_STATUS_CALLED = false := by simpa using hs
    simp only [hs, Bool.false_eq_true, ↓reduceIte, pure_bind]
    refine bind_spec (Super_write_spec env fuel _ _ _ _) ?_
    rintro ⟨r1, a1, f1⟩ ⟨h11, h12, h13, h14, _⟩
    refine bind_spec (Super_write_spec env fuel _ _ _ _) ?_
    rintro ⟨r2, a2, f2⟩ ⟨h21, h22, h23, h24, _⟩
    refine bind_spec (Super_write_spec env fuel _ _ _ _) ?_
    rintro ⟨r3, a3, f3⟩ ⟨h31, h32, h33, h34, _⟩
    simp only at *
    refine ⟨r3, rfl, by rw [h31, h21, h11], by rw [h32, h22, h12], by rw [h33, h23, h13],
      _, writes_chain (writes_chain h14 h24) h34,
      by simp [WriteCall.key, statusLineKeys]⟩

theorem writeHeader_spec (env : Env) (fuel : Nat) (r : HttpResponse) (key value : List Byte) :
    ∃ r1, HttpResponse.writeHeader env (fuel + 3) r key value = some r1 ∧
      (r1.httpResponseData = { r.httpResponseData with HTTP_STATUS_CALLED := true } ∧
        r1.noMark = r.noMark ∧ r1.timeouts = r.timeouts ∧
        ∃ es, r1.writes = r.writes ++ es ∧ es.map WriteCall.key =
          (if r.httpResponseData.HTTP_STATUS_CALLED then [] else statusLineKeys HTTP_200_OK)
            ++ headerKeys key value) := by
  unfold HttpResponse.writeHeader
  refine bind_spec (writeStatus_spec env fuel _ _) ?_
  rintro r0 ⟨h01, h02, h03, es0, h04, h05⟩
  refine bind_spec (Super_write_spec env fuel _ _ _ _) ?_
  rintro ⟨r1, a1, f1⟩ ⟨h11, h12, h13, h14, _⟩
  refine bind_spec (Super_write_spec env fuel _ _ _ _) ?_
  rintro ⟨r2, a2, f2⟩ ⟨h21, h22, h23, h24, _⟩
  refine bind_spec (Super_write_spec env fuel _ _ _ _) ?_
  rintro ⟨r3, a3, f3⟩ ⟨h31, h32, h33, h34, _⟩
  refine bind_spec (Super_write_spec env fuel _ _ _ _) ?_
  rintro ⟨r4, a4, f4⟩ ⟨h41, h42, h43, h44, _⟩
  simp only at *
  refine ⟨r4, rfl, by rw [h41, h31, h21, h11, h01], by rw [h42, h32, h22, h12, h02],
    by rw [h43, h33, h23, h13, h03], _,
    writes_chain (writes_chain (writes_chain (writes_chain h04 h14) h24) h34) h44,
    by simp [WriteCall.key, headerKeys, h05]⟩

theorem writeMark_spec (env : Env) (fuel : Nat) (r : HttpResponse)
    (hs : r.httpResponseData.HTTP_STATUS_CALLED = true) :
    ∃ r1, HttpResponse.writeMark env (fuel + 3) r = some r1 ∧
      (r1.httpResponseData = r.httpResponseData ∧
        r1.noMark = r.noMark ∧ r1.timeouts = r.timeouts ∧
        ∃ es, r1.writes = r.writes ++ es ∧ es.map WriteCall.key =
          if r.noMark then [] else headerKeys (bytes "uWebSockets") (bytes "19")) := by
  unfold HttpResponse.writeMark
  cases hn : r.noMark
  · obtain ⟨r1, h1, h2, h3, h4, es, h5, h6⟩ :=
      writeHeader_spec env fuel r (bytes "uWebSockets") (bytes "19")
    refine ⟨r1, by simpa using h1, by rw [h2, status_called_eq _ hs], by rw [h3, hn], h4,
      es, h5, by simpa [hs] using h6⟩
  · exact ⟨r, by simp, rfl, hn, rfl, [], by simp, by simp⟩


theorem internalEndLoop_spec (env : Env) (fuel : Nat) (data : List Byte) (optional : Bool) :
    ∀ (n : Nat) (r : HttpResponse) (written : Nat), written ≤ data.length →
      data.length - written < n →
      ∃ x, HttpResponse.internalEndLoop env (fuel + 3) data optional n r written false = some x ∧
        (x.1.httpResponseData = r.httpResponseData ∧ x.1.noMark = r.noMark ∧
          x.1.timeouts = r.timeouts ∧
          ∃ es, x.1.writes = r.writes ++ es ∧
            (∀ e ∈ es, e.site = 172 ∧ e.optionally = optional) ∧
            x.2.1 = written + (es.map (fun e => e.accepted)).sum ∧
            (x.2.2 = false → x.2.1 = data.length ∧
              (es.map (fun e => e.data)).flatten = data.drop written) ∧
            (data.length - written ≤ INT_MAX →
              (es.map (fun e => e.data)).flatten = data.drop written) ∧
            (x.2.2 = true → ∃ e ∈ es, e.failed = true)) := by
  intro n
  induction n with
  | zero => intro r written _ h; omega
  | succ n ih =>
    intro r written hle hn
    by_cases hw : written < data.length
    · unfold HttpResponse.internalEndLoop
      simp only [hw, and_self, ↓reduceIte]
      refine bind_spec (Super_write_spec env fuel _ _ _ _) ?_
      rintro ⟨r1, a, f⟩ ⟨h1, h2, h3, h4, h5⟩
      simp only at h1 h2 h3 h4 h5 ⊢
      have hchunk : ((data.drop written).take (min (data.length - written) INT_MAX)).length
          = min (data.length - written) INT_MAX := by
        simp
      have hpos : 1 ≤ min (data.length - written) INT_MAX := by
        simp only [INT_MAX]
        omega
      cases f with
      | false =>
        have ha : a = min (data.length - written) INT_MAX := by rw [h5 rfl, hchunk]
        obtain ⟨x, hx, k1, k2, k3, es, k4, k5, k6, k7, k8, k9⟩ :=
          ih r1 (written + a) (by rw [ha]; omega) (by rw [ha]; omega)
        refine ⟨x, hx, by rw [k1, h1], by rw [k2, h2], by rw [k3, h3], _,
          writes_chain h4 k4, ?_, ?_, ?_, ?_, ?_⟩
        · intro e he
          rcases List.mem_append.mp he with h | h
          · simp only [List.mem_singleton] at h
            subst h
            exact ⟨rfl, rfl⟩
          · exact k5 e h
        · rw [k6]
          simp [Nat.add_assoc]
        · intro hf
          refine ⟨(k7 hf).1, ?_⟩
          simp only [List.map_append, List.map_cons, List.map_nil, List.flatten_append,
            List.flatten_cons, List.flatten_nil, List.append_nil, (k7 hf).2]
          rw [ha, ← List.drop_drop, List.take_append_drop]
        · intro hmax
          have hall : a = data.length - written := by
            rw [ha]
            exact Nat.min_eq_left hmax
          have hrest := k8 (by omega)
          simp only [List.map_append, List.map_cons, List.map_nil, List.flatten_append,
            List.flatten_cons, List.flatten_nil, List.append_nil, hrest]
          rw [Nat.min_eq_left hmax, ← List.drop_drop, hall, List.take_append_drop]
        · intro hf
          obtain ⟨e, he, hfe⟩ := k9 hf
          exact ⟨e, List.mem_append.mpr (Or.inr he), hfe⟩
      | true =>
        cases n with
        | zero => omega
        | succ m =>
          refine ⟨(r1, written + a, true), by simp [HttpResponse.internalEndLoop], h1, h2, h3,
            _, h4, ?_, by simp, by simp, ?_, ?_⟩
          · intro e he
            simp only [List.mem_singleton] at he
            subst he
            exact ⟨rfl, rfl⟩
          · intro hmax
            simp only [List.map_cons, List.map_nil, List.flatten_cons, List.flatten_nil,
              List.append_nil]
            rw [Nat.min_eq_left hmax]
            exact List.take_of_length_le (by simp)
          · intro _
            exact ⟨_, List.mem_singleton.mpr rfl, rfl⟩
    · have heq : written = data.length := by omega
      refine ⟨(r, written, false), by simp [HttpResponse.internalEndLoop, hw], rfl, rfl, rfl,
        [], by simp, by simp, by simp, ?_, ?_, by simp⟩
      · intro _
        exact ⟨heq, by simp [heq]⟩
      · intro _
        simp [heq]


theorem internalEndClose_spec (env : Env) (fuel : Nat) (r : HttpResponse)
    (closeConnection : Bool) (hs : r.httpResponseData.HTTP_STATUS_CALLED = true) :
    ∃ r1, HttpResponse.internalEndClose env (fuel + 3) r closeConnection = some r1 ∧
      (r1.httpResponseData = { r.httpResponseData with
          HTTP_CONNECTION_CLOSE := r.httpResponseData.HTTP_CONNECTION_CLOSE || closeConnection } ∧
        r1.noMark = r.noMark ∧ r1.timeouts = r.timeouts ∧
        ∃ es, r1.writes = r.writes ++ es ∧ es.map WriteCall.key =
          if closeConnection = true ∧ r.httpResponseData.HTTP_CONNECTION_CLOSE = false
            then headerKeys (bytes "Connection") (bytes "close") else []) := by
  unfold HttpResponse.internalEndClose
  cases closeConnection
  · refine ⟨r, by simp, ?_, rfl, rfl, [], by simp, by simp⟩
    cases hd : r.httpResponseData
    simp
  · rcases Bool.eq_false_or_eq_true r.httpResponseData.HTTP_CONNECTION_CLOSE with hcc | hcc
    · refine ⟨{ r with httpResponseData :=
          { r.httpResponseData with HTTP_CONNECTION_CLOSE := true } }, by simp [hcc], ?_, rfl,
        rfl, [], by simp, by simp [hcc]⟩
      simp
    · simp only [hcc, ↓reduceIte, pure_bind]
      refine bind_spec (writeHeader_spec env fuel _ _ _) ?_
      rintro r1 ⟨h1, h2, h3, es, h4, h5⟩
      refine ⟨_, rfl, ?_, h2, h3, es, h4, by simpa [hs] using h5⟩
      simp only [h1, Bool.or_true]
      cases hd : r.httpResponseData
      simp_all

theorem internalEndChunked_spec (env : Env) (fuel : Nat) (r : HttpResponse) (data : List Byte) :
    ∃ x, HttpResponse.internalEndChunked env (fuel + 3) r data = some x ∧
      (x.2 = true ∧ x.1.httpResponseData = HttpResponse.markDone r.httpResponseData ∧
        x.1.noMark = r.noMark ∧ x.1.timeouts = r.timeouts ++ [HTTP_TIMEOUT_S] ∧
        ∃ es, x.1.writes = r.writes ++ es ∧ es.map WriteCall.key =
          (if data = [] then []
            else [(128, bytes "\r\n"), (61, u32toaHex (toUnsignedInt data.length)), (130, bytes "\r\n"),
              (133, intPrefix data)]) ++ [(137, bytes "\r\n0\r\n\r\n")]) := by
  unfold HttpResponse.internalEndChunked
  by_cases hd : data = []
  · subst hd
    simp only [List.length_nil, ne_eq, not_true_eq_false, ↓reduceIte, pure_bind]
    refine bind_spec (Super_write_spec env fuel _ _ _ _) ?_
    rintro ⟨r5, a5, f5⟩ ⟨h51, h52, h53, h54, _⟩
    simp only at h51 h52 h53 h54
    exact ⟨_, rfl, rfl, by simp [HttpResponse.Super.timeout, h51],
      by simp [HttpResponse.Super.timeout, h52], by simp [HttpResponse.Super.timeout, h53], _, h54,
      by simp [WriteCall.key]⟩
  · have hlen : data.length ≠ 0 := by simpa using hd
    simp only [hlen, ne_eq, not_false_eq_true, ↓reduceIte]
    simp only [bind_assoc, pure_bind]
    refine bind_spec (Super_write_spec env fuel _ _ _ _) ?_
    rintro ⟨r1, a1, f1⟩ ⟨h11, h12, h13, h14, _⟩
    refine bind_spec (writeUnsignedHex_spec env fuel _ _) ?_
    rintro r2 ⟨h21, h22, h23, es2, h24, h25⟩
    refine bind_spec (Super_write_spec env fuel _ _ _ _) ?_
    rintro ⟨r3, a3, f3⟩ ⟨h31, h32, h33, h34, _⟩
    refine bind_spec (Super_write_spec env fuel _ _ _ _) ?_
    rintro ⟨r4, a4, f4⟩ ⟨h41, h42, h43, h44, _⟩
    refine bind_spec (Super_write_spec env fuel _ _ _ _) ?_
    rintro ⟨r5, a5, f5⟩ ⟨h51, h52, h53, h54, _⟩
    simp only at *
    refine ⟨_, rfl, rfl, by simp [HttpResponse.Super.timeout, h51, h41, h31, h21, h11],
      by simp [HttpResponse.Super.timeout, h52, h42, h32, h22, h12],
      by simp [HttpResponse.Super.timeout, h53, h43, h33, h23, h13], _,
      writes_chain (writes_chain (writes_chain (writes_chain h14 h24) h34) h44) h54,
      by simp [WriteCall.key, h25, hd]⟩

theorem internalEndFirst_spec (env : Env) (fuel : Nat) (r : HttpResponse) (totalSize : Nat)
    (allowContentLength : Bool) (hs : r.httpResponseData.HTTP_STATUS_CALLED = true) :
    ∃ r1, HttpResponse.internalEndFirst env (fuel + 3) r totalSize allowContentLength = some r1 ∧
      (r1.httpResponseData = { r.httpResponseData with HTTP_END_CALLED := true } ∧
        r1.noMark = r.noMark ∧ r1.timeouts = r.timeouts ∧
        ∃ es, r1.writes = r.writes ++ es ∧ es.map WriteCall.key =
          if r.httpResponseData.HTTP_END_CALLED = true then []
          else (if r.noMark then [] else headerKeys (bytes "uWebSockets") (bytes "19")) ++
            (if allowContentLength
              then [(153, bytes "Content-Length: "), (70, u64toa totalSize),
                (155, bytes "\r\n\r\n")]
              else [(157, bytes "\r\n")])) := by
  unfold HttpResponse.internalEndFirst
  rcases Bool.eq_false_or_eq_true r.httpResponseData.HTTP_END_CALLED with he | he
  · refine ⟨r, by simp [he], ?_, rfl, rfl, [], by simp, by simp [he]⟩
    cases hd : r.httpResponseData
    simp_all
  · simp only [he, ↓reduceIte, bind_assoc, pure_bind]
    refine bind_spec (writeMark_spec env fuel _ hs) ?_
    rintro r0 ⟨h01, h02, h03, es0, h04, h05⟩
    cases allowContentLength
    · simp only [Bool.false_eq_true, ↓reduceIte, bind_assoc, pure_bind]
      refine bind_spec (Super_write_spec env fuel _ _ _ _) ?_
      rintro ⟨r1, a1, f1⟩ ⟨h11, h12, h13, h14, _⟩
      simp only at *
      exact ⟨_, rfl, by simp [h11, h01], by simp [h12, h02], by simp [h13, h03], _,
        writes_chain h04 h14, by simp [WriteCall.key, h05, he]⟩
    · simp only [↓reduceIte, bind_assoc, pure_bind]
      refine bind_spec (Super_write_spec env fuel _ _ _ _) ?_
      rintro ⟨r1, a1, f1⟩ ⟨h11, h12, h13, h14, _⟩
      refine bind_spec (writeUnsigned64_spec env fuel _ _) ?_
      rintro r2 ⟨h21, h22, h23, es2, h24, h25⟩
      refine bind_spec (Super_write_spec env fuel _ _ _ _) ?_
      rintro ⟨r3, a3, f3⟩ ⟨h31, h32, h33, h34, _⟩
      simp only at *
      exact ⟨_, rfl, by simp [h31, h21, h11, h01], by simp [h32, h22, h12, h02],
        by simp [h33, h23, h13, h03], _,
        writes_chain (writes_chain (writes_chain h04 h14) h24) h34,
        by simp [WriteCall.key, h05, h25, he]⟩


theorem internalEnd_chunked_spec (env : Env) (fuel : Nat) (r : HttpResponse) (data : List Byte)
    (totalSize : Nat) (optional allowContentLength closeConnection : Bool)
    (hW : r.httpResponseData.HTTP_WRITE_CALLED = true) :
    ∃ x, HttpResponse.internalEnd env (fuel + 3) r data totalSize optional allowContentLength
        closeConnection = some x ∧
      (x.2 = true ∧
        x.1.httpResponseData = HttpResponse.markDone { r.httpResponseData with
          HTTP_STATUS_CALLED := true,
          HTTP_CONNECTION_CLOSE := r.httpResponseData.HTTP_CONNECTION_CLOSE || closeConnection } ∧
        x.1.noMark = r.noMark ∧ x.1.timeouts = r.timeouts ++ [HTTP_TIMEOUT_S] ∧
        ∃ es, x.1.writes = r.writes ++ es ∧ es.map WriteCall.key =
          (if r.httpResponseData.HTTP_STATUS_CALLED then [] else statusLineKeys HTTP_200_OK) ++
          (if closeConnection = true ∧ r.httpResponseData.HTTP_CONNECTION_CLOSE = false
            then headerKeys (bytes "Connection") (bytes "close") else []) ++
          (if data = [] then []
            else [(128, bytes "\r\n"), (61, u32toaHex (toUnsignedInt data.length)), (130, bytes "\r\n"),
              (133, intPrefix data)]) ++ [(137, bytes "\r\n0\r\n\r\n")]) := by
  unfold HttpResponse.internalEnd
  refine bind_spec (writeStatus_spec env fuel _ _) ?_
  rintro r0 ⟨h01, h02, h03, es0, h04, h05⟩
  refine bind_spec (internalEndClose_spec env fuel r0 closeConnection (by rw [h01])) ?_
  rintro r1 ⟨h11, h12, h13, es1, h14, h15⟩
  have hw1 : r1.httpResponseData.HTTP_WRITE_CALLED = true := by rw [h11, h01]; exact hW
  simp only [hw1, ↓reduceIte]
  obtain ⟨x, hx, k1, k2, k3, k4, es2, k5, k6⟩ := internalEndChunked_spec env fuel r1 data
  refine ⟨x, hx, k1, by rw [k2, h11, h01], by rw [k3, h12, h02], by rw [k4, h13, h03], _,
    writes_chain (writes_chain h04 h14) k5, ?_⟩
  simp only [List.map_append, h05, h15, k6, h01, List.append_assoc]

theorem bodyAccepted_of_sites (es : List WriteCall) (h : ∀ e ∈ es, e.site = 172) :
    bodyAccepted es = (es.map (fun e => e.accepted)).sum := by
  have : es.filter (fun e => e.site = 172) = es := by
    rw [List.filter_eq_self]
    intro e he
    simp [h e he]
  simp [bodyAccepted, this]

theorem internalEnd_length_spec (env : Env) (fuel : Nat) (r : HttpResponse) (data : List Byte)
    (totalSize : Nat) (optional allowContentLength closeConnection : Bool)
    (hW : r.httpResponseData.HTTP_WRITE_CALLED = false) :
    ∃ x, HttpResponse.internalEnd env (fuel + 3) r data totalSize optional allowContentLength
        closeConnection = some x ∧
      (x.1.noMark = r.noMark ∧
        ∃ es, x.1.writes = r.writes ++ es ∧
          x.1.httpResponseData =
            (if r.httpResponseData.offset + bodyAccepted es
                = (if totalSize = 0 then data.length else totalSize)
              then HttpResponse.markDone { r.httpResponseData with
                HTTP_STATUS_CALLED := true, HTTP_END_CALLED := true,
                HTTP_CONNECTION_CLOSE :=
                  r.httpResponseData.HTTP_CONNECTION_CLOSE || closeConnection,
                offset := r.httpResponseData.offset + bodyAccepted es }
              else { r.httpResponseData with
                HTTP_STATUS_CALLED := true, HTTP_END_CALLED := true,
                HTTP_CONNECTION_CLOSE :=
                  r.httpResponseData.HTTP_CONNECTION_CLOSE || closeConnection,
                offset := r.httpResponseData.offset + bodyAccepted es }) ∧
          x.1.timeouts =
            (if x.2 = false ∨ r.httpResponseData.offset + bodyAccepted es
                = (if totalSize = 0 then data.length else totalSize)
              then r.timeouts ++ [HTTP_TIMEOUT_S] else r.timeouts) ∧
          (x.2 = true → bodyAccepted es = data.length) ∧
          ∃ L, es.map WriteCall.key =
              (if r.httpResponseData.HTTP_STATUS_CALLED then [] else statusLineKeys HTTP_200_OK) ++
              (if closeConnection = true ∧ r.httpResponseData.HTTP_CONNECTION_CLOSE = false
                then headerKeys (bytes "Connection") (bytes "close") else []) ++
              (if r.httpResponseData.HTTP_END_CALLED = true then []
                else (if r.noMark then [] else headerKeys (bytes "uWebSockets") (bytes "19")) ++
                  (if allowContentLength
                    then [(153, bytes "Content-Length: "),
                      (70, u64toa (if totalSize = 0 then data.length else totalSize)),
                      (155, bytes "\r\n\r\n")]
                    else [(157, bytes "\r\n")])) ++ L ∧
            (∀ p ∈ L, p.1 = 172) ∧
            (x.2 = true ∨ data.length ≤ INT_MAX → (L.map Prod.snd).flatten = data)) := by
  unfold HttpResponse.internalEnd
  refine bind_spec (writeStatus_spec env fuel _ _) ?_
  rintro r0 ⟨h01, h02, h03, es0, h04, h05⟩
  refine bind_spec (internalEndClose_spec env fuel r0 closeConnection (by rw [h01])) ?_
  rintro r1 ⟨h11, h12, h13, es1, h14, h15⟩
  have hw1 : r1.httpResponseData.HTTP_WRITE_CALLED = false := by rw [h11, h01]; exact hW
  simp only [hw1, Bool.false_eq_true, ↓reduceIte]
  refine bind_spec (internalEndFirst_spec env fuel r1 _ allowContentLength
    (by rw [h11, h01])) ?_
  rintro r2 ⟨h21, h22, h23, es2, h24, h25⟩
  refine bind_spec (internalEndLoop_spec env fuel data optional (data.length + 1) r2 0
    (Nat.zero_le _) (by omega)) ?_
  rintro ⟨r3, written, failed⟩ ⟨h31, h32, h33, es3, h34, h35, h36, h37, h38, h39⟩
  simp only at h31 h32 h33 h34 h36 h37 h38 h39
  have hsites : ∀ e ∈ es3, e.site = 172 := fun e he => (h35 e he).1
  have hacc : bodyAccepted (es0 ++ es1 ++ es2 ++ es3) = written := by
    rw [bodyAccepted_append, bodyAccepted_append, bodyAccepted_append,
      bodyAccepted_of_keys es0 _ h05 (by split_ifs <;> simp [statusLineKeys]),
      bodyAccepted_of_keys es1 _ h15 (by split_ifs <;> simp [headerKeys]),
      bodyAccepted_of_keys es2 _ h25 (by split_ifs <;> simp [headerKeys]),
      bodyAccepted_of_sites es3 hsites, h36]
  obtain ⟨f1, f2, f3, f4, f5⟩ := internalEndFinish_spec r3 data
    (if totalSize = 0 then data.length else totalSize) written failed
  have hoff : r3.httpResponseData.offset = r.httpResponseData.offset := by
    rw [h31, h21, h11, h01]
  refine ⟨_, rfl, by rw [f2, h32, h22, h12, h02], es0 ++ es1 ++ es2 ++ es3,
    by rw [f3, h34, h24, h14, h04]; simp, ?_, ?_, ?_, es3.map WriteCall.key, ?_, ?_, ?_⟩
  · rw [f5, hacc, hoff, h31, h21, h11, h01]
  · rw [f4, f1, hacc, hoff, h33, h23, h13, h03]
  · rw [f1, hacc]
    intro h
    simp only [Bool.and_eq_true, beq_iff_eq] at h
    exact h.1
  · simp only [List.map_append, h05, h15, h25, h01, h11, h12, h02, List.append_assoc]
  · intro p hp
    obtain ⟨e, he, rfl⟩ := List.mem_map.mp hp
    exact hsites e he
  · have hmap : (es3.map WriteCall.key).map Prod.snd = es3.map (fun e => e.data) := by
      simp [WriteCall.key, Function.comp_def]
    rw [hmap, f1]
    rintro (h | h)
    · simp only [Bool.and_eq_true, beq_iff_eq, Bool.not_eq_true'] at h
      simpa using (h37 h.2).2
    · simpa using h38 (by simpa using h)


theorem http_write_empty (env : Env) (fuel : Nat) (r : HttpResponse)
    (hs : r.httpResponseData.HTTP_STATUS_CALLED = true) :
    HttpResponse.write env fuel r [] = some (r, true) := by
  simp [HttpResponse.write, HttpResponse.writeStatus, hs]

theorem http_write_spec (env : Env) (fuel : Nat) (r : HttpResponse) (data : List Byte) :
    ∃ x, HttpResponse.write env (fuel + 3) r data = some x ∧
      (x.1.noMark = r.noMark ∧
        x.1.httpResponseData = { r.httpResponseData with
          HTTP_STATUS_CALLED := true,
          HTTP_WRITE_CALLED := r.httpResponseData.HTTP_WRITE_CALLED || !data.isEmpty } ∧
        x.1.timeouts = (if x.2 = false then r.timeouts ++ [HTTP_TIMEOUT_S] else r.timeouts) ∧
        (data = [] → x.2 = true) ∧
        ∃ es, x.1.writes = r.writes ++ es ∧ es.map WriteCall.key =
          (if r.httpResponseData.HTTP_STATUS_CALLED then [] else statusLineKeys HTTP_200_OK) ++
          (if data = [] then []
            else (if r.httpResponseData.HTTP_WRITE_CALLED = true then []
                else (if r.noMark then [] else headerKeys (bytes "uWebSockets") (bytes "19")) ++
                  headerKeys (bytes "Transfer-Encoding") (bytes "chunked")) ++
              [(402, bytes "\r\n"), (61, u32toaHex (toUnsignedInt data.length)), (404, bytes "\r\n"),
                (406, intPrefix data)])) := by
  unfold HttpResponse.write
  refine bind_spec (writeStatus_spec env fuel _ _) ?_
  rintro r0 ⟨h01, h02, h03, es0, h04, h05⟩
  have hs0 : r0.httpResponseData.HTTP_STATUS_CALLED = true := by rw [h01]
  by_cases hd : data = []
  · subst hd
    refine ⟨(r0, true), by simp, h02, ?_, by simp [h03], by simp, es0, h04, by simp [h05]⟩
    rw [h01]
    cases hrd : r.httpResponseData
    simp
  · have hlen : ¬ data.length = 0 := by simpa using hd
    have hemp : data.isEmpty = false := by
      cases data with
      | nil => exact absurd rfl hd
      | cons _ _ => rfl
    simp only [hlen, ↓reduceIte, pure_bind]
    rcases Bool.eq_false_or_eq_true r.httpResponseData.HTTP_WRITE_CALLED with hw | hw
    · have hw0 : r0.httpResponseData.HTTP_WRITE_CALLED = true := by rw [h01]; exact hw
      simp only [hw0, Bool.true_eq_false, ↓reduceIte, pure_bind]
      refine bind_spec (Super_write_spec env fuel _ _ _ _) ?_
      rintro ⟨r1, a1, f1⟩ ⟨h11, h12, h13, h14, _⟩
      refine bind_spec (writeUnsignedHex_spec env fuel _ _) ?_
      rintro r2 ⟨h21, h22, h23, es2, h24, h25⟩
      refine bind_spec (Super_write_spec env fuel _ _ _ _) ?_
      rintro ⟨r3, a3, f3⟩ ⟨h31, h32, h33, h34, _⟩
      refine bind_spec (Super_write_spec env fuel _ _ _ _) ?_
      rintro ⟨r4, a4, f4⟩ ⟨h41, h42, h43, h44, _⟩
      simp only at *
      cases f4
      · refine ⟨_, rfl, by simp [h42, h32, h22, h12, h02], ?_,
          by simp [h43, h33, h23, h13, h03], by simp [hd], _,
          writes_chain (writes_chain (writes_chain (writes_chain h04 h14) h24) h34) h44,
          by simp [WriteCall.key, h05, h25, hd, hw]⟩
        simp only [Bool.false_eq_true, ↓reduceIte, h41, h31, h21, h11, h01, hw, hemp]
        cases hrd : r.httpResponseData
        simp_all
      · refine ⟨_, rfl, by simp [HttpResponse.Super.timeout, h42, h32, h22, h12, h02], ?_,
          by simp [HttpResponse.Super.timeout, h43, h33, h23, h13, h03], by simp [hd], _,
          writes_chain (writes_chain (writes_chain (writes_chain h04 h14) h24) h34) h44,
          by simp [WriteCall.key, h05, h25, hd, hw]⟩
        simp only [↓reduceIte, HttpResponse.Super.timeout, h41, h31, h21, h11, h01, hw, hemp]
        cases hrd : r.httpResponseData
        simp_all
    · have hw0 : r0.httpResponseData.HTTP_WRITE_CALLED = false := by rw [h01]; exact hw
      simp only [hw0, ↓reduceIte, bind_assoc, pure_bind]
      refine bind_spec (writeMark_spec env fuel _ hs0) ?_
      rintro ra ⟨ha1, ha2, ha3, esa, ha4, ha5⟩
      refine bind_spec (writeHeader_spec env fuel _ _ _) ?_
      rintro rb ⟨hb1, hb2, hb3, esb, hb4, hb5⟩
      refine bind_spec (Super_write_spec env fuel _ _ _ _) ?_
      rintro ⟨r1, a1, f1⟩ ⟨h11, h12, h13, h14, _⟩
      refine bind_spec (writeUnsignedHex_spec env fuel _ _) ?_
      rintro r2 ⟨h21, h22, h23, es2, h24, h25⟩
      refine bind_spec (Super_write_spec env fuel _ _ _ _) ?_
      rintro ⟨r3, a3, f3⟩ ⟨h31, h32, h33, h34, _⟩
      refine bind_spec (Super_write_spec env fuel _ _ _ _) ?_
      rintro ⟨r4, a4, f4⟩ ⟨h41, h42, h43, h44, _⟩
      simp only at *
      have hsa : ra.httpResponseData.HTTP_STATUS_CALLED = true := by rw [ha1]; exact hs0
      cases f4
      · refine ⟨_, rfl, by simp [h42, h32, h22, h12, hb2, ha2, h02], ?_,
          by simp [h43, h33, h23, h13, hb3, ha3, h03], by simp [hd], _,
          writes_chain (writes_chain (writes_chain (writes_chain (writes_chain
            (writes_chain h04 ha4) hb4) h14) h24) h34) h44,
          by simp [WriteCall.key, h05, h25, ha5, hb5, hsa, hd, hw, h02]⟩
        simp only [Bool.false_eq_true, ↓reduceIte, h41, h31, h21, h11, hb1, ha1, h01, hw, hemp]
        cases hrd : r.httpResponseData
        simp_all
      · refine ⟨_, rfl,
          by simp [HttpResponse.Super.timeout, h42, h32, h22, h12, hb2, ha2, h02], ?_,
          by simp [HttpResponse.Super.timeout, h43, h33, h23, h13, hb3, ha3, h03],
          by simp [hd], _,
          writes_chain (writes_chain (writes_chain (writes_chain (writes_chain
            (writes_chain h04 ha4) hb4) h14) h24) h34) h44,
          by simp [WriteCall.key, h05, h25, ha5, hb5, hsa, hd, hw, h02]⟩
        simp only [↓reduceIte, HttpResponse.Super.timeout, h41, h31, h21, h11, hb1, ha1, h01,
          hw, hemp]
        cases hrd : r.httpResponseData
        simp_all


theorem emitted_of_writes (r r1 : HttpResponse) (es : List WriteCall)
    (K : List (Nat × List Byte)) (hw : r1.writes = r.writes ++ es)
    (hK : es.map WriteCall.key = K) :
    r1.emitted = r.emitted ++ (K.map Prod.snd).flatten := by
  subst hK
  simp [HttpResponse.emitted, hw, WriteCall.key, Function.comp_def]

/-! ## HTTP responses: claims -/

/-- C17. In content-length mode (`HTTP_WRITE_CALLED` clear) every `internalEnd`
call, hence every `end` and `tryEnd`, returns, and it adds to the stored write
offset exactly the number of body bytes the write engine accepted in the call
(the accepted counts of the `Super::write` calls of the body loop it logged).
It marks the response Done (clears response-pending and the `onAborted` /
`onWritable` callbacks) if the resulting offset equals `totalSize`, and leaves
them as they were otherwise, where a `totalSize` of 0 stands for the length of
`data`; `end` passes the length of `data` and `tryEnd` its own argument. -/
theorem end_advances_offset (env : Env) (fuel : Nat) (r : HttpResponse) (data : List Byte)
    (totalSize : Nat) (optional allowContentLength closeConnection : Bool)
    (hmode : r.httpResponseData.HTTP_WRITE_CALLED = false) :
    (∃ x es, HttpResponse.internalEnd env (fuel + 3) r data totalSize optional
        allowContentLength closeConnection = some x ∧
      x.1.writes = r.writes ++ es ∧
      HttpResponse.getWriteOffset x.1 = HttpResponse.getWriteOffset r + bodyAccepted es ∧
      (HttpResponse.getWriteOffset x.1 = (if totalSize = 0 then data.length else totalSize) →
        x.1.httpResponseData.HTTP_RESPONSE_PENDING = false ∧
        HttpResponse.hasResponded x.1 = true ∧
        x.1.httpResponseData.onAborted = none ∧ x.1.httpResponseData.onWritable = none) ∧
      (HttpResponse.getWriteOffset x.1 ≠ (if totalSize = 0 then data.length else totalSize) →
        x.1.httpResponseData.HTTP_RESPONSE_PENDING =
          r.httpResponseData.HTTP_RESPONSE_PENDING ∧
        x.1.httpResponseData.onAborted = r.httpResponseData.onAborted ∧
        x.1.httpResponseData.onWritable = r.httpResponseData.onWritable)) ∧
    HttpResponse.end_ env (fuel + 3) r data closeConnection =
      (HttpResponse.internalEnd env (fuel + 3) r data data.length false true
        closeConnection).map (fun x => x.1) ∧
    HttpResponse.tryEnd env (fuel + 3) r data totalSize =
      (HttpResponse.internalEnd env (fuel + 3) r data totalSize true true false).map
        (fun x => (x.1, x.2, HttpResponse.hasResponded x.1)) := by
  refine ⟨?_, ?_, ?_⟩
  · obtain ⟨x, hx, _, es, h1, h2, _, _, _⟩ := internalEnd_length_spec env fuel r data totalSize
      optional allowContentLength closeConnection hmode
    have hoffx : x.1.httpResponseData.offset = r.httpResponseData.offset + bodyAccepted es := by
      rw [h2]
      by_cases h : r.httpResponseData.offset + bodyAccepted es
          = (if totalSize = 0 then data.length else totalSize)
      · rw [if_pos h]
        rfl
      · rw [if_neg h]
    refine ⟨x, es, hx, h1, hoffx, ?_, ?_⟩
    · intro hoff
      have hoff2 : r.httpResponseData.offset + bodyAccepted es
          = (if totalSize = 0 then data.length else totalSize) := by
        rw [← hoff, HttpResponse.getWriteOffset, hoffx]
      rw [HttpResponse.hasResponded, h2, if_pos hoff2]
      simp [HttpResponse.markDone]
    · intro hoff
      have hoff2 : ¬ r.httpResponseData.offset + bodyAccepted es
          = (if totalSize = 0 then data.length else totalSize) := by
        intro h
        apply hoff
        rw [HttpResponse.getWriteOffset, hoffx]
        exact h
      rw [h2, if_neg hoff2]
      exact ⟨rfl, rfl, rfl⟩
  · simp only [HttpResponse.end_]
    cases HttpResponse.internalEnd env (fuel + 3) r data data.length false true closeConnection
      <;> rfl
  · simp only [HttpResponse.tryEnd]
    cases HttpResponse.internalEnd env (fuel + 3) r data totalSize true true false <;> rfl

/-- Witness for C17: `tryEnd` of three bytes of a five-byte body on a response
that has not started. -/
theorem end_advances_offset_witness :
    (freshResponse false).httpResponseData.HTTP_WRITE_CALLED = false ∧
    ∃ x es, HttpResponse.internalEnd oneByteEnv 3 (freshResponse false) [1, 2, 3] 5 true
        true false = some x ∧
      x.1.writes = (freshResponse false).writes ++ es ∧
      HttpResponse.getWriteOffset x.1 =
        HttpResponse.getWriteOffset (freshResponse false) + bodyAccepted es :=
  ⟨rfl, by
    obtain ⟨x, es, h1, h2, h3, _⟩ :=
      (end_advances_offset oneByteEnv 0 (freshResponse false) [1, 2, 3] 5 true true false
        rfl).1
    exact ⟨x, es, h1, h2, h3⟩⟩

/-- C20. `markDone` clears the `onAborted` and `onWritable` callbacks and the
response-pending flag, so `hasResponded()` is true afterwards; it leaves the
other four state flags, the write offset and the `onData` handler (`inStream`)
unchanged; and applying it twice is the same as applying it once. -/
theorem markDone_clears_pending (r : HttpResponse) :
    (HttpResponse.markDone r.httpResponseData).onAborted = none ∧
    (HttpResponse.markDone r.httpResponseData).onWritable = none ∧
    (HttpResponse.markDone r.httpResponseData).HTTP_RESPONSE_PENDING = false ∧
    HttpResponse.hasResponded
      { r with httpResponseData := HttpResponse.markDone r.httpResponseData } = true ∧
    (HttpResponse.markDone r.httpResponseData).HTTP_STATUS_CALLED
      = r.httpResponseData.HTTP_STATUS_CALLED ∧
    (HttpResponse.markDone r.httpResponseData).HTTP_WRITE_CALLED
      = r.httpResponseData.HTTP_WRITE_CALLED ∧
    (HttpResponse.markDone r.httpResponseData).HTTP_END_CALLED
      = r.httpResponseData.HTTP_END_CALLED ∧
    (HttpResponse.markDone r.httpResponseData).HTTP_CONNECTION_CLOSE
      = r.httpResponseData.HTTP_CONNECTION_CLOSE ∧
    (HttpResponse.markDone r.httpResponseData).offset = r.httpResponseData.offset ∧
    (HttpResponse.markDone r.httpResponseData).inStream = r.httpResponseData.inStream ∧
    HttpResponse.markDone (HttpResponse.markDone r.httpResponseData)
      = HttpResponse.markDone r.httpResponseData := by
  simp [HttpResponse.markDone, HttpResponse.hasResponded]


theorem run_append (env : Env) (fuel : Nat) (cs1 cs2 : List HttpCall) :
    ∀ r : HttpResponse, HttpResponse.run env fuel r (cs1 ++ cs2) =
      (HttpResponse.run env fuel r cs1).bind (fun r1 => HttpResponse.run env fuel r1 cs2) := by
  induction cs1 with
  | nil => intro r; simp [HttpResponse.run]
  | cons c cs ih =>
    intro r
    simp only [List.cons_append, HttpResponse.run]
    cases HttpResponse.step env fuel r c with
    | none => rfl
    | some r1 => simp [ih]

theorem run_headers (env : Env) (fuel : Nat) (hs : List (List Byte × List Byte)) :
    ∀ r : HttpResponse, ∃ r1,
      HttpResponse.run env (fuel + 3) r (hs.map (fun h => HttpCall.writeHeader h.1 h.2))
        = some r1 ∧
      r1.noMark = r.noMark ∧
      r1.httpResponseData = (if hs = [] then r.httpResponseData
        else { r.httpResponseData with HTTP_STATUS_CALLED := true }) ∧
      r1.emitted = r.emitted ++
        (if r.httpResponseData.HTTP_STATUS_CALLED = true ∨ hs = [] then []
          else statusLine HTTP_200_OK) ++
        (hs.map (fun h => headerLine (intPrefix h.1) (intPrefix h.2))).flatten := by
  induction hs with
  | nil => intro r; exact ⟨r, rfl, rfl, rfl, by simp⟩
  | cons h hs ih =>
    intro r
    obtain ⟨r1, h1, h2, h3, h4, es, h5, h6⟩ := writeHeader_spec env fuel r h.1 h.2
    obtain ⟨r2, k1, k2, k3, k4⟩ := ih r1
    refine ⟨r2, by simp [HttpResponse.run, HttpResponse.step, h1, k1], by rw [k2, h3], ?_, ?_⟩
    · rw [k3, h2]
      split <;> simp
    · rw [k4, emitted_of_writes r r1 es _ h5 h6, h2]
      by_cases hs' : r.httpResponseData.HTTP_STATUS_CALLED = true
      · simp [hs', headerKeys, headerLine]
      · simp [hs', headerKeys, headerLine, statusLineKeys, statusLine]

theorem run_writes (env : Env) (fuel : Nat) (ds : List (List Byte)) (hds : ∀ d ∈ ds, d ≠ []) :
    ∀ r : HttpResponse, ∃ r1 es,
      HttpResponse.run env (fuel + 3) r (ds.map HttpCall.write) = some r1 ∧
      r1.noMark = r.noMark ∧
      r1.httpResponseData.HTTP_STATUS_CALLED
        = (r.httpResponseData.HTTP_STATUS_CALLED || !ds.isEmpty) ∧
      r1.httpResponseData.HTTP_WRITE_CALLED
        = (r.httpResponseData.HTTP_WRITE_CALLED || !ds.isEmpty) ∧
      r1.writes = r.writes ++ es ∧
      es.map WriteCall.key =
        (if r.httpResponseData.HTTP_STATUS_CALLED = true ∨ ds = [] then []
          else statusLineKeys HTTP_200_OK) ++
        (if r.httpResponseData.HTTP_WRITE_CALLED = true ∨ ds = [] then []
          else (if r.noMark then [] else headerKeys (bytes "uWebSockets") (bytes "19")) ++
            headerKeys (bytes "Transfer-Encoding") (bytes "chunked")) ++
        (ds.map (fun d => [(402, bytes "\r\n"), (61, u32toaHex (toUnsignedInt d.length)), (404, bytes "\r\n"),
          (406, intPrefix d)])).flatten := by
  induction ds with
  | nil => intro r; exact ⟨r, [], rfl, rfl, by simp, by simp, by simp, by simp⟩
  | cons d ds ih =>
    intro r
    have hd : d ≠ [] := hds d (List.mem_cons_self _ _)
    obtain ⟨x, hx, h1, h2, _, _, es, h5, h6⟩ := http_write_spec env fuel r d
    obtain ⟨r2, es2, k1, k2, k3, k4, k5, k6⟩ :=
      ih (fun e he => hds e (List.mem_cons_of_mem _ he)) x.1
    have hemp : d.isEmpty = false := by
      cases d with
      | nil => exact absurd rfl hd
      | cons _ _ => rfl
    refine ⟨r2, es ++ es2, by simp [HttpResponse.run, HttpResponse.step, hx, k1],
      by rw [k2, h1], by simp [k3, h2], by simp [k4, h2, hemp], writes_chain h5 k5, ?_⟩
    rw [List.map_append, h6, k6, h2, h1]
    simp [hd, hemp]

theorem chunk_regroup (ds : List (List Byte)) (tail : List Byte) :
    ((ds.map (fun d => [(402, bytes "\r\n"), (61, u32toaHex d.length), (404, bytes "\r\n"),
        (406, d)])).flatten.map Prod.snd).flatten ++ (bytes "\r\n" ++ tail) =
      bytes "\r\n" ++ ((ds.map (fun d => u32toaHex d.length ++ bytes "\r\n" ++ d
        ++ bytes "\r\n")).flatten ++ tail) := by
  induction ds with
  | nil => simp
  | cons d ds ih =>
    simp only [List.map_cons, List.flatten_cons, List.map_append, List.flatten_append,
      List.map_nil, List.flatten_nil, List.append_nil, List.append_assoc, List.nil_append,
      List.cons_append] at ih ⊢
    rw [ih]


theorem mark_ne_transfer_encoding : bytes "uWebSockets" ≠ bytes "Transfer-Encoding" := by
  decide

theorem chunk_keys_count (ds : List (List Byte)) :
    ((ds.map (fun d => [(402, bytes "\r\n"), (61, u32toaHex d.length), (404, bytes "\r\n"),
        (406, d)])).flatten).count (353, bytes "Transfer-Encoding") = 0 := by
  induction ds with
  | nil => simp
  | cons d ds ih =>
    simp only [List.map_cons, List.flatten_cons, List.count_append, ih]
    simp [List.count_cons]

theorem statusPieces_append (xs ys : List WriteCall) :
    statusPieces (xs ++ ys) = statusPieces xs ++ statusPieces ys := by
  simp [statusPieces]

theorem statusPieces_of_keys (es : List WriteCall) (K : List (Nat × List Byte))
    (hK : es.map WriteCall.key = K) :
    statusPieces es =
      (K.filter (fun p => p.1 = 343 ∨ p.1 = 344 ∨ p.1 = 345)).map Prod.snd := by
  subst hK
  induction es with
  | nil => rfl
  | cons e es ih =>
    simp only [statusPieces, List.map_cons, List.filter_cons, WriteCall.key] at ih ⊢
    split <;> simp_all

theorem filter_body_sites (L : List (Nat × List Byte)) (h : ∀ p ∈ L, p.1 = 172) :
    L.filter (fun p => p.1 = 343 ∨ p.1 = 344 ∨ p.1 = 345) = [] := by
  rw [List.filter_eq_nil_iff]
  intro p hp
  simp [h p hp]

theorem step_status (env : Env) (fuel : Nat) (r : HttpResponse) (c : HttpCall) :
    ∃ r1, HttpResponse.step env (fuel + 3) r c = some r1 ∧
      r1.httpResponseData.HTTP_STATUS_CALLED = true ∧
      statusPieces r1.writes = statusPieces r.writes ++
        (if r.httpResponseData.HTTP_STATUS_CALLED then []
          else [bytes "HTTP/1.1 ", callStatus c, bytes "\r\n"]) := by
  have hend : ∀ (data : List Byte) (totalSize : Nat) (optional cc : Bool),
      ∃ x, HttpResponse.internalEnd env (fuel + 3) r data totalSize optional true cc = some x ∧
        x.1.httpResponseData.HTTP_STATUS_CALLED = true ∧
        statusPieces x.1.writes = statusPieces r.writes ++
          (if r.httpResponseData.HTTP_STATUS_CALLED then []
            else [bytes "HTTP/1.1 ", HTTP_200_OK, bytes "\r\n"]) := by
    intro data totalSize optional cc
    rcases Bool.eq_false_or_eq_true r.httpResponseData.HTTP_WRITE_CALLED with hw | hw
    · obtain ⟨x, hx, _, k2, _, _, es, k5, k6⟩ := internalEnd_chunked_spec env fuel r data
        totalSize optional true cc hw
      refine ⟨x, hx, by simp [k2, HttpResponse.markDone], ?_⟩
      rw [k5, statusPieces_append, statusPieces_of_keys es _ k6]
      congr 1
      by_cases hd : data = [] <;> by_cases hs : r.httpResponseData.HTTP_STATUS_CALLED = true <;>
        by_cases hc : (cc = true ∧ r.httpResponseData.HTTP_CONNECTION_CLOSE = false) <;>
        simp [hd, hs, hc, statusLineKeys, headerKeys, List.filter_cons]
    · obtain ⟨x, hx, _, es, k2, k3, _, _, L, k4, k5, _⟩ := internalEnd_length_spec env fuel r data
        totalSize optional true cc hw
      refine ⟨x, hx, ?_, ?_⟩
      · rw [k3]
        split_ifs <;> rfl
      · rw [k2, statusPieces_append, statusPieces_of_keys es _ k4]
        congr 1
        simp only [List.filter_append, filter_body_sites L k5, List.append_nil]
        by_cases he : r.httpResponseData.HTTP_END_CALLED = true <;>
          by_cases hs : r.httpResponseData.HTTP_STATUS_CALLED = true <;>
          by_cases hc : (cc = true ∧ r.httpResponseData.HTTP_CONNECTION_CLOSE = false) <;>
          cases r.noMark <;>
          simp [he, hs, hc, statusLineKeys, headerKeys, List.filter_cons]
  cases c with
  | writeStatus status =>
    obtain ⟨r1, h1, h2, _, _, es, h5, h6⟩ := writeStatus_spec env fuel r status
    refine ⟨r1, h1, by rw [h2], ?_⟩
    rw [h5, statusPieces_append, statusPieces_of_keys es _ h6]
    by_cases hs : r.httpResponseData.HTTP_STATUS_CALLED = true <;>
      simp [hs, statusLineKeys, List.filter_cons, callStatus]
  | writeHeader key value =>
    obtain ⟨r1, h1, h2, _, _, es, h5, h6⟩ := writeHeader_spec env fuel r key value
    refine ⟨r1, h1, by rw [h2], ?_⟩
    rw [h5, statusPieces_append, statusPieces_of_keys es _ h6]
    by_cases hs : r.httpResponseData.HTTP_STATUS_CALLED = true <;>
      simp [hs, statusLineKeys, headerKeys, List.filter_cons, callStatus]
  | write data =>
    obtain ⟨x, hx, _, h2, _, _, es, h5, h6⟩ := http_write_spec env fuel r data
    refine ⟨x.1, by simp [HttpResponse.step, hx], by rw [h2], ?_⟩
    rw [h5, statusPieces_append, statusPieces_of_keys es _ h6]
    by_cases hs : r.httpResponseData.HTTP_STATUS_CALLED = true <;>
      by_cases hd : data = [] <;>
      by_cases hw : r.httpResponseData.HTTP_WRITE_CALLED = true <;>
      cases r.noMark <;>
      simp [hs, hd, hw, statusLineKeys, headerKeys, List.filter_cons, callStatus]
  | end_ data closeConnection =>
    obtain ⟨x, hx, h2, h3⟩ := hend data data.length false closeConnection
    exact ⟨x.1, by simp [HttpResponse.step, HttpResponse.end_, hx], h2, by simpa [callStatus] using h3⟩
  | tryEnd data totalSize =>
    obtain ⟨x, hx, h2, h3⟩ := hend data totalSize true false
    exact ⟨x.1, by simp [HttpResponse.step, HttpResponse.tryEnd, hx], h2,
      by simpa [callStatus] using h3⟩

theorem run_status (env : Env) (fuel : Nat) (cs : List HttpCall) (r : HttpResponse) :
    ∃ r1, HttpResponse.run env (fuel + 3) r cs = some r1 ∧
      r1.httpResponseData.HTTP_STATUS_CALLED =
        (r.httpResponseData.HTTP_STATUS_CALLED || !cs.isEmpty) ∧
      statusPieces r1.writes = statusPieces r.writes ++
        (if r.httpResponseData.HTTP_STATUS_CALLED = true then []
          else match cs with
            | [] => []
            | c :: _ => [bytes "HTTP/1.1 ", callStatus c, bytes "\r\n"]) := by
  induction cs generalizing r with
  | nil => exact ⟨r, rfl, by simp, by simp⟩
  | cons c cs ih =>
    obtain ⟨r1, h1, h2, h3⟩ := step_status env fuel r c
    obtain ⟨r2, k1, k2, k3⟩ := ih r1
    refine ⟨r2, by simp [HttpResponse.run, h1, k1], by simp [k2, h2], ?_⟩
    rw [k3, h3, h2]
    simp

/-! ## Chunked mode and content-length mode -/

theorem writesContentLength_of_keys (es : List WriteCall) (K : List (Nat × List Byte))
    (hK : es.map WriteCall.key = K) :
    writesContentLength es = K.any (fun p => p.1 == 153) := by
  subst hK
  induction es with
  | nil => rfl
  | cons e es ih =>
    simp only [writesContentLength, List.any_cons, List.map_cons] at ih ⊢
    rw [ih]
    rfl

theorem writesTransferEncoding_of_keys (es : List WriteCall) (K : List (Nat × List Byte))
    (hK : es.map WriteCall.key = K) :
    writesTransferEncoding es =
      K.any (fun p => p.1 == 353 && p.2 == bytes "Transfer-Encoding") := by
  subst hK
  induction es with
  | nil => rfl
  | cons e es ih =>
    simp only [writesTransferEncoding, List.any_cons, List.map_cons] at ih ⊢
    rw [ih]
    rfl

theorem any_body_sites (L : List (Nat × List Byte)) (h : ∀ p ∈ L, p.1 = 172)
    (f : Nat × List Byte → Bool) (hf : ∀ p, p.1 = 172 → f p = false) :
    L.any f = false := by
  rw [List.any_eq_false]
  intro p hp
  simp [hf p (h p hp)]

theorem connection_ne_transfer_encoding :
    (bytes "Connection" == bytes "Transfer-Encoding") = false := by decide

theorem mark_key_ne_transfer_encoding :
    (bytes "uWebSockets" == bytes "Transfer-Encoding") = false := by decide

theorem internalEnd_modes (env : Env) (fuel : Nat) (r : HttpResponse) (data : List Byte)
    (totalSize : Nat) (optional cc : Bool) :
    ∃ x es, HttpResponse.internalEnd env (fuel + 3) r data totalSize optional true cc = some x ∧
      x.1.httpResponseData.HTTP_WRITE_CALLED = r.httpResponseData.HTTP_WRITE_CALLED ∧
      x.1.httpResponseData.HTTP_END_CALLED =
        (r.httpResponseData.HTTP_END_CALLED || !r.httpResponseData.HTTP_WRITE_CALLED) ∧
      x.1.writes = r.writes ++ es ∧
      (writesContentLength es = true → r.httpResponseData.HTTP_WRITE_CALLED = false) ∧
      writesTransferEncoding es = false := by
  rcases Bool.eq_false_or_eq_true r.httpResponseData.HTTP_WRITE_CALLED with hw | hw
  · obtain ⟨x, hx, _, k2, _, _, es, k5, k6⟩ := internalEnd_chunked_spec env fuel r data
      totalSize optional true cc hw
    refine ⟨x, es, hx, by simp [k2, HttpResponse.markDone], by simp [k2, HttpResponse.markDone, hw],
      k5, ?_, ?_⟩
    · rw [writesContentLength_of_keys es _ k6]
      by_cases hd : data = [] <;> by_cases hs : r.httpResponseData.HTTP_STATUS_CALLED = true <;>
        by_cases hc : (cc = true ∧ r.httpResponseData.HTTP_CONNECTION_CLOSE = false) <;>
        simp [hd, hs, hc, statusLineKeys, headerKeys]
    · rw [writesTransferEncoding_of_keys es _ k6]
      by_cases hd : data = [] <;> by_cases hs : r.httpResponseData.HTTP_STATUS_CALLED = true <;>
        by_cases hc : (cc = true ∧ r.httpResponseData.HTTP_CONNECTION_CLOSE = false) <;>
        simp [hd, hs, hc, statusLineKeys, headerKeys, connection_ne_transfer_encoding]
  · obtain ⟨x, hx, _, es, k2, k3, _, _, L, k4, k5, _⟩ := internalEnd_length_spec env fuel r data
      totalSize optional true cc hw
    refine ⟨x, es, hx, ?_, ?_, k2, fun _ => hw, ?_⟩
    · rw [k3]
      split_ifs <;> rfl
    · rw [k3, hw]
      split_ifs <;> simp [HttpResponse.markDone]
    · rw [writesTransferEncoding_of_keys es _ k4, List.any_append,
        any_body_sites L k5 _ (by intro p hp; simp [hp])]
      by_cases he : r.httpResponseData.HTTP_END_CALLED = true <;>
        by_cases hs : r.httpResponseData.HTTP_STATUS_CALLED = true <;>
        by_cases hc : (cc = true ∧ r.httpResponseData.HTTP_CONNECTION_CLOSE = false) <;>
        cases r.noMark <;>
        simp [he, hs, hc, statusLineKeys, headerKeys, connection_ne_transfer_encoding,
          mark_key_ne_transfer_encoding]

theorem step_modes (env : Env) (fuel : Nat) (r : HttpResponse) (c : HttpCall)
    (hown : c.isOwnTransferEncoding = false) :
    ∃ r1 es, HttpResponse.step env (fuel + 3) r c = some r1 ∧
      r1.httpResponseData.HTTP_WRITE_CALLED =
        (r.httpResponseData.HTTP_WRITE_CALLED || c.isChunk) ∧
      r1.httpResponseData.HTTP_END_CALLED =
        (r.httpResponseData.HTTP_END_CALLED ||
          (c.isEnd && !r.httpResponseData.HTTP_WRITE_CALLED)) ∧
      r1.writes = r.writes ++ es ∧
      (writesContentLength es = true →
        c.isEnd = true ∧ r.httpResponseData.HTTP_WRITE_CALLED = false) ∧
      (writesTransferEncoding es = true → c.isChunk = true) := by
  cases c with
  | writeStatus status =>
    obtain ⟨r1, h1, h2, _, _, es, h5, h6⟩ := writeStatus_spec env fuel r status
    refine ⟨r1, es, h1, by simp [h2, HttpCall.isChunk], by simp [h2, HttpCall.isEnd], h5, ?_, ?_⟩
    · rw [writesContentLength_of_keys es _ h6]
      by_cases hs : r.httpResponseData.HTTP_STATUS_CALLED = true <;> simp [hs, statusLineKeys]
    · rw [writesTransferEncoding_of_keys es _ h6]
      by_cases hs : r.httpResponseData.HTTP_STATUS_CALLED = true <;> simp [hs, statusLineKeys]
  | writeHeader key value =>
    obtain ⟨r1, h1, h2, _, _, es, h5, h6⟩ := writeHeader_spec env fuel r key value
    simp only [HttpCall.isOwnTransferEncoding] at hown
    refine ⟨r1, es, h1, by simp [h2, HttpCall.isChunk], by simp [h2, HttpCall.isEnd], h5, ?_, ?_⟩
    · rw [writesContentLength_of_keys es _ h6]
      by_cases hs : r.httpResponseData.HTTP_STATUS_CALLED = true <;>
        simp [hs, statusLineKeys, headerKeys]
    · rw [writesTransferEncoding_of_keys es _ h6]
      by_cases hs : r.httpResponseData.HTTP_STATUS_CALLED = true <;>
        simp [hs, statusLineKeys, headerKeys, hown]
  | write data =>
    obtain ⟨x, hx, _, h2, _, _, es, h5, h6⟩ := http_write_spec env fuel r data
    refine ⟨x.1, es, by simp [HttpResponse.step, hx], by simp [h2, HttpCall.isChunk],
      by simp [h2, HttpCall.isEnd], h5, ?_, ?_⟩
    · rw [writesContentLength_of_keys es _ h6]
      by_cases hs : r.httpResponseData.HTTP_STATUS_CALLED = true <;>
        by_cases hd : data = [] <;>
        by_cases hw : r.httpResponseData.HTTP_WRITE_CALLED = true <;>
        cases r.noMark <;>
        simp [hs, hd, hw, statusLineKeys, headerKeys]
    · rw [writesTransferEncoding_of_keys es _ h6]
      by_cases hd : data = []
      · by_cases hs : r.httpResponseData.HTTP_STATUS_CALLED = true <;>
          simp [hs, hd, statusLineKeys]
      · simp [HttpCall.isChunk, hd]
  | end_ data closeConnection =>
    obtain ⟨x, es, hx, h2, h3, h4, h5, h6⟩ := internalEnd_modes env fuel r data data.length false
      closeConnection
    exact ⟨x.1, es, by simp [HttpResponse.step, HttpResponse.end_, hx],
      by simp [h2, HttpCall.isChunk], by simp [h3, HttpCall.isEnd], h4,
      fun h => ⟨rfl, h5 h⟩, by simp [h6]⟩
  | tryEnd data totalSize =>
    obtain ⟨x, es, hx, h2, h3, h4, h5, h6⟩ := internalEnd_modes env fuel r data totalSize true false
    exact ⟨x.1, es, by simp [HttpResponse.step, HttpResponse.tryEnd, hx],
      by simp [h2, HttpCall.isChunk], by simp [h3, HttpCall.isEnd], h4,
      fun h => ⟨rfl, h5 h⟩, by simp [h6]⟩

theorem writesContentLength_append (xs ys : List WriteCall) :
    writesContentLength (xs ++ ys) = (writesContentLength xs || writesContentLength ys) := by
  simp [writesContentLength]

theorem writesTransferEncoding_append (xs ys : List WriteCall) :
    writesTransferEncoding (xs ++ ys) =
      (writesTransferEncoding xs || writesTransferEncoding ys) := by
  simp [writesTransferEncoding]

theorem run_modes (env : Env) (fuel : Nat) (cs : List HttpCall) (r : HttpResponse)
    (hflags : ¬(r.httpResponseData.HTTP_WRITE_CALLED = true ∧
      r.httpResponseData.HTTP_END_CALLED = true))
    (hCL : writesContentLength r.writes = true → r.httpResponseData.HTTP_END_CALLED = true)
    (hTE : writesTransferEncoding r.writes = true → r.httpResponseData.HTTP_WRITE_CALLED = true)
    (hok : modesOk r.httpResponseData.HTTP_WRITE_CALLED r.httpResponseData.HTTP_END_CALLED cs
      = true)
    (hown : ∀ c ∈ cs, c.isOwnTransferEncoding = false) :
    ∃ r1, HttpResponse.run env (fuel + 3) r cs = some r1 ∧
      ¬(r1.httpResponseData.HTTP_WRITE_CALLED = true ∧
        r1.httpResponseData.HTTP_END_CALLED = true) ∧
      (writesContentLength r1.writes = true → r1.httpResponseData.HTTP_END_CALLED = true) ∧
      (writesTransferEncoding r1.writes = true →
        r1.httpResponseData.HTTP_WRITE_CALLED = true) := by
  induction cs generalizing r with
  | nil => exact ⟨r, rfl, hflags, hCL, hTE⟩
  | cons c cs ih =>
    obtain ⟨r1, es, h1, h2, h3, h4, h5, h6⟩ :=
      step_modes env fuel r c (hown c (List.mem_cons_self _ _))
    have hrec : modesOk r1.httpResponseData.HTTP_WRITE_CALLED
        r1.httpResponseData.HTTP_END_CALLED cs = true ∧
        (c.isChunk = true → r.httpResponseData.HTTP_END_CALLED = false) ∧
        (c.isChunk = true → c.isEnd = false) := by
      rw [h2, h3]
      clear ih hflags hCL hTE h1 h2 h3 h4 h5 h6 hown
      simp only [modesOk] at hok
      cases c with
      | write data =>
        cases data with
        | nil => simp_all [HttpCall.isChunk, HttpCall.isEnd]
        | cons a l =>
          simp only [HttpCall.isChunk, HttpCall.isEnd, List.isEmpty_cons, Bool.not_false,
            ↓reduceIte, Bool.and_eq_true, Bool.not_eq_true', Bool.or_true, Bool.false_and,
            Bool.or_false] at hok ⊢
          exact ⟨hok.2, fun _ => hok.1, fun _ => trivial⟩
      | _ => simp_all [HttpCall.isChunk, HttpCall.isEnd]
    obtain ⟨hok1, hchunk, hce⟩ := hrec
    have g1 : ¬(r1.httpResponseData.HTTP_WRITE_CALLED = true ∧
        r1.httpResponseData.HTTP_END_CALLED = true) := by
      rw [h2, h3]
      rintro ⟨hw, he⟩
      simp only [Bool.or_eq_true, Bool.and_eq_true, Bool.not_eq_true'] at hw he
      rcases hw with hw | hw
      · rcases he with he | ⟨_, he⟩
        · exact hflags ⟨hw, he⟩
        · rw [hw] at he
          exact Bool.noConfusion he
      · rcases he with he | ⟨he, _⟩
        · rw [hchunk hw] at he
          exact Bool.noConfusion he
        · rw [hce hw] at he
          exact Bool.noConfusion he
    have g2 : writesContentLength r1.writes = true →
        r1.httpResponseData.HTTP_END_CALLED = true := by
      rw [h4, writesContentLength_append, h3]
      intro h
      simp only [Bool.or_eq_true, Bool.and_eq_true, Bool.not_eq_true'] at h ⊢
      rcases h with h | h
      · exact Or.inl (hCL h)
      · exact Or.inr (h5 h)
    have g3 : writesTransferEncoding r1.writes = true →
        r1.httpResponseData.HTTP_WRITE_CALLED = true := by
      rw [h4, writesTransferEncoding_append, h2]
      intro h
      simp only [Bool.or_eq_true] at h ⊢
      rcases h with h | h
      · exact Or.inl (hTE h)
      · exact Or.inr (h6 h)
    obtain ⟨r2, k1, k2⟩ := ih r1 g1 g2 g3 hok1 (fun d hd => hown d (List.mem_cons_of_mem _ hd))
    exact ⟨r2, by simp [HttpResponse.run, h1, k1], k2⟩

theorem modesOk_take (cs : List HttpCall) (n : Nat) (chunked ended : Bool)
    (h : modesOk chunked ended cs = true) : modesOk chunked ended (cs.take n) = true := by
  induction cs generalizing n chunked ended with
  | nil => simpa using h
  | cons c cs ih =>
    cases n with
    | zero => rfl
    | succ n =>
      simp only [List.take_succ_cons, modesOk] at h ⊢
      split_ifs at h ⊢
      · simp only [Bool.and_eq_true] at h ⊢
        exact ⟨h.1, ih n _ _ h.2⟩
      · exact ih n _ _ h
      · exact ih n _ _ h

theorem bodyFailed_append (xs ys : List WriteCall) :
    bodyFailed (xs ++ ys) = (bodyFailed xs || bodyFailed ys) := by
  simp [bodyFailed]

theorem bodyFailed_of_keys (es : List WriteCall) (K : List (Nat × List Byte))
    (hK : es.map WriteCall.key = K) (hno : 172 ∉ K.map Prod.fst) : bodyFailed es = false := by
  have : es.filter (fun e => e.site = 172) = [] := by
    rw [List.filter_eq_nil_iff]
    intro e he
    have hmem : e.key ∈ K := by
      rw [← hK]
      exact List.mem_map_of_mem _ he
    have hfst : e.site ∈ K.map Prod.fst := List.mem_map_of_mem Prod.fst hmem
    simp only [decide_eq_true_eq]
    intro h172
    exact hno (h172 ▸ hfst)
  simp [bodyFailed, this]

theorem bodyFailed_of_sites (es : List WriteCall) (h : ∀ e ∈ es, e.site = 172) :
    bodyFailed es = es.any (fun e => e.failed) := by
  have : es.filter (fun e => e.site = 172) = es := by
    rw [List.filter_eq_self]
    intro e he
    simp [h e he]
  simp [bodyFailed, this]

theorem internalEndLoop_failed (env : Env) (fuel : Nat) (data : List Byte) (optional : Bool) :
    ∀ (n : Nat) (r : HttpResponse) (written : Nat) (failed : Bool)
      (x : HttpResponse × Nat × Bool),
      HttpResponse.internalEndLoop env (fuel + 3) data optional n r written failed = some x →
      ∃ es, x.1.writes = r.writes ++ es ∧ x.2.2 = (failed || es.any (fun e => e.failed)) := by
  intro n
  induction n with
  | zero => intro r written failed x h; simp [HttpResponse.internalEndLoop] at h
  | succ n ih =>
    intro r written failed x h
    unfold HttpResponse.internalEndLoop at h
    by_cases hc : written < data.length ∧ failed = false
    · simp only [hc, and_self, ↓reduceIte] at h
      obtain ⟨⟨r1, a, f⟩, h1, _, _, _, h4, _⟩ := Super_write_spec env fuel 172 r
        ((data.drop written).take (min (data.length - written) INT_MAX)) optional
      simp only at h4
      rw [h1] at h
      simp only [Option.bind_eq_bind, Option.some_bind] at h
      obtain ⟨es, k1, k2⟩ := ih r1 (written + a) f x h
      refine ⟨_, writes_chain h4 k1, ?_⟩
      rw [k2]
      simp [hc.2]
    · simp only [hc, ↓reduceIte, Option.some.injEq] at h
      subst h
      exact ⟨[], by simp, by simp⟩

theorem internalEnd_length_ok (env : Env) (fuel : Nat) (r : HttpResponse) (data : List Byte)
    (totalSize : Nat) (optional allowContentLength closeConnection : Bool)
    (hW : r.httpResponseData.HTTP_WRITE_CALLED = false) :
    ∃ x, HttpResponse.internalEnd env (fuel + 3) r data totalSize optional allowContentLength
        closeConnection = some x ∧
      ∃ es, x.1.writes = r.writes ++ es ∧
        x.2 = (bodyAccepted es == data.length && !bodyFailed es) := by
  unfold HttpResponse.internalEnd
  refine bind_spec (writeStatus_spec env fuel _ _) ?_
  rintro r0 ⟨h01, h02, h03, es0, h04, h05⟩
  refine bind_spec (internalEndClose_spec env fuel r0 closeConnection (by rw [h01])) ?_
  rintro r1 ⟨h11, h12, h13, es1, h14, h15⟩
  have hw1 : r1.httpResponseData.HTTP_WRITE_CALLED = false := by rw [h11, h01]; exact hW
  simp only [hw1, Bool.false_eq_true, ↓reduceIte]
  refine bind_spec (internalEndFirst_spec env fuel r1 _ allowContentLength
    (by rw [h11, h01])) ?_
  rintro r2 ⟨h21, h22, h23, es2, h24, h25⟩
  obtain ⟨⟨r3, written, failed⟩, hx, h31, h32, h33, es3, h34, h35, h36, _⟩ :=
    internalEndLoop_spec env fuel data optional (data.length + 1) r2 0
      (Nat.zero_le _) (by omega)
  simp only at h31 h32 h33 h34 h36
  obtain ⟨es3', g1, g2⟩ := internalEndLoop_failed env fuel data optional _ _ _ _ _ hx
  simp only at g1 g2
  have hes : es3' = es3 := List.append_cancel_left (g1.symm.trans h34)
  subst hes
  have hsites : ∀ e ∈ es3', e.site = 172 := fun e he => (h35 e he).1
  have hacc : bodyAccepted (es0 ++ es1 ++ es2 ++ es3') = written := by
    rw [bodyAccepted_append, bodyAccepted_append, bodyAccepted_append,
      bodyAccepted_of_keys es0 _ h05 (by split_ifs <;> simp [statusLineKeys]),
      bodyAccepted_of_keys es1 _ h15 (by split_ifs <;> simp [headerKeys]),
      bodyAccepted_of_keys es2 _ h25 (by split_ifs <;> simp [headerKeys]),
      bodyAccepted_of_sites es3' hsites, h36]
  have hfail : bodyFailed (es0 ++ es1 ++ es2 ++ es3') = failed := by
    rw [bodyFailed_append, bodyFailed_append, bodyFailed_append,
      bodyFailed_of_keys es0 _ h05 (by split_ifs <;> simp [statusLineKeys]),
      bodyFailed_of_keys es1 _ h15 (by split_ifs <;> simp [headerKeys]),
      bodyFailed_of_keys es2 _ h25 (by split_ifs <;> simp [headerKeys]),
      bodyFailed_of_sites es3' hsites, g2]
    simp
  obtain ⟨f1, f2, f3, f4, f5⟩ := internalEndFinish_spec r3 data
    (if totalSize = 0 then data.length else totalSize) written failed
  refine ⟨_, by rw [hx]; rfl, es0 ++ es1 ++ es2 ++ es3', ?_, ?_⟩
  · rw [f3, h34, h24, h14, h04]; simp
  · rw [f1, hacc, hfail]

/-- C21. Timeout arming in content-length mode (`HTTP_WRITE_CALLED` clear).
Every `internalEnd` call, hence every `end` and `tryEnd`, returns; its result
`ok` is true exactly if the body writes of the call accepted all of `data` and
none of them reported backpressure; and it arms the HTTP timeout
(`HTTP_TIMEOUT_S`, 10 seconds) exactly if `ok` is false or the resulting offset
equals `totalSize` (the length of `data` when `totalSize` is 0), and otherwise
leaves the timeouts as they were. In particular a `tryEnd` that accepts its whole
chunk without backpressure and does not reach `totalSize` arms no timeout and
returns `ok = true`. -/
theorem timeout_armed_iff (env : Env) (fuel : Nat) (r : HttpResponse) (data : List Byte)
    (totalSize : Nat) (optional allowContentLength closeConnection : Bool)
    (hmode : r.httpResponseData.HTTP_WRITE_CALLED = false) :
    (∃ x es, HttpResponse.internalEnd env (fuel + 3) r data totalSize optional
        allowContentLength closeConnection = some x ∧
      x.1.writes = r.writes ++ es ∧
      (x.2 = true ↔ (bodyAccepted es = data.length ∧ bodyFailed es = false)) ∧
      (x.2 = false ∨ HttpResponse.getWriteOffset x.1
          = (if totalSize = 0 then data.length else totalSize) →
        x.1.timeouts = r.timeouts ++ [HTTP_TIMEOUT_S]) ∧
      (¬(x.2 = false ∨ HttpResponse.getWriteOffset x.1
          = (if totalSize = 0 then data.length else totalSize)) →
        x.1.timeouts = r.timeouts) ∧
      HTTP_TIMEOUT_S = 10) ∧
    (∃ y ok responded es, HttpResponse.tryEnd env (fuel + 3) r data totalSize
        = some (y, ok, responded) ∧
      y.writes = r.writes ++ es ∧
      (bodyAccepted es = data.length → bodyFailed es = false →
        HttpResponse.getWriteOffset y ≠ (if totalSize = 0 then data.length else totalSize) →
        ok = true ∧ y.timeouts = r.timeouts)) := by
  have key : ∀ (optional allowContentLength closeConnection : Bool),
      ∃ x es, HttpResponse.internalEnd env (fuel + 3) r data totalSize optional
        allowContentLength closeConnection = some x ∧
      x.1.writes = r.writes ++ es ∧
      (x.2 = true ↔ (bodyAccepted es = data.length ∧ bodyFailed es = false)) ∧
      (x.2 = false ∨ HttpResponse.getWriteOffset x.1
          = (if totalSize = 0 then data.length else totalSize) →
        x.1.timeouts = r.timeouts ++ [HTTP_TIMEOUT_S]) ∧
      (¬(x.2 = false ∨ HttpResponse.getWriteOffset x.1
          = (if totalSize = 0 then data.length else totalSize)) →
        x.1.timeouts = r.timeouts) := by
    intro optional allowContentLength closeConnection
    obtain ⟨x, hx, _, es, h1, h2, h3, _⟩ := internalEnd_length_spec env fuel r data totalSize
      optional allowContentLength closeConnection hmode
    obtain ⟨x', hx', es', g1, g2⟩ := internalEnd_length_ok env fuel r data totalSize
      optional allowContentLength closeConnection hmode
    have hxx : x' = x := Option.some.inj (hx'.symm.trans hx)
    subst hxx
    have hes : es' = es := List.append_cancel_left (g1.symm.trans h1)
    subst hes
    have hoff : HttpResponse.getWriteOffset x'.1
        = r.httpResponseData.offset + bodyAccepted es' := by
      rw [HttpResponse.getWriteOffset, h2]
      split_ifs <;> rfl
    refine ⟨x', es', hx, h1, ?_, ?_, ?_⟩
    · rw [g2]
      simp
    · intro h
      rw [h3, if_pos (by rw [← hoff]; exact h)]
    · intro h
      rw [h3, if_neg (by rw [← hoff]; exact h)]
  constructor
  · obtain ⟨x, es, k1, k2, k3, k4, k5⟩ := key optional allowContentLength closeConnection
    exact ⟨x, es, k1, k2, k3, k4, k5, rfl⟩
  · obtain ⟨x, es, k1, k2, k3, k4, k5⟩ := key true true false
    refine ⟨x.1, x.2, HttpResponse.hasResponded x.1, es, by simp [HttpResponse.tryEnd, k1], k2,
      ?_⟩
    intro ha hf hoff
    have hok : x.2 = true := k3.mpr ⟨ha, hf⟩
    refine ⟨hok, k5 ?_⟩
    rintro (h | h)
    · rw [hok] at h
      exact Bool.noConfusion h
    · exact hoff h

/-- Witness for C21: `tryEnd("ab", 5)` on a new response. -/
theorem timeout_armed_iff_witness :
    (freshResponse false).httpResponseData.HTTP_WRITE_CALLED = false ∧
    ∃ y ok responded es, HttpResponse.tryEnd writableEnv 3 (freshResponse false) (bytes "ab") 5
        = some (y, ok, responded) ∧
      y.writes = (freshResponse false).writes ++ es ∧
      (bodyAccepted es = (bytes "ab").length → bodyFailed es = false →
        HttpResponse.getWriteOffset y ≠ (if 5 = 0 then (bytes "ab").length else 5) →
        ok = true ∧ y.timeouts = (freshResponse false).timeouts) :=
  ⟨rfl, (timeout_armed_iff writableEnv 0 (freshResponse false) (bytes "ab") 5 true true false
    rfl).2⟩

/-- C22. Writing a zero-length chunk is a silent no-op. Every sequence of calls
on a response on which chunked mode has not started runs to a response `r`
such that: if `r` is in chunked mode (`HTTP_WRITE_CALLED` set), `write` with
empty data returns `true` and leaves `r` as it is (no `Super::write`, so no chunk
framing and no terminating zero chunk, no flag change, no timeout); if `r` is
not in chunked mode, `write` with empty data returns `true`, does not set
`HTTP_WRITE_CALLED`, arms no timeout and hands to the write engine only the
status line, if that was not written yet. -/
theorem write_empty_noop (env : Env) (fuel : Nat) (r0 : HttpResponse) (cs : List HttpCall)
    (hmode : r0.httpResponseData.HTTP_WRITE_CALLED = false) :
    ∃ r, HttpResponse.run env (fuel + 3) r0 cs = some r ∧
      (r.httpResponseData.HTTP_WRITE_CALLED = true →
        ∀ fuel1, HttpResponse.write env fuel1 r [] = some (r, true)) ∧
      (r.httpResponseData.HTTP_WRITE_CALLED = false →
        ∃ x, HttpResponse.write env (fuel + 3) r [] = some (x, true) ∧
          x.httpResponseData.HTTP_WRITE_CALLED = false ∧
          x.timeouts = r.timeouts ∧
          x.emitted = r.emitted ++
            (if r.httpResponseData.HTTP_STATUS_CALLED then [] else statusLine HTTP_200_OK)) := by
  obtain ⟨r, h1, h2, _⟩ := run_status env fuel cs r0
  refine ⟨r, h1, ?_, ?_⟩
  · intro hw fuel1
    refine http_write_empty env fuel1 r ?_
    cases cs with
    | nil =>
      simp only [HttpResponse.run, Option.some.injEq] at h1
      subst h1
      rw [hmode] at hw
      exact Bool.noConfusion hw
    | cons c cs => simpa using h2
  · intro hw
    obtain ⟨⟨x, ok⟩, hx, _, k2, k3, k4, es, k5, k6⟩ := http_write_spec env fuel r []
    simp only at k2 k3 k4 k5
    have hok : ok = true := k4 trivial
    subst hok
    refine ⟨x, hx, by simp [k2, hw], by simpa using k3, ?_⟩
    rw [emitted_of_writes r x es _ k5 k6]
    by_cases hs : r.httpResponseData.HTTP_STATUS_CALLED = true
    · simp [hs]
    · simp [hs, statusLineKeys, statusLine]

/-- Witness for C22: an empty `write` after `write("ab")` on a new response. -/
theorem write_empty_noop_witness :
    (freshResponse false).httpResponseData.HTTP_WRITE_CALLED = false ∧
    ∃ r, HttpResponse.run oneByteEnv 3 (freshResponse false) [HttpCall.write (bytes "ab")]
        = some r ∧
      (r.httpResponseData.HTTP_WRITE_CALLED = true →
        ∀ fuel1, HttpResponse.write oneByteEnv fuel1 r [] = some (r, true)) := by
  obtain ⟨r, h1, h2, _⟩ := write_empty_noop oneByteEnv 0 (freshResponse false)
    [HttpCall.write (bytes "ab")] rfl
  exact ⟨rfl, r, h1, h2⟩

theorem internalEnd_some (env : Env) (fuel : Nat) (r : HttpResponse) (data : List Byte)
    (totalSize : Nat) (optional allowContentLength closeConnection : Bool) :
    ∃ x, HttpResponse.internalEnd env (fuel + 3) r data totalSize optional allowContentLength
      closeConnection = some x := by
  rcases Bool.eq_false_or_eq_true r.httpResponseData.HTTP_WRITE_CALLED with hw | hw
  · obtain ⟨x, hx, _⟩ := internalEnd_chunked_spec env fuel r data totalSize optional
      allowContentLength closeConnection hw
    exact ⟨x, hx⟩
  · obtain ⟨x, hx, _⟩ := internalEnd_length_spec env fuel r data totalSize optional
      allowContentLength closeConnection hw
    exact ⟨x, hx⟩

theorem upgradeHead_some (env : Env) (fuel : Nat) (u : UpgradeEnv) (r : HttpResponse)
    (key protocol extensions : List Byte) :
    ∃ head, HttpResponse.upgradeHead env (fuel + 3) u r key protocol extensions = some head := by
  unfold HttpResponse.upgradeHead
  obtain ⟨r1, h1, _⟩ := writeStatus_spec env fuel r (bytes "101 Switching Protocols")
  obtain ⟨r2, h2, _⟩ := writeHeader_spec env fuel r1 (bytes "Upgrade") (bytes "websocket")
  obtain ⟨r3, h3, _⟩ := writeHeader_spec env fuel r2 (bytes "Connection") (bytes "Upgrade")
  obtain ⟨r4, h4, _⟩ := writeHeader_spec env fuel r3 (bytes "Sec-WebSocket-Accept")
    (u.generate key)
  have h5 : ∃ r5, (if protocol.length ≠ 0 then
      HttpResponse.writeHeader env (fuel + 3) r4 (bytes "Sec-WebSocket-Protocol")
        (protocol.takeWhile (fun b => b ≠ 44))
      else some r4) = some r5 := by
    split_ifs
    · obtain ⟨r5, h5, _⟩ := writeHeader_spec env fuel r4 (bytes "Sec-WebSocket-Protocol")
        (protocol.takeWhile (fun b => b ≠ 44))
      exact ⟨r5, h5⟩
    · exact ⟨r4, rfl⟩
  obtain ⟨r5, h5⟩ := h5
  cases hneg : (HttpResponse.upgradeCompression u extensions).2.2 with
  | none =>
    obtain ⟨x, h7⟩ := internalEnd_some env fuel r5 [] 0 false false false
    refine ⟨(x.1, (HttpResponse.upgradeCompression u extensions).1,
      (HttpResponse.upgradeCompression u extensions).2.1), ?_⟩
    simp only [h1, h2, h3, h4, h5, hneg, h7, Option.bind_eq_bind, Option.some_bind]
  | some negResponse =>
    obtain ⟨r6, h6, _⟩ := writeHeader_spec env fuel r5 (bytes "Sec-WebSocket-Extensions")
      negResponse
    obtain ⟨x, h7⟩ := internalEnd_some env fuel r6 [] 0 false false false
    refine ⟨(x.1, (HttpResponse.upgradeCompression u extensions).1,
      (HttpResponse.upgradeCompression u extensions).2.1), ?_⟩
    simp only [h1, h2, h3, h4, h5, hneg, h6, h7, Option.bind_eq_bind, Option.some_bind]

/-- C27. Upgrade transplant. `upgrade` returns, and with `B` the overflow buffer
the connection holds when the response head has been written (after
`internalEnd`): the overflow buffer of the new connection is `B`, the old
connection holds none of it, and the move makes no syscall (both carry the log
of syscalls as it was when the head was written, so no byte of `B` was written
in between). On the new connection, if it is open and `B` is not empty, every
`write` starts with the syscall that flushes `B`: if that transmits `w < |B|`
bytes it is the only syscall and `B[w..]` stays in front of the overflow buffer,
otherwise `write` goes on as from the empty buffer. -/
theorem upgrade_transplants_backpressure (env : Env) (fuel : Nat) (u : UpgradeEnv)
    (r : HttpResponse) (key protocol extensions : List Byte) :
    ∃ head old ws,
      HttpResponse.upgradeHead env (fuel + 3) u r key protocol extensions = some head ∧
      HttpResponse.upgrade env (fuel + 3) u r key protocol extensions = some (old, ws) ∧
      ws.socket.buffer = head.1.socket.buffer ∧
      old.socket.buffer = [] ∧
      ws.socket.syscalls = head.1.socket.syscalls ∧
      old.socket.syscalls = head.1.socket.syscalls ∧
      ws.socket.closed = head.1.socket.closed ∧
      (∀ (fuel1 : Nat) (data : List Byte) (optionally : Bool) (nextLength : Nat),
        ws.socket.closed = false → ws.socket.buffer ≠ [] →
        (env.outcome ws.socket.syscalls.length ws.socket.buffer data.length
            < ws.socket.buffer.length →
          write env (fuel1 + 1) ws.socket data optionally nextLength =
            some ({ ws.socket with
                syscalls := ws.socket.syscalls ++ [⟨ws.socket.buffer, data.length,
                  env.outcome ws.socket.syscalls.length ws.socket.buffer data.length⟩],
                buffer := if optionally
                  then ws.socket.buffer.drop
                    (env.outcome ws.socket.syscalls.length ws.socket.buffer data.length)
                  else ws.socket.buffer.drop
                    (env.outcome ws.socket.syscalls.length ws.socket.buffer data.length)
                    ++ data },
              if optionally then 0 else data.length, true)) ∧
        (¬ env.outcome ws.socket.syscalls.length ws.socket.buffer data.length
            < ws.socket.buffer.length →
          write env (fuel1 + 1) ws.socket data optionally nextLength =
            write env (fuel1 + 1)
              { ws.socket with
                syscalls := ws.socket.syscalls ++ [⟨ws.socket.buffer, data.length,
                  env.outcome ws.socket.syscalls.length ws.socket.buffer data.length⟩],
                buffer := [] } data optionally nextLength)) := by
  obtain ⟨head, hh⟩ := upgradeHead_some env fuel u r key protocol extensions
  refine ⟨head, { head.1 with socket := { head.1.socket with buffer := [] } },
    ⟨⟨u.us_socket_context_adopt_socket head.1.socket.this, head.1.socket.closed,
      head.1.socket.buffer, head.1.socket.syscalls,
      if isCorked head.1.socket.this head.1.socket.loopData
        then cork (u.us_socket_context_adopt_socket head.1.socket.this) head.1.socket.loopData
        else head.1.socket.loopData⟩, head.2.1, head.2.2⟩,
    hh, by simp [HttpResponse.upgrade, hh], rfl, rfl, rfl, rfl, rfl, ?_⟩
  intro fuel1 data optionally nextLength hopen hbuf
  exact ⟨fun hs => write_partial_flush env fuel1 _ data optionally nextLength hopen hbuf hs,
    fun hf => write_full_flush env fuel1 _ data optionally nextLength hopen hbuf hf⟩

/-! ## Linked lists -/

theorem isChain_unique (next : Nat → Nat) :
    ∀ (l1 l2 : List Nat) (p : Nat), isChain next p l1 → isChain next p l2 → l1 = l2 := by
  intro l1
  induction l1 with
  | nil =>
    intro l2 p h1 h2
    cases l2 with
    | nil => rfl
    | cons y ys =>
      simp only [isChain] at h1 h2
      exact absurd (h2.1 ▸ h1) h2.2.1
  | cons x xs ih =>
    intro l2 p h1 h2
    cases l2 with
    | nil =>
      simp only [isChain] at h1 h2
      exact absurd (h1.1 ▸ h2) h1.2.1
    | cons y ys =>
      simp only [isChain] at h1 h2
      have hxy : x = y := h1.1.symm.trans h2.1
      subst hxy
      rw [ih ys _ h1.2.2 h2.2.2]

theorem isChain_suffix (next : Nat → Nat) :
    ∀ (l : List Nat) (p x : Nat), isChain next p l → x ∈ l →
      ∃ l2, isChain next x l2 ∧ l2.length ≤ l.length := by
  intro l
  induction l with
  | nil => intro p x _ hx; simp at hx
  | cons y ys ih =>
    intro p x h hx
    simp only [isChain] at h
    rcases List.mem_cons.mp hx with rfl | hmem
    · exact ⟨x :: ys, by simp only [isChain]; exact ⟨trivial, h.2.1, h.2.2⟩, le_refl _⟩
    · obtain ⟨l2, h2, hlen⟩ := ih _ x h.2.2 hmem
      exact ⟨l2, h2, by simp only [List.length_cons]; omega⟩

theorem isChain_not_mem (next : Nat → Nat) (s : Nat) (rest : List Nat)
    (h : isChain next s (s :: rest)) : s ∉ rest := by
  intro hmem
  have h' := h
  simp only [isChain] at h'
  obtain ⟨l2, h2, hlen⟩ := isChain_suffix next rest _ s h'.2.2 hmem
  have := isChain_unique next _ _ s h h2
  rw [← this] at hlen
  simp only [List.length_cons] at hlen
  omega

theorem isChain_nodup (next : Nat → Nat) :
    ∀ (l : List Nat) (p : Nat), isChain next p l → l.Nodup := by
  intro l
  induction l with
  | nil => intro _ _; exact List.nodup_nil
  | cons x xs ih =>
    intro p h
    have h' := h
    simp only [isChain] at h'
    have hx : isChain next x (x :: xs) := by
      simp only [isChain]
      exact ⟨trivial, h'.2.1, h'.2.2⟩
    exact List.nodup_cons.mpr ⟨isChain_not_mem next x xs hx, ih _ h'.2.2⟩

theorem isChain_congr (next next1 : Nat → Nat) :
    ∀ (l : List Nat) (p : Nat), isChain next p l → (∀ x ∈ l, next1 x = next x) →
      isChain next1 p l := by
  intro l
  induction l with
  | nil => intro p h _; exact h
  | cons x xs ih =>
    intro p h hn
    simp only [isChain] at h ⊢
    refine ⟨h.1, h.2.1, ?_⟩
    rw [hn x (List.mem_cons_self _ _)]
    exact ih _ h.2.2 (fun y hy => hn y (List.mem_cons_of_mem _ hy))

theorem isChain_ne_zero (next : Nat → Nat) :
    ∀ (l : List Nat) (p : Nat), isChain next p l → ∀ x ∈ l, x ≠ 0 := by
  intro l
  induction l with
  | nil => intro p _ x hx; simp at hx
  | cons y ys ih =>
    intro p h x hx
    simp only [isChain] at h
    rcases List.mem_cons.mp hx with rfl | hmem
    · exact h.2.1
    · exact ih _ h.2.2 x hmem

theorem isChain_next_mem (next : Nat → Nat) :
    ∀ (l : List Nat) (p : Nat), isChain next p l → ∀ x ∈ l, next x ∈ l ∨ next x = 0 := by
  intro l
  induction l with
  | nil => intro p _ x hx; simp at hx
  | cons y ys ih =>
    intro p h x hx
    simp only [isChain] at h
    rcases List.mem_cons.mp hx with rfl | hmem
    · cases ys with
      | nil => right; exact h.2.2
      | cons z zs =>
        left
        have := h.2.2
        simp only [isChain] at this
        rw [this.1]
        simp
    · rcases ih _ h.2.2 x hmem with h1 | h1
      · left; exact List.mem_cons_of_mem _ h1
      · right; exact h1

/-! ## Memory updates -/

@[simp]
theorem set_timeout_next (m : Mem) (s v x : Nat) :
    ((m.set_timeout s v).sockets x).next = (m.sockets x).next := by
  by_cases h : x = s
  · subst h; simp [Mem.set_timeout]
  · simp [Mem.set_timeout, Function.update_noteq h]

theorem set_timeout_timeout (m : Mem) (s v x : Nat) :
    ((m.set_timeout s v).sockets x).timeout = if x = s then v else (m.sockets x).timeout := by
  by_cases h : x = s
  · subst h; simp [Mem.set_timeout]
  · simp [Mem.set_timeout, Function.update_noteq h, h]

@[simp]
theorem set_timeout_contexts (m : Mem) (s v : Nat) :
    (m.set_timeout s v).contexts = m.contexts := rfl

@[simp]
theorem set_iterator_sockets (m : Mem) (c v : Nat) :
    (m.set_iterator c v).sockets = m.sockets := rfl

@[simp]
theorem set_iterator_iterator (m : Mem) (c v : Nat) :
    ((m.set_iterator c v).contexts c).iterator = v := by
  simp [Mem.set_iterator]

@[simp]
theorem set_timestamp_sockets (m : Mem) (c v : Nat) :
    (m.set_timestamp c v).sockets = m.sockets := rfl

@[simp]
theorem set_timestamp_timestamp (m : Mem) (c v : Nat) :
    ((m.set_timestamp c v).contexts c).timestamp = v := by
  simp [Mem.set_timestamp]

@[simp]
theorem set_timestamp_head (m : Mem) (c v : Nat) :
    ((m.set_timestamp c v).contexts c).head = (m.contexts c).head := by
  simp [Mem.set_timestamp]

/-! ## The sweep of one socket list -/

theorem timer_sweep_sockets_spec (env : LoopEnv) (c needle : Nat)
    (hc : ∀ (m : Mem) (s : Nat) (rest : List Nat),
      isChain (fun x => (m.sockets x).next) s (s :: rest) → (m.contexts c).iterator = s →
      (∀ x ∈ rest, ((env.on_socket_timeout c s m).sockets x).timeout = (m.sockets x).timeout) ∧
      ((((env.on_socket_timeout c s m).contexts c).iterator = s ∧
          isChain (fun x => ((env.on_socket_timeout c s m).sockets x).next)
            ((env.on_socket_timeout c s m).sockets s).next rest) ∨
        (((env.on_socket_timeout c s m).contexts c).iterator = (m.sockets s).next ∧
          isChain (fun x => ((env.on_socket_timeout c s m).sockets x).next)
            (m.sockets s).next rest))) :
    ∀ (l : List Nat) (fuel s : Nat) (st : LoopState),
      isChain (fun x => (st.mem.sockets x).next) s l → l.length < fuel →
      ∃ st1, timer_sweep_sockets env c needle fuel s st = some st1 ∧
        st1.trace = st.trace ++
          (l.filter (fun x => decide ((st.mem.sockets x).timeout = needle))).map
            (fun x => Event.on_socket_timeout c x 0) := by
  intro l
  induction l with
  | nil =>
    intro fuel s st h hf
    simp only [isChain] at h
    cases fuel with
    | zero => simp at hf
    | succ fuel => exact ⟨st, by simp [timer_sweep_sockets, h], by simp⟩
  | cons x rest ih =>
    intro fuel s st h hf
    have h' := h
    simp only [isChain] at h'
    obtain ⟨hsx, hx0, hrest⟩ := h'
    subst hsx
    cases fuel with
    | zero => simp at hf
    | succ fuel =>
      simp only [List.length_cons] at hf
      have hnot : s ∉ rest := isChain_not_mem _ s rest h
      unfold timer_sweep_sockets
      simp only [hx0, ↓reduceIte]
      by_cases hmatch : needle = (st.mem.sockets s).timeout
      · rw [if_pos hmatch]
        have hchain1 : isChain
            (fun x => ((((st.mem.set_timeout s 0).set_iterator c s)).sockets x).next) s
            (s :: rest) := by
          refine isChain_congr _ _ _ _ h ?_
          intro y _
          simp
        obtain ⟨hto, hcases⟩ := hc ((st.mem.set_timeout s 0).set_iterator c s) s rest hchain1
          (by simp)
        have hev : ((((st.mem.set_timeout s 0).set_iterator c s)).sockets s).timeout = 0 := by
          simp [set_timeout_timeout]
        have hfilter : (rest.filter (fun x => decide
            (((env.on_socket_timeout c s ((st.mem.set_timeout s 0).set_iterator c s)).sockets
              x).timeout = needle))) =
            rest.filter (fun x => decide ((st.mem.sockets x).timeout = needle)) := by
          apply List.filter_congr
          intro y hy
          rw [hto y hy]
          have hys : y ≠ s := fun e => hnot (e ▸ hy)
          simp [set_timeout_timeout, hys]
        have hnext_ne : (st.mem.sockets s).next ≠ s := by
          intro e
          cases rest with
          | nil =>
            simp only [isChain] at hrest
            rw [hrest] at e
            exact hx0 e.symm
          | cons z zs =>
            simp only [isChain] at hrest
            rw [hrest.1] at e
            exact hnot (e ▸ List.mem_cons_self _ _)
        rcases hcases with ⟨hit, hch⟩ | ⟨hit, hch⟩
        · simp only [hit, ↓reduceIte]
          obtain ⟨st1, k1, k2⟩ := ih fuel _ ⟨_, st.trace ++ [Event.on_socket_timeout c s
            ((((st.mem.set_timeout s 0).set_iterator c s)).sockets s).timeout]⟩ hch (by omega)
          refine ⟨st1, k1, ?_⟩
          rw [k2]
          simp only [hfilter, hev, List.filter_cons, hmatch.symm, decide_True, ↓reduceIte,
            List.map_cons, List.append_assoc, List.singleton_append]
        · have hne : s ≠ ((env.on_socket_timeout c s
              ((st.mem.set_timeout s 0).set_iterator c s)).contexts c).iterator := by
            rw [hit]
            simp only [set_iterator_sockets, set_timeout_next]
            exact fun e => hnext_ne e.symm
          simp only [hne, ↓reduceIte]
          have hit' : ((env.on_socket_timeout c s
              ((st.mem.set_timeout s 0).set_iterator c s)).contexts c).iterator
              = (st.mem.sockets s).next := by
            rw [hit]; simp
          rw [hit']
          have hch' : isChain (fun x => ((env.on_socket_timeout c s
              ((st.mem.set_timeout s 0).set_iterator c s)).sockets x).next)
              (st.mem.sockets s).next rest := by
            simpa using hch
          obtain ⟨st1, k1, k2⟩ := ih fuel _ ⟨_, st.trace ++ [Event.on_socket_timeout c s
            ((((st.mem.set_timeout s 0).set_iterator c s)).sockets s).timeout]⟩ hch' (by omega)
          refine ⟨st1, k1, ?_⟩
          rw [k2]
          simp only [hfilter, hev, List.filter_cons, hmatch.symm, decide_True, ↓reduceIte,
            List.map_cons, List.append_assoc, List.singleton_append]
      · rw [if_neg hmatch]
        have hne : ¬ (st.mem.sockets s).timeout = needle := fun e => hmatch e.symm
        by_cases hn0 : (st.mem.sockets s).next = 0
        · simp only [hn0, ↓reduceIte]
          have hnil : rest = [] := by
            cases rest with
            | nil => rfl
            | cons z zs =>
              simp only [isChain] at hrest
              exact absurd (hrest.1 ▸ hn0) hrest.2.1
          subst hnil
          exact ⟨st, rfl, by simp [hne]⟩
        · simp only [hn0, ↓reduceIte]
          obtain ⟨st1, k1, k2⟩ := ih fuel _ st hrest (by omega)
          refine ⟨st1, k1, ?_⟩
          rw [k2]
          simp [List.filter_cons, hne]

@[simp]
theorem set_iterator_head (m : Mem) (c v d : Nat) :
    ((m.set_iterator c v).contexts d).head = (m.contexts d).head := by
  by_cases h : d = c
  · subst h; simp [Mem.set_iterator]
  · simp [Mem.set_iterator, Function.update_noteq h]

@[simp]
theorem set_iterator_timestamp (m : Mem) (c v d : Nat) :
    ((m.set_iterator c v).contexts d).timestamp = (m.contexts d).timestamp := by
  by_cases h : d = c
  · subst h; simp [Mem.set_iterator]
  · simp [Mem.set_iterator, Function.update_noteq h]

theorem timer_sweep_sockets_quiet (env : LoopEnv) (c needle : Nat)
    (hq : ∀ (s : Nat) (m : Mem), (env.on_socket_timeout c s m).contexts = m.contexts ∧
      ∀ x, ((env.on_socket_timeout c s m).sockets x).next = (m.sockets x).next ∧
        (x ≠ s → ((env.on_socket_timeout c s m).sockets x).timeout = (m.sockets x).timeout)) :
    ∀ (l : List Nat) (fuel s : Nat) (st : LoopState),
      isChain (fun x => (st.mem.sockets x).next) s l → l.length < fuel →
      ∃ st1, timer_sweep_sockets env c needle fuel s st = some st1 ∧
        st1.trace = st.trace ++
          (l.filter (fun x => decide ((st.mem.sockets x).timeout = needle))).map
            (fun x => Event.on_socket_timeout c x 0) ∧
        (∀ x, (st1.mem.sockets x).next = (st.mem.sockets x).next) ∧
        (∀ x, (x ∉ l ∨ (st.mem.sockets x).timeout ≠ needle) →
          (st1.mem.sockets x).timeout = (st.mem.sockets x).timeout) ∧
        (∀ d, (st1.mem.contexts d).head = (st.mem.contexts d).head ∧
          (st1.mem.contexts d).timestamp = (st.mem.contexts d).timestamp) ∧
        ((∀ (s : Nat) (m : Mem),
            ((env.on_socket_timeout c s m).sockets s).timeout = (m.sockets s).timeout) →
          ∀ x ∈ l, (st.mem.sockets x).timeout = needle → (st1.mem.sockets x).timeout = 0) := by
  intro l
  induction l with
  | nil =>
    intro fuel s st h hf
    simp only [isChain] at h
    cases fuel with
    | zero => simp at hf
    | succ fuel =>
      exact ⟨st, by simp [timer_sweep_sockets, h], by simp, fun _ => rfl, fun _ _ => rfl,
        fun _ => ⟨rfl, rfl⟩, fun _ x hx => by simp at hx⟩
  | cons x rest ih =>
    intro fuel s st h hf
    have h' := h
    simp only [isChain] at h'
    obtain ⟨hsx, hx0, hrest⟩ := h'
    subst hsx
    cases fuel with
    | zero => simp at hf
    | succ fuel =>
      simp only [List.length_cons] at hf
      have hnot : s ∉ rest := isChain_not_mem _ s rest h
      unfold timer_sweep_sockets
      simp only [hx0, ↓reduceIte]
      by_cases hmatch : needle = (st.mem.sockets s).timeout
      · rw [if_pos hmatch]
        obtain ⟨hq1, hq2⟩ := hq s ((st.mem.set_timeout s 0).set_iterator c s)
        have hit : ((env.on_socket_timeout c s
            ((st.mem.set_timeout s 0).set_iterator c s)).contexts c).iterator = s := by
          rw [hq1]; simp
        have hnx : ∀ y, ((env.on_socket_timeout c s
            ((st.mem.set_timeout s 0).set_iterator c s)).sockets y).next
            = (st.mem.sockets y).next := by
          intro y
          rw [(hq2 y).1]; simp
        have hto : ∀ y, y ≠ s → ((env.on_socket_timeout c s
            ((st.mem.set_timeout s 0).set_iterator c s)).sockets y).timeout
            = (st.mem.sockets y).timeout := by
          intro y hy
          rw [(hq2 y).2 hy]
          simp [set_timeout_timeout, hy]
        have hev : ((((st.mem.set_timeout s 0).set_iterator c s)).sockets s).timeout = 0 := by
          simp [set_timeout_timeout]
        simp only [hit, ↓reduceIte, hnx s]
        have hch : isChain (fun y => ((env.on_socket_timeout c s
            ((st.mem.set_timeout s 0).set_iterator c s)).sockets y).next)
            (st.mem.sockets s).next rest :=
          isChain_congr _ _ _ _ hrest (fun y _ => hnx y)
        obtain ⟨st1, k1, k2, k3, k4, k5, k6⟩ := ih fuel _ ⟨_, st.trace ++
          [Event.on_socket_timeout c s
            ((((st.mem.set_timeout s 0).set_iterator c s)).sockets s).timeout]⟩ hch (by omega)
        simp only at k2 k3 k4 k5 k6
        have hfilter : (rest.filter (fun y => decide
            (((env.on_socket_timeout c s ((st.mem.set_timeout s 0).set_iterator c s)).sockets
              y).timeout = needle))) =
            rest.filter (fun y => decide ((st.mem.sockets y).timeout = needle)) := by
          apply List.filter_congr
          intro y hy
          rw [hto y (fun e => hnot (e ▸ hy))]
        refine ⟨st1, k1, ?_, ?_, ?_, ?_, ?_⟩
        · rw [k2]
          simp only [hfilter, hev, List.filter_cons, hmatch.symm, decide_True, ↓reduceIte,
            List.map_cons, List.append_assoc, List.singleton_append]
        · intro y
          rw [k3 y, hnx y]
        · intro y hy
          have hys : y ≠ s := by
            rcases hy with hy | hy
            · exact fun e => hy (e ▸ List.mem_cons_self _ _)
            · exact fun e => hy (e ▸ hmatch.symm)
          rw [k4 y ?_, hto y hys]
          rcases hy with hy | hy
          · exact Or.inl (fun hm => hy (List.mem_cons_of_mem _ hm))
          · right
            rw [hto y hys]
            exact hy
        · intro d
          rw [(k5 d).1, (k5 d).2, hq1]
          simp
        · intro hkeep y hy hyn
          rcases List.mem_cons.mp hy with rfl | hmem
          · rw [k4 y (Or.inl hnot), hkeep, hev]
          · refine k6 hkeep y hmem ?_
            rw [hto y (fun e => hnot (e ▸ hmem))]
            exact hyn
      · rw [if_neg hmatch]
        have hne : ¬ (st.mem.sockets s).timeout = needle := fun e => hmatch e.symm
        by_cases hn0 : (st.mem.sockets s).next = 0
        · simp only [hn0, ↓reduceIte]
          have hnil : rest = [] := by
            cases rest with
            | nil => rfl
            | cons z zs =>
              simp only [isChain] at hrest
              exact absurd (hrest.1 ▸ hn0) hrest.2.1
          subst hnil
          refine ⟨st, rfl, by simp [hne], fun _ => rfl, fun _ _ => rfl, fun _ => ⟨rfl, rfl⟩, ?_⟩
          intro _ y hy hyn
          simp only [List.mem_singleton] at hy
          subst hy
          exact absurd hyn hne
        · simp only [hn0, ↓reduceIte]
          obtain ⟨st1, k1, k2, k3, k4, k5, k6⟩ := ih fuel _ st hrest (by omega)
          refine ⟨st1, k1, ?_, k3, ?_, k5, ?_⟩
          · rw [k2]
            simp [List.filter_cons, hne]
          · intro y hy
            by_cases hys : y = s
            · subst hys
              exact k4 y (Or.inl hnot)
            · refine k4 y ?_
              rcases hy with hy | hy
              · exact Or.inl (fun hm => hy (List.mem_cons_of_mem _ hm))
              · exact Or.inr hy
          · intro hkeep y hy hyn
            rcases List.mem_cons.mp hy with rfl | hmem
            · exact absurd hyn hne
            · exact k6 hkeep y hmem hyn

theorem needle_eq (t : Nat) : 0x8000 ||| (t &&& 0x7fff) = 32768 + t % 32768 := by
  have h1 : t &&& 0x7fff = t % 2 ^ 15 := Nat.and_pow_two_sub_one_eq_mod t 15
  have h2 : t % 2 ^ 15 < 2 ^ 15 := Nat.mod_lt _ (by norm_num)
  have h3 := Nat.mul_add_lt_is_or h2 1
  rw [h1]
  norm_num at h3 ⊢
  exact h3.symm

theorem timer_sweep_context_quiet (env : LoopEnv) (c fuel : Nat) (l : List Nat)
    (st : LoopState)
    (hq : ∀ (s : Nat) (m : Mem), (env.on_socket_timeout c s m).contexts = m.contexts ∧
      ∀ x, ((env.on_socket_timeout c s m).sockets x).next = (m.sockets x).next ∧
        (x ≠ s → ((env.on_socket_timeout c s m).sockets x).timeout = (m.sockets x).timeout))
    (hchain : isChain (fun x => (st.mem.sockets x).next) (st.mem.contexts c).head l)
    (hfuel : l.length < fuel) :
    ∃ st1, timer_sweep_context env fuel c st = some st1 ∧
      st1.trace = st.trace ++
        (l.filter (fun x => decide ((st.mem.sockets x).timeout
            = 32768 + ((st.mem.contexts c).timestamp + 1) % 32768))).map
          (fun x => Event.on_socket_timeout c x 0) ∧
      (∀ x, (st1.mem.sockets x).next = (st.mem.sockets x).next) ∧
      (∀ x, (x ∉ l ∨ (st.mem.sockets x).timeout
          ≠ 32768 + ((st.mem.contexts c).timestamp + 1) % 32768) →
        (st1.mem.sockets x).timeout = (st.mem.sockets x).timeout) ∧
      (st1.mem.contexts c).head = (st.mem.contexts c).head ∧
      (st1.mem.contexts c).timestamp = ((st.mem.contexts c).timestamp + 1) % 32768 ∧
      (st1.mem.contexts c).iterator = 0 ∧
      ((∀ (s : Nat) (m : Mem),
          ((env.on_socket_timeout c s m).sockets s).timeout = (m.sockets s).timeout) →
        ∀ x ∈ l, (st.mem.sockets x).timeout
            = 32768 + ((st.mem.contexts c).timestamp + 1) % 32768 →
          (st1.mem.sockets x).timeout = 0) := by
  have hts : ((st.mem.contexts c).timestamp + 1) &&& 0x7fff
      = ((st.mem.contexts c).timestamp + 1) % 32768 :=
    Nat.and_pow_two_sub_one_eq_mod _ 15
  obtain ⟨st1, k1, k2, k3, k4, k5, k6⟩ := timer_sweep_sockets_quiet env c
    (0x8000 ||| (((st.mem.contexts c).timestamp + 1) &&& 0x7fff)) hq l fuel
    (st.mem.contexts c).head
    ⟨st.mem.set_timestamp c (((st.mem.contexts c).timestamp + 1) &&& 0x7fff), st.trace⟩
    (by simpa using hchain) hfuel
  simp only [set_timestamp_sockets, needle_eq] at k2 k3 k4 k6
  refine ⟨{ st1 with mem := st1.mem.set_iterator c 0 }, ?_, k2, ?_, ?_, ?_, ?_, ?_, ?_⟩
  · simp only [timer_sweep_context, set_timestamp_timestamp, set_timestamp_head, k1,
      Option.map_some']
  · intro x; simpa using k3 x
  · intro x hx; simpa using k4 x hx
  · simp [(k5 c).1]
  · simp [(k5 c).2, hts]
  · simp
  · intro hkeep x hx hxn
    simpa using k6 hkeep x hx hxn

theorem firedCount_append (c s : Nat) (t1 t2 : List Event) :
    firedCount c s (t1 ++ t2) = firedCount c s t1 + firedCount c s t2 := by
  simp [firedCount]

theorem firedCount_fired (c s : Nat) (l : List Nat) :
    firedCount c s (l.map (fun x => Event.on_socket_timeout c x 0)) = l.count s := by
  rw [firedCount]
  have hinj : Function.Injective (fun x => Event.on_socket_timeout c x 0) := by
    intro a b h
    simp only [Event.on_socket_timeout.injEq, and_true, true_and] at h
    exact h
  exact List.count_map_of_injective l _ hinj s

theorem firedCount_filter_of_not (c s : Nat) (l : List Nat) (p : Nat → Bool)
    (h : p s = false) :
    firedCount c s ((l.filter p).map (fun x => Event.on_socket_timeout c x 0)) = 0 := by
  rw [firedCount_fired]
  apply List.count_eq_zero_of_not_mem
  intro hm
  rw [List.mem_filter] at hm
  rw [h] at hm
  exact Bool.noConfusion hm.2

theorem firedCount_filter_of_mem (c s : Nat) (l : List Nat) (p : Nat → Bool)
    (hn : l.Nodup) (hs : s ∈ l) (h : p s = true) :
    firedCount c s ((l.filter p).map (fun x => Event.on_socket_timeout c x 0)) = 1 := by
  rw [firedCount_fired]
  exact List.count_eq_one_of_mem (hn.filter _) (List.mem_filter.mpr ⟨hs, h⟩)

theorem timer_ticks_succ_last (env : LoopEnv) (fuel c : Nat) :
    ∀ (k : Nat) (st : LoopState), timer_ticks env fuel c (k + 1) st
      = (timer_ticks env fuel c k st).bind (timer_sweep_context env fuel c) := by
  intro k
  induction k with
  | zero =>
    intro st
    simp only [timer_ticks, Option.some_bind]
    cases timer_sweep_context env fuel c st <;> rfl
  | succ k ih =>
    intro st
    rw [timer_ticks]
    conv_rhs => rw [timer_ticks]
    cases h : timer_sweep_context env fuel c st with
    | none => rfl
    | some st1 =>
      simp only [Option.some_bind]
      exact ih st1

theorem close_socket_contract (c : Nat) (m : Mem) (s : Nat) (rest : List Nat)
    (h : isChain (fun x => (m.sockets x).next) s (s :: rest))
    (hit : (m.contexts c).iterator = s) :
    (∀ x ∈ rest, ((close_socket c s m).sockets x).timeout = (m.sockets x).timeout) ∧
    ((close_socket c s m).contexts c).iterator = (m.sockets s).next ∧
    isChain (fun x => ((close_socket c s m).sockets x).next) (m.sockets s).next rest := by
  have hnot : s ∉ rest := isChain_not_mem _ s rest h
  have h' := h
  simp only [isChain] at h'
  obtain ⟨_, hs0, hrest⟩ := h'
  have hsame : ∀ x ∈ rest, (close_socket c s m).sockets x = m.sockets x := by
    intro x hx
    have hxs : x ≠ s := fun e => hnot (e ▸ hx)
    have hnx : (m.sockets x).next ≠ s := by
      rcases isChain_next_mem _ rest _ hrest x hx with h1 | h1
      · exact fun e => hnot (e ▸ h1)
      · rw [h1]
        exact fun e => hs0 e.symm
    simp [close_socket, hxs, hnx]
  refine ⟨fun x hx => by rw [hsame x hx], ?_, ?_⟩
  · simp [close_socket, hit]
  · exact isChain_congr _ _ _ _ hrest (fun x hx => by simp only [hsame x hx])

theorem sampleEnv_contract (closes : Nat → Bool) (c : Nat) (m : Mem) (s : Nat)
    (rest : List Nat) (h : isChain (fun x => (m.sockets x).next) s (s :: rest))
    (hit : (m.contexts c).iterator = s) :
    (∀ x ∈ rest, (((sampleEnv closes).on_socket_timeout c s m).sockets x).timeout
        = (m.sockets x).timeout) ∧
    (((((sampleEnv closes).on_socket_timeout c s m).contexts c).iterator = s ∧
        isChain (fun x => (((sampleEnv closes).on_socket_timeout c s m).sockets x).next)
          (((sampleEnv closes).on_socket_timeout c s m).sockets s).next rest) ∨
      ((((sampleEnv closes).on_socket_timeout c s m).contexts c).iterator = (m.sockets s).next ∧
        isChain (fun x => (((sampleEnv closes).on_socket_timeout c s m).sockets x).next)
          (m.sockets s).next rest)) := by
  cases hcl : closes s with
  | false =>
    have hm : (sampleEnv closes).on_socket_timeout c s m = m := by simp [sampleEnv, hcl]
    rw [hm]
    have h' := h
    simp only [isChain] at h'
    exact ⟨fun _ _ => rfl, Or.inl ⟨hit, h'.2.2⟩⟩
  | true =>
    have hm : (sampleEnv closes).on_socket_timeout c s m = close_socket c s m := by
      simp [sampleEnv, hcl]
    rw [hm]
    obtain ⟨h1, h2, h3⟩ := close_socket_contract c m s rest h hit
    exact ⟨h1, Or.inr ⟨h2, h3⟩⟩

/-! ## The timeout sweep: claims -/

/-- C23. One sweep of a context whose timeout handler does not mutate the list
(it leaves the contexts and the `next` links as they are, and the timeout fields
of the sockets other than the one it is called for). If the sockets of the
context are `l`, in list order, the sweep of the context returns; it sets the
timestamp of the context to `(timestamp + 1) & 0x7fff`; with the needle
`0x8000 | timestamp` it calls `on_socket_timeout` exactly for the sockets of `l`
whose timeout field equals the needle, once each and in list order (`l` has no
duplicates), with the field set to 0 at the time of the call; the sockets whose
field differs from the needle keep their field; and the iterator slot of the
context is 0 afterwards. -/
theorem sweep_fires_matching (env : LoopEnv) (c fuel : Nat) (l : List Nat) (st : LoopState)
    (hquiet : ∀ (s : Nat) (m : Mem), (env.on_socket_timeout c s m).contexts = m.contexts ∧
      ∀ x, ((env.on_socket_timeout c s m).sockets x).next = (m.sockets x).next ∧
        (x ≠ s → ((env.on_socket_timeout c s m).sockets x).timeout = (m.sockets x).timeout))
    (hlist : isChain (fun x => (st.mem.sockets x).next) (st.mem.contexts c).head l)
    (hfuel : l.length < fuel) :
    ∃ st1, timer_sweep_context env fuel c st = some st1 ∧
      (st1.mem.contexts c).timestamp = ((st.mem.contexts c).timestamp + 1) &&& 0x7fff ∧
      st1.trace = st.trace ++
        (l.filter (fun x => decide ((st.mem.sockets x).timeout
            = 0x8000 ||| (st1.mem.contexts c).timestamp))).map
          (fun x => Event.on_socket_timeout c x 0) ∧
      l.Nodup ∧
      (∀ x, (st.mem.sockets x).timeout ≠ 0x8000 ||| (st1.mem.contexts c).timestamp →
        (st1.mem.sockets x).timeout = (st.mem.sockets x).timeout) ∧
      (st1.mem.contexts c).iterator = 0 := by
  obtain ⟨st1, k1, k2, _, k4, _, k6, k7, _⟩ :=
    timer_sweep_context_quiet env c fuel l st hquiet hlist hfuel
  have hts : ((st.mem.contexts c).timestamp + 1) &&& 0x7fff
      = ((st.mem.contexts c).timestamp + 1) % 32768 :=
    Nat.and_pow_two_sub_one_eq_mod _ 15
  have hneedle : 0x8000 ||| (st1.mem.contexts c).timestamp
      = 32768 + ((st.mem.contexts c).timestamp + 1) % 32768 := by
    rw [k6]
    conv_lhs => rw [← hts, needle_eq]
  refine ⟨st1, k1, by rw [k6, hts], ?_, isChain_nodup _ _ _ hlist, ?_, k7⟩
  · rw [k2, hneedle]
  · intro x hx
    rw [hneedle] at hx
    exact k4 x (Or.inr hx)

/-- Witness for C23: the sweep of the sample context at counter 4 when the
sockets 1 and 3 are stamped for counter 5 and socket 2 for counter 6. -/
theorem sweep_fires_matching_witness :
    ∃ st1, timer_sweep_context (sampleEnv (fun _ => false)) 4 1
        ⟨sampleMem 4 0x8005 0x8006 0x8005, []⟩ = some st1 ∧
      (st1.mem.contexts 1).timestamp = 5 ∧
      st1.trace = [Event.on_socket_timeout 1 1 0, Event.on_socket_timeout 1 3 0] := by
  obtain ⟨st1, h1, h2, h3, _⟩ := sweep_fires_matching (sampleEnv (fun _ => false)) 1 4 [1, 2, 3]
    ⟨sampleMem 4 0x8005 0x8006 0x8005, []⟩ (fun _ _ => ⟨rfl, fun _ => ⟨rfl, fun _ => rfl⟩⟩)
    ⟨rfl, by decide, rfl, by decide, rfl, by decide, rfl⟩ (by decide)
  have h2' : (st1.mem.contexts 1).timestamp = 5 := by rw [h2]; rfl
  refine ⟨st1, h1, h2', ?_⟩
  rw [h3, h2']
  rfl

/-- C26. Sweep safety under list mutation. Let the timeout handler of a context,
called for a socket `s` that heads the rest of the list while the iterator slot
points to `s`, either leave the iterator slot at `s` and the list after `s` as it
is, or (closing `s` or adopting it away) redirect the iterator slot to the
successor of `s` and leave the list from that successor on as it is, whatever it
does to the `next` link of `s`; in both cases it keeps the timeout fields of the
sockets after `s`. Then the sweep of the context returns, and it calls
`on_socket_timeout` exactly for the sockets of the list whose timeout field
equals the needle, once each and in list order: no matching socket is skipped
or fired twice and no other socket is fired. The iterator slot is 0 afterwards. -/
theorem sweep_safe_under_mutation (env : LoopEnv) (c fuel : Nat) (l : List Nat)
    (st : LoopState)
    (hcontract : ∀ (m : Mem) (s : Nat) (rest : List Nat),
      isChain (fun x => (m.sockets x).next) s (s :: rest) → (m.contexts c).iterator = s →
      (∀ x ∈ rest, ((env.on_socket_timeout c s m).sockets x).timeout = (m.sockets x).timeout) ∧
      ((((env.on_socket_timeout c s m).contexts c).iterator = s ∧
          isChain (fun x => ((env.on_socket_timeout c s m).sockets x).next)
            ((env.on_socket_timeout c s m).sockets s).next rest) ∨
        (((env.on_socket_timeout c s m).contexts c).iterator = (m.sockets s).next ∧
          isChain (fun x => ((env.on_socket_timeout c s m).sockets x).next)
            (m.sockets s).next rest)))
    (hlist : isChain (fun x => (st.mem.sockets x).next) (st.mem.contexts c).head l)
    (hfuel : l.length < fuel) :
    ∃ st1, timer_sweep_context env fuel c st = some st1 ∧
      st1.trace = st.trace ++
        (l.filter (fun x => decide ((st.mem.sockets x).timeout
            = 0x8000 ||| (((st.mem.contexts c).timestamp + 1) &&& 0x7fff)))).map
          (fun x => Event.on_socket_timeout c x 0) ∧
      l.Nodup ∧
      (st1.mem.contexts c).iterator = 0 := by
  obtain ⟨st1, k1, k2⟩ := timer_sweep_sockets_spec env c
    (0x8000 ||| (((st.mem.contexts c).timestamp + 1) &&& 0x7fff)) hcontract l fuel
    (st.mem.contexts c).head
    ⟨st.mem.set_timestamp c (((st.mem.contexts c).timestamp + 1) &&& 0x7fff), st.trace⟩
    (by simpa using hlist) hfuel
  refine ⟨{ st1 with mem := st1.mem.set_iterator c 0 }, ?_, ?_, isChain_nodup _ _ _ hlist, ?_⟩
  · simp only [timer_sweep_context, set_timestamp_timestamp, set_timestamp_head, k1,
      Option.map_some']
  · simpa using k2
  · simp

/-- Witness for C26: all three sockets of the sample context are due and the
handler of socket 2 closes it; sockets 1, 2 and 3 are fired once each. -/
theorem sweep_safe_under_mutation_witness :
    ∃ st1, timer_sweep_context (sampleEnv (fun s => decide (s = 2))) 4 1
        ⟨sampleMem 4 0x8005 0x8005 0x8005, []⟩ = some st1 ∧
      st1.trace = [Event.on_socket_timeout 1 1 0, Event.on_socket_timeout 1 2 0,
        Event.on_socket_timeout 1 3 0] := by
  obtain ⟨st1, h1, h2, _⟩ := sweep_safe_under_mutation (sampleEnv (fun s => decide (s = 2))) 1 4
    [1, 2, 3] ⟨sampleMem 4 0x8005 0x8005 0x8005, []⟩
    (sampleEnv_contract (fun s => decide (s = 2)) 1)
    ⟨rfl, by decide, rfl, by decide, rfl, by decide, rfl⟩ (by decide)
  refine ⟨st1, h1, ?_⟩
  rw [h2]
  rfl

/-! ## Dispatch and deferred free -/

theorem freed_append (t1 t2 : List Event) : freed (t1 ++ t2) = freed t1 ++ freed t2 := by
  simp [freed]

theorem freed_poll_free (l : List Nat) : freed (l.map Event.us_poll_free) = l := by
  induction l with
  | nil => rfl
  | cons x xs ih =>
    simp only [freed, List.map_cons, List.filterMap_cons] at ih ⊢
    rw [ih]

theorem free_closed_sockets_loop_spec :
    ∀ (l : List Nat) (fuel s : Nat) (st : LoopState),
      isChain (fun x => (st.mem.sockets x).next) s l → l.length < fuel →
      free_closed_sockets_loop fuel s st
        = some { st with trace := st.trace ++ l.map Event.us_poll_free } := by
  intro l
  induction l with
  | nil =>
    intro fuel s st h hf
    simp only [isChain] at h
    cases fuel with
    | zero => simp at hf
    | succ fuel => simp [free_closed_sockets_loop, h]
  | cons x rest ih =>
    intro fuel s st h hf
    simp only [isChain] at h
    obtain ⟨hsx, hx0, hrest⟩ := h
    subst hsx
    cases fuel with
    | zero => simp at hf
    | succ fuel =>
      simp only [List.length_cons] at hf
      unfold free_closed_sockets_loop
      simp only [hx0, ↓reduceIte]
      rw [ih fuel _ { st with trace := st.trace ++ [Event.us_poll_free s] } hrest (by omega)]
      simp

theorem dispatch_readable_freed (env : LoopEnv) (s : Nat) (st : LoopState) :
    freed (dispatch_readable env s st).trace = freed st.trace := by
  unfold dispatch_readable
  simp only
  split_ifs <;> simp [freed_append, freed]

theorem dispatch_writable_freed (env : LoopEnv) (s : Nat) (st : LoopState) :
    freed (dispatch_writable env s st).1.trace = freed st.trace := by
  unfold dispatch_writable
  simp only
  split_ifs <;> simp [freed_append, freed]

theorem dispatch_socket_freed (env : LoopEnv) (p error events : Nat) (st : LoopState) :
    freed (dispatch_socket env p error events st).trace = freed st.trace := by
  unfold dispatch_socket
  simp only
  split_ifs <;>
    first
    | (rw [freed_append]; simp [freed])
    | simp only [dispatch_readable_freed, dispatch_writable_freed]

theorem timer_sweep_sockets_freed (env : LoopEnv) (c needle : Nat) :
    ∀ (fuel s : Nat) (st st1 : LoopState),
      timer_sweep_sockets env c needle fuel s st = some st1 →
      freed st1.trace = freed st.trace := by
  intro fuel
  induction fuel with
  | zero => intro s st st1 h; simp [timer_sweep_sockets] at h
  | succ fuel ih =>
    intro s st st1 h
    unfold timer_sweep_sockets at h
    simp only at h
    split_ifs at h
    · simp only [Option.some.injEq] at h
      rw [← h]
    · rw [ih _ _ _ h]
      simp [freed_append, freed]
    · rw [ih _ _ _ h]
      simp [freed_append, freed]
    · simp only [Option.some.injEq] at h
      rw [← h]
    · exact ih _ _ _ h

theorem timer_sweep_context_freed (env : LoopEnv) (fuel c : Nat) (st st1 : LoopState)
    (h : timer_sweep_context env fuel c st = some st1) : freed st1.trace = freed st.trace := by
  unfold timer_sweep_context at h
  simp only [Option.map_eq_some'] at h
  obtain ⟨st2, h2, rfl⟩ := h
  have h3 := timer_sweep_sockets_freed env c _ _ _ _ st2 h2
  exact h3

theorem timer_sweep_contexts_freed (env : LoopEnv) (fuel1 : Nat) :
    ∀ (fuel : Nat) (st st1 : LoopState),
      timer_sweep_contexts env fuel fuel1 st = some st1 → freed st1.trace = freed st.trace := by
  intro fuel
  induction fuel with
  | zero => intro st st1 h; simp [timer_sweep_contexts] at h
  | succ fuel ih =>
    intro st st1 h
    unfold timer_sweep_contexts at h
    split_ifs at h
    · simp only [Option.some.injEq] at h
      rw [← h]
    · simp only [Option.bind_eq_some] at h
      obtain ⟨st2, h2, h3⟩ := h
      rw [ih _ _ h3]
      exact timer_sweep_context_freed env fuel1 _ st st2 h2

/-- C28. Error dispatch. For a poll of type `POLL_TYPE_SOCKET` or
`POLL_TYPE_SOCKET_SHUT_DOWN` and a non-zero `error`, whatever `events` is,
`us_internal_dispatch_ready_poll` calls `us_socket_close` on the socket and
nothing else: the trace gains this one call (no `on_writable`, `on_data`,
`on_end`, no `bsd_recv`, no poll change) and the memory is the one
`us_socket_close` leaves. -/
theorem error_dispatch_closes (env : LoopEnv) (p error events : Nat) (st : LoopState)
    (htype : env.us_internal_poll_type p st.mem = PollType.POLL_TYPE_SOCKET ∨
      env.us_internal_poll_type p st.mem = PollType.POLL_TYPE_SOCKET_SHUT_DOWN)
    (herror : error ≠ 0) :
    us_internal_dispatch_ready_poll env p error events st
      = ⟨(env.us_socket_close p st.mem).1, st.trace ++ [Event.us_socket_close p]⟩ := by
  rcases htype with h | h <;>
    simp [us_internal_dispatch_ready_poll, h, dispatch_socket, herror]

/-- Witness for C28: an error together with readable and writable events on
socket 2 of the sample memory. -/
theorem error_dispatch_closes_witness :
    (us_internal_dispatch_ready_poll (sampleEnv (fun _ => false)) 2 1 3
      ⟨sampleMem 0 0 0 0, []⟩).trace = [Event.us_socket_close 2] := by
  rw [error_dispatch_closes (sampleEnv (fun _ => false)) 2 1 3 ⟨sampleMem 0 0 0 0, []⟩
    (Or.inl rfl) (by decide)]
  rfl

/-- C29. Writable dispatch. For a poll of type `POLL_TYPE_SOCKET` or
`POLL_TYPE_SOCKET_SHUT_DOWN`, no error and a writable event: `on_writable` is
called with `last_write_failed` cleared. If the socket it returns is closed,
dispatch returns with this call as its only effect: no poll change, no readable
processing. Otherwise, if `last_write_failed` is still clear or the socket is
shut down, the poll interest of the socket is changed to its current interest
AND readable; if the flag was set and the socket is not shut down, the poll
interest is left as it is. In both cases the readable block follows if `events`
has the readable bit. -/
theorem writable_dispatch (env : LoopEnv) (p events : Nat) (st : LoopState)
    (htype : env.us_internal_poll_type p st.mem = PollType.POLL_TYPE_SOCKET ∨
      env.us_internal_poll_type p st.mem = PollType.POLL_TYPE_SOCKET_SHUT_DOWN)
    (hwritable : events &&& env.LIBUS_SOCKET_WRITABLE ≠ 0) :
    (env.us_socket_is_closed
        (env.on_writable (st.mem.sockets p).context p { st.mem with last_write_failed := 0 }).2
        (env.on_writable (st.mem.sockets p).context p { st.mem with last_write_failed := 0 }).1
        = true →
      us_internal_dispatch_ready_poll env p 0 events st =
        ⟨(env.on_writable (st.mem.sockets p).context p
            { st.mem with last_write_failed := 0 }).1,
          st.trace ++ [Event.on_writable p 0]⟩) ∧
    (env.us_socket_is_closed
        (env.on_writable (st.mem.sockets p).context p { st.mem with last_write_failed := 0 }).2
        (env.on_writable (st.mem.sockets p).context p { st.mem with last_write_failed := 0 }).1
        = false →
      ∃ s m st1, env.on_writable (st.mem.sockets p).context p
          { st.mem with last_write_failed := 0 } = (m, s) ∧
        st1 = (if m.last_write_failed = 0 ∨ env.us_socket_is_shut_down s m = true
          then ⟨us_poll_change m s (us_poll_events m s &&& env.LIBUS_SOCKET_READABLE),
            st.trace ++ [Event.on_writable p 0,
              Event.us_poll_change s (us_poll_events m s &&& env.LIBUS_SOCKET_READABLE)]⟩
          else ⟨m, st.trace ++ [Event.on_writable p 0]⟩) ∧
        us_internal_dispatch_ready_poll env p 0 events st =
          (if events &&& env.LIBUS_SOCKET_READABLE ≠ 0 then dispatch_readable env s st1
            else st1)) := by
  have hd : us_internal_dispatch_ready_poll env p 0 events st
      = dispatch_socket env p 0 events st := by
    rcases htype with h | h <;> simp [us_internal_dispatch_ready_poll, h]
  rw [hd]
  constructor
  · intro hclosed
    simp [dispatch_socket, hwritable, dispatch_writable, hclosed]
  · intro hopen
    refine ⟨_, _, _, rfl, rfl, ?_⟩
    by_cases hflag : (env.on_writable (st.mem.sockets p).context p
        { st.mem with last_write_failed := 0 }).1.last_write_failed = 0 ∨
        env.us_socket_is_shut_down
          (env.on_writable (st.mem.sockets p).context p { st.mem with last_write_failed := 0 }).2
          (env.on_writable (st.mem.sockets p).context p { st.mem with last_write_failed := 0 }).1
          = true
    · simp [dispatch_socket, hwritable, dispatch_writable, hopen, hflag]
    · simp [dispatch_socket, hwritable, dispatch_writable, hopen, hflag]

/-- Witness for C29: a writable event on socket 2 of the sample memory, whose
writable handler closes it. -/
theorem writable_dispatch_witness :
    us_internal_dispatch_ready_poll (sampleEnv (fun s => decide (s = 2))) 2 0 3
        ⟨sampleMem 0 0 0 0, []⟩ =
      ⟨close_socket 1 2 { sampleMem 0 0 0 0 with last_write_failed := 0 },
        [Event.on_writable 2 0]⟩ :=
  (writable_dispatch (sampleEnv (fun s => decide (s = 2))) 2 3 ⟨sampleMem 0 0 0 0, []⟩
    (Or.inl rfl) (by decide)).1 rfl

/-- C30. Deferred free. If the closed list of the loop holds the sockets `l`,
`us_internal_free_closed_sockets` returns, hands exactly the sockets of `l` to
`us_poll_free`, once each (`l` has no duplicates) and in list order, sets
`closed_head` to 0 and changes nothing else; `us_internal_loop_post` does this
before it calls the post callback. `us_internal_dispatch_ready_poll` and
`us_internal_timer_sweep` hand no socket to `us_poll_free`. -/
theorem closed_sockets_freed_in_post (env : LoopEnv) (fuel : Nat) (l : List Nat)
    (st : LoopState)
    (hlist : isChain (fun x => (st.mem.sockets x).next) st.mem.closed_head l)
    (hfuel : l.length < fuel) :
    us_internal_free_closed_sockets fuel st
      = some ⟨{ st.mem with closed_head := 0 }, st.trace ++ l.map Event.us_poll_free⟩ ∧
    l.Nodup ∧
    freed (st.trace ++ l.map Event.us_poll_free) = freed st.trace ++ l ∧
    us_internal_loop_post env fuel st
      = some ⟨env.post_cb { st.mem with closed_head := 0 },
          st.trace ++ l.map Event.us_poll_free ++ [Event.post_cb]⟩ ∧
    (∀ p error events,
      freed (us_internal_dispatch_ready_poll env p error events st).trace = freed st.trace) ∧
    (∀ fuel0 fuel1 st1, us_internal_timer_sweep env fuel0 fuel1 st = some st1 →
      freed st1.trace = freed st.trace) := by
  have hfree : us_internal_free_closed_sockets fuel st
      = some ⟨{ st.mem with closed_head := 0 }, st.trace ++ l.map Event.us_poll_free⟩ := by
    unfold us_internal_free_closed_sockets
    by_cases h0 : st.mem.closed_head = 0
    · have hnil : l = [] := by
        cases l with
        | nil => rfl
        | cons x xs =>
          simp only [isChain] at hlist
          exact absurd (hlist.1 ▸ h0) hlist.2.1
      subst hnil
      simp only [h0, ne_eq, not_true_eq_false, ↓reduceIte, List.map_nil, List.append_nil]
      congr 1
      cases st with
      | mk mem trace =>
        simp only at h0 ⊢
        congr 1
        cases mem
        simp_all
    · simp only [ne_eq, h0, not_false_eq_true, ↓reduceIte]
      rw [free_closed_sockets_loop_spec l fuel _ st hlist hfuel]
      rfl
  refine ⟨hfree, isChain_nodup _ _ _ hlist, ?_, ?_, ?_, ?_⟩
  · rw [freed_append, freed_poll_free]
  · simp [us_internal_loop_post, hfree]
  · intro p error events
    unfold us_internal_dispatch_ready_poll
    split <;> simp [dispatch_socket_freed]
  · intro fuel0 fuel1 st1 h
    exact timer_sweep_contexts_freed env fuel1 fuel0
      { st with mem := { st.mem with iterator := st.mem.head } } st1 h

/-- Witness for C30: the closed list of the sample memory holds the sockets 8
and 9. -/
theorem closed_sockets_freed_in_post_witness :
    us_internal_loop_post (sampleEnv (fun _ => false)) 3 ⟨sampleMem 0 0 0 0, []⟩
      = some ⟨(sampleEnv (fun _ => false)).post_cb { sampleMem 0 0 0 0 with closed_head := 0 },
          [] ++ [8, 9].map Event.us_poll_free ++ [Event.post_cb]⟩ :=
  (closed_sockets_freed_in_post (sampleEnv (fun _ => false)) 3 [8, 9] ⟨sampleMem 0 0 0 0, []⟩
    ⟨rfl, by decide, rfl, by decide, rfl⟩ (by decide)).2.2.2.1

/-! ## The corked write that does not fit -/

theorem uncork_holder_spec (env : Env) (fuel : Nat) (s : AsyncSocket) (src : List Byte)
    (optionally : Bool) (hheld : s.loopData.corkedSocket = some s.this) :
    ∃ s1 a bp, uncork env (fuel + 2) s src optionally = some (s1, a, bp) ∧
      s1.loopData.corkedSocket = none ∧ s1.loopData.corkOffset = 0 ∧
      s1.loopData.corkBuffer = s.loopData.corkBuffer := by
  by_cases h0 : s.loopData.corkOffset = 0
  · obtain ⟨s1, a, bp, h1, h2, _⟩ := write_uncorked_spec env fuel
      { s with loopData := { s.loopData with corkedSocket := none } } src optionally 0 (by simp)
    exact ⟨s1, a, bp, by simpa [uncork, hheld, h0] using h1, by simp [h2], by simp [h2, h0],
      by simp [h2]⟩
  · obtain ⟨s1, a1, bp1, h1, h2, h3, _⟩ := write_uncorked_spec env fuel
      { s with loopData := { s.loopData with corkedSocket := none } }
      (readBytes s.loopData.corkBuffer s.loopData.corkOffset) false src.length (by simp)
    cases bp1 with
    | true =>
      exact ⟨{ s1 with loopData := { s1.loopData with corkOffset := 0 } }, 0, true,
        by simp [uncork, hheld, h0, h1], by simp [h2], rfl, by simp [h2]⟩
    | false =>
      obtain ⟨s2, a2, bp2, k1, k2, _⟩ := write_uncorked_spec env fuel
        { s1 with loopData := { s1.loopData with corkOffset := 0 } } src optionally 0
        (by simp [h2])
      exact ⟨s2, a2, bp2, by simp [uncork, hheld, h0, h1, k1], by simp [k2, h2], by simp [k2],
        by simp [k2, h2]⟩

/-- C31. The corked write that does not fit. On an open connection that holds
the cork slot, with an empty overflow buffer and a cork offset within the
buffer, let `data` be longer than the room left, `CORK_BUFFER_SIZE - corkOffset`.
On an encrypted transport the first bytes of `data`, as many as there is room,
are copied behind the corked bytes, which fills the cork buffer, and the result
is that of `uncork` on the rest of `data`, with the number of copied bytes added
to the accepted count. On a plain transport the result is that of `uncork` on
the connection as it is and on all of `data`, and the cork buffer is not
written. In both cases the cork slot is free and `corkOffset` is 0 afterwards. -/
theorem corked_write_not_fit (env : Env) (fuel : Nat) (s : AsyncSocket) (data : List Byte)
    (optionally : Bool) (nextLength : Nat)
    (hopen : s.closed = false) (hheld : s.loopData.corkedSocket = some s.this)
    (hbuf : s.buffer = []) (hoffset : s.loopData.corkOffset ≤ env.CORK_BUFFER_SIZE)
    (hlong : env.CORK_BUFFER_SIZE - s.loopData.corkOffset < data.length) :
    (env.SSL = true →
      readBytes (memcpy s.loopData.corkBuffer s.loopData.corkOffset
          (data.take (env.CORK_BUFFER_SIZE - s.loopData.corkOffset))) env.CORK_BUFFER_SIZE
        = readBytes s.loopData.corkBuffer s.loopData.corkOffset ++
          data.take (env.CORK_BUFFER_SIZE - s.loopData.corkOffset) ∧
      ∃ s1 w failed,
        uncork env (fuel + 2)
          { s with loopData := { s.loopData with
              corkBuffer := memcpy s.loopData.corkBuffer s.loopData.corkOffset
                (data.take (env.CORK_BUFFER_SIZE - s.loopData.corkOffset)),
              corkOffset := env.CORK_BUFFER_SIZE } }
          (data.drop (env.CORK_BUFFER_SIZE - s.loopData.corkOffset)) optionally
          = some (s1, w, failed) ∧
        write env (fuel + 3) s data optionally nextLength
          = some (s1, w + (env.CORK_BUFFER_SIZE - s.loopData.corkOffset), failed) ∧
        s1.loopData.corkedSocket = none ∧ s1.loopData.corkOffset = 0) ∧
    (env.SSL = false →
      ∃ s1 w failed, uncork env (fuel + 2) s data optionally = some (s1, w, failed) ∧
        write env (fuel + 3) s data optionally nextLength = some (s1, w, failed) ∧
        s1.loopData.corkedSocket = none ∧ s1.loopData.corkOffset = 0 ∧
        s1.loopData.corkBuffer = s.loopData.corkBuffer) := by
  have hsrc : data ≠ [] := by
    intro h
    rw [h] at hlong
    simp at hlong
  have hfit : ¬ data.length ≤ env.CORK_BUFFER_SIZE - s.loopData.corkOffset := by omega
  constructor
  · intro hssl
    constructor
    · have hlen : (data.take (env.CORK_BUFFER_SIZE - s.loopData.corkOffset)).length
          = env.CORK_BUFFER_SIZE - s.loopData.corkOffset := by
        rw [List.length_take]
        omega
      have h := readBytes_memcpy s.loopData.corkBuffer s.loopData.corkOffset
        (data.take (env.CORK_BUFFER_SIZE - s.loopData.corkOffset))
      rw [hlen] at h
      have he : s.loopData.corkOffset + (env.CORK_BUFFER_SIZE - s.loopData.corkOffset)
          = env.CORK_BUFFER_SIZE := by omega
      rw [he] at h
      exact h
    · obtain ⟨s1, w, failed, h1, h2, h3, _⟩ := uncork_holder_spec env fuel
        { s with loopData := { s.loopData with
            corkBuffer := memcpy s.loopData.corkBuffer s.loopData.corkOffset
              (data.take (env.CORK_BUFFER_SIZE - s.loopData.corkOffset)),
            corkOffset := env.CORK_BUFFER_SIZE } }
        (data.drop (env.CORK_BUFFER_SIZE - s.loopData.corkOffset)) optionally hheld
      refine ⟨s1, w, failed, h1, ?_, h2, h3⟩
      simp only [hopen, hbuf, hheld] at h1
      simp [write, hopen, hbuf, hsrc, hheld, corkRoom_of_le env s.loopData hoffset, hfit, hssl,
        h1]
  · intro hssl
    obtain ⟨s1, w, failed, h1, h2, h3, h4⟩ := uncork_holder_spec env fuel s data optionally hheld
    refine ⟨s1, w, failed, h1, ?_, h2, h3, h4⟩
    simp [write, hopen, hbuf, hsrc, hheld, corkRoom_of_le env s.loopData hoffset, hfit, hssl, h1]

/-- Witness for C31: three bytes for a socket that has one byte corked in a
cork buffer of two bytes, on a plain transport that is not writable. -/
theorem corked_write_not_fit_witness :
    ∃ s1 w failed, uncork (stalledEnv false 2) 2 corkedSocket [1, 2, 3] false
        = some (s1, w, failed) ∧
      write (stalledEnv false 2) 3 corkedSocket [1, 2, 3] false 0 = some (s1, w, failed) ∧
      s1.loopData.corkedSocket = none ∧ s1.loopData.corkOffset = 0 ∧
      s1.loopData.corkBuffer = corkedSocket.loopData.corkBuffer :=
  (corked_write_not_fit (stalledEnv false 2) 0 corkedSocket [1, 2, 3] false 0 rfl rfl rfl
    (by decide) (by decide)).2 rfl

/-- C34. Uncork under backpressure. On an open connection that holds the cork
slot with a non-empty cork buffer, `uncork` first writes the corked bytes
(mandatory, on the freed slot); that write returns, and the bytes its syscalls
transmitted followed by the overflow buffer it leaves are the old overflow
buffer followed by the corked bytes. If it reports backpressure, `uncork`
returns `(0, true)` in the state that write left, with `corkOffset` set to 0,
for every trailing data and for `optionally` true and false alike: no trailing
byte is transmitted or buffered. A `write` on a plain transport that reaches
`uncork` because the data does not fit the cork buffer (it is longer than the
unsigned difference `CORK_BUFFER_SIZE - corkOffset`, `corkRoom`) returns the
same. -/
theorem uncork_backpressure_drops_trailing (env : Env) (fuel : Nat) (s : AsyncSocket)
    (src : List Byte) (optionally : Bool)
    (hopen : s.closed = false) (hheld : s.loopData.corkedSocket = some s.this)
    (hcork : s.loopData.corkOffset ≠ 0) :
    ∃ s1 bp calls,
      write env (fuel + 1) { s with loopData := { s.loopData with corkedSocket := none } }
        (readBytes s.loopData.corkBuffer s.loopData.corkOffset) false src.length
        = some (s1, (readBytes s.loopData.corkBuffer s.loopData.corkOffset).length, bp) ∧
      s1.syscalls = s.syscalls ++ calls ∧
      transmitted calls ++ s1.buffer
        = s.buffer ++ readBytes s.loopData.corkBuffer s.loopData.corkOffset ∧
      (bp = true →
        uncork env (fuel + 2) s src optionally
          = some ({ s1 with loopData := { s1.loopData with corkOffset := 0 } }, 0, true) ∧
        (env.SSL = false → s.buffer = [] →
          corkRoom env s.loopData < src.length →
          ∀ nextLength, write env (fuel + 3) s src optionally nextLength
            = some ({ s1 with loopData := { s1.loopData with corkOffset := 0 } }, 0, true))) := by
  obtain ⟨s1, bp, calls, h1, _, _, _, h5, h6, _⟩ := write_uncorked_conserves env fuel
    { s with loopData := { s.loopData with corkedSocket := none } }
    (readBytes s.loopData.corkBuffer s.loopData.corkOffset) false src.length hopen (by simp)
    (Or.inl rfl)
  refine ⟨s1, bp, calls, h1, h5, h6, ?_⟩
  intro hbp
  subst hbp
  have hu : uncork env (fuel + 2) s src optionally
      = some ({ s1 with loopData := { s1.loopData with corkOffset := 0 } }, 0, true) := by
    simp [uncork, hheld, hcork, h1]
  refine ⟨hu, ?_⟩
  intro hssl hbuf hlong nextLength
  have hsrc : src ≠ [] := by
    intro h
    rw [h] at hlong
    simp at hlong
  have hfit : ¬ src.length ≤ corkRoom env s.loopData := by omega
  simp [write, hopen, hbuf, hsrc, hheld, hfit, hssl, hu]

/-- Witness for C34: `uncork` with three trailing bytes on a socket that has one
byte corked and is not writable. -/
theorem uncork_backpressure_drops_trailing_witness :
    (uncork (stalledEnv false 16) 2 corkedSocket [1, 2, 3] false).map
      (fun r => (r.2, r.1.buffer, transmitted r.1.syscalls)) = some ((0, true), [7], []) := by
  obtain ⟨s1, bp, calls, h1, _, _, h4⟩ := uncork_backpressure_drops_trailing
    (stalledEnv false 16) 0 corkedSocket [1, 2, 3] false rfl rfl (by decide)
  simp [write, us_socket_write, readBytes, stalledEnv, corkedSocket] at h1
  obtain ⟨hs, hbp⟩ := h1
  rw [(h4 hbp).1, ← hs]
  rfl

/-! ## What the connection answers for -/

theorem write_uncorked_accounted (env : Env) (fuel : Nat) (s : AsyncSocket) (src : List Byte)
    (optionally : Bool) (nextLength : Nat) (hopen : s.closed = false)
    (hfree : s.loopData.corkedSocket ≠ some s.this) :
    ∃ s1 a bp, write env (fuel + 1) s src optionally nextLength = some (s1, a, bp) ∧
      s1.loopData = s.loopData ∧ s1.this = s.this ∧ s1.closed = false ∧
      a ≤ src.length ∧
      transmitted s1.syscalls ++ s1.buffer
        = transmitted s.syscalls ++ s.buffer ++ src.take a ∧
      (optionally = false → a = src.length) := by
  by_cases hmand : optionally = false ∨ src = []
  · obtain ⟨s1, bp, calls, h1, h2, h3, h4, h5, h6, _⟩ :=
      write_uncorked_conserves env fuel s src optionally nextLength hopen hfree hmand
    refine ⟨s1, src.length, bp, h1, h2, h3, h4, le_refl _, ?_, fun _ => rfl⟩
    rw [h5, transmitted_append, List.append_assoc, h6, List.take_length, List.append_assoc]
  · have hopt : optionally = true := by
      cases optionally
      · exact absurd (Or.inl rfl) hmand
      · rfl
    have hsrc : src ≠ [] := fun h => hmand (Or.inr h)
    subst hopt
    have key : ∀ t : AsyncSocket, t.closed = false → t.buffer = [] →
        t.loopData.corkedSocket ≠ some t.this →
        ∃ s1 a bp, write env (fuel + 1) t src true nextLength = some (s1, a, bp) ∧
          s1.loopData = t.loopData ∧ s1.this = t.this ∧ s1.closed = false ∧
          a ≤ src.length ∧
          transmitted s1.syscalls ++ s1.buffer
            = transmitted t.syscalls ++ t.buffer ++ src.take a ∧
          (true = false → a = src.length) := by
      intro t ho hb hf
      refine ⟨_, _, _, write_direct_eq env fuel t src true nextLength ho hb hf hsrc, rfl, rfl, ho,
        ?_, ?_, by simp⟩
      · by_cases hw : env.outcome t.syscalls.length src (if nextLength = 0 then 0 else 1)
            < src.length
        · simp [hw]
          omega
        · simp [hw]
      · by_cases hw : env.outcome t.syscalls.length src (if nextLength = 0 then 0 else 1)
            < src.length
        · simp [hw, hb, transmitted_append, transmitted]
        · simp [hw, hb, transmitted_append, transmitted]
          exact Nat.le_of_not_lt hw
    by_cases hb : s.buffer = []
    · exact key s hopen hb hfree
    · by_cases hw : env.outcome s.syscalls.length s.buffer src.length < s.buffer.length
      · refine ⟨{ s with
            syscalls := s.syscalls ++
              [⟨s.buffer, src.length, env.outcome s.syscalls.length s.buffer src.length⟩],
            buffer := s.buffer.drop (env.outcome s.syscalls.length s.buffer src.length) },
          0, true, by simp [write, hopen, hb, hw, us_socket_write], rfl, rfl, hopen,
          Nat.zero_le _, ?_, by simp⟩
        simp [transmitted_append, transmitted]
      · rw [write_full_flush env fuel s src true nextLength hopen hb hw]
        obtain ⟨s1, a, bp, h1, h2, h3, h4, h5, h6, h7⟩ := key
          { s with
            syscalls := s.syscalls ++
              [⟨s.buffer, src.length, env.outcome s.syscalls.length s.buffer src.length⟩],
            buffer := [] } hopen rfl hfree
        refine ⟨s1, a, bp, h1, h2, h3, h4, h5, ?_, h7⟩
        rw [h6]
        simp only [transmitted_append, transmitted, List.append_nil, List.append_assoc]
        rw [List.take_of_length_le (Nat.le_of_not_lt hw)]

theorem uncork_accounted (env : Env) (fuel : Nat) (s : AsyncSocket) (src : List Byte)
    (optionally : Bool) (hopen : s.closed = false)
    (hheld : s.loopData.corkedSocket = some s.this) (hbuf : s.buffer = []) :
    ∃ s1 a bp, uncork env (fuel + 2) s src optionally = some (s1, a, bp) ∧
      s1.this = s.this ∧ s1.closed = false ∧
      s1.loopData.corkedSocket = none ∧ s1.loopData.corkOffset = 0 ∧
      a ≤ src.length ∧
      transmitted s1.syscalls ++ s1.buffer
        = transmitted s.syscalls ++ readBytes s.loopData.corkBuffer s.loopData.corkOffset
          ++ src.take a ∧
      (a = src.length ∨ bp = true) := by
  by_cases h0 : s.loopData.corkOffset = 0
  · obtain ⟨s1, a, bp, h1, h2, h3, h4, h5, h6, h7⟩ := write_uncorked_accounted env fuel
      { s with loopData := { s.loopData with corkedSocket := none } } src optionally 0 hopen
      (by simp)
    obtain ⟨s1', a', bp', g1, _, _, _, g5⟩ := write_uncorked_spec env fuel
      { s with loopData := { s.loopData with corkedSocket := none } } src optionally 0 (by simp)
    rw [h1] at g1
    simp only [Option.some.injEq, Prod.mk.injEq] at g1
    obtain ⟨e1, e2, e3⟩ := g1
    subst e1 e2 e3
    refine ⟨s1, a, bp, by simpa [uncork, hheld, h0] using h1, h3, h4, by simp [h2],
      by simp [h2, h0], h5, ?_, ?_⟩
    · simpa [hbuf, h0, readBytes] using h6
    · cases bp
      · exact Or.inl (g5 rfl).1
      · exact Or.inr rfl
  · obtain ⟨s1, bp1, calls, h1, h2, h3, h4, h5, h6, _⟩ := write_uncorked_conserves env fuel
      { s with loopData := { s.loopData with corkedSocket := none } }
      (readBytes s.loopData.corkBuffer s.loopData.corkOffset) false src.length hopen (by simp)
      (Or.inl rfl)
    have hacc : transmitted s1.syscalls ++ s1.buffer
        = transmitted s.syscalls ++ readBytes s.loopData.corkBuffer s.loopData.corkOffset := by
      rw [h5, transmitted_append, List.append_assoc, h6]
      simp [hbuf]
    cases bp1 with
    | true =>
      refine ⟨{ s1 with loopData := { s1.loopData with corkOffset := 0 } }, 0, true,
        by simp [uncork, hheld, h0, h1], h3, h4, by simp [h2], rfl, Nat.zero_le _, ?_,
        Or.inr rfl⟩
      simpa using hacc
    | false =>
      obtain ⟨s2, a2, bp2, k1, k2, k3, k4, k5, k6, k7⟩ := write_uncorked_accounted env fuel
        { s1 with loopData := { s1.loopData with corkOffset := 0 } } src optionally 0 h4
        (by simp [h2])
      obtain ⟨s2', a2', bp2', g1, _, _, _, g5⟩ := write_uncorked_spec env fuel
        { s1 with loopData := { s1.loopData with corkOffset := 0 } } src optionally 0
        (by simp [h2])
      rw [k1] at g1
      simp only [Option.some.injEq, Prod.mk.injEq] at g1
      obtain ⟨e1, e2, e3⟩ := g1
      subst e1 e2 e3
      refine ⟨s2, a2, bp2, by simp [uncork, hheld, h0, h1, k1], by simp [k3, h3], k4,
        by simp [k2, h2], by simp [k2], k5, ?_, ?_⟩
      · rw [k6]
        simp only
        rw [hacc]
      · cases bp2
        · exact Or.inl (g5 rfl).1
        · exact Or.inr rfl

theorem write_accounted (env : Env) (fuel : Nat) (s : AsyncSocket) (src : List Byte)
    (optionally : Bool) (nextLength : Nat) (hopen : s.closed = false)
    (hinv : corkInvariant env s) :
    ∃ s1 a bp, write env (fuel + 3) s src optionally nextLength = some (s1, a, bp) ∧
      s1.this = s.this ∧ s1.closed = false ∧ corkInvariant env s1 ∧ a ≤ src.length ∧
      accounted s1 = accounted s ++ src.take a ∧
      (s.loopData.corkedSocket ≠ some s.this →
        s1.loopData.corkedSocket ≠ some s1.this ∧ (optionally = false → a = src.length)) := by
  obtain ⟨hoff, hdis⟩ := hinv
  by_cases hheld : s.loopData.corkedSocket = some s.this
  · have key : ∀ t : AsyncSocket, t.closed = false → t.buffer = [] →
        t.loopData.corkedSocket = some t.this →
        t.loopData.corkOffset ≤ env.CORK_BUFFER_SIZE →
        ∃ s1 a bp, write env (fuel + 3) t src optionally nextLength = some (s1, a, bp) ∧
          s1.this = t.this ∧ s1.closed = false ∧ corkInvariant env s1 ∧ a ≤ src.length ∧
          accounted s1 = accounted t ++ src.take a := by
      intro t ho hb hh hle
      by_cases hsrc : src = []
      · exact ⟨t, 0, false, by simp [write, ho, hb, hsrc], rfl, ho, ⟨hle, Or.inl hb⟩,
          Nat.zero_le _, by simp⟩
      · by_cases hfit : src.length ≤ corkRoom env t.loopData
        · have hfit' := hfit
          rw [corkRoom_of_le env t.loopData hle] at hfit'
          refine ⟨{ t with loopData := { t.loopData with
                corkBuffer := memcpy t.loopData.corkBuffer t.loopData.corkOffset src,
                corkOffset := t.loopData.corkOffset + src.length } }, src.length, false,
              by simp [write, ho, hb, hsrc, hh, hfit], rfl, ho, ⟨?_, Or.inl hb⟩, le_refl _, ?_⟩
          · show t.loopData.corkOffset + src.length ≤ env.CORK_BUFFER_SIZE
            omega
          · simp only [accounted, hh, ↓reduceIte, readBytes_memcpy, List.take_length,
              List.append_assoc]
        · have hroom := corkRoom_of_le env t.loopData hle
          cases hssl : env.SSL
          · obtain ⟨s1, a, bp, h1, h2, h3, h4, h5, h6, h7, _⟩ :=
              uncork_accounted env fuel t src optionally ho hh hb
            refine ⟨s1, a, bp, by simp [write, ho, hb, hsrc, hh, hfit, hssl, h1], h2, h3,
              ⟨by rw [h5]; exact Nat.zero_le _, Or.inr (Or.inl (by rw [h4]; simp))⟩, h6, ?_⟩
            simp only [accounted, h4, hh, hb, ↓reduceIte, List.append_nil]
            rw [if_neg (by simp), List.append_nil, h7]
          · obtain ⟨s1, a, bp, h1, h2, h3, h4, h5, h6, h7, _⟩ :=
              uncork_accounted env fuel
                { t with loopData := { t.loopData with
                    corkBuffer := memcpy t.loopData.corkBuffer t.loopData.corkOffset
                      (src.take (corkRoom env t.loopData)),
                    corkOffset := env.CORK_BUFFER_SIZE } }
                (src.drop (corkRoom env t.loopData)) optionally ho hh hb
            have hlen : (src.take (corkRoom env t.loopData)).length = corkRoom env t.loopData := by
              rw [List.length_take]
              omega
            have hcork : readBytes (memcpy t.loopData.corkBuffer t.loopData.corkOffset
                (src.take (corkRoom env t.loopData))) env.CORK_BUFFER_SIZE
                = readBytes t.loopData.corkBuffer t.loopData.corkOffset
                  ++ src.take (corkRoom env t.loopData) := by
              have h := readBytes_memcpy t.loopData.corkBuffer t.loopData.corkOffset
                (src.take (corkRoom env t.loopData))
              rw [hlen, hroom] at h
              have he : t.loopData.corkOffset + (env.CORK_BUFFER_SIZE - t.loopData.corkOffset)
                  = env.CORK_BUFFER_SIZE := by omega
              rw [he] at h
              rw [hroom]
              exact h
            simp only at h1 h2 h3 h4 h5 h6 h7
            refine ⟨s1, a + corkRoom env t.loopData, bp, ?_, h2, h3,
              ⟨by rw [h5]; exact Nat.zero_le _, Or.inr (Or.inl (by rw [h4]; simp))⟩, ?_, ?_⟩
            · simp only [ho, hb, hh] at h1
              simp [write, ho, hb, hsrc, hh, hfit, hssl, h1]
            · rw [List.length_drop] at h6
              omega
            · simp only [accounted, h4, hh, hb, ↓reduceIte, List.append_nil]
              rw [if_neg (by simp), List.append_nil, h7, hcork, Nat.add_comm a, List.take_add]
              simp only [List.append_assoc]
    by_cases hb : s.buffer = []
    · obtain ⟨s1, a, bp, h1, h2, h3, h4, h5, h6⟩ := key s hopen hb hheld hoff
      exact ⟨s1, a, bp, h1, h2, h3, h4, h5, h6, fun h => absurd hheld h⟩
    · have h0 : s.loopData.corkOffset = 0 := by
        rcases hdis with h | h | h
        · exact absurd h hb
        · exact absurd hheld h
        · exact h
      by_cases hw : env.outcome s.syscalls.length s.buffer src.length < s.buffer.length
      · cases optionally
        · refine ⟨{ s with
                syscalls := s.syscalls ++
                  [⟨s.buffer, src.length, env.outcome s.syscalls.length s.buffer src.length⟩],
                buffer := s.buffer.drop (env.outcome s.syscalls.length s.buffer src.length)
                  ++ src },
              src.length, true, by simp [write, hopen, hb, hw, us_socket_write],
              rfl, hopen, ⟨hoff, Or.inr (Or.inr h0)⟩, le_refl _, ?_, fun h => absurd hheld h⟩
          simp [accounted, hheld, h0, readBytes, transmitted_append, transmitted]
          rw [← List.append_assoc, List.take_append_drop]
        · refine ⟨{ s with
                syscalls := s.syscalls ++
                  [⟨s.buffer, src.length, env.outcome s.syscalls.length s.buffer src.length⟩],
                buffer := s.buffer.drop (env.outcome s.syscalls.length s.buffer src.length) },
              0, true, by simp [write, hopen, hb, hw, us_socket_write],
              rfl, hopen, ⟨hoff, Or.inr (Or.inr h0)⟩, Nat.zero_le _, ?_,
              fun h => absurd hheld h⟩
          simp [accounted, hheld, h0, readBytes, transmitted_append, transmitted]
      · rw [write_full_flush env (fuel + 2) s src optionally nextLength hopen hb hw]
        obtain ⟨s1, a, bp, h1, h2, h3, h4, h5, h6⟩ := key
          { s with
            syscalls := s.syscalls ++
              [⟨s.buffer, src.length, env.outcome s.syscalls.length s.buffer src.length⟩],
            buffer := [] } hopen rfl hheld hoff
        refine ⟨s1, a, bp, h1, h2, h3, h4, h5, ?_, fun h => absurd hheld h⟩
        rw [h6]
        simp only [accounted, hheld, ↓reduceIte, transmitted_append, transmitted,
          List.append_nil, List.append_assoc]
        rw [List.take_of_length_le (Nat.le_of_not_lt hw)]
  · obtain ⟨s1, a, bp, h1, h2, h3, h4, h5, h6, h7⟩ :=
      write_uncorked_accounted env (fuel + 2) s src optionally nextLength hopen hheld
    have hfree1 : s1.loopData.corkedSocket ≠ some s1.this := by rw [h2, h3]; exact hheld
    refine ⟨s1, a, bp, h1, h3, h4, ⟨by rw [h2]; exact hoff, Or.inr (Or.inl hfree1)⟩, h5, ?_,
      fun _ => ⟨hfree1, h7⟩⟩
    simp only [accounted, hfree1, hheld, ↓reduceIte, List.append_nil]
    exact h6

/-! ## HTTP responses on the connection -/

theorem acceptedBytes_append (xs ys : List WriteCall) :
    acceptedBytes (xs ++ ys) = acceptedBytes xs ++ acceptedBytes ys := by
  simp [acceptedBytes]

theorem acceptedBytes_of_full (es : List WriteCall)
    (h : ∀ e ∈ es, e.accepted = e.data.length) :
    acceptedBytes es = (es.map (fun e => e.data)).flatten := by
  induction es with
  | nil => rfl
  | cons e es ih =>
    simp only [acceptedBytes, List.map_cons, List.flatten_cons] at ih ⊢
    rw [ih (fun x hx => h x (List.mem_cons_of_mem _ hx)), h e (List.mem_cons_self _ _),
      List.take_length]

theorem tied_refl (env : Env) (opt : Bool) (r : HttpResponse)
    (hopen : r.socket.closed = false) (hinv : corkInvariant env r.socket) : tied env opt r r :=
  ⟨hopen, hinv, [], by simp, by simp [acceptedBytes], by simp, fun h => ⟨h, by simp⟩⟩

theorem tied_congr (env : Env) (opt : Bool) (r0 r r1 : HttpResponse) (hs : r1.socket = r.socket)
    (hw : r1.writes = r.writes) (ht : tied env opt r0 r) : tied env opt r0 r1 := by
  unfold tied at ht ⊢
  rw [hs, hw]
  exact ht

theorem Super_write_tied (env : Env) (fuel : Nat) (site : Nat) {opt : Bool}
    {r0 : HttpResponse} (r : HttpResponse) (data : List Byte) (optionally : Bool)
    (hsite : optionally = true → site = 172 ∧ opt = true) (ht : tied env opt r0 r) :
    ∃ x, HttpResponse.Super.write env (fuel + 3) site r data optionally = some x ∧
      (tied env opt r0 x.1 ∧ x.1.httpResponseData = r.httpResponseData ∧
        x.1.noMark = r.noMark ∧ (x.2.2 = false → x.2.1 = data.length)) := by
  obtain ⟨hopen, hinv, es, h1, h2, h3, h4⟩ := ht
  obtain ⟨s1, a, bp, k1, k2, k3, k4, k5, k6, k7⟩ :=
    write_accounted env fuel r.socket data optionally 0 hopen hinv
  obtain ⟨s1', a', bp', g1, _, _, g4, _⟩ := write_spec env fuel r.socket data optionally 0
  rw [k1] at g1
  simp only [Option.some.injEq, Prod.mk.injEq] at g1
  obtain ⟨e1, e2, e3⟩ := g1
  subst e1 e2 e3
  refine ⟨_, by simp [HttpResponse.Super.write, k1]; rfl, ⟨k3, k4,
    es ++ [⟨site, data, optionally, a, bp⟩], ?_, ?_, ?_, ?_⟩, rfl, rfl, fun h => (g4 h).1⟩
  · simp [h1]
  · show accounted s1 = _
    rw [k6, h2, acceptedBytes_append]
    simp [acceptedBytes]
  · intro e he
    rcases List.mem_append.mp he with h | h
    · exact h3 e h
    · simp only [List.mem_singleton] at h
      subst h
      exact ⟨k5, hsite⟩
  · intro hfree
    obtain ⟨f1, f2⟩ := h4 hfree
    obtain ⟨f3, f4⟩ := k7 f1
    refine ⟨f3, ?_⟩
    intro e he hopt
    rcases List.mem_append.mp he with h | h
    · exact f2 e h hopt
    · simp only [List.mem_singleton] at h
      subst h
      exact f4 hopt

theorem writeUnsignedHex_tied (env : Env) (fuel : Nat) {opt : Bool} {r0 : HttpResponse} (r : HttpResponse) (value : Nat)
    (ht : tied env opt r0 r) :
    ∃ r1, HttpResponse.writeUnsignedHex env (fuel + 3) r value = some r1 ∧
      (tied env opt r0 r1 ∧ r1.httpResponseData = r.httpResponseData ∧ r1.noMark = r.noMark) := by
  unfold HttpResponse.writeUnsignedHex
  refine bind_spec (Super_write_tied env fuel _ _ _ _ (by simp) ht) ?_
  rintro ⟨r1, a1, f1⟩ ⟨h1, h2, h3, _⟩
  exact ⟨r1, rfl, h1, h2, h3⟩

theorem writeUnsigned64_tied (env : Env) (fuel : Nat) {opt : Bool} {r0 : HttpResponse} (r : HttpResponse) (value : Nat)
    (ht : tied env opt r0 r) :
    ∃ r1, HttpResponse.writeUnsigned64 env (fuel + 3) r value = some r1 ∧
      (tied env opt r0 r1 ∧ r1.httpResponseData = r.httpResponseData ∧ r1.noMark = r.noMark) := by
  unfold HttpResponse.writeUnsigned64
  refine bind_spec (Super_write_tied env fuel _ _ _ _ (by simp) ht) ?_
  rintro ⟨r1, a1, f1⟩ ⟨h1, h2, h3, _⟩
  exact ⟨r1, rfl, h1, h2, h3⟩

theorem writeStatus_tied (env : Env) (fuel : Nat) {opt : Bool} {r0 : HttpResponse} (r : HttpResponse) (status : List Byte)
    (ht : tied env opt r0 r) :
    ∃ r1, HttpResponse.writeStatus env (fuel + 3) r status = some r1 ∧
      (tied env opt r0 r1 ∧ r1.noMark = r.noMark ∧
        r1.httpResponseData = { r.httpResponseData with HTTP_STATUS_CALLED := true }) := by
  unfold HttpResponse.writeStatus
  by_cases hs : r.httpResponseData.HTTP_STATUS_CALLED = true
  · exact ⟨r, by simp [hs], ht, rfl, (status_called_eq _ hs).symm⟩
  · have hs : r.httpResponseData.HTTP_STATUS_CALLED = false := by simpa using hs
    simp only [hs, Bool.false_eq_true, ↓reduceIte, pure_bind]
    refine bind_spec (Super_write_tied env fuel _ _ _ _ (by simp)
      (tied_congr env opt r0 r _ rfl rfl ht)) ?_
    rintro ⟨r1, a1, f1⟩ ⟨h11, h12, h13, _⟩
    refine bind_spec (Super_write_tied env fuel _ _ _ _ (by simp) h11) ?_
    rintro ⟨r2, a2, f2⟩ ⟨h21, h22, h23, _⟩
    refine bind_spec (Super_write_tied env fuel _ _ _ _ (by simp) h21) ?_
    rintro ⟨r3, a3, f3⟩ ⟨h31, h32, h33, _⟩
    simp only at *
    exact ⟨r3, rfl, h31, by rw [h33, h23, h13], by rw [h32, h22, h12]⟩

theorem writeHeader_tied (env : Env) (fuel : Nat) {opt : Bool} {r0 : HttpResponse} (r : HttpResponse) (key value : List Byte)
    (ht : tied env opt r0 r) :
    ∃ r1, HttpResponse.writeHeader env (fuel + 3) r key value = some r1 ∧
      (tied env opt r0 r1 ∧ r1.noMark = r.noMark ∧
        r1.httpResponseData = { r.httpResponseData with HTTP_STATUS_CALLED := true }) := by
  unfold HttpResponse.writeHeader
  refine bind_spec (writeStatus_tied env fuel _ _ ht) ?_
  rintro ra ⟨h01, h02, h03⟩
  refine bind_spec (Super_write_tied env fuel _ _ _ _ (by simp) h01) ?_
  rintro ⟨r1, a1, f1⟩ ⟨h11, h12, h13, _⟩
  refine bind_spec (Super_write_tied env fuel _ _ _ _ (by simp) h11) ?_
  rintro ⟨r2, a2, f2⟩ ⟨h21, h22, h23, _⟩
  refine bind_spec (Super_write_tied env fuel _ _ _ _ (by simp) h21) ?_
  rintro ⟨r3, a3, f3⟩ ⟨h31, h32, h33, _⟩
  refine bind_spec (Super_write_tied env fuel _ _ _ _ (by simp) h31) ?_
  rintro ⟨r4, a4, f4⟩ ⟨h41, h42, h43, _⟩
  simp only at *
  exact ⟨r4, rfl, h41, by rw [h43, h33, h23, h13, h02], by rw [h42, h32, h22, h12, h03]⟩

theorem writeMark_tied (env : Env) (fuel : Nat) {opt : Bool} {r0 : HttpResponse} (r : HttpResponse) (ht : tied env opt r0 r) :
    ∃ r1, HttpResponse.writeMark env (fuel + 3) r = some r1 ∧
      (tied env opt r0 r1 ∧ r1.noMark = r.noMark ∧
        (r1.httpResponseData = r.httpResponseData ∨
          r1.httpResponseData = { r.httpResponseData with HTTP_STATUS_CALLED := true })) := by
  unfold HttpResponse.writeMark
  cases hn : r.noMark
  · obtain ⟨r1, h1, h2, h3, h4⟩ :=
      writeHeader_tied env fuel r (bytes "uWebSockets") (bytes "19") ht
    exact ⟨r1, by simpa using h1, h2, by rw [h3, hn], Or.inr h4⟩
  · exact ⟨r, by simp, ht, hn, Or.inl rfl⟩

theorem internalEndLoop_tied (env : Env) (fuel : Nat) {opt : Bool} {r0 : HttpResponse}
    (data : List Byte) (optional : Bool) (hopt : optional = true → opt = true) :
    ∀ (n : Nat) (r : HttpResponse) (written : Nat), written ≤ data.length →
      data.length - written < n → tied env opt r0 r →
      ∃ x, HttpResponse.internalEndLoop env (fuel + 3) data optional n r written false = some x ∧
        tied env opt r0 x.1 := by
  intro n
  induction n with
  | zero => intro r written _ h; omega
  | succ n ih =>
    intro r written hle hn ht
    by_cases hw : written < data.length
    · unfold HttpResponse.internalEndLoop
      simp only [hw, and_self, ↓reduceIte]
      refine bind_spec (Super_write_tied env fuel _ _ _ _ (fun h => ⟨rfl, hopt h⟩) ht) ?_
      rintro ⟨r1, a, f⟩ ⟨h1, _, _, h5⟩
      simp only at h1 h5 ⊢
      have hchunk : ((data.drop written).take (min (data.length - written) INT_MAX)).length
          = min (data.length - written) INT_MAX := by
        simp
      have hpos : 1 ≤ min (data.length - written) INT_MAX := by
        simp only [INT_MAX]
        omega
      cases f with
      | false =>
        have ha : a = min (data.length - written) INT_MAX := by rw [h5 rfl, hchunk]
        exact ih r1 (written + a) (by rw [ha]; omega) (by rw [ha]; omega) h1
      | true =>
        cases n with
        | zero => omega
        | succ m => exact ⟨(r1, written + a, true), by simp [HttpResponse.internalEndLoop], h1⟩
    · exact ⟨(r, written, false), by simp [HttpResponse.internalEndLoop, hw], ht⟩

theorem internalEndClose_tied (env : Env) (fuel : Nat) {opt : Bool} {r0 : HttpResponse} (r : HttpResponse)
    (closeConnection : Bool) (ht : tied env opt r0 r) :
    ∃ r1, HttpResponse.internalEndClose env (fuel + 3) r closeConnection = some r1 ∧
      tied env opt r0 r1 := by
  unfold HttpResponse.internalEndClose
  cases closeConnection
  · exact ⟨r, by simp, ht⟩
  · by_cases hcc : r.httpResponseData.HTTP_CONNECTION_CLOSE = false
    · simp only [hcc, ↓reduceIte, pure_bind]
      refine bind_spec (writeHeader_tied env fuel _ _ _ ht) ?_
      rintro r1 ⟨h1, _, _⟩
      exact ⟨_, rfl, tied_congr env opt r0 r1 _ rfl rfl h1⟩
    · have hcc : r.httpResponseData.HTTP_CONNECTION_CLOSE = true := by simpa using hcc
      exact ⟨{ r with httpResponseData :=
          { r.httpResponseData with HTTP_CONNECTION_CLOSE := true } }, by simp [hcc],
        tied_congr env opt r0 r _ rfl rfl ht⟩

theorem internalEndChunked_tied (env : Env) (fuel : Nat) {opt : Bool} {r0 : HttpResponse} (r : HttpResponse)
    (data : List Byte) (ht : tied env opt r0 r) :
    ∃ x, HttpResponse.internalEndChunked env (fuel + 3) r data = some x ∧ tied env opt r0 x.1 := by
  unfold HttpResponse.internalEndChunked
  by_cases hd : data = []
  · subst hd
    simp only [List.length_nil, ne_eq, not_true_eq_false, ↓reduceIte, pure_bind]
    refine bind_spec (Super_write_tied env fuel _ _ _ _ (by simp) ht) ?_
    rintro ⟨r5, a5, f5⟩ ⟨h51, _⟩
    exact ⟨_, rfl, tied_congr env opt r0 r5 _ rfl rfl h51⟩
  · have hlen : data.length ≠ 0 := by simpa using hd
    simp only [hlen, ne_eq, not_false_eq_true, ↓reduceIte]
    simp only [bind_assoc, pure_bind]
    refine bind_spec (Super_write_tied env fuel _ _ _ _ (by simp) ht) ?_
    rintro ⟨r1, a1, f1⟩ ⟨h11, _⟩
    refine bind_spec (writeUnsignedHex_tied env fuel _ _ h11) ?_
    rintro r2 ⟨h21, _⟩
    refine bind_spec (Super_write_tied env fuel _ _ _ _ (by simp) h21) ?_
    rintro ⟨r3, a3, f3⟩ ⟨h31, _⟩
    refine bind_spec (Super_write_tied env fuel _ _ _ _ (by simp) h31) ?_
    rintro ⟨r4, a4, f4⟩ ⟨h41, _⟩
    refine bind_spec (Super_write_tied env fuel _ _ _ _ (by simp) h41) ?_
    rintro ⟨r5, a5, f5⟩ ⟨h51, _⟩
    exact ⟨_, rfl, tied_congr env opt r0 r5 _ rfl rfl h51⟩

theorem internalEndFirst_tied (env : Env) (fuel : Nat) {opt : Bool} {r0 : HttpResponse} (r : HttpResponse) (totalSize : Nat)
    (allowContentLength : Bool) (ht : tied env opt r0 r) :
    ∃ r1, HttpResponse.internalEndFirst env (fuel + 3) r totalSize allowContentLength = some r1 ∧
      tied env opt r0 r1 := by
  unfold HttpResponse.internalEndFirst
  by_cases he : r.httpResponseData.HTTP_END_CALLED = false
  · simp only [he, ↓reduceIte, bind_assoc, pure_bind]
    refine bind_spec (writeMark_tied env fuel _ ht) ?_
    rintro ra ⟨ha1, _, _⟩
    cases allowContentLength
    · simp only [Bool.false_eq_true, ↓reduceIte, bind_assoc, pure_bind]
      refine bind_spec (Super_write_tied env fuel _ _ _ _ (by simp) ha1) ?_
      rintro ⟨r1, a1, f1⟩ ⟨h11, _⟩
      exact ⟨_, rfl, tied_congr env opt r0 r1 _ rfl rfl h11⟩
    · simp only [↓reduceIte, bind_assoc, pure_bind]
      refine bind_spec (Super_write_tied env fuel _ _ _ _ (by simp) ha1) ?_
      rintro ⟨r1, a1, f1⟩ ⟨h11, _⟩
      refine bind_spec (writeUnsigned64_tied env fuel _ _ h11) ?_
      rintro r2 ⟨h21, _⟩
      refine bind_spec (Super_write_tied env fuel _ _ _ _ (by simp) h21) ?_
      rintro ⟨r3, a3, f3⟩ ⟨h31, _⟩
      exact ⟨_, rfl, tied_congr env opt r0 r3 _ rfl rfl h31⟩
  · have he : r.httpResponseData.HTTP_END_CALLED = true := by simpa using he
    exact ⟨r, by simp [he], ht⟩

theorem internalEndFinish_tied (env : Env) {opt : Bool} {r0 : HttpResponse} (r : HttpResponse) (data : List Byte)
    (totalSize written : Nat) (failed : Bool) (ht : tied env opt r0 r) :
    tied env opt r0 (HttpResponse.internalEndFinish r data totalSize written failed).1 := by
  refine tied_congr env opt r0 r _ ?_ ?_ ht
  · simp only [HttpResponse.internalEndFinish, HttpResponse.Super.timeout]
    split <;> split <;> rfl
  · exact (internalEndFinish_spec r data totalSize written failed).2.2.1

theorem internalEnd_tied (env : Env) (fuel : Nat) {opt : Bool} {r0 : HttpResponse}
    (r : HttpResponse) (data : List Byte) (totalSize : Nat)
    (optional allowContentLength closeConnection : Bool) (hopt : optional = true → opt = true)
    (ht : tied env opt r0 r) :
    ∃ x, HttpResponse.internalEnd env (fuel + 3) r data totalSize optional allowContentLength
        closeConnection = some x ∧ tied env opt r0 x.1 := by
  unfold HttpResponse.internalEnd
  refine bind_spec (writeStatus_tied env fuel _ _ ht) ?_
  rintro ra ⟨h01, _, _⟩
  refine bind_spec (internalEndClose_tied env fuel ra closeConnection h01) ?_
  rintro r1 h11
  by_cases hw1 : r1.httpResponseData.HTTP_WRITE_CALLED = true
  · simp only [hw1, ↓reduceIte]
    exact internalEndChunked_tied env fuel r1 data h11
  · simp only [hw1, Bool.false_eq_true, ↓reduceIte]
    refine bind_spec (internalEndFirst_tied env fuel r1 _ allowContentLength h11) ?_
    rintro r2 h21
    refine bind_spec (internalEndLoop_tied env fuel data optional hopt (data.length + 1) r2 0
      (Nat.zero_le _) (by omega) h21) ?_
    rintro ⟨r3, written, failed⟩ h31
    exact ⟨_, rfl, internalEndFinish_tied env r3 data _ written failed h31⟩

theorem http_write_tied (env : Env) (fuel : Nat) {opt : Bool} {r0 : HttpResponse} (r : HttpResponse) (data : List Byte)
    (ht : tied env opt r0 r) :
    ∃ x, HttpResponse.write env (fuel + 3) r data = some x ∧ tied env opt r0 x.1 := by
  unfold HttpResponse.write
  refine bind_spec (writeStatus_tied env fuel _ _ ht) ?_
  rintro ra ⟨h01, _, _⟩
  by_cases hd : data = []
  · subst hd
    exact ⟨(ra, true), by simp, h01⟩
  · have hlen : ¬ data.length = 0 := by simpa using hd
    simp only [hlen, ↓reduceIte, pure_bind]
    by_cases hw0 : ra.httpResponseData.HTTP_WRITE_CALLED = false
    · simp only [hw0, ↓reduceIte, bind_assoc, pure_bind]
      refine bind_spec (writeMark_tied env fuel _ h01) ?_
      rintro rb ⟨hb1, _, _⟩
      refine bind_spec (writeHeader_tied env fuel _ _ _ hb1) ?_
      rintro rc ⟨hc1, _, _⟩
      refine bind_spec (Super_write_tied env fuel _ _ _ _ (by simp)
      (tied_congr env opt r0 rc _ rfl rfl hc1)) ?_
      rintro ⟨r1, a1, f1⟩ ⟨h11, _⟩
      refine bind_spec (writeUnsignedHex_tied env fuel _ _ h11) ?_
      rintro r2 ⟨h21, _⟩
      refine bind_spec (Super_write_tied env fuel _ _ _ _ (by simp) h21) ?_
      rintro ⟨r3, a3, f3⟩ ⟨h31, _⟩
      refine bind_spec (Super_write_tied env fuel _ _ _ _ (by simp) h31) ?_
      rintro ⟨r4, a4, f4⟩ ⟨h41, _⟩
      cases f4
      · exact ⟨_, rfl, h41⟩
      · exact ⟨_, rfl, tied_congr env opt r0 r4 _ rfl rfl h41⟩
    · have hw0 : ra.httpResponseData.HTTP_WRITE_CALLED = true := by simpa using hw0
      simp only [hw0, Bool.true_eq_false, ↓reduceIte, pure_bind]
      refine bind_spec (Super_write_tied env fuel _ _ _ _ (by simp) h01) ?_
      rintro ⟨r1, a1, f1⟩ ⟨h11, _⟩
      refine bind_spec (writeUnsignedHex_tied env fuel _ _ h11) ?_
      rintro r2 ⟨h21, _⟩
      refine bind_spec (Super_write_tied env fuel _ _ _ _ (by simp) h21) ?_
      rintro ⟨r3, a3, f3⟩ ⟨h31, _⟩
      refine bind_spec (Super_write_tied env fuel _ _ _ _ (by simp) h31) ?_
      rintro ⟨r4, a4, f4⟩ ⟨h41, _⟩
      cases f4
      · exact ⟨_, rfl, h41⟩
      · exact ⟨_, rfl, tied_congr env opt r0 r4 _ rfl rfl h41⟩

theorem step_tied (env : Env) (fuel : Nat) {opt : Bool} {r0 : HttpResponse}
    (r : HttpResponse) (c : HttpCall) (hopt : opt = true ∨ ∀ d t, c ≠ HttpCall.tryEnd d t)
    (ht : tied env opt r0 r) :
    ∃ r1, HttpResponse.step env (fuel + 3) r c = some r1 ∧ tied env opt r0 r1 := by
  cases c with
  | writeStatus status =>
    obtain ⟨r1, h1, h2, _⟩ := writeStatus_tied env fuel r status ht
    exact ⟨r1, h1, h2⟩
  | writeHeader key value =>
    obtain ⟨r1, h1, h2, _⟩ := writeHeader_tied env fuel r key value ht
    exact ⟨r1, h1, h2⟩
  | write data =>
    obtain ⟨x, hx, h2⟩ := http_write_tied env fuel r data ht
    exact ⟨x.1, by simp [HttpResponse.step, hx], h2⟩
  | end_ data closeConnection =>
    obtain ⟨x, hx, h2⟩ := internalEnd_tied env fuel r data data.length false true
      closeConnection (by simp) ht
    exact ⟨x.1, by simp [HttpResponse.step, HttpResponse.end_, hx], h2⟩
  | tryEnd data totalSize =>
    have ho : opt = true := by
      rcases hopt with h | h
      · exact h
      · exact absurd rfl (h data totalSize)
    obtain ⟨x, hx, h2⟩ := internalEnd_tied env fuel r data totalSize true true false
      (fun _ => ho) ht
    exact ⟨x.1, by simp [HttpResponse.step, HttpResponse.tryEnd, hx], h2⟩

theorem run_tied (env : Env) (fuel : Nat) {opt : Bool} {r0 : HttpResponse}
    (cs : List HttpCall) (hopt : opt = true ∨ ∀ c ∈ cs, ∀ d t, c ≠ HttpCall.tryEnd d t) :
    ∀ r : HttpResponse, tied env opt r0 r →
      ∃ r1, HttpResponse.run env (fuel + 3) r cs = some r1 ∧ tied env opt r0 r1 := by
  induction cs with
  | nil => intro r ht; exact ⟨r, rfl, ht⟩
  | cons c cs ih =>
    intro r ht
    obtain ⟨r1, h1, h2⟩ := step_tied env fuel r c (by
      rcases hopt with h | h
      · exact Or.inl h
      · exact Or.inr (h c (List.mem_cons_self _ _))) ht
    obtain ⟨r2, k1, k2⟩ := ih (by
      rcases hopt with h | h
      · exact Or.inl h
      · exact Or.inr (fun x hx => h x (List.mem_cons_of_mem _ hx))) r1 h2
    exact ⟨r2, by simp [HttpResponse.run, h1, k1], k2⟩

theorem tied_elim (env : Env) (opt : Bool) (r r1 : HttpResponse) (es : List WriteCall)
    (ht : tied env opt r r1) (hw : r1.writes = r.writes ++ es) :
    r1.socket.closed = false ∧ corkInvariant env r1.socket ∧
    accounted r1.socket = accounted r.socket ++ acceptedBytes es ∧
    (∀ e ∈ es, e.accepted ≤ e.data.length ∧
      (e.optionally = true → e.site = 172 ∧ opt = true)) ∧
    (r.socket.loopData.corkedSocket ≠ some r.socket.this →
      r1.socket.loopData.corkedSocket ≠ some r1.socket.this ∧
      ∀ e ∈ es, e.optionally = false → e.accepted = e.data.length) := by
  obtain ⟨h1, h2, es', h3, h4, h5, h6⟩ := ht
  have : es' = es := List.append_cancel_left (h3.symm.trans hw)
  subst this
  exact ⟨h1, h2, h4, h5, h6⟩

theorem emitted_cancel (r r1 : HttpResponse) (es : List WriteCall) (B : List Byte)
    (hw : r1.writes = r.writes ++ es) (he : r1.emitted = r.emitted ++ B) :
    (es.map (fun e => e.data)).flatten = B := by
  have : r1.emitted = r.emitted ++ (es.map (fun e => e.data)).flatten := by
    simp [HttpResponse.emitted, hw]
  rw [this] at he
  exact List.append_cancel_left he

/-- What a run of mandatory calls leaves on an open connection: the connection
answers for the accepted parts of the logged writes; when every write was
accepted in full these are the bytes handed to the write engine, and on a
connection that does not hold the cork slot every write is accepted in full. -/
theorem run_on_connection (env : Env) (fuel : Nat) (r r1 : HttpResponse) (cs : List HttpCall)
    (B : List Byte) (hopen : r.socket.closed = false) (hinv : corkInvariant env r.socket)
    (hcs : ∀ c ∈ cs, ∀ d t, c ≠ HttpCall.tryEnd d t)
    (hrun : HttpResponse.run env (fuel + 3) r cs = some r1)
    (hB : r1.emitted = r.emitted ++ B) :
    ∃ es, r1.writes = r.writes ++ es ∧
      (es.map (fun e => e.data)).flatten = B ∧
      r1.socket.closed = false ∧ corkInvariant env r1.socket ∧
      accounted r1.socket = accounted r.socket ++ acceptedBytes es ∧
      (∀ e ∈ es, e.accepted ≤ e.data.length) ∧
      ((∀ e ∈ es, e.accepted = e.data.length) →
        accounted r1.socket = accounted r.socket ++ B) ∧
      (r.socket.loopData.corkedSocket ≠ some r.socket.this →
        (∀ e ∈ es, e.accepted = e.data.length) ∧
        accounted r1.socket = accounted r.socket ++ B) := by
  obtain ⟨r1', h1, ht⟩ := run_tied env fuel cs (Or.inr hcs) r (tied_refl env false r hopen hinv)
  rw [hrun] at h1
  simp only [Option.some.injEq] at h1
  subst h1
  have ht' := ht
  obtain ⟨_, _, es, hw, _⟩ := ht'
  obtain ⟨k1, k2, k3, k4, k5⟩ := tied_elim env false r r1 es ht hw
  have hdata := emitted_cancel r r1 es B hw hB
  have hfull : (∀ e ∈ es, e.accepted = e.data.length) →
      accounted r1.socket = accounted r.socket ++ B := by
    intro h
    rw [k3, acceptedBytes_of_full es h, hdata]
  refine ⟨es, hw, hdata, k1, k2, k3, fun e he => (k4 e he).1, hfull, ?_⟩
  intro hfree
  have hall : ∀ e ∈ es, e.accepted = e.data.length := by
    intro e he
    apply (k5 hfree).2 e he
    cases ho : e.optionally
    · rfl
    · exact absurd ((k4 e he).2 ho).2 (by simp)
  exact ⟨hall, hfull hall⟩

/-! ## Content-length framing -/

theorem stalled_write_fails (size fuel : Nat) (s : AsyncSocket) (src : List Byte)
    (nextLength : Nat) (hopen : s.closed = false)
    (hfree : s.loopData.corkedSocket ≠ some s.this) (hsrc : src ≠ []) :
    ∃ s1, write (stalledEnv false size) (fuel + 1) s src false nextLength
      = some (s1, src.length, true) := by
  have hpos : 0 < src.length := List.length_pos.2 hsrc
  by_cases hb : s.buffer = []
  · rw [write_direct_eq _ fuel s src false nextLength hopen hb hfree hsrc]
    simp [stalledEnv, hpos]
  · have hbpos : 0 < s.buffer.length := List.length_pos.2 hb
    exact ⟨{ s with
        syscalls := s.syscalls ++ [⟨s.buffer, src.length, 0⟩],
        buffer := s.buffer ++ src },
      by simp [write, hopen, hb, us_socket_write, stalledEnv, hbpos]⟩

theorem internalEndLoop_first_failed (env : Env) (fuel : Nat) (data : List Byte)
    (optional : Bool) (n : Nat) (r r1 : HttpResponse) (a : Nat) (hpos : 0 < data.length)
    (h : HttpResponse.Super.write env fuel 172 r (data.take (min data.length INT_MAX)) optional
      = some (r1, a, true)) :
    HttpResponse.internalEndLoop env fuel data optional (n + 2) r 0 false
      = some (r1, a, true) := by
  simp [HttpResponse.internalEndLoop, hpos, h]

theorem internalEnd_long_body_stalled (size fuel : Nat) (r : HttpResponse) (body : List Byte)
    (hwrite : r.httpResponseData.HTTP_WRITE_CALLED = false)
    (hopen : r.socket.closed = false) (hinv : corkInvariant (stalledEnv false size) r.socket)
    (hfree : r.socket.loopData.corkedSocket ≠ some r.socket.this)
    (hlong : INT_MAX < body.length) :
    ∃ x es, HttpResponse.internalEnd (stalledEnv false size) (fuel + 3) r body body.length false
        true false = some x ∧
      x.1.writes = r.writes ++ es ∧
      es.map WriteCall.key =
        (if r.httpResponseData.HTTP_STATUS_CALLED then [] else statusLineKeys HTTP_200_OK) ++
        (if r.httpResponseData.HTTP_END_CALLED = true then []
          else (if r.noMark then [] else headerKeys (bytes "uWebSockets") (bytes "19")) ++
            [(153, bytes "Content-Length: "), (70, u64toa body.length),
              (155, bytes "\r\n\r\n")]) ++
        [(172, body.take INT_MAX)] := by
  have hne : body.length ≠ 0 := by
    simp only [INT_MAX] at hlong
    omega
  unfold HttpResponse.internalEnd
  obtain ⟨ra, h01, h02, h03, h04, es0, h05, h06⟩ :=
    writeStatus_spec (stalledEnv false size) fuel r HTTP_200_OK
  obtain ⟨ra', g01, t0, _, _⟩ := writeStatus_tied (stalledEnv false size) fuel r HTTP_200_OK
    (tied_refl _ false r hopen hinv)
  rw [h01] at g01
  simp only [Option.some.injEq] at g01
  subst g01
  obtain ⟨rb, h11, h12, h13, h14, es1, h15, h16⟩ :=
    internalEndClose_spec (stalledEnv false size) fuel ra false (by rw [h02])
  obtain ⟨rb', g11, t1⟩ := internalEndClose_tied (stalledEnv false size) fuel ra false t0
  rw [h11] at g11
  simp only [Option.some.injEq] at g11
  subst g11
  have hw1 : rb.httpResponseData.HTTP_WRITE_CALLED = false := by rw [h12, h02]; exact hwrite
  obtain ⟨rc, h21, h22, h23, h24, es2, h25, h26⟩ :=
    internalEndFirst_spec (stalledEnv false size) fuel rb
      (if body.length = 0 then body.length else body.length) true (by rw [h12, h02])
  obtain ⟨rc', g21, t2⟩ := internalEndFirst_tied (stalledEnv false size) fuel rb
    (if body.length = 0 then body.length else body.length) true t1
  rw [h21] at g21
  simp only [Option.some.injEq] at g21
  subst g21
  obtain ⟨hopen2, _, _, _, _, _, hfree2⟩ := t2
  have hfree2 := (hfree2 hfree).1
  have hpiece : body.take INT_MAX ≠ [] := by
    intro h
    have := congrArg List.length h
    simp only [List.length_take, List.length_nil, INT_MAX] at this
    simp only [INT_MAX] at hlong
    omega
  obtain ⟨s3, hs3⟩ := stalled_write_fails size (fuel + 2) rc.socket (body.take INT_MAX) 0
    hopen2 hfree2 hpiece
  have hmin : min body.length INT_MAX = INT_MAX := Nat.min_eq_right (Nat.le_of_lt hlong)
  obtain ⟨rz, hz⟩ : ∃ rz : HttpResponse, rz = ⟨s3, rc.httpResponseData, rc.noMark, rc.timeouts,
      rc.writes ++ [⟨172, body.take INT_MAX, false, (body.take INT_MAX).length, true⟩]⟩ :=
    ⟨_, rfl⟩
  have hsw : HttpResponse.Super.write (stalledEnv false size) (fuel + 3) 172 rc
      (body.take (min body.length INT_MAX)) false
      = some (rz, (body.take INT_MAX).length, true) := by
    rw [hmin, hz]
    simp [HttpResponse.Super.write, hs3]
  have hbound : body.length + 1 = (body.length - 1) + 2 := by omega
  have hloop := internalEndLoop_first_failed (stalledEnv false size) (fuel + 3) body false
    (body.length - 1) rc _ _ (by omega) hsw
  rw [← hbound] at hloop
  refine ⟨HttpResponse.internalEndFinish rz body
      (if body.length = 0 then body.length else body.length) (body.take INT_MAX).length true,
    es0 ++ es1 ++ es2 ++ [⟨172, body.take INT_MAX, false,
      (body.take INT_MAX).length, true⟩], ?_, ?_, ?_⟩
  · simp only [h01, h11, hw1, h21, hloop, Option.bind_eq_bind, Option.some_bind,
      Bool.false_eq_true, ↓reduceIte, bind_pure_comp, Option.map_eq_map, Option.map_some',
      pure, bind]
  · rw [(internalEndFinish_spec _ _ _ _ _).2.2.1, hz]
    simp [h25, h15, h05]
  · simp only [List.map_append, h06, h16, h26, h02, h12, h13, h03, List.map_cons, List.map_nil,
      WriteCall.key, hne, ↓reduceIte]
    simp

theorem end_long_body_stalled (body : List Byte) (hlong : INT_MAX < body.length) :
    ∃ r1 es, HttpResponse.run (stalledEnv false 16) 3 (freshResponse true)
        [HttpCall.end_ body false] = some r1 ∧
      r1.writes = es ∧
      (∀ e ∈ es, e.accepted = e.data.length) ∧
      (es.map (fun e => e.data)).flatten =
        statusLine HTTP_200_OK ++ bytes "Content-Length: " ++ u64toa body.length ++
          bytes "\r\n\r\n" ++ body.take INT_MAX ∧
      accounted r1.socket =
        statusLine HTTP_200_OK ++ bytes "Content-Length: " ++ u64toa body.length ++
          bytes "\r\n\r\n" ++ body.take INT_MAX := by
  obtain ⟨x, es, h1, h2, h3⟩ := internalEnd_long_body_stalled 16 0 (freshResponse true) body rfl
    rfl (by decide) (by decide) hlong
  have hrun : HttpResponse.run (stalledEnv false 16) (0 + 3) (freshResponse true)
      [HttpCall.end_ body false] = some x.1 := by
    simp [HttpResponse.run, HttpResponse.step, HttpResponse.end_, h1]
  have hB : x.1.emitted = (freshResponse true).emitted ++
      (statusLine HTTP_200_OK ++ bytes "Content-Length: " ++ u64toa body.length ++
        bytes "\r\n\r\n" ++ body.take INT_MAX) := by
    rw [emitted_of_writes (freshResponse true) x.1 es _ h2 h3]
    simp [freshResponse, statusLineKeys, statusLine]
  obtain ⟨es', k1, k2, _, _, k5, _, _, k8⟩ := run_on_connection (stalledEnv false 16) 0
    (freshResponse true) x.1 [HttpCall.end_ body false] _ rfl (by decide)
    (by simp) hrun hB
  have hes : x.1.writes = es' := by simpa [freshResponse] using k1
  obtain ⟨k9, k10⟩ := k8 (by decide)
  exact ⟨x.1, es', hrun, hes, k9, k2, by simpa [accounted, freshResponse, freshSocket,
    transmitted] using k10⟩

/-- Counterexample for C14. `end` of a body of `2 ^ 31` bytes, one more than
`INT_MAX`, on a new response whose connection is open, is not corked and has a
socket that is not writable. Every write is accepted in full (the engine
buffers what it cannot send). Yet after `Content-Length: 2147483648` the bytes
handed to the write engine, which are the bytes the connection answers for,
hold only the first `INT_MAX` bytes of the body: the body loop of `internalEnd`
stops at the first piece that reports backpressure. -/
theorem content_length_long_body_cut :
    ∃ r1 es, HttpResponse.run (stalledEnv false 16) 3 (freshResponse true)
        [HttpCall.end_ (List.replicate (2 ^ 31) 0) false] = some r1 ∧
      r1.writes = es ∧
      (∀ e ∈ es, e.accepted = e.data.length) ∧
      (es.map (fun e => e.data)).flatten =
        statusLine HTTP_200_OK ++ bytes "Content-Length: " ++ u64toa (2 ^ 31) ++
          bytes "\r\n\r\n" ++ List.replicate INT_MAX 0 ∧
      accounted r1.socket =
        statusLine HTTP_200_OK ++ bytes "Content-Length: " ++ u64toa (2 ^ 31) ++
          bytes "\r\n\r\n" ++ List.replicate INT_MAX 0 ∧
      (List.replicate INT_MAX (0 : Byte)).length < (List.replicate (2 ^ 31) (0 : Byte)).length := by
  have hlen : (List.replicate (2 ^ 31) (0 : Byte)).length = 2 ^ 31 := List.length_replicate _ _
  have hlong : INT_MAX < (List.replicate (2 ^ 31) (0 : Byte)).length := by
    rw [hlen]
    decide
  have htake : (List.replicate (2 ^ 31) (0 : Byte)).take INT_MAX = List.replicate INT_MAX 0 := by
    rw [List.take_replicate]
    congr 1
  obtain ⟨r1, es, h1, h2, h3, h4, h5⟩ := end_long_body_stalled _ hlong
  rw [hlen, htake] at h4 h5
  refine ⟨r1, es, h1, h2, h3, h4, h5, ?_⟩
  rw [hlen, List.length_replicate]
  decide

/-- C14. Content-length framing, as the code has it. On a response on which
nothing was called yet (status, chunked and end flags clear), whose connection
is open and keeps the cork invariant, for every list of headers written with
`writeHeader` and every body, all of at most `INT_MAX` bytes, the calls followed
by `end(body)` return and hand to the write engine exactly: the status line
`HTTP/1.1 200 OK\r\n`, each header as `key: value\r\n` in call order with
duplicates kept, the `uWebSockets: 19\r\n` mark unless disabled,
`Content-Length: `, the decimal length of the body, `\r\n\r\n`, and the body.
The connection then answers for (has transmitted, or holds in its overflow or
cork buffer) the accepted parts of these writes, in order: exactly these bytes
when every write is accepted in full, which is so on every connection that does
not hold the cork slot. For `writeHeader("X","1"); writeHeader("X","2");
end("body")` the bytes are `Content-Length: 4` after both `X` headers, then
`body`. -/
theorem content_length_framing (env : Env) (fuel : Nat) (r : HttpResponse)
    (hs : List (List Byte × List Byte)) (body : List Byte)
    (hstatus : r.httpResponseData.HTTP_STATUS_CALLED = false)
    (hwrite : r.httpResponseData.HTTP_WRITE_CALLED = false)
    (hend : r.httpResponseData.HTTP_END_CALLED = false)
    (hheaders : ∀ h ∈ hs, h.1.length ≤ INT_MAX ∧ h.2.length ≤ INT_MAX)
    (hbody : body.length ≤ INT_MAX)
    (hopen : r.socket.closed = false) (hinv : corkInvariant env r.socket) :
    (∃ r1 es, HttpResponse.run env (fuel + 3) r
        (hs.map (fun h => HttpCall.writeHeader h.1 h.2) ++ [HttpCall.end_ body false])
        = some r1 ∧
      r1.writes = r.writes ++ es ∧
      (es.map (fun e => e.data)).flatten = statusLine HTTP_200_OK ++
        (hs.map (fun h => headerLine h.1 h.2)).flatten ++ markLine r.noMark ++
        bytes "Content-Length: " ++ u64toa body.length ++ bytes "\r\n\r\n" ++ body ∧
      accounted r1.socket = accounted r.socket ++ acceptedBytes es ∧
      ((∀ e ∈ es, e.accepted = e.data.length) →
        accounted r1.socket = accounted r.socket ++ (statusLine HTTP_200_OK ++
          (hs.map (fun h => headerLine h.1 h.2)).flatten ++ markLine r.noMark ++
          bytes "Content-Length: " ++ u64toa body.length ++ bytes "\r\n\r\n" ++ body)) ∧
      (r.socket.loopData.corkedSocket ≠ some r.socket.this →
        (∀ e ∈ es, e.accepted = e.data.length) ∧
        accounted r1.socket = accounted r.socket ++ (statusLine HTTP_200_OK ++
          (hs.map (fun h => headerLine h.1 h.2)).flatten ++ markLine r.noMark ++
          bytes "Content-Length: " ++ u64toa body.length ++ bytes "\r\n\r\n" ++ body))) ∧
    statusLine HTTP_200_OK ++
        ([(bytes "X", bytes "1"), (bytes "X", bytes "2")].map
          (fun h => headerLine h.1 h.2)).flatten ++ markLine false ++
        bytes "Content-Length: " ++ u64toa (bytes "body").length ++ bytes "\r\n\r\n" ++
        bytes "body" =
      bytes ("HTTP/1.1 200 OK\r\nX: 1\r\nX: 2\r\nuWebSockets: 19\r\n" ++
        "Content-Length: 4\r\n\r\nbody") := by
  constructor
  · obtain ⟨r1, h1, h2, h3, h4⟩ := run_headers env fuel hs r
    have hw1 : r1.httpResponseData.HTTP_WRITE_CALLED = false := by
      rw [h3]; split <;> exact hwrite
    have he1 : r1.httpResponseData.HTTP_END_CALLED = false := by
      rw [h3]; split <;> exact hend
    obtain ⟨x, hx, k1, es, k2, _, _, _, L, k3, _, k4⟩ := internalEnd_length_spec env fuel r1 body
      body.length false true false hw1
    have hrun : HttpResponse.run env (fuel + 3) r
        (hs.map (fun h => HttpCall.writeHeader h.1 h.2) ++ [HttpCall.end_ body false])
        = some x.1 := by
      rw [run_append, h1]
      simp [HttpResponse.run, HttpResponse.step, HttpResponse.end_, hx]
    have hlines : hs.map (fun h => headerLine (intPrefix h.1) (intPrefix h.2))
        = hs.map (fun h => headerLine h.1 h.2) := by
      apply List.map_congr_left
      intro h hh
      rw [intPrefix_of_le _ (hheaders h hh).1, intPrefix_of_le _ (hheaders h hh).2]
    have hB : x.1.emitted = r.emitted ++ (statusLine HTTP_200_OK ++
        (hs.map (fun h => headerLine h.1 h.2)).flatten ++ markLine r.noMark ++
        bytes "Content-Length: " ++ u64toa body.length ++ bytes "\r\n\r\n" ++ body) := by
      rw [emitted_of_writes r1 x.1 es _ k2 k3, h4, hlines]
      have hL := k4 (Or.inr hbody)
      have hT : (if body.length = 0 then body.length else body.length) = body.length := by
        split <;> rfl
      by_cases hnil : hs = []
      · subst hnil
        cases hn : r.noMark <;>
          simp [hstatus, hend, h3, h2, hn, hL, hT, statusLineKeys, statusLine, headerKeys,
            headerLine, markLine]
      · cases hn : r.noMark <;>
          simp [hstatus, hend, h3, h2, hn, hL, hT, hnil, statusLineKeys, statusLine, headerKeys,
            headerLine, markLine]
    obtain ⟨es', g1, g2, _, _, g5, _, g7, g8⟩ := run_on_connection env fuel r x.1 _ _ hopen hinv
      (by
        intro c hc d t
        rcases List.mem_append.mp hc with h | h
        · obtain ⟨a, _, rfl⟩ := List.mem_map.mp h
          simp
        · simp only [List.mem_singleton] at h
          subst h
          simp) hrun hB
    exact ⟨x.1, es', hrun, g1, g2, g5, g7, g8⟩
  · decide

/-- Witness for C14: `writeHeader("X","1"); writeHeader("X","2"); end("body")` on
a new response, on a socket that takes one byte per syscall. -/
theorem content_length_framing_witness :
    ∃ r1 es, HttpResponse.run oneByteEnv 3 (freshResponse false)
        ([(bytes "X", bytes "1"), (bytes "X", bytes "2")].map
          (fun h => HttpCall.writeHeader h.1 h.2) ++ [HttpCall.end_ (bytes "body") false])
        = some r1 ∧
      r1.writes = (freshResponse false).writes ++ es ∧
      accounted r1.socket = accounted (freshResponse false).socket ++
        bytes ("HTTP/1.1 200 OK\r\nX: 1\r\nX: 2\r\nuWebSockets: 19\r\n" ++
          "Content-Length: 4\r\n\r\nbody") := by
  obtain ⟨⟨r1, es, h1, h2, _, _, _, h6⟩, h7⟩ := content_length_framing oneByteEnv 0
    (freshResponse false) [(bytes "X", bytes "1"), (bytes "X", bytes "2")] (bytes "body")
    rfl rfl rfl (by decide) (by decide) rfl (by decide)
  refine ⟨r1, es, h1, h2, ?_⟩
  rw [(h6 (by decide)).2]
  exact congrArg (fun l => accounted (freshResponse false).socket ++ l) h7

/-! ## Chunked framing -/

theorem run_chunks (env : Env) (fuel : Nat) (r : HttpResponse) (ds : List (List Byte))
    (hstatus : r.httpResponseData.HTTP_STATUS_CALLED = false)
    (hwrite : r.httpResponseData.HTTP_WRITE_CALLED = false)
    (hne : ds ≠ []) (hds : ∀ d ∈ ds, d ≠ []) :
    ∃ r1 es, HttpResponse.run env (fuel + 3) r
        (ds.map HttpCall.write ++ [HttpCall.end_ [] false]) = some r1 ∧
      r1.writes = r.writes ++ es ∧
      es.map WriteCall.key = statusLineKeys HTTP_200_OK ++
        ((if r.noMark then [] else headerKeys (bytes "uWebSockets") (bytes "19")) ++
          headerKeys (bytes "Transfer-Encoding") (bytes "chunked")) ++
        (ds.map (fun d => [(402, bytes "\r\n"), (61, u32toaHex (toUnsignedInt d.length)),
          (404, bytes "\r\n"), (406, intPrefix d)])).flatten ++
        [(137, bytes "\r\n0\r\n\r\n")] := by
  obtain ⟨r1, es, h1, h2, h3, h4, h5, h6⟩ := run_writes env fuel ds hds r
  have hemp : ds.isEmpty = false := by
    cases ds with
    | nil => exact absurd rfl hne
    | cons _ _ => rfl
  have hw1 : r1.httpResponseData.HTTP_WRITE_CALLED = true := by simp [h4, hemp]
  have hs1 : r1.httpResponseData.HTTP_STATUS_CALLED = true := by simp [h3, hemp]
  obtain ⟨x, hx, _, _, _, _, es2, k5, k6⟩ := internalEnd_chunked_spec env fuel r1 []
    0 false true false hw1
  refine ⟨x.1, es ++ es2, ?_, writes_chain h5 k5, ?_⟩
  · rw [run_append, h1]
    simp [HttpResponse.run, HttpResponse.step, HttpResponse.end_, hx]
  · rw [List.map_append, h6, k6]
    simp [hstatus, hwrite, hne, hs1]

theorem chunked_long_chunk (d : List Byte) (hlen : d.length = 2 ^ 32 + 1) :
    ∃ r1 es, HttpResponse.run writableEnv 3 (freshResponse true)
        [HttpCall.write d, HttpCall.end_ [] false] = some r1 ∧
      r1.writes = es ∧
      (es.map (fun e => e.data)).flatten =
        bytes "HTTP/1.1 200 OK\r\nTransfer-Encoding: chunked\r\n\r\n1\r\n" ++ d.take 1 ++
          bytes "\r\n0\r\n\r\n" ∧
      accounted r1.socket =
        bytes "HTTP/1.1 200 OK\r\nTransfer-Encoding: chunked\r\n\r\n1\r\n" ++ d.take 1 ++
          bytes "\r\n0\r\n\r\n" := by
  have hd : d ≠ [] := by
    intro h
    rw [h] at hlen
    exact absurd hlen (by decide)
  have hu : toUnsignedInt d.length = 1 := by
    rw [hlen]
    decide
  have hp : intPrefix d = d.take 1 := by
    unfold intPrefix
    rw [hlen]
    rfl
  obtain ⟨r1, es, h1, h2, h3⟩ := run_chunks writableEnv 0 (freshResponse true)
    [d] rfl rfl (List.cons_ne_nil _ _) (by
      intro x hx
      rw [List.mem_singleton.1 hx]
      exact hd)
  have hB : r1.emitted = (freshResponse true).emitted ++
      (bytes "HTTP/1.1 200 OK\r\nTransfer-Encoding: chunked\r\n\r\n1\r\n" ++ d.take 1 ++
        bytes "\r\n0\r\n\r\n") := by
    rw [emitted_of_writes (freshResponse true) r1 es _ h2 h3]
    simp only [List.map_cons, List.map_nil, List.flatten_cons, List.flatten_nil, hu, hp,
      freshResponse, List.nil_append, List.append_nil, ↓reduceIte,
      List.map_append, List.flatten_append, List.append_assoc, statusLineKeys, headerKeys,
      intPrefix_HTTP_200_OK, intPrefix_Transfer_Encoding, intPrefix_chunked]
    rfl
  obtain ⟨es', k1, k2, _, _, _, _, _, k8⟩ := run_on_connection writableEnv 0
    (freshResponse true) r1 _ _ rfl (by decide) (by
      intro c hc a t
      rcases List.mem_cons.1 hc with h | h
      · rw [h]
        exact fun h => HttpCall.noConfusion h
      · rw [List.mem_singleton.1 h]
        exact fun h => HttpCall.noConfusion h) h1 hB
  refine ⟨r1, es', h1, by simpa [freshResponse] using k1, k2, ?_⟩
  have := (k8 (by decide)).2
  simpa [accounted, freshResponse, freshSocket, transmitted] using this

/-- Counterexample for C15. One chunk of `2 ^ 32 + 1` bytes written with `write`
and followed by `end()` on a new response on a writable socket: `write` casts
the length to `unsigned int` for the hexadecimal length and to `int` for the
data, so the chunk is framed as `1`, `\r\n` and its first byte, not as
`100000001`, `\r\n` and the `2 ^ 32 + 1` bytes. -/
theorem chunked_long_chunk_cut :
    ∃ r1 es, HttpResponse.run writableEnv 3 (freshResponse true)
        [HttpCall.write (List.replicate (2 ^ 32 + 1) 0), HttpCall.end_ [] false] = some r1 ∧
      r1.writes = es ∧
      (es.map (fun e => e.data)).flatten =
        bytes "HTTP/1.1 200 OK\r\nTransfer-Encoding: chunked\r\n\r\n1\r\n" ++ [0] ++
          bytes "\r\n0\r\n\r\n" ∧
      accounted r1.socket =
        bytes "HTTP/1.1 200 OK\r\nTransfer-Encoding: chunked\r\n\r\n1\r\n" ++ [0] ++
          bytes "\r\n0\r\n\r\n" ∧
      u32toaHex (List.replicate (2 ^ 32 + 1) (0 : Byte)).length = bytes "100000001" := by
  have hlen : (List.replicate (2 ^ 32 + 1) (0 : Byte)).length = 2 ^ 32 + 1 :=
    List.length_replicate _ _
  have htake : (List.replicate (2 ^ 32 + 1) (0 : Byte)).take 1 = [0] := by
    rw [List.take_replicate]
    have : min 1 (2 ^ 32 + 1) = 1 := by decide
    rw [this]
    rfl
  obtain ⟨r1, es, h1, h2, h3, h4⟩ := chunked_long_chunk _ hlen
  rw [htake] at h3 h4
  refine ⟨r1, es, h1, h2, h3, h4, ?_⟩
  rw [hlen]
  decide

/-- C15. Chunked framing, as the code has it. On a response on which nothing was
called yet, whose connection is open and keeps the cork invariant, for every
non-empty list of non-empty chunks of at most `INT_MAX` bytes passed to `write`
and followed by `end()`, the calls return and hand to the write engine exactly:
the status line `HTTP/1.1 200 OK\r\n`, the mark unless disabled,
`Transfer-Encoding: chunked\r\n`, the blank line `\r\n`, then for each chunk its
length in hexadecimal, `\r\n`, the chunk and `\r\n`, and finally `0\r\n\r\n`; the
`Transfer-Encoding` header key is written exactly once. The connection then
answers for the accepted parts of these writes, in order: exactly these bytes
when every write is accepted in full, which is so on every connection that does
not hold the cork slot. For `write("ab"); write("cd"); end()` the bytes after
the blank line are `2\r\nab\r\n2\r\ncd\r\n0\r\n\r\n`. -/
theorem chunked_framing (env : Env) (fuel : Nat) (r : HttpResponse) (ds : List (List Byte))
    (hstatus : r.httpResponseData.HTTP_STATUS_CALLED = false)
    (hwrite : r.httpResponseData.HTTP_WRITE_CALLED = false)
    (hne : ds ≠ []) (hds : ∀ d ∈ ds, d ≠ []) (hsize : ∀ d ∈ ds, d.length ≤ INT_MAX)
    (hopen : r.socket.closed = false) (hinv : corkInvariant env r.socket) :
    (∃ r1 es, HttpResponse.run env (fuel + 3) r
        (ds.map HttpCall.write ++ [HttpCall.end_ [] false]) = some r1 ∧
      r1.writes = r.writes ++ es ∧
      (es.map WriteCall.key).count (353, bytes "Transfer-Encoding") = 1 ∧
      (es.map (fun e => e.data)).flatten = statusLine HTTP_200_OK ++ markLine r.noMark ++
        headerLine (bytes "Transfer-Encoding") (bytes "chunked") ++ bytes "\r\n" ++
        (ds.map (fun d => u32toaHex d.length ++ bytes "\r\n" ++ d ++ bytes "\r\n")).flatten ++
        bytes "0\r\n\r\n" ∧
      accounted r1.socket = accounted r.socket ++ acceptedBytes es ∧
      ((∀ e ∈ es, e.accepted = e.data.length) →
        accounted r1.socket = accounted r.socket ++ (statusLine HTTP_200_OK ++
          markLine r.noMark ++ headerLine (bytes "Transfer-Encoding") (bytes "chunked") ++
          bytes "\r\n" ++
          (ds.map (fun d => u32toaHex d.length ++ bytes "\r\n" ++ d ++ bytes "\r\n")).flatten ++
          bytes "0\r\n\r\n")) ∧
      (r.socket.loopData.corkedSocket ≠ some r.socket.this →
        (∀ e ∈ es, e.accepted = e.data.length) ∧
        accounted r1.socket = accounted r.socket ++ (statusLine HTTP_200_OK ++
          markLine r.noMark ++ headerLine (bytes "Transfer-Encoding") (bytes "chunked") ++
          bytes "\r\n" ++
          (ds.map (fun d => u32toaHex d.length ++ bytes "\r\n" ++ d ++ bytes "\r\n")).flatten ++
          bytes "0\r\n\r\n"))) ∧
    ([bytes "ab", bytes "cd"].map
        (fun d => u32toaHex d.length ++ bytes "\r\n" ++ d ++ bytes "\r\n")).flatten ++
        bytes "0\r\n\r\n" = bytes "2\r\nab\r\n2\r\ncd\r\n0\r\n\r\n" := by
  constructor
  · obtain ⟨r1, es, h1, h2, h3⟩ := run_chunks env fuel r ds hstatus hwrite hne hds
    have hcast : ds.map (fun d => [(402, bytes "\r\n"),
          (61, u32toaHex (toUnsignedInt d.length)), (404, bytes "\r\n"), (406, intPrefix d)])
        = ds.map (fun d => [(402, bytes "\r\n"), (61, u32toaHex d.length),
          (404, bytes "\r\n"), (406, d)]) := by
      apply List.map_congr_left
      intro d hd
      rw [toUnsignedInt_of_le _ (hsize d hd), intPrefix_of_le _ (hsize d hd)]
    rw [hcast] at h3
    have hterm : bytes "\r\n0\r\n\r\n" = bytes "\r\n" ++ bytes "0\r\n\r\n" := by decide
    have hB : r1.emitted = r.emitted ++ (statusLine HTTP_200_OK ++ markLine r.noMark ++
        headerLine (bytes "Transfer-Encoding") (bytes "chunked") ++ bytes "\r\n" ++
        (ds.map (fun d => u32toaHex d.length ++ bytes "\r\n" ++ d ++ bytes "\r\n")).flatten ++
        bytes "0\r\n\r\n") := by
      rw [emitted_of_writes r r1 es _ h2 h3]
      simp only [List.map_append, List.flatten_append, List.append_assoc, hterm]
      have hre := chunk_regroup ds (bytes "0\r\n\r\n")
      cases hn : r.noMark <;>
        simp [statusLineKeys, statusLine, headerKeys, headerLine, markLine] <;>
        simpa using hre
    have hcount : (es.map WriteCall.key).count (353, bytes "Transfer-Encoding") = 1 := by
      rw [h3]
      simp only [List.count_append, chunk_keys_count]
      cases r.noMark <;>
        simp [List.count_cons, statusLineKeys, headerKeys, mark_ne_transfer_encoding]
    obtain ⟨es', g1, g2, _, _, g5, _, g7, g8⟩ := run_on_connection env fuel r r1 _ _ hopen hinv
      (by
        intro c hc d t
        rcases List.mem_append.mp hc with h | h
        · obtain ⟨a, _, rfl⟩ := List.mem_map.mp h
          simp
        · simp only [List.mem_singleton] at h
          subst h
          simp) h1 hB
    have hes : es' = es := List.append_cancel_left (g1.symm.trans h2)
    subst hes
    exact ⟨r1, es', h1, g1, hcount, g2, g5, g7, g8⟩
  · decide

/-- Witness for C15: `write("ab"); write("cd"); end()` on a new response, on a
socket that takes one byte per syscall. -/
theorem chunked_framing_witness :
    ∃ r1 es, HttpResponse.run oneByteEnv 3 (freshResponse false)
        ([bytes "ab", bytes "cd"].map HttpCall.write ++ [HttpCall.end_ [] false]) = some r1 ∧
      r1.writes = (freshResponse false).writes ++ es ∧
      (es.map WriteCall.key).count (353, bytes "Transfer-Encoding") = 1 ∧
      accounted r1.socket = accounted (freshResponse false).socket ++
        (statusLine HTTP_200_OK ++ markLine (freshResponse false).noMark ++
          headerLine (bytes "Transfer-Encoding") (bytes "chunked") ++ bytes "\r\n" ++
          ([bytes "ab", bytes "cd"].map
            (fun d => u32toaHex d.length ++ bytes "\r\n" ++ d ++ bytes "\r\n")).flatten ++
          bytes "0\r\n\r\n") := by
  obtain ⟨⟨r1, es, h1, h2, h3, _, _, _, h7⟩, _⟩ := chunked_framing oneByteEnv 0
    (freshResponse false) [bytes "ab", bytes "cd"] rfl rfl (by decide) (by decide) (by decide)
    rfl (by decide)
  exact ⟨r1, es, h1, h2, h3, (h7 (by decide)).2⟩

/-! ## Ending a chunked response -/

theorem chunked_end_sites (es : List WriteCall) (sc : Bool) (cc : Prop) [Decidable cc]
    (data : List Byte)
    (hk : es.map WriteCall.key =
      (if sc then [] else statusLineKeys HTTP_200_OK) ++
      (if cc then headerKeys (bytes "Connection") (bytes "close") else []) ++
      (if data = [] then []
        else [(128, bytes "\r\n"), (61, u32toaHex (toUnsignedInt data.length)),
          (130, bytes "\r\n"), (133, intPrefix data)]) ++ [(137, bytes "\r\n0\r\n\r\n")]) :
    ∀ e ∈ es, e.site ≠ 172 := by
  intro e he h172
  have hmem : e.site ∈ (es.map WriteCall.key).map Prod.fst :=
    List.mem_map_of_mem _ (List.mem_map_of_mem _ he)
  rw [hk, h172] at hmem
  revert hmem
  cases sc <;> by_cases hc : cc <;> by_cases hd : data = [] <;>
    simp [hc, hd, statusLineKeys, headerKeys]

theorem chunked_end_long_data (d : List Byte) (hlen : d.length = 2 ^ 32) :
    ∃ x, HttpResponse.internalEnd writableEnv 3 chunkedResponse d 0 false true false =
        some (x, true) ∧
      x.emitted = bytes "\r\n0\r\n\r\n0\r\n\r\n" ∧
      accounted x.socket = bytes "\r\n0\r\n\r\n0\r\n\r\n" := by
  have hd : d ≠ [] := by
    intro h
    rw [h] at hlen
    exact absurd hlen (by decide)
  have hu : toUnsignedInt d.length = 0 := by
    rw [hlen]
    decide
  have hp : intPrefix d = [] := by
    unfold intPrefix
    rw [hlen]
    rfl
  obtain ⟨⟨x, ok⟩, hx, k1, _, _, _, es, k5, k6⟩ := internalEnd_chunked_spec writableEnv 0
    chunkedResponse d 0 false true false rfl
  simp only at k1 k5
  subst k1
  obtain ⟨x', hx', ht⟩ := internalEnd_tied writableEnv 0 chunkedResponse d 0 false true false
    (fun h => absurd h (by decide))
    (tied_refl writableEnv false chunkedResponse rfl (by decide))
  rw [hx] at hx'
  simp only [Option.some.injEq] at hx'
  subst hx'
  obtain ⟨_, _, t3, t4, t5⟩ := tied_elim writableEnv false chunkedResponse x es ht k5
  have hB : (es.map (fun e => e.data)).flatten = bytes "\r\n0\r\n\r\n0\r\n\r\n" := by
    have := congrArg (fun l => (l.map Prod.snd).flatten) k6
    simp only [List.map_map] at this
    rw [show (Prod.snd ∘ WriteCall.key) = (fun e => e.data) from rfl] at this
    rw [this]
    simp only [chunkedResponse, hd, hu, hp, ↓reduceIte, Bool.false_eq_true, false_and,
      List.nil_append, List.map_cons, List.map_nil, List.flatten_cons, List.flatten_nil,
      List.append_nil, List.cons_append]
    decide
  have hall : ∀ e ∈ es, e.accepted = e.data.length := by
    intro e he
    apply (t5 (by decide)).2 e he
    cases ho : e.optionally
    · rfl
    · exact absurd ((t4 e he).2 ho).2 (by decide)
  refine ⟨x, hx, ?_, ?_⟩
  · rw [HttpResponse.emitted, k5]
    simpa [chunkedResponse] using hB
  · rw [t3, acceptedBytes_of_full es hall, hB]
    rfl

theorem step_status_keys (env : Env) (fuel : Nat) (r : HttpResponse) (c : HttpCall)
    (hs : r.httpResponseData.HTTP_STATUS_CALLED = false) :
    ∃ r1 es, HttpResponse.step env (fuel + 3) r c = some r1 ∧ r1.writes = r.writes ++ es ∧
      (es.take 3).map WriteCall.key =
        [(343, bytes "HTTP/1.1 "), (344, callStatus c), (345, bytes "\r\n")] := by
  have hend : ∀ (data : List Byte) (totalSize : Nat) (optional cc : Bool),
      ∃ x es, HttpResponse.internalEnd env (fuel + 3) r data totalSize optional true cc =
          some x ∧ x.1.writes = r.writes ++ es ∧
        (es.take 3).map WriteCall.key =
          [(343, bytes "HTTP/1.1 "), (344, HTTP_200_OK), (345, bytes "\r\n")] := by
    intro data totalSize optional cc
    rcases Bool.eq_false_or_eq_true r.httpResponseData.HTTP_WRITE_CALLED with hw | hw
    · obtain ⟨x, hx, _, _, _, _, es, k5, k6⟩ := internalEnd_chunked_spec env fuel r data
        totalSize optional true cc hw
      refine ⟨x, es, hx, k5, ?_⟩
      rw [List.map_take, k6]
      simp [hs, statusLineKeys]
    · obtain ⟨x, hx, _, es, k2, _, _, _, L, k4, _, _⟩ := internalEnd_length_spec env fuel r data
        totalSize optional true cc hw
      refine ⟨x, es, hx, k2, ?_⟩
      rw [List.map_take, k4]
      simp [hs, statusLineKeys]
  cases c with
  | writeStatus status =>
    obtain ⟨r1, h1, _, _, _, es, h5, h6⟩ := writeStatus_spec env fuel r status
    refine ⟨r1, es, h1, h5, ?_⟩
    rw [List.map_take, h6]
    simp [hs, statusLineKeys, callStatus]
  | writeHeader key value =>
    obtain ⟨r1, h1, _, _, _, es, h5, h6⟩ := writeHeader_spec env fuel r key value
    refine ⟨r1, es, h1, h5, ?_⟩
    rw [List.map_take, h6]
    simp [hs, statusLineKeys, callStatus]
  | write data =>
    obtain ⟨x, hx, _, _, _, _, es, h5, h6⟩ := http_write_spec env fuel r data
    refine ⟨x.1, es, by simp [HttpResponse.step, hx], h5, ?_⟩
    rw [List.map_take, h6]
    simp [hs, statusLineKeys, callStatus]
  | end_ data closeConnection =>
    obtain ⟨x, es, hx, h2, h3⟩ := hend data data.length false closeConnection
    exact ⟨x.1, es, by simp [HttpResponse.step, HttpResponse.end_, hx], h2,
      by simpa [callStatus] using h3⟩
  | tryEnd data totalSize =>
    obtain ⟨x, es, hx, h2, h3⟩ := hend data totalSize true false
    exact ⟨x.1, es, by simp [HttpResponse.step, HttpResponse.tryEnd, hx], h2,
      by simpa [callStatus] using h3⟩

theorem acceptedBytes_status (es : List WriteCall) (status : List Byte)
    (hk : es.map WriteCall.key =
      [(343, bytes "HTTP/1.1 "), (344, status), (345, bytes "\r\n")])
    (hall : ∀ e ∈ es, e.accepted = e.data.length) :
    acceptedBytes es = statusLine status := by
  rw [acceptedBytes_of_full es hall]
  have := congrArg (fun l => (l.map Prod.snd).flatten) hk
  simp only [List.map_map] at this
  rw [show (Prod.snd ∘ WriteCall.key) = (fun e => e.data) from rfl] at this
  rw [this]
  simp [statusLine]

theorem run_status_connection (env : Env) (fuel : Nat) (r : HttpResponse) (c : HttpCall)
    (cs : List HttpCall) (hs : r.httpResponseData.HTTP_STATUS_CALLED = false)
    (hopen : r.socket.closed = false) (hinv : corkInvariant env r.socket) :
    ∃ r1 es, HttpResponse.run env (fuel + 3) r (c :: cs) = some r1 ∧
      r1.writes = r.writes ++ es ∧
      (es.take 3).map WriteCall.key =
        [(343, bytes "HTTP/1.1 "), (344, callStatus c), (345, bytes "\r\n")] ∧
      accounted r1.socket =
        accounted r.socket ++ acceptedBytes (es.take 3) ++ acceptedBytes (es.drop 3) ∧
      ((∀ e ∈ es.take 3, e.accepted = e.data.length) →
        accounted r1.socket =
          accounted r.socket ++ statusLine (callStatus c) ++ acceptedBytes (es.drop 3)) ∧
      (r.socket.loopData.corkedSocket ≠ some r.socket.this →
        accounted r1.socket =
          accounted r.socket ++ statusLine (callStatus c) ++ acceptedBytes (es.drop 3)) := by
  obtain ⟨ra, es1, h1, h2, h3⟩ := step_status_keys env fuel r c hs
  obtain ⟨ra', h1', hta⟩ := step_tied env fuel r c (Or.inl rfl) (tied_refl env true r hopen hinv)
  rw [h1] at h1'
  simp only [Option.some.injEq] at h1'
  subst h1'
  obtain ⟨r1, k1, k2⟩ := run_tied env fuel cs (Or.inl rfl) ra hta
  obtain ⟨r1', k1', k3⟩ := run_tied env fuel cs (Or.inl rfl) ra
    (tied_refl env true ra hta.1 hta.2.1)
  rw [k1] at k1'
  simp only [Option.some.injEq] at k1'
  subst k1'
  obtain ⟨_, _, es2, hw2, _⟩ := k3
  have hw : r1.writes = r.writes ++ (es1 ++ es2) := writes_chain h2 hw2
  obtain ⟨_, _, t3, t4, t5⟩ := tied_elim env true r r1 (es1 ++ es2) k2 hw
  have hlen : 3 ≤ es1.length := by
    have hl := congrArg List.length h3
    simp only [List.length_map, List.length_take, List.length_cons, List.length_nil] at hl
    omega
  have htake : (es1 ++ es2).take 3 = es1.take 3 := List.take_append_of_le_length hlen
  have hsplit : acceptedBytes (es1 ++ es2) =
      acceptedBytes ((es1 ++ es2).take 3) ++ acceptedBytes ((es1 ++ es2).drop 3) := by
    rw [← acceptedBytes_append, List.take_append_drop]
  have hfull : (∀ e ∈ (es1 ++ es2).take 3, e.accepted = e.data.length) →
      accounted r1.socket =
        accounted r.socket ++ statusLine (callStatus c) ++
          acceptedBytes ((es1 ++ es2).drop 3) := by
    intro h
    rw [t3, hsplit, acceptedBytes_status _ (callStatus c) (by rw [htake]; exact h3) h,
      List.append_assoc]
  refine ⟨r1, es1 ++ es2, by simp [HttpResponse.run, h1, k1], hw, by rw [htake]; exact h3,
    by rw [t3, hsplit, List.append_assoc], hfull, ?_⟩
  intro hfree
  apply hfull
  intro e he
  have hmem : e ∈ es1 ++ es2 := List.mem_of_mem_take he
  apply (t5 hfree).2 e hmem
  cases ho : e.optionally
  · rfl
  · exfalso
    have h172 := ((t4 e hmem).2 ho).1
    have hk : e.site ∈ (((es1 ++ es2).take 3).map WriteCall.key).map Prod.fst :=
      List.mem_map_of_mem _ (List.mem_map_of_mem _ he)
    rw [htake, h3, h172] at hk
    simp at hk

/-- Counterexample for C33. A readable and writable event (3) on socket 2 of the
sample memory, with an `on_writable` handler that closes the socket: the event
is not deferred (`ignore_data` says no), yet `us_internal_dispatch_ready_poll`
returns from the writable block: `on_writable` is its only call, no receive is
performed and `ignore_data` is not even asked. -/
theorem readable_event_closed_by_writable :
    3 &&& (sampleEnv (fun s => decide (s = 2))).LIBUS_SOCKET_READABLE ≠ 0 ∧
    (sampleEnv (fun s => decide (s = 2))).ignore_data 1 2 (sampleMem 0 0 0 0) = false ∧
    (us_internal_dispatch_ready_poll (sampleEnv (fun s => decide (s = 2))) 2 0 3
      ⟨sampleMem 0 0 0 0, []⟩).trace = [Event.on_writable 2 0] ∧
    (us_internal_dispatch_ready_poll (sampleEnv (fun s => decide (s = 2))) 2 0 3
      ⟨sampleMem 0 0 0 0, []⟩).trace.count (Event.bsd_recv 2) = 0 := by
  decide

/-- C33. Readable dispatch, as the code has it. For a poll of type
`POLL_TYPE_SOCKET` or `POLL_TYPE_SOCKET_SHUT_DOWN`, no error and a readable
event. If the event is not writable as well, the readable block runs on the
socket in the state at hand. If it is writable as well, the writable block runs
first: it calls `on_writable` and perhaps `us_poll_change`, no receive; if the
socket `on_writable` returned is closed then, the dispatch returns there, with
no receive and no further handler, and otherwise the readable block runs on
that socket in the state the writable block left. The readable block, on a
socket `s` in a state `st0`, asks `ignore_data` first. If it defers the event,
nothing else happens: no receive, no handler. Otherwise `bsd_recv` is called
exactly once, and then: a positive length calls `on_data` with exactly the
bytes received; length 0 calls `us_socket_close` if the socket is shut down, and
otherwise changes the poll interest to the current interest AND writable and
calls `on_end` once; the length `LIBUS_SOCKET_ERROR` calls `us_socket_close`
unless `bsd_would_block` holds; in the remaining case (would-block, or another
negative length) no handler is called and the memory is unchanged. -/
theorem readable_dispatch (env : LoopEnv) (p events : Nat) (st : LoopState)
    (htype : env.us_internal_poll_type p st.mem = PollType.POLL_TYPE_SOCKET ∨
      env.us_internal_poll_type p st.mem = PollType.POLL_TYPE_SOCKET_SHUT_DOWN)
    (hreadable : events &&& env.LIBUS_SOCKET_READABLE ≠ 0) :
    (events &&& env.LIBUS_SOCKET_WRITABLE = 0 →
      us_internal_dispatch_ready_poll env p 0 events st = dispatch_readable env p st) ∧
    (events &&& env.LIBUS_SOCKET_WRITABLE ≠ 0 →
      (∀ x, (dispatch_writable env p st).1.trace.count (Event.bsd_recv x)
          = st.trace.count (Event.bsd_recv x) ∧
        (dispatch_writable env p st).1.trace.count (Event.ignore_data x)
          = st.trace.count (Event.ignore_data x)) ∧
      (dispatch_writable env p st).2.2 = env.us_socket_is_closed (dispatch_writable env p st).2.1
        (env.on_writable (st.mem.sockets p).context p { st.mem with last_write_failed := 0 }).1 ∧
      ((dispatch_writable env p st).2.2 = true →
        us_internal_dispatch_ready_poll env p 0 events st
          = ⟨(env.on_writable (st.mem.sockets p).context p
              { st.mem with last_write_failed := 0 }).1,
            st.trace ++ [Event.on_writable p 0]⟩) ∧
      ((dispatch_writable env p st).2.2 = false →
        us_internal_dispatch_ready_poll env p 0 events st
          = dispatch_readable env (dispatch_writable env p st).2.1
              (dispatch_writable env p st).1)) ∧
    ∀ (s : Nat) (st0 : LoopState),
    (env.ignore_data (st0.mem.sockets s).context s st0.mem = true →
      dispatch_readable env s st0
        = { st0 with trace := st0.trace ++ [Event.ignore_data s] }) ∧
    (env.ignore_data (st0.mem.sockets s).context s st0.mem = false →
      (0 < (env.bsd_recv (st0.trace ++ [Event.ignore_data s]) s).1 →
        dispatch_readable env s st0
          = ⟨(env.on_data (st0.mem.sockets s).context s
                (readBytes (env.bsd_recv (st0.trace ++ [Event.ignore_data s]) s).2
                  (env.bsd_recv (st0.trace ++ [Event.ignore_data s]) s).1.toNat) st0.mem).1,
              st0.trace ++ [Event.ignore_data s, Event.bsd_recv s,
                Event.on_data s
                  (readBytes (env.bsd_recv (st0.trace ++ [Event.ignore_data s]) s).2
                    (env.bsd_recv (st0.trace ++ [Event.ignore_data s]) s).1.toNat)]⟩) ∧
      ((env.bsd_recv (st0.trace ++ [Event.ignore_data s]) s).1 = 0 →
        env.us_socket_is_shut_down s st0.mem = true →
        dispatch_readable env s st0
          = ⟨(env.us_socket_close s st0.mem).1,
              st0.trace ++ [Event.ignore_data s, Event.bsd_recv s, Event.us_socket_close s]⟩) ∧
      ((env.bsd_recv (st0.trace ++ [Event.ignore_data s]) s).1 = 0 →
        env.us_socket_is_shut_down s st0.mem = false →
        dispatch_readable env s st0
          = ⟨(env.on_end
                ((us_poll_change st0.mem s
                  (us_poll_events st0.mem s &&& env.LIBUS_SOCKET_WRITABLE)).sockets s).context s
                (us_poll_change st0.mem s
                  (us_poll_events st0.mem s &&& env.LIBUS_SOCKET_WRITABLE))).1,
              st0.trace ++ [Event.ignore_data s, Event.bsd_recv s,
                Event.us_poll_change s (us_poll_events st0.mem s &&& env.LIBUS_SOCKET_WRITABLE),
                Event.on_end s]⟩) ∧
      ((env.bsd_recv (st0.trace ++ [Event.ignore_data s]) s).1 < 0 →
        (env.bsd_recv (st0.trace ++ [Event.ignore_data s]) s).1 = env.LIBUS_SOCKET_ERROR →
        env.bsd_would_block (st0.trace ++ [Event.ignore_data s, Event.bsd_recv s]) = false →
        dispatch_readable env s st0
          = ⟨(env.us_socket_close s st0.mem).1,
              st0.trace ++ [Event.ignore_data s, Event.bsd_recv s, Event.us_socket_close s]⟩) ∧
      ((env.bsd_recv (st0.trace ++ [Event.ignore_data s]) s).1 < 0 →
        ((env.bsd_recv (st0.trace ++ [Event.ignore_data s]) s).1 ≠ env.LIBUS_SOCKET_ERROR ∨
          env.bsd_would_block (st0.trace ++ [Event.ignore_data s, Event.bsd_recv s]) = true) →
        dispatch_readable env s st0
          = ⟨st0.mem, st0.trace ++ [Event.ignore_data s, Event.bsd_recv s]⟩) ∧
      (dispatch_readable env s st0).trace.count (Event.bsd_recv s)
        = st0.trace.count (Event.bsd_recv s) + 1) := by
  refine ⟨?_, ?_, ?_⟩
  · intro hwritable
    rcases htype with h | h <;>
      simp [us_internal_dispatch_ready_poll, h, dispatch_socket, hreadable, hwritable]
  · intro hwritable
    refine ⟨?_, ?_, ?_, ?_⟩
    · intro x
      unfold dispatch_writable
      simp only
      split_ifs <;> simp [List.count_append, List.count_cons]
    · unfold dispatch_writable
      simp only
      split_ifs with h1 h2
      · simp [h1]
      · simpa using h1
      · simpa using h1
    · intro hclosed
      have hd : us_internal_dispatch_ready_poll env p 0 events st
          = (dispatch_writable env p st).1 := by
        rcases htype with h | h <;>
          simp [us_internal_dispatch_ready_poll, h, dispatch_socket, hwritable, hclosed]
      rw [hd]
      unfold dispatch_writable at hclosed ⊢
      simp only at hclosed ⊢
      split_ifs at hclosed ⊢ with h1 h2
      · rfl
    · intro hopen
      rcases htype with h | h <;>
        simp [us_internal_dispatch_ready_poll, h, dispatch_socket, hwritable, hopen, hreadable]
  · intro s st0
    constructor
    · intro hi
      simp [dispatch_readable, hi]
    · intro hi
      refine ⟨?_, ?_, ?_, ?_, ?_, ?_⟩
      · intro hpos
        simp [dispatch_readable, hi, hpos]
      · intro h0 hsd
        simp [dispatch_readable, hi, h0, hsd]
      · intro h0 hsd
        simp [dispatch_readable, hi, h0, hsd]
      · intro hneg herr hwb
        have h1 : ¬ 0 < (env.bsd_recv (st0.trace ++ [Event.ignore_data s]) s).1 := by omega
        have h2 : ¬ (env.bsd_recv (st0.trace ++ [Event.ignore_data s]) s).1 = 0 := by omega
        have e1 : ¬ 0 < env.LIBUS_SOCKET_ERROR := herr ▸ h1
        have e2 : ¬ env.LIBUS_SOCKET_ERROR = 0 := herr ▸ h2
        simp [dispatch_readable, hi, h1, h2, herr, hwb, e1, e2]
      · intro hneg hor
        have h1 : ¬ 0 < (env.bsd_recv (st0.trace ++ [Event.ignore_data s]) s).1 := by omega
        have h2 : ¬ (env.bsd_recv (st0.trace ++ [Event.ignore_data s]) s).1 = 0 := by omega
        have h3 : ¬ ((env.bsd_recv (st0.trace ++ [Event.ignore_data s]) s).1
            = env.LIBUS_SOCKET_ERROR ∧
            env.bsd_would_block (st0.trace ++ [Event.ignore_data s] ++ [Event.bsd_recv s])
              = false) := by
          rintro ⟨e1, e2⟩
          rcases hor with h | h
          · exact h e1
          · rw [List.append_assoc] at e2
            simp only [List.singleton_append] at e2
            rw [h] at e2
            exact Bool.noConfusion e2
        simp only [dispatch_readable, hi, Bool.false_eq_true, ↓reduceIte, gt_iff_lt, h1, h2, h3]
        simp
      · unfold dispatch_readable
        simp only [hi, Bool.false_eq_true, ↓reduceIte]
        split_ifs <;> simp [List.count_append, List.count_cons]

/-- Witness for C33: a readable event on socket 2 of the sample memory; the
receive yields the bytes 1, 2. -/
theorem readable_dispatch_witness :
    us_internal_dispatch_ready_poll (sampleEnv (fun _ => false)) 2 0 1 ⟨sampleMem 0 0 0 0, []⟩
      = ⟨sampleMem 0 0 0 0,
          [Event.ignore_data 2, Event.bsd_recv 2, Event.on_data 2 [1, 2]]⟩ := by
  obtain ⟨h1, _, h3⟩ := readable_dispatch (sampleEnv (fun _ => false)) 2 1
    ⟨sampleMem 0 0 0 0, []⟩ (Or.inl rfl) (by decide)
  rw [h1 (by decide)]
  exact ((h3 2 ⟨sampleMem 0 0 0 0, []⟩).2 rfl).1 (by decide)

/-! ## The sweep of all contexts -/

theorem sweepFrame_refl (c : Nat) (fired : List Nat) (m : Mem) : sweepFrame c fired m m :=
  ⟨rfl, fun _ => ⟨rfl, rfl⟩, fun _ _ => rfl, fun _ _ _ h _ => h⟩

theorem sweepFrame_trans (c : Nat) (fired : List Nat) (m m1 m2 : Mem)
    (h1 : sweepFrame c fired m m1) (h2 : sweepFrame c fired m1 m2) :
    sweepFrame c fired m m2 := by
  obtain ⟨a1, a2, a3, a4⟩ := h1
  obtain ⟨b1, b2, b3, b4⟩ := h2
  refine ⟨b1.trans a1, fun d => ⟨(b2 d).1.trans (a2 d).1, (b2 d).2.trans (a2 d).2⟩,
    fun d hd => (b3 d hd).trans (a3 d hd),
    fun d hd l hl hf => b4 d hd l (a4 d hd l hl hf) hf⟩

theorem sweepFrame_mono (c : Nat) (fired fired1 : List Nat) (m m1 : Mem)
    (h : sweepFrame c fired m m1) (hsub : ∀ x ∈ fired, x ∈ fired1) :
    sweepFrame c fired1 m m1 := by
  obtain ⟨a1, a2, a3, a4⟩ := h
  exact ⟨a1, a2, a3, fun d hd l hl hf => a4 d hd l hl (fun x hx => hf x (hsub x hx))⟩

theorem set_iterator_next (m : Mem) (c v d : Nat) :
    ((m.set_iterator c v).contexts d).next = (m.contexts d).next := by
  by_cases h : d = c
  · subst h; simp [Mem.set_iterator]
  · simp [Mem.set_iterator, Function.update_noteq h]

theorem set_iterator_other (m : Mem) (c v d : Nat) (h : d ≠ c) :
    ((m.set_iterator c v).contexts d).iterator = (m.contexts d).iterator := by
  simp [Mem.set_iterator, Function.update_noteq h]

theorem set_timestamp_next (m : Mem) (c v d : Nat) :
    ((m.set_timestamp c v).contexts d).next = (m.contexts d).next := by
  by_cases h : d = c
  · subst h; simp [Mem.set_timestamp]
  · simp [Mem.set_timestamp, Function.update_noteq h]

theorem set_timestamp_other (m : Mem) (c v d : Nat) (h : d ≠ c) :
    (m.set_timestamp c v).contexts d = m.contexts d := by
  simp [Mem.set_timestamp, Function.update_noteq h]

theorem set_timestamp_iterator (m : Mem) (c v d : Nat) :
    ((m.set_timestamp c v).contexts d).iterator = (m.contexts d).iterator := by
  by_cases h : d = c
  · subst h; simp [Mem.set_timestamp]
  · simp [Mem.set_timestamp, Function.update_noteq h]

theorem sweepFrame_fire (c s : Nat) (fired : List Nat) (m : Mem) :
    sweepFrame c fired m ((m.set_timeout s 0).set_iterator c s) := by
  refine ⟨rfl, fun d => ⟨by rw [set_iterator_next]; rfl, by simp⟩,
    fun d hd => by rw [set_iterator_other _ _ _ _ hd]; rfl, ?_⟩
  intro d _ l hl _
  simp only [set_iterator_sockets, set_iterator_head, set_timeout_contexts]
  exact isChain_congr _ _ _ _ hl (fun x _ => set_timeout_next m s 0 x)

theorem timer_sweep_sockets_frame (env : LoopEnv) (c needle : Nat)
    (hc : ∀ (m : Mem) (s : Nat) (rest : List Nat),
      isChain (fun x => (m.sockets x).next) s (s :: rest) → (m.contexts c).iterator = s →
      sweepFrame c [s] m (env.on_socket_timeout c s m) ∧
      ((((env.on_socket_timeout c s m).contexts c).iterator = s ∧
          isChain (fun x => ((env.on_socket_timeout c s m).sockets x).next)
            ((env.on_socket_timeout c s m).sockets s).next rest) ∨
        (((env.on_socket_timeout c s m).contexts c).iterator = (m.sockets s).next ∧
          isChain (fun x => ((env.on_socket_timeout c s m).sockets x).next)
            (m.sockets s).next rest))) :
    ∀ (l : List Nat) (fuel s : Nat) (st : LoopState),
      isChain (fun x => (st.mem.sockets x).next) s l → l.length < fuel →
      ∃ st1, timer_sweep_sockets env c needle fuel s st = some st1 ∧
        sweepFrame c l st.mem st1.mem := by
  intro l
  induction l with
  | nil =>
    intro fuel s st h hf
    simp only [isChain] at h
    cases fuel with
    | zero => simp at hf
    | succ fuel => exact ⟨st, by simp [timer_sweep_sockets, h], sweepFrame_refl _ _ _⟩
  | cons x rest ih =>
    intro fuel s st h hf
    have h' := h
    simp only [isChain] at h'
    obtain ⟨hsx, hx0, hrest⟩ := h'
    subst hsx
    cases fuel with
    | zero => simp at hf
    | succ fuel =>
      simp only [List.length_cons] at hf
      have hnot : s ∉ rest := isChain_not_mem _ s rest h
      unfold timer_sweep_sockets
      simp only [hx0, ↓reduceIte]
      by_cases hmatch : needle = (st.mem.sockets s).timeout
      · rw [if_pos hmatch]
        have hchain1 : isChain
            (fun x => ((((st.mem.set_timeout s 0).set_iterator c s)).sockets x).next) s
            (s :: rest) := by
          refine isChain_congr _ _ _ _ h ?_
          intro y _
          simp
        obtain ⟨hframe, hcases⟩ := hc ((st.mem.set_timeout s 0).set_iterator c s) s rest hchain1
          (by simp)
        have hframe2 : sweepFrame c (s :: rest) st.mem (env.on_socket_timeout c s
            ((st.mem.set_timeout s 0).set_iterator c s)) :=
          sweepFrame_trans _ _ _ _ _ (sweepFrame_fire c s _ st.mem)
            (sweepFrame_mono _ _ _ _ _ hframe (fun y hy => by
              rw [List.mem_singleton.1 hy]
              exact List.mem_cons_self _ _))
        have hnext_ne : (st.mem.sockets s).next ≠ s := by
          intro e
          cases rest with
          | nil =>
            simp only [isChain] at hrest
            rw [hrest] at e
            exact hx0 e.symm
          | cons z zs =>
            simp only [isChain] at hrest
            rw [hrest.1] at e
            exact hnot (e ▸ List.mem_cons_self _ _)
        rcases hcases with ⟨hit, hch⟩ | ⟨hit, hch⟩
        · simp only [hit, ↓reduceIte]
          obtain ⟨st1, k1, k2⟩ := ih fuel _ ⟨_, st.trace ++ [Event.on_socket_timeout c s
            ((((st.mem.set_timeout s 0).set_iterator c s)).sockets s).timeout]⟩ hch (by omega)
          exact ⟨st1, k1, sweepFrame_trans _ _ _ _ _ hframe2
            (sweepFrame_mono _ _ _ _ _ k2 (fun y hy => List.mem_cons_of_mem _ hy))⟩
        · have hne : s ≠ ((env.on_socket_timeout c s
              ((st.mem.set_timeout s 0).set_iterator c s)).contexts c).iterator := by
            rw [hit]
            simp only [set_iterator_sockets, set_timeout_next]
            exact fun e => hnext_ne e.symm
          simp only [hne, ↓reduceIte]
          have hit' : ((env.on_socket_timeout c s
              ((st.mem.set_timeout s 0).set_iterator c s)).contexts c).iterator
              = (st.mem.sockets s).next := by
            rw [hit]; simp
          rw [hit']
          have hch' : isChain (fun x => ((env.on_socket_timeout c s
              ((st.mem.set_timeout s 0).set_iterator c s)).sockets x).next)
              (st.mem.sockets s).next rest := by
            simpa using hch
          obtain ⟨st1, k1, k2⟩ := ih fuel _ ⟨_, st.trace ++ [Event.on_socket_timeout c s
            ((((st.mem.set_timeout s 0).set_iterator c s)).sockets s).timeout]⟩ hch' (by omega)
          exact ⟨st1, k1, sweepFrame_trans _ _ _ _ _ hframe2
            (sweepFrame_mono _ _ _ _ _ k2 (fun y hy => List.mem_cons_of_mem _ hy))⟩
      · rw [if_neg hmatch]
        by_cases hn0 : (st.mem.sockets s).next = 0
        · simp only [hn0, ↓reduceIte]
          exact ⟨st, rfl, sweepFrame_refl _ _ _⟩
        · simp only [hn0, ↓reduceIte]
          obtain ⟨st1, k1, k2⟩ := ih fuel _ st hrest (by omega)
          exact ⟨st1, k1, sweepFrame_mono _ _ _ _ _ k2 (fun y hy => List.mem_cons_of_mem _ hy)⟩

theorem timer_sweep_context_frame (env : LoopEnv) (bound c : Nat)
    (l : List Nat) (st : LoopState)
    (hc : ∀ (m : Mem) (s : Nat) (rest : List Nat),
      isChain (fun x => (m.sockets x).next) s (s :: rest) → (m.contexts c).iterator = s →
      sweepFrame c [s] m (env.on_socket_timeout c s m) ∧
      ((((env.on_socket_timeout c s m).contexts c).iterator = s ∧
          isChain (fun x => ((env.on_socket_timeout c s m).sockets x).next)
            ((env.on_socket_timeout c s m).sockets s).next rest) ∨
        (((env.on_socket_timeout c s m).contexts c).iterator = (m.sockets s).next ∧
          isChain (fun x => ((env.on_socket_timeout c s m).sockets x).next)
            (m.sockets s).next rest)))
    (hlist : isChain (fun x => (st.mem.sockets x).next) (st.mem.contexts c).head l)
    (hbound : l.length < bound) :
    ∃ st1, timer_sweep_context env bound c st = some st1 ∧
      st1.mem.iterator = st.mem.iterator ∧
      (∀ d, (st1.mem.contexts d).next = (st.mem.contexts d).next) ∧
      (∀ d, d ≠ c → (st1.mem.contexts d).timestamp = (st.mem.contexts d).timestamp ∧
        (st1.mem.contexts d).iterator = (st.mem.contexts d).iterator) ∧
      (st1.mem.contexts c).timestamp = ((st.mem.contexts c).timestamp + 1) &&& 0x7fff ∧
      (st1.mem.contexts c).iterator = 0 ∧
      (∀ d, d ≠ c → ∀ ld,
        isChain (fun x => (st.mem.sockets x).next) (st.mem.contexts d).head ld →
        (∀ x ∈ l, x ∉ ld) →
        isChain (fun x => (st1.mem.sockets x).next) (st1.mem.contexts d).head ld) := by
  obtain ⟨st1, k1, k2, k3, k4, k5⟩ := timer_sweep_sockets_frame env c
    (0x8000 ||| (((st.mem.contexts c).timestamp + 1) &&& 0x7fff)) hc l bound
    (st.mem.contexts c).head
    ⟨st.mem.set_timestamp c (((st.mem.contexts c).timestamp + 1) &&& 0x7fff), st.trace⟩
    (by simpa using hlist) hbound
  simp only at k2 k3 k4 k5
  refine ⟨{ st1 with mem := st1.mem.set_iterator c 0 }, ?_, ?_, ?_, ?_, ?_, ?_, ?_⟩
  · simp only [timer_sweep_context, set_timestamp_timestamp, set_timestamp_head, k1,
      Option.map_some']
  · exact k2
  · intro d
    rw [set_iterator_next, (k3 d).1, set_timestamp_next]
  · intro d hd
    constructor
    · rw [set_iterator_timestamp, (k3 d).2, set_timestamp_other _ _ _ _ hd]
    · rw [set_iterator_other _ _ _ _ hd, k4 d hd, set_timestamp_iterator]
  · rw [set_iterator_timestamp, (k3 c).2, set_timestamp_timestamp]
  · simp
  · intro d hdc ld hl hdis
    have := k5 d hdc ld (by
      rw [set_timestamp_other _ _ _ _ hdc]
      exact hl) hdis
    simpa using this

theorem timer_sweep_contexts_spec (env : LoopEnv) (contexts : List Nat) (lists : Nat → List Nat)
    (bound : Nat)
    (hc : ∀ c ∈ contexts, ∀ (m : Mem) (s : Nat) (rest : List Nat),
      isChain (fun x => (m.sockets x).next) s (s :: rest) → (m.contexts c).iterator = s →
      sweepFrame c [s] m (env.on_socket_timeout c s m) ∧
      ((((env.on_socket_timeout c s m).contexts c).iterator = s ∧
          isChain (fun x => ((env.on_socket_timeout c s m).sockets x).next)
            ((env.on_socket_timeout c s m).sockets s).next rest) ∨
        (((env.on_socket_timeout c s m).contexts c).iterator = (m.sockets s).next ∧
          isChain (fun x => ((env.on_socket_timeout c s m).sockets x).next)
            (m.sockets s).next rest)))
    (hdisjoint : ∀ d ∈ contexts, ∀ e ∈ contexts, d ≠ e → ∀ x ∈ lists d, x ∉ lists e) :
    ∀ (l : List Nat) (fuel : Nat) (st : LoopState),
      isChain (fun d => (st.mem.contexts d).next) st.mem.iterator l → l.length < fuel →
      (∀ d ∈ l, d ∈ contexts) →
      (∀ d ∈ l, isChain (fun x => (st.mem.sockets x).next) (st.mem.contexts d).head (lists d) ∧
        (lists d).length < bound) →
      ∃ st1, timer_sweep_contexts env fuel bound st = some st1 ∧
        st1.mem.iterator = 0 ∧
        (∀ d ∈ l, (st1.mem.contexts d).iterator = 0 ∧
          (st1.mem.contexts d).timestamp = ((st.mem.contexts d).timestamp + 1) &&& 0x7fff) ∧
        (∀ d, d ∉ l → (st1.mem.contexts d).iterator = (st.mem.contexts d).iterator ∧
          (st1.mem.contexts d).timestamp = (st.mem.contexts d).timestamp) := by
  intro l
  induction l with
  | nil =>
    intro fuel st h hf _ _
    simp only [isChain] at h
    cases fuel with
    | zero => simp at hf
    | succ fuel =>
      exact ⟨st, by simp [timer_sweep_contexts, h], h, by simp, fun _ _ => ⟨rfl, rfl⟩⟩
  | cons c rest ih =>
    intro fuel st h hf hsub hlists
    have h' := h
    simp only [isChain] at h'
    obtain ⟨hit, hc0, hrest⟩ := h'
    have hcnot : c ∉ rest := by
      have h2 := h
      rw [hit] at h2
      exact isChain_not_mem _ _ _ h2
    cases fuel with
    | zero => simp at hf
    | succ fuel =>
      simp only [List.length_cons] at hf
      obtain ⟨hs1, hs2⟩ := hlists c (List.mem_cons_self _ _)
      obtain ⟨st1, k1, k2, k3, k4, k5, k6, k7⟩ := timer_sweep_context_frame env bound c
        (lists c) st (hc c (hsub c (List.mem_cons_self _ _))) hs1 hs2
      have hit0 : ¬ st.mem.iterator = 0 := hit ▸ hc0
      unfold timer_sweep_contexts
      rw [if_neg hit0, hit, k1]
      simp only [Option.some_bind, Option.bind_eq_bind]
      rw [k2, hit, k3 c]
      obtain ⟨st2, g1, g2, g3, g4⟩ := ih fuel
        { st1 with mem := { st1.mem with iterator := (st.mem.contexts c).next } }
        (isChain_congr _ _ _ _ hrest (fun x _ => k3 x)) (by omega)
        (fun d hd => hsub d (List.mem_cons_of_mem _ hd))
        (fun d hd => by
          have hdc : d ≠ c := fun e => hcnot (e ▸ hd)
          obtain ⟨e1, e2⟩ := hlists d (List.mem_cons_of_mem _ hd)
          exact ⟨k7 d hdc (lists d) e1
            (hdisjoint c (hsub c (List.mem_cons_self _ _)) d
              (hsub d (List.mem_cons_of_mem _ hd)) (fun e => hdc e.symm)), e2⟩)
      simp only at g3 g4
      refine ⟨st2, g1, g2, ?_, ?_⟩
      · intro d hd
        rcases List.mem_cons.1 hd with e | e
        · subst e
          rw [(g4 d hcnot).1, (g4 d hcnot).2]
          exact ⟨k6, k5⟩
        · have hdc : d ≠ c := fun e1 => hcnot (e1 ▸ e)
          rw [(g3 d e).1, (g3 d e).2, (k4 d hdc).1]
          exact ⟨rfl, rfl⟩
      · intro d hd
        have hdc : d ≠ c := fun e => hd (e ▸ List.mem_cons_self _ _)
        have hdr : d ∉ rest := fun e => hd (List.mem_cons_of_mem _ e)
        rw [(g4 d hdr).1, (g4 d hdr).2]
        exact ⟨(k4 d hdc).2, (k4 d hdc).1⟩

theorem close_socket_frame (c s : Nat) (m : Mem) (hs : s ≠ 0) :
    sweepFrame c [s] m (close_socket c s m) := by
  refine ⟨rfl, ?_, ?_, ?_⟩
  · intro d
    by_cases h : d = c
    · subst h; simp [close_socket]
    · simp [close_socket, Function.update_noteq h]
  · intro d hd
    simp [close_socket, Function.update_noteq hd]
  · intro d hd l hl hf
    have hsl : s ∉ l := hf s (List.mem_singleton.2 rfl)
    have hhead : ((close_socket c s m).contexts d).head = (m.contexts d).head := by
      simp [close_socket, Function.update_noteq hd]
    rw [hhead]
    refine isChain_congr _ _ _ _ hl ?_
    intro x hx
    have hxs : x ≠ s := fun e => hsl (e ▸ hx)
    have hnx : (m.sockets x).next ≠ s := by
      rcases isChain_next_mem _ l _ hl x hx with h1 | h1
      · exact fun e => hsl (e ▸ h1)
      · rw [h1]
        exact fun e => hs e.symm
    simp [close_socket, hxs, hnx]

theorem sampleEnv_frame (closes : Nat → Bool) (c s : Nat) (m : Mem) (hs : s ≠ 0) :
    sweepFrame c [s] m ((sampleEnv closes).on_socket_timeout c s m) := by
  cases hcl : closes s with
  | false =>
    have hm : (sampleEnv closes).on_socket_timeout c s m = m := by simp [sampleEnv, hcl]
    rw [hm]
    exact sweepFrame_refl _ _ _
  | true =>
    have hm : (sampleEnv closes).on_socket_timeout c s m = close_socket c s m := by
      simp [sampleEnv, hcl]
    rw [hm]
    exact close_socket_frame c s m hs

theorem isChain_append_right (next : Nat → Nat) (x : Nat) (rest : List Nat) :
    ∀ (pre : List Nat) (p : Nat), isChain next p (pre ++ x :: rest) →
      isChain next x (x :: rest) := by
  intro pre
  induction pre with
  | nil =>
    intro p h
    simp only [List.nil_append, isChain] at h ⊢
    exact ⟨trivial, h.2.1, h.2.2⟩
  | cons y ys ih =>
    intro p h
    simp only [List.cons_append, isChain] at h
    exact ih _ h.2.2

theorem isChain_tail (next : Nat → Nat) (x : Nat) (rest : List Nat)
    (h : isChain next x (x :: rest)) : isChain next (next x) rest := by
  simp only [isChain] at h
  exact h.2.2

theorem isChain_next_of_tail (next next1 : Nat → Nat) (x : Nat) (pre rest : List Nat) (q : Nat)
    (hold : isChain next x (x :: rest)) (hnew : isChain next1 q (pre ++ rest)) :
    isChain next1 (next x) rest := by
  cases rest with
  | nil =>
    simp only [isChain] at hold ⊢
    exact hold.2.2
  | cons r rs =>
    have h1 := isChain_tail _ _ _ hold
    simp only [isChain] at h1
    rw [h1.1]
    exact isChain_append_right next1 r rs pre q hnew

theorem close_socket_erase (c s : Nat) (m : Mem) (hs : s ≠ 0) :
    ∀ (l : List Nat) (p : Nat), isChain (fun x => (m.sockets x).next) p l →
      isChain (fun x => ((close_socket c s m).sockets x).next)
        (if p = s then (m.sockets s).next else p) (l.erase s) := by
  intro l
  induction l with
  | nil =>
    intro p h
    simp only [isChain] at h
    subst h
    simp only [List.erase_nil, isChain]
    rw [if_neg (fun e => hs e.symm)]
  | cons x xs ih =>
    intro p h
    have hnodup := isChain_nodup _ _ _ h
    simp only [isChain] at h
    obtain ⟨hpx, hx0, hrest⟩ := h
    subst hpx
    by_cases hxs : p = s
    · subst hxs
      rw [if_pos rfl, List.erase_cons_head]
      have hnot : p ∉ xs := (List.nodup_cons.1 hnodup).1
      refine isChain_congr _ _ _ _ hrest ?_
      intro y hy
      have hyp : y ≠ p := fun e => hnot (e ▸ hy)
      have hny : (m.sockets y).next ≠ p := by
        rcases isChain_next_mem _ xs _ hrest y hy with h1 | h1
        · exact fun e => hnot (e ▸ h1)
        · rw [h1]
          exact fun e => hs e.symm
      simp [close_socket, hyp, hny]
    · rw [if_neg hxs, List.erase_cons_tail (by simpa using hxs)]
      simp only [isChain]
      refine ⟨trivial, hx0, ?_⟩
      have hnext : ((close_socket c s m).sockets p).next
          = if (m.sockets p).next = s then (m.sockets s).next else (m.sockets p).next := by
        by_cases hn : (m.sockets p).next = s
        · simp [close_socket, hxs, hn]
        · simp [close_socket, hxs, hn]
      rw [hnext]
      exact ih _ hrest

theorem close_socket_timeoutContract (c : Nat) (m : Mem) (s : Nat) (l : List Nat)
    (h : isChain (fun x => (m.sockets x).next) (m.contexts c).head l) (hs : s ∈ l)
    (hit : (m.contexts c).iterator = s) :
    ((close_socket c s m).contexts c).timestamp = (m.contexts c).timestamp ∧
    (∀ x, ((close_socket c s m).sockets x).timeout = (m.sockets x).timeout) ∧
    ((close_socket c s m).contexts c).iterator = (m.sockets s).next ∧
    isChain (fun x => ((close_socket c s m).sockets x).next)
      ((close_socket c s m).contexts c).head (l.erase s) := by
  have hs0 : s ≠ 0 := isChain_ne_zero _ _ _ h s hs
  refine ⟨by simp [close_socket], ?_, by simp [close_socket, hit], ?_⟩
  · intro x
    simp only [close_socket]
    split_ifs with h1 h2
    · rw [h1]
    · rfl
    · rfl
  · have hhead : ((close_socket c s m).contexts c).head
        = if (m.contexts c).head = s then (m.sockets s).next else (m.contexts c).head := by
      simp [close_socket]
    rw [hhead]
    exact close_socket_erase c s m hs0 l _ h

theorem sampleEnv_timeoutContract (closes : Nat → Bool) (c : Nat) :
    timeoutContract (sampleEnv closes) c := by
  intro m s l h hs hit
  cases hcl : closes s with
  | false =>
    have hm : (sampleEnv closes).on_socket_timeout c s m = m := by simp [sampleEnv, hcl]
    rw [hm]
    exact ⟨rfl, fun _ _ => rfl, Or.inl ⟨hit, h⟩⟩
  | true =>
    have hm : (sampleEnv closes).on_socket_timeout c s m = close_socket c s m := by
      simp [sampleEnv, hcl]
    rw [hm]
    obtain ⟨h1, h2, h3, h4⟩ := close_socket_timeoutContract c m s l h hs hit
    exact ⟨h1, fun x _ => h2 x, Or.inr ⟨h3, h4⟩⟩

theorem sampleEnv_keeps_timeout (closes : Nat → Bool) (c s : Nat) (m : Mem) :
    (((sampleEnv closes).on_socket_timeout c s m).sockets s).timeout = (m.sockets s).timeout := by
  cases hcl : closes s with
  | false => simp [sampleEnv, hcl]
  | true => simp [sampleEnv, hcl, close_socket]

theorem timer_sweep_sockets_contract (env : LoopEnv) (c needle : Nat)
    (hcon : timeoutContract env c) :
    ∀ (l pre : List Nat) (fuel s : Nat) (st : LoopState),
      isChain (fun x => (st.mem.sockets x).next) (st.mem.contexts c).head (pre ++ l) →
      isChain (fun x => (st.mem.sockets x).next) s l → l.length < fuel →
      ∃ st1 l1, timer_sweep_sockets env c needle fuel s st = some st1 ∧
        st1.trace = st.trace ++
          (l.filter (fun x => decide ((st.mem.sockets x).timeout = needle))).map
            (fun x => Event.on_socket_timeout c x 0) ∧
        isChain (fun x => (st1.mem.sockets x).next) (st1.mem.contexts c).head (pre ++ l1) ∧
        l1.Sublist l ∧
        (∀ x ∈ l, (st.mem.sockets x).timeout ≠ needle → x ∈ l1) ∧
        (∀ x, (x ∉ l ∨ (st.mem.sockets x).timeout ≠ needle) →
          (st1.mem.sockets x).timeout = (st.mem.sockets x).timeout) ∧
        (st1.mem.contexts c).timestamp = (st.mem.contexts c).timestamp ∧
        ((∀ (s : Nat) (m : Mem),
            ((env.on_socket_timeout c s m).sockets s).timeout = (m.sockets s).timeout) →
          ∀ x ∈ l, (st.mem.sockets x).timeout = needle → (st1.mem.sockets x).timeout = 0) := by
  intro l
  induction l with
  | nil =>
    intro pre fuel s st hhead h hf
    simp only [isChain] at h
    cases fuel with
    | zero => simp at hf
    | succ fuel =>
      exact ⟨st, [], by simp [timer_sweep_sockets, h], by simp, hhead, List.Sublist.refl _,
        fun x hx => by simp at hx, fun _ _ => rfl, rfl, fun _ x hx => by simp at hx⟩
  | cons x rest ih =>
    intro pre fuel s st hhead h hf
    have h' := h
    simp only [isChain] at h'
    obtain ⟨hsx, hx0, hrest⟩ := h'
    subst hsx
    cases fuel with
    | zero => simp at hf
    | succ fuel =>
      simp only [List.length_cons] at hf
      have hnot : s ∉ rest := isChain_not_mem _ s rest h
      have hnodup : (pre ++ s :: rest).Nodup := isChain_nodup _ _ _ hhead
      have hspre : s ∉ pre := by
        intro hmem
        have := List.nodup_append.1 hnodup
        exact this.2.2 hmem (List.mem_cons_self _ _)
      have hhead2 : isChain (fun x => (st.mem.sockets x).next) (st.mem.contexts c).head
          ((pre ++ [s]) ++ rest) := by
        rw [List.append_assoc]
        exact hhead
      unfold timer_sweep_sockets
      simp only [hx0, ↓reduceIte]
      by_cases hmatch : needle = (st.mem.sockets s).timeout
      · rw [if_pos hmatch]
        have hchain1 : isChain
            (fun x => ((((st.mem.set_timeout s 0).set_iterator c s)).sockets x).next)
            ((((st.mem.set_timeout s 0).set_iterator c s)).contexts c).head
            (pre ++ s :: rest) := by
          rw [set_iterator_head]
          refine isChain_congr _ _ _ _ hhead ?_
          intro y _
          simp
        obtain ⟨hts, hto, hcases⟩ := hcon ((st.mem.set_timeout s 0).set_iterator c s) s
          (pre ++ s :: rest) hchain1 (List.mem_append_right _ (List.mem_cons_self _ _)) (by simp)
        have hts' : ((env.on_socket_timeout c s
            ((st.mem.set_timeout s 0).set_iterator c s)).contexts c).timestamp
            = (st.mem.contexts c).timestamp := by
          rw [hts]
          simp
        have hto' : ∀ y, y ≠ s → ((env.on_socket_timeout c s
            ((st.mem.set_timeout s 0).set_iterator c s)).sockets y).timeout
            = (st.mem.sockets y).timeout := by
          intro y hy
          rw [hto y hy]
          simp [set_timeout_timeout, hy]
        have hev : ((((st.mem.set_timeout s 0).set_iterator c s)).sockets s).timeout = 0 := by
          simp [set_timeout_timeout]
        have hfilter : (rest.filter (fun x => decide
            (((env.on_socket_timeout c s ((st.mem.set_timeout s 0).set_iterator c s)).sockets
              x).timeout = needle))) =
            rest.filter (fun x => decide ((st.mem.sockets x).timeout = needle)) := by
          apply List.filter_congr
          intro y hy
          rw [hto' y (fun e => hnot (e ▸ hy))]
        have hnext_ne : (st.mem.sockets s).next ≠ s := by
          intro e
          cases rest with
          | nil =>
            simp only [isChain] at hrest
            rw [hrest] at e
            exact hx0 e.symm
          | cons z zs =>
            simp only [isChain] at hrest
            rw [hrest.1] at e
            exact hnot (e ▸ List.mem_cons_self _ _)
        have hfinish : ∀ (p : Nat) (pre1 : List Nat) (keep : List Nat),
            (∀ l1 : List Nat, l1.Sublist rest → (keep ++ l1).Sublist (s :: rest)) →
            (∀ l1 : List Nat, pre1 ++ l1 = pre ++ (keep ++ l1)) →
            isChain (fun x => ((env.on_socket_timeout c s
              ((st.mem.set_timeout s 0).set_iterator c s)).sockets x).next)
              ((env.on_socket_timeout c s
                ((st.mem.set_timeout s 0).set_iterator c s)).contexts c).head (pre1 ++ rest) →
            isChain (fun x => ((env.on_socket_timeout c s
              ((st.mem.set_timeout s 0).set_iterator c s)).sockets x).next) p rest →
            ∃ st1 l1, timer_sweep_sockets env c needle fuel p
                ⟨env.on_socket_timeout c s ((st.mem.set_timeout s 0).set_iterator c s),
                  st.trace ++ [Event.on_socket_timeout c s
                    ((((st.mem.set_timeout s 0).set_iterator c s)).sockets s).timeout]⟩
                = some st1 ∧
              st1.trace = st.trace ++
                ((s :: rest).filter (fun x => decide ((st.mem.sockets x).timeout = needle))).map
                  (fun x => Event.on_socket_timeout c x 0) ∧
              isChain (fun x => (st1.mem.sockets x).next) (st1.mem.contexts c).head
                (pre ++ l1) ∧
              l1.Sublist (s :: rest) ∧
              (∀ x ∈ s :: rest, (st.mem.sockets x).timeout ≠ needle → x ∈ l1) ∧
              (∀ x, (x ∉ s :: rest ∨ (st.mem.sockets x).timeout ≠ needle) →
                (st1.mem.sockets x).timeout = (st.mem.sockets x).timeout) ∧
              (st1.mem.contexts c).timestamp = (st.mem.contexts c).timestamp ∧
              ((∀ (s : Nat) (m : Mem),
                  ((env.on_socket_timeout c s m).sockets s).timeout = (m.sockets s).timeout) →
                ∀ x ∈ s :: rest, (st.mem.sockets x).timeout = needle →
                  (st1.mem.sockets x).timeout = 0) := by
          intro p pre1 keep hsub hpre hch1 hch2
          obtain ⟨st1, l1, k1, k2, k3, k4, k5, k6, k7, k8⟩ := ih pre1 fuel p
            ⟨_, st.trace ++ [Event.on_socket_timeout c s
              ((((st.mem.set_timeout s 0).set_iterator c s)).sockets s).timeout]⟩ hch1 hch2
            (by omega)
          simp only at k2 k3 k5 k6 k7 k8
          refine ⟨st1, keep ++ l1, k1, ?_, ?_, hsub l1 k4, ?_, ?_, ?_, ?_⟩
          · rw [k2]
            simp only [hfilter, hev, List.filter_cons, hmatch.symm, decide_True, ↓reduceIte,
              List.map_cons, List.append_assoc, List.singleton_append]
          · rw [← hpre l1]
            exact k3
          · intro y hy hyn
            rcases List.mem_cons.1 hy with e | e
            · exact absurd (e ▸ hmatch.symm) hyn
            · refine List.mem_append_right _ (k5 y e ?_)
              rw [hto' y (fun e1 => hnot (e1 ▸ e))]
              exact hyn
          · intro y hy
            have hys : y ≠ s := by
              rcases hy with hy | hy
              · exact fun e => hy (e ▸ List.mem_cons_self _ _)
              · exact fun e => hy (e ▸ hmatch.symm)
            rw [k6 y ?_, hto' y hys]
            rcases hy with hy | hy
            · exact Or.inl (fun hm => hy (List.mem_cons_of_mem _ hm))
            · right
              rw [hto' y hys]
              exact hy
          · rw [k7, hts']
          · intro hkeep y hy hyn
            rcases List.mem_cons.1 hy with e | e
            · subst e
              rw [k6 y (Or.inl hnot), hkeep, hev]
            · refine k8 hkeep y e ?_
              rw [hto' y (fun e1 => hnot (e1 ▸ e))]
              exact hyn
        rcases hcases with ⟨hit, hch⟩ | ⟨hit, hch⟩
        · simp only [hit, ↓reduceIte]
          have hch' : isChain (fun x => ((env.on_socket_timeout c s
              ((st.mem.set_timeout s 0).set_iterator c s)).sockets x).next)
              ((env.on_socket_timeout c s
                ((st.mem.set_timeout s 0).set_iterator c s)).contexts c).head
              ((pre ++ [s]) ++ rest) := by
            rw [List.append_assoc]
            exact hch
          exact hfinish _ (pre ++ [s]) [s]
            (fun l1 h1 => by simpa using h1)
            (fun l1 => by simp) hch'
            (isChain_tail _ _ _ (isChain_append_right _ s rest pre _ hch))
        · have hne : s ≠ ((env.on_socket_timeout c s
              ((st.mem.set_timeout s 0).set_iterator c s)).contexts c).iterator := by
            rw [hit]
            simp only [set_iterator_sockets, set_timeout_next]
            exact fun e => hnext_ne e.symm
          simp only [hne, ↓reduceIte]
          have hit' : ((env.on_socket_timeout c s
              ((st.mem.set_timeout s 0).set_iterator c s)).contexts c).iterator
              = (st.mem.sockets s).next := by
            rw [hit]; simp
          rw [hit']
          have herase : (pre ++ s :: rest).erase s = pre ++ rest := by
            rw [List.erase_append_right _ hspre, List.erase_cons_head]
          rw [herase] at hch
          exact hfinish _ pre []
            (fun l1 h1 => by simpa using List.Sublist.cons s h1)
            (fun l1 => by simp) hch
            (isChain_next_of_tail _ _ s pre rest _ h hch)
      · rw [if_neg hmatch]
        have hne : ¬ (st.mem.sockets s).timeout = needle := fun e => hmatch e.symm
        by_cases hn0 : (st.mem.sockets s).next = 0
        · simp only [hn0, ↓reduceIte]
          have hnil : rest = [] := by
            cases rest with
            | nil => rfl
            | cons z zs =>
              simp only [isChain] at hrest
              exact absurd (hrest.1 ▸ hn0) hrest.2.1
          subst hnil
          refine ⟨st, [s], rfl, by simp [hne], hhead, List.Sublist.refl _, fun y hy _ => hy,
            fun _ _ => rfl, rfl, ?_⟩
          intro _ y hy hyn
          simp only [List.mem_singleton] at hy
          subst hy
          exact absurd hyn hne
        · simp only [hn0, ↓reduceIte]
          obtain ⟨st1, l1, k1, k2, k3, k4, k5, k6, k7, k8⟩ := ih (pre ++ [s]) fuel _ st hhead2
            hrest (by omega)
          refine ⟨st1, s :: l1, k1, ?_, ?_, List.Sublist.cons₂ s k4, ?_, ?_, k7, ?_⟩
          · rw [k2]
            simp [List.filter_cons, hne]
          · simpa using k3
          · intro y hy hyn
            rcases List.mem_cons.1 hy with e | e
            · rw [e]
              exact List.mem_cons_self _ _
            · exact List.mem_cons_of_mem _ (k5 y e hyn)
          · intro y hy
            by_cases hys : y = s
            · subst hys
              exact k6 y (Or.inl hnot)
            · refine k6 y ?_
              rcases hy with hy | hy
              · exact Or.inl (fun hm => hy (List.mem_cons_of_mem _ hm))
              · exact Or.inr hy
          · intro hkeep y hy hyn
            rcases List.mem_cons.1 hy with e | e
            · exact absurd (e ▸ hyn) hne
            · exact k8 hkeep y e hyn

theorem timer_sweep_context_contract (env : LoopEnv) (c fuel : Nat) (l : List Nat)
    (st : LoopState) (hcon : timeoutContract env c)
    (hchain : isChain (fun x => (st.mem.sockets x).next) (st.mem.contexts c).head l)
    (hfuel : l.length < fuel) :
    ∃ st1 l1, timer_sweep_context env fuel c st = some st1 ∧
      st1.trace = st.trace ++
        (l.filter (fun x => decide ((st.mem.sockets x).timeout
            = 32768 + ((st.mem.contexts c).timestamp + 1) % 32768))).map
          (fun x => Event.on_socket_timeout c x 0) ∧
      isChain (fun x => (st1.mem.sockets x).next) (st1.mem.contexts c).head l1 ∧
      l1.Sublist l ∧
      (∀ x ∈ l, (st.mem.sockets x).timeout
          ≠ 32768 + ((st.mem.contexts c).timestamp + 1) % 32768 → x ∈ l1) ∧
      (∀ x, (x ∉ l ∨ (st.mem.sockets x).timeout
          ≠ 32768 + ((st.mem.contexts c).timestamp + 1) % 32768) →
        (st1.mem.sockets x).timeout = (st.mem.sockets x).timeout) ∧
      (st1.mem.contexts c).timestamp = ((st.mem.contexts c).timestamp + 1) % 32768 ∧
      ((∀ (s : Nat) (m : Mem),
          ((env.on_socket_timeout c s m).sockets s).timeout = (m.sockets s).timeout) →
        ∀ x ∈ l, (st.mem.sockets x).timeout
            = 32768 + ((st.mem.contexts c).timestamp + 1) % 32768 →
          (st1.mem.sockets x).timeout = 0) := by
  have hts : ((st.mem.contexts c).timestamp + 1) &&& 0x7fff
      = ((st.mem.contexts c).timestamp + 1) % 32768 :=
    Nat.and_pow_two_sub_one_eq_mod _ 15
  obtain ⟨st1, l1, k1, k2, k3, k4, k5, k6, k7, k8⟩ := timer_sweep_sockets_contract env c
    (0x8000 ||| (((st.mem.contexts c).timestamp + 1) &&& 0x7fff)) hcon l [] fuel
    (st.mem.contexts c).head
    ⟨st.mem.set_timestamp c (((st.mem.contexts c).timestamp + 1) &&& 0x7fff), st.trace⟩
    (by simpa using hchain) (by simpa using hchain) hfuel
  simp only [set_timestamp_sockets, needle_eq, List.nil_append, set_timestamp_timestamp]
    at k2 k3 k5 k6 k7 k8
  refine ⟨{ st1 with mem := st1.mem.set_iterator c 0 }, l1, ?_, k2, ?_, k4, k5, ?_, ?_, ?_⟩
  · simp only [timer_sweep_context, set_timestamp_timestamp, set_timestamp_head, k1,
      Option.map_some']
  · simpa using k3
  · intro x hx; simpa using k6 x hx
  · simp [k7, hts]
  · intro hkeep x hx hxn
    simpa using k8 hkeep x hx hxn

theorem timer_ticks_quiet_socket (env : LoopEnv) (c fuel : Nat) (s V : Nat)
    (hcon : timeoutContract env c) :
    ∀ (k : Nat) (st : LoopState) (l : List Nat),
      isChain (fun x => (st.mem.sockets x).next) (st.mem.contexts c).head l →
      l.length < fuel →
      (st.mem.sockets s).timeout = V →
      (∀ j, 1 ≤ j → j ≤ k → 32768 + ((st.mem.contexts c).timestamp + j) % 32768 ≠ V) →
      ∃ st1 l1, timer_ticks env fuel c k st = some st1 ∧
        isChain (fun x => (st1.mem.sockets x).next) (st1.mem.contexts c).head l1 ∧
        l1.Sublist l ∧ (s ∈ l → s ∈ l1) ∧
        (st1.mem.sockets s).timeout = V ∧
        (st1.mem.contexts c).timestamp % 32768 = ((st.mem.contexts c).timestamp + k) % 32768 ∧
        firedCount c s st1.trace = firedCount c s st.trace := by
  intro k
  induction k with
  | zero =>
    intro st l hch _ hV _
    exact ⟨st, l, rfl, hch, List.Sublist.refl _, fun h => h, hV, rfl, rfl⟩
  | succ k ih =>
    intro st l hch hfuel hV hne
    obtain ⟨st1, l1, k1, k2, k3, k4, k5, k6, k7, _⟩ :=
      timer_sweep_context_contract env c fuel l st hcon hch hfuel
    have h1 : (st.mem.sockets s).timeout
        ≠ 32768 + ((st.mem.contexts c).timestamp + 1) % 32768 := by
      rw [hV]
      exact fun e => hne 1 (le_refl _) (by omega) e.symm
    have hV1 : (st1.mem.sockets s).timeout = V := by rw [k6 s (Or.inr h1), hV]
    obtain ⟨st2, l2, g1, g2, g3, g4, g5, g6, g7⟩ := ih st1 l1 k3
      (lt_of_le_of_lt k4.length_le hfuel) hV1 (by
        intro j hj1 hjk
        rw [k7]
        have := hne (j + 1) (by omega) (by omega)
        intro e
        apply this
        rw [← e]
        omega)
    refine ⟨st2, l2, by rw [timer_ticks, k1]; exact g1, g2, g3.trans k4,
      fun h => g4 (k5 s h h1), g5, ?_, ?_⟩
    · rw [g6, k7]
      omega
    · rw [g7, k2, firedCount_append, firedCount_filter_of_not c s l _ (by simpa using h1)]
      rfl

theorem timer_ticks_fires_at_most_once (env : LoopEnv) (c fuel : Nat) (s : Nat)
    (hcon : timeoutContract env c)
    (hkeep : ∀ (s : Nat) (m : Mem),
      ((env.on_socket_timeout c s m).sockets s).timeout = (m.sockets s).timeout) :
    ∀ (k : Nat) (st : LoopState) (l : List Nat),
      isChain (fun x => (st.mem.sockets x).next) (st.mem.contexts c).head l →
      l.length < fuel →
      ∃ st1, timer_ticks env fuel c k st = some st1 ∧
        firedCount c s st1.trace ≤ firedCount c s st.trace + 1 := by
  intro k
  induction k with
  | zero =>
    intro st l _ _
    exact ⟨st, rfl, by omega⟩
  | succ k ih =>
    intro st l hch hfuel
    obtain ⟨st1, l1, k1, k2, k3, k4, _, _, _, k8⟩ :=
      timer_sweep_context_contract env c fuel l st hcon hch hfuel
    have hfuel1 : l1.length < fuel := lt_of_le_of_lt k4.length_le hfuel
    by_cases hfire : s ∈ l ∧ (st.mem.sockets s).timeout
        = 32768 + ((st.mem.contexts c).timestamp + 1) % 32768
    · have h0 : (st1.mem.sockets s).timeout = 0 := k8 hkeep s hfire.1 hfire.2
      obtain ⟨st2, _, g1, _, _, _, _, _, g7⟩ := timer_ticks_quiet_socket env c fuel s 0 hcon k
        st1 l1 k3 hfuel1 h0 (by intro j _ _; omega)
      refine ⟨st2, by rw [timer_ticks, k1]; exact g1, ?_⟩
      rw [g7, k2, firedCount_append,
        firedCount_filter_of_mem c s l _ (isChain_nodup _ _ _ hch) hfire.1 (by simpa using hfire.2)]
    · obtain ⟨st2, g1, g2⟩ := ih st1 l1 k3 hfuel1
      refine ⟨st2, by rw [timer_ticks, k1]; exact g1, ?_⟩
      have hzero : firedCount c s ((l.filter (fun x => decide ((st.mem.sockets x).timeout
          = 32768 + ((st.mem.contexts c).timestamp + 1) % 32768))).map
          (fun x => Event.on_socket_timeout c x 0)) = 0 := by
        rw [firedCount_fired]
        apply List.count_eq_zero_of_not_mem
        intro hm
        rw [List.mem_filter] at hm
        exact hfire ⟨hm.1, by simpa using hm.2⟩
      rw [k2, firedCount_append, hzero] at g2
      omega

/-! ## The timeout sweep: firing and disarming -/

/-- C24. Timeout firing. Let the timeout handler of the context keep
`timeoutContract`: it keeps the counter of the context and the timeout fields
of the other sockets, and it either leaves the socket list as it is or takes
the fired socket, and only it, out of the list (closing it or adopting it
away). A socket of the list of the context that is stamped with
`0x8000 | ((c + N) & 0x7fff)` when the counter of the context is `c`, with
`1 ≤ N ≤ 0x7fff`, is passed to `on_socket_timeout` by none of the first `N - 1`
sweeps of the context and exactly once by the `N`-th sweep, whatever `c` is (the
counter may wrap from `0x7fff` to 0 on the way) and whichever other sockets are
fired and closed on the way. -/
theorem timeout_fires_on_nth_sweep (env : LoopEnv) (c fuel : Nat) (l : List Nat) (s N : Nat)
    (st : LoopState) (hcontract : timeoutContract env c)
    (hlist : isChain (fun x => (st.mem.sockets x).next) (st.mem.contexts c).head l)
    (hfuel : l.length < fuel) (hs : s ∈ l) (hN : 1 ≤ N ∧ N ≤ 0x7fff)
    (harmed : (st.mem.sockets s).timeout
      = 0x8000 ||| (((st.mem.contexts c).timestamp + N) &&& 0x7fff)) :
    ∀ k, k ≤ N → ∃ st1, timer_ticks env fuel c k st = some st1 ∧
      firedCount c s st1.trace = firedCount c s st.trace + (if k = N then 1 else 0) := by
  rw [needle_eq] at harmed
  have hbefore : ∀ k, k < N → ∃ st1 l1, timer_ticks env fuel c k st = some st1 ∧
      isChain (fun x => (st1.mem.sockets x).next) (st1.mem.contexts c).head l1 ∧
      l1.Sublist l ∧ (s ∈ l → s ∈ l1) ∧
      (st1.mem.sockets s).timeout = 32768 + ((st.mem.contexts c).timestamp + N) % 32768 ∧
      (st1.mem.contexts c).timestamp % 32768 = ((st.mem.contexts c).timestamp + k) % 32768 ∧
      firedCount c s st1.trace = firedCount c s st.trace := by
    intro k hk
    refine timer_ticks_quiet_socket env c fuel s _ hcontract k st l hlist hfuel harmed ?_
    intro j hj1 hjk
    omega
  intro k hk
  by_cases hkN : k = N
  · subst hkN
    obtain ⟨k0, rfl⟩ : ∃ k0, k = k0 + 1 := ⟨k - 1, by omega⟩
    obtain ⟨st1, l1, g1, g2, g3, g4, g5, g6, g7⟩ := hbefore k0 (by omega)
    obtain ⟨st2, _, k1, k2, _⟩ := timer_sweep_context_contract env c fuel l1 st1 hcontract g2
      (lt_of_le_of_lt g3.length_le hfuel)
    refine ⟨st2, by rw [timer_ticks_succ_last, g1]; exact k1, ?_⟩
    rw [k2, firedCount_append, g7, firedCount_filter_of_mem c s l1 _ (isChain_nodup _ _ _ g2)
      (g4 hs) (by
        simp only [decide_eq_true_eq]
        rw [g5]
        omega)]
    simp
  · obtain ⟨st1, _, g1, _, _, _, _, _, g7⟩ := hbefore k (by omega)
    exact ⟨st1, g1, by simp [g7, hkN]⟩

/-- Witness for C24: socket 1 is due on the first sweep and its handler closes
it; socket 2 is armed with 3 ticks at counter 0x7ffe and fires on the third
sweep, after the counter has wrapped. -/
theorem timeout_fires_on_nth_sweep_witness :
    ∃ st1, timer_ticks (sampleEnv (fun s => decide (s = 1))) 4 1 3
        ⟨sampleMem 0x7ffe 0xffff 0x8001 0, []⟩ = some st1 ∧
      firedCount 1 2 st1.trace = 1 ∧ firedCount 1 1 st1.trace = 1 := by
  obtain ⟨st1, h1, h2⟩ := timeout_fires_on_nth_sweep (sampleEnv (fun s => decide (s = 1))) 1 4
    [1, 2, 3] 2 3 ⟨sampleMem 0x7ffe 0xffff 0x8001 0, []⟩
    (sampleEnv_timeoutContract _ 1)
    ⟨rfl, by decide, rfl, by decide, rfl, by decide, rfl⟩ (by decide) (by decide)
    ⟨by decide, by decide⟩ rfl 3 (le_refl _)
  refine ⟨st1, h1, by simpa [firedCount] using h2, ?_⟩
  have h3 : (timer_ticks (sampleEnv (fun s => decide (s = 1))) 4 1 3
      ⟨sampleMem 0x7ffe 0xffff 0x8001 0, []⟩).map (fun st => firedCount 1 1 st.trace)
      = some 1 := by decide
  rw [h1] at h3
  simpa using h3

/-- C25. A disarmed connection never fires. Every needle `0x8000 | t` has bit
15 set and so is not 0. With a timeout handler that keeps `timeoutContract` (it
keeps the counter of the context and the timeout fields of the other sockets,
and it either leaves the socket list as it is or takes the fired socket, and
only it, out of the list), a socket whose timeout field is 0 is passed to
`on_socket_timeout` by none of any number of sweeps of the context, whatever
the counter, and its field stays 0. A socket is passed to `on_socket_timeout`
with its field reset to 0; if moreover the handler leaves that field as the
sweep set it (0, not re-armed), no socket is passed to `on_socket_timeout` more
than once in any number of sweeps. -/
theorem disarmed_never_fires (env : LoopEnv) (c fuel : Nat) (l : List Nat) (s k : Nat)
    (st : LoopState) (hcontract : timeoutContract env c)
    (hlist : isChain (fun x => (st.mem.sockets x).next) (st.mem.contexts c).head l)
    (hfuel : l.length < fuel) :
    (∀ t : Nat, (0x8000 ||| t).testBit 15 = true ∧ 0x8000 ||| t ≠ 0) ∧
    ((st.mem.sockets s).timeout = 0 →
      ∃ st1, timer_ticks env fuel c k st = some st1 ∧
        firedCount c s st1.trace = firedCount c s st.trace ∧
        (st1.mem.sockets s).timeout = 0) ∧
    ((∀ (s : Nat) (m : Mem),
        ((env.on_socket_timeout c s m).sockets s).timeout = (m.sockets s).timeout) →
      ∃ st1, timer_ticks env fuel c k st = some st1 ∧
        firedCount c s st1.trace ≤ firedCount c s st.trace + 1) := by
  refine ⟨?_, ?_, ?_⟩
  · intro t
    have hbit : (0x8000 ||| t).testBit 15 = true := by
      have h15 : Nat.testBit 0x8000 15 = true := by decide
      rw [Nat.testBit_or, h15]
      rfl
    refine ⟨hbit, ?_⟩
    intro h0
    rw [h0] at hbit
    simp at hbit
  · intro h0
    obtain ⟨st1, _, g1, _, _, _, g5, _, g7⟩ := timer_ticks_quiet_socket env c fuel s 0 hcontract
      k st l hlist hfuel h0 (by intro j _ _; omega)
    exact ⟨st1, g1, g7, g5⟩
  · intro hkeep
    exact timer_ticks_fires_at_most_once env c fuel s hcontract hkeep k st l hlist hfuel

/-- Witness for C25: five sweeps of the sample context; the sockets 1 and 3 are
due on the way and the handler of socket 1 closes it; socket 2 is disarmed. -/
theorem disarmed_never_fires_witness :
    ∃ st1, timer_ticks (sampleEnv (fun s => decide (s = 1))) 4 1 5
        ⟨sampleMem 0x7ffe 0x8000 0 0x8001, []⟩ = some st1 ∧
      firedCount 1 2 st1.trace = 0 ∧ (st1.mem.sockets 2).timeout = 0 := by
  obtain ⟨st1, h1, h2, h3⟩ := (disarmed_never_fires (sampleEnv (fun s => decide (s = 1))) 1 4
    [1, 2, 3] 2 5 ⟨sampleMem 0x7ffe 0x8000 0 0x8001, []⟩ (sampleEnv_timeoutContract _ 1)
    ⟨rfl, by decide, rfl, by decide, rfl, by decide, rfl⟩ (by decide)).2.1 rfl
  exact ⟨st1, h1, by simpa [firedCount] using h2, h3⟩

end uWS

/-! ## The keyboard simulator: theorems -/

namespace KeyboardSimulator

theorem and_one_ne_zero_iff (x : Nat) : x &&& 1 ≠ 0 ↔ x.testBit 0 = true := by
  rw [Nat.and_one_is_mod, Nat.testBit_zero]
  simp

theorem take_set_succ (l : List INPUT) (k : Nat) (e : INPUT) (h : k < l.length) :
    (l.set k e).take (k + 1) = l.take k ++ [e] := by
  induction l generalizing k with
  | nil => simp at h
  | cons x xs ih =>
    cases k with
    | zero => simp
    | succ k =>
      simp only [List.length_cons] at h
      simp [ih k (by omega)]

theorem key_event_spec (impl : Impl) (i : Nat) (flags : Nat)
    (hb : impl.m_buffered_keys < impl.m_input_buffer.length) (hl : i < impl.m_layout.length) :
    ∃ input, impl.m_input_buffer[impl.m_buffered_keys]? = some input ∧
      impl.m_layout[i]? = some (impl.m_layout.getD i 0) ∧
      ((impl.m_input_buffer.set impl.m_buffered_keys
          { input with wVk := impl.m_layout.getD i 0, dwFlags := flags }).take
          (impl.m_buffered_keys + 1)).map INPUT.event
        = (impl.m_input_buffer.take impl.m_buffered_keys).map INPUT.event ++
          [(impl.m_layout.getD i 0, flags)] := by
  refine ⟨impl.m_input_buffer[impl.m_buffered_keys], by simp [hb], by simp [hl], ?_⟩
  rw [take_set_succ _ _ _ hb]
  simp [INPUT.event]

theorem sendLoop_spec (KEYEVENTF_KEYUP : Nat) :
    ∀ (n i d u : Nat) (impl : Impl),
      impl.m_buffered_keys + n ≤ impl.m_input_buffer.length → i + n ≤ impl.m_layout.length →
      ∃ impl1, Impl.sendLoop KEYEVENTF_KEYUP n i d u impl = some impl1 ∧
        impl1.m_layout = impl.m_layout ∧ impl1.m_last_keys = impl.m_last_keys ∧
        impl1.sent = impl.sent ∧
        impl1.m_input_buffer.length = impl.m_input_buffer.length ∧
        impl1.m_buffered_keys ≤ impl.m_buffered_keys + n ∧
        (impl1.m_input_buffer.take impl1.m_buffered_keys).map INPUT.event
          = (impl.m_input_buffer.take impl.m_buffered_keys).map INPUT.event ++
            ((List.range n).map (fun j =>
              if d.testBit j then [(impl.m_layout.getD (i + j) 0, 0)]
              else if u.testBit j then [(impl.m_layout.getD (i + j) 0, KEYEVENTF_KEYUP)]
              else [])).flatten := by
  intro n
  induction n with
  | zero =>
    intro i d u impl _ _
    exact ⟨impl, rfl, rfl, rfl, rfl, rfl, le_refl _, by simp⟩
  | succ n ih =>
    intro i d u impl hb hl
    have hrange : ∀ f : Nat → List (Nat × Nat),
        ((List.range (n + 1)).map f).flatten
          = f 0 ++ ((List.range n).map (fun j => f (j + 1))).flatten := by
      intro f
      rw [List.range_succ_eq_map]
      simp [Function.comp_def]
    rw [hrange]
    simp only [Nat.add_zero]
    unfold Impl.sendLoop
    by_cases hd : d.testBit 0 = true
    · obtain ⟨input, h1, h2, h3⟩ := key_event_spec impl i 0 (by omega) (by omega)
      obtain ⟨impl1, k1, k2, k3, k4, k5, k6, k7⟩ := ih (i + 1) (d >>> 1) (u >>> 1)
        { impl with
          m_input_buffer := impl.m_input_buffer.set impl.m_buffered_keys
            { input with wVk := impl.m_layout.getD i 0, dwFlags := 0 },
          m_buffered_keys := impl.m_buffered_keys + 1 }
        (by simp only [List.length_set]; omega) (by simp only; omega)
      simp only [List.length_set] at k5 k6
      simp only at k2 k3 k4 k6 k7
      refine ⟨impl1, ?_, k2, k3, k4, k5, by omega, ?_⟩
      · rw [if_pos ((and_one_ne_zero_iff d).mpr hd)]
        simp only [Impl.key_down, h1, h2, Option.bind_eq_bind, Option.some_bind]
        exact k1
      · rw [k7, h3, hd]
        simp only [↓reduceIte, List.append_assoc, List.singleton_append, Nat.testBit_shiftRight]
        congr 2
        apply congrArg
        apply List.map_congr_left
        intro j _
        simp only [Nat.add_comm 1 j, Nat.add_assoc]
    · have hd0 : ¬ (d &&& 1 ≠ 0) := fun h => hd ((and_one_ne_zero_iff d).mp h)
      by_cases hu : u.testBit 0 = true
      · obtain ⟨input, h1, h2, h3⟩ := key_event_spec impl i KEYEVENTF_KEYUP (by omega) (by omega)
        obtain ⟨impl1, k1, k2, k3, k4, k5, k6, k7⟩ := ih (i + 1) (d >>> 1) (u >>> 1)
          { impl with
            m_input_buffer := impl.m_input_buffer.set impl.m_buffered_keys
              { input with wVk := impl.m_layout.getD i 0, dwFlags := KEYEVENTF_KEYUP },
            m_buffered_keys := impl.m_buffered_keys + 1 }
          (by simp only [List.length_set]; omega) (by simp only; omega)
        simp only [List.length_set] at k5 k6
        simp only at k2 k3 k4 k6 k7
        refine ⟨impl1, ?_, k2, k3, k4, k5, by omega, ?_⟩
        · rw [if_neg hd0, if_pos ((and_one_ne_zero_iff u).mpr hu)]
          simp only [Impl.key_up, h1, h2, Option.bind_eq_bind, Option.some_bind]
          exact k1
        · rw [k7, h3]
          simp only [hd, hu, Bool.false_eq_true, ↓reduceIte, List.append_assoc,
            List.singleton_append, Nat.testBit_shiftRight]
          congr 2
          apply congrArg
          apply List.map_congr_left
          intro j _
          simp only [Nat.add_comm 1 j, Nat.add_assoc]
      · have hu0 : ¬ (u &&& 1 ≠ 0) := fun h => hu ((and_one_ne_zero_iff u).mp h)
        obtain ⟨impl1, k1, k2, k3, k4, k5, k6, k7⟩ := ih (i + 1) (d >>> 1) (u >>> 1) impl
          (by omega) (by omega)
        refine ⟨impl1, ?_, k2, k3, k4, k5, by omega, ?_⟩
        · rw [if_neg hd0, if_neg hu0]
          simp only [Option.bind_eq_bind, Option.some_bind]
          exact k1
        · rw [k7]
          simp only [hd, hu, Bool.false_eq_true, ↓reduceIte, List.nil_append,
            Nat.testBit_shiftRight]
          congr 2
          apply List.map_congr_left
          intro j _
          simp only [Nat.add_comm 1 j, Nat.add_assoc]

theorem edgeEvents_self (KEYEVENTF_KEYUP : Nat) (layout : List Nat) (keys : Nat) :
    edgeEvents KEYEVENTF_KEYUP layout keys keys = [] := by
  simp [edgeEvents]

/-- C35. `send` is edge-triggered over the four buttons. On a simulator whose
buffer and layout have `N_BUTTONS` elements, for every previous state and every
`keys`, `send` returns (no index leaves the buffer), `m_last_keys` becomes
`keys`, and the records it buffers are, in button order, exactly the events an
edge-triggered `send` owes: for each button one key-down if its bit is set in
`keys` and clear in the previous state, one key-up if its bit is clear in `keys`
and set in the previous state, nothing otherwise. At most `N_BUTTONS` records
are buffered, bits above bit 3 play no part, `SendInput` is called with the
buffered records if there are any, and sending the same `keys` again buffers
nothing and calls `SendInput` no more. -/
theorem send_edge_triggered (KEYEVENTF_KEYUP : Nat) (impl : Impl) (keys : Nat)
    (hbuffer : impl.m_input_buffer.length = N_BUTTONS)
    (hlayout : impl.m_layout.length = N_BUTTONS) :
    ∃ impl1, Impl.send KEYEVENTF_KEYUP impl keys = some impl1 ∧
      impl1.m_last_keys = keys ∧
      (impl1.m_input_buffer.take impl1.m_buffered_keys).map INPUT.event
        = edgeEvents KEYEVENTF_KEYUP impl.m_layout impl.m_last_keys keys ∧
      impl1.m_buffered_keys
        = (edgeEvents KEYEVENTF_KEYUP impl.m_layout impl.m_last_keys keys).length ∧
      impl1.m_buffered_keys ≤ N_BUTTONS ∧
      impl1.m_input_buffer.length = N_BUTTONS ∧ impl1.m_layout = impl.m_layout ∧
      edgeEvents KEYEVENTF_KEYUP impl.m_layout impl.m_last_keys keys
        = edgeEvents KEYEVENTF_KEYUP impl.m_layout (impl.m_last_keys % 16) (keys % 16) ∧
      impl1.sent = impl.sent ++
        (if impl1.m_buffered_keys = 0 then []
          else [impl1.m_input_buffer.take impl1.m_buffered_keys]) ∧
      ∃ impl2, Impl.send KEYEVENTF_KEYUP impl1 keys = some impl2 ∧
        impl2.m_buffered_keys = 0 ∧ impl2.sent = impl1.sent ∧ impl2.m_last_keys = keys := by
  have key : ∀ (impl : Impl), impl.m_input_buffer.length = N_BUTTONS →
      impl.m_layout.length = N_BUTTONS →
      ∃ impl1, Impl.send KEYEVENTF_KEYUP impl keys = some impl1 ∧
        impl1.m_last_keys = keys ∧
        (impl1.m_input_buffer.take impl1.m_buffered_keys).map INPUT.event
          = edgeEvents KEYEVENTF_KEYUP impl.m_layout impl.m_last_keys keys ∧
        impl1.m_buffered_keys ≤ N_BUTTONS ∧
        impl1.m_input_buffer.length = N_BUTTONS ∧ impl1.m_layout = impl.m_layout ∧
        impl1.sent = impl.sent ++
          (if impl1.m_buffered_keys = 0 then []
            else [impl1.m_input_buffer.take impl1.m_buffered_keys]) := by
    intro impl hb hl
    obtain ⟨impl1, k1, k2, k3, k4, k5, k6, k7⟩ := sendLoop_spec KEYEVENTF_KEYUP N_BUTTONS 0
      ((keys ^^^ impl.m_last_keys) &&& keys) ((keys ^^^ impl.m_last_keys) &&& impl.m_last_keys)
      (Impl.start { impl with m_last_keys := keys })
      (by simp [Impl.start, hb]) (by simp [Impl.start, hl])
    simp only [Impl.start, List.take_zero, List.map_nil, List.nil_append, Nat.zero_add] at k2 k3 k4 k5 k6 k7
    have hev : (impl1.m_input_buffer.take impl1.m_buffered_keys).map INPUT.event
        = edgeEvents KEYEVENTF_KEYUP impl.m_layout impl.m_last_keys keys := by
      rw [k7, edgeEvents]
      congr 1
      apply List.map_congr_left
      intro j _
      simp only [Nat.testBit_and, Nat.testBit_xor]
      cases keys.testBit j <;> cases impl.m_last_keys.testBit j <;> simp
    refine ⟨Impl.end_ impl1, by simp [Impl.send, k1], ?_, ?_, ?_, ?_, ?_, ?_⟩
    · unfold Impl.end_
      split_ifs <;> exact k3
    · unfold Impl.end_
      split_ifs <;> exact hev
    · unfold Impl.end_
      split_ifs <;> exact k6
    · unfold Impl.end_
      split_ifs <;> simp [k5, hb]
    · unfold Impl.end_
      split_ifs <;> exact k2
    · unfold Impl.end_
      by_cases h0 : impl1.m_buffered_keys = 0
      · simp [h0, k4]
      · simp [h0, k4]
  obtain ⟨impl1, h1, h2, h3, h4, h5, h6, h7⟩ := key impl hbuffer hlayout
  have hlen : impl1.m_buffered_keys
      = (edgeEvents KEYEVENTF_KEYUP impl.m_layout impl.m_last_keys keys).length := by
    rw [← h3, List.length_map, List.length_take, h5]
    omega
  obtain ⟨impl2, g1, g2, g3, g4, g5, g6, g7⟩ := key impl1 h5 (by rw [h6, hlayout])
  rw [h2, edgeEvents_self] at g3
  have hzero : impl2.m_buffered_keys = 0 := by
    have := congrArg List.length g3
    rw [List.length_map, List.length_take, g5] at this
    simp only [List.length_nil] at this
    omega
  refine ⟨impl1, h1, h2, h3, hlen, h4, h5, h6, ?_, h7, impl2, g1, hzero, ?_, g2⟩
  · simp only [edgeEvents]
    congr 1
    apply List.map_congr_left
    intro j hj
    have hj4 : j < 4 := List.mem_range.mp hj
    have e1 : (keys % 16).testBit j = keys.testBit j := by
      rw [show (16 : Nat) = 2 ^ 4 from rfl, Nat.testBit_mod_two_pow]
      simp [hj4]
    have e2 : (impl.m_last_keys % 16).testBit j = impl.m_last_keys.testBit j := by
      rw [show (16 : Nat) = 2 ^ 4 from rfl, Nat.testBit_mod_two_pow]
      simp [hj4]
    rw [e1, e2]
  · rw [g7, hzero]
    simp

/-- Witness for C35: buttons 0 and 2 go down on a new simulator (with the key-up
flag 2); the buffer holds key-down for `A` and for `J`. -/
theorem send_edge_triggered_witness :
    ∃ impl1, Impl.send 2 sampleImpl 5 = some impl1 ∧ impl1.m_last_keys = 5 ∧
      (impl1.m_input_buffer.take impl1.m_buffered_keys).map INPUT.event = [(65, 0), (74, 0)] := by
  obtain ⟨impl1, h1, h2, h3, _⟩ := send_edge_triggered 2 sampleImpl 5 rfl rfl
  exact ⟨impl1, h1, h2, by rw [h3]; decide⟩

end KeyboardSimulator
